import Mathlib

/-!
FSX600 file system: block map, file I/O and truncation.

A shallow embedding of `fs_util_file.c` (CS 5600/7600 file system) together with
models of the collaborators that the file utilities call (block device, volume
state, allocators, metadata write-back), followed by theorems about
`get_file_blkno`, `get_file_blk`, `do_read`, `do_write` and `do_truncate`.

Conventions.
* A block is a function from byte index to byte value; only indices below
  `FS_BLOCK_SIZE` are meaningful.  A `uint32_t` array laid over a block is read
  and written little-endian (`get32`, `set32`).
* C `int` results are `Int`; `uint32_t` fields are `Nat` reduced modulo `2^32`
  where the C code can overflow; `int_of_u32` is the conversion `uint32_t → int`.
* Global state (`fs`, `disk`) is passed explicitly as `fs_state`.
-/

namespace FSX600

/-! ## Constants (`fsx600.h`, `blkdev.h`, `errno.h`) -/

abbrev FS_BLOCK_SIZE : Nat := 1024
abbrev N_DIRECT : Nat := 6
abbrev PTRS_PER_BLK : Nat := 256
abbrev INODES_PER_BLK : Nat := 16
abbrev BITS_PER_BLK : Nat := 8192

abbrev SUCCESS : Int := 0
abbrev E_BADADDR : Int := -1

abbrev EIO : Int := 5
abbrev EINVAL : Int := 22
abbrev ENOSPC : Int := 28

/-! ## Blocks -/

/-- One block of storage or one block-sized buffer, byte by byte. -/
abbrev Block := Nat → Nat

/-- The static `zeros` block of `fs_util_file.c`. -/
def zeros : Block := fun _ => 0

/-- Entry `n` of a block viewed as `uint32_t[PTRS_PER_BLK]` (little-endian). -/
def get32 (b : Block) (n : Nat) : Nat :=
  b (4 * n) + 256 * b (4 * n + 1) + 65536 * b (4 * n + 2) + 16777216 * b (4 * n + 3)

/-- Assignment `buf[n] = v` on a block viewed as `uint32_t[PTRS_PER_BLK]`. -/
def set32 (b : Block) (n v : Nat) : Block := fun i =>
  if i = 4 * n then v % 256
  else if i = 4 * n + 1 then v / 256 % 256
  else if i = 4 * n + 2 then v / 65536 % 256
  else if i = 4 * n + 3 then v / 16777216 % 256
  else b i

/-- Conversion of a `uint32_t` value to C `int` (two's complement). -/
def int_of_u32 (v : Nat) : Int :=
  if v % 4294967296 < 2147483648 then ((v % 4294967296 : Nat) : Int)
  else ((v % 4294967296 : Nat) : Int) - 4294967296

/-- The call `memcpy(&blk[offset], buf, l)` of `do_write`. -/
def memcpy_to_blk (blk : Block) (offset : Nat) (buf : List Nat) (l : Nat) : Block := fun i =>
  if offset ≤ i ∧ i < offset + l then buf.getD (i - offset) 0 else blk i

/-- The bytes moved by `memcpy(buf, &blk[offset], l)` of `do_read`. -/
def memcpy_from_blk (blk : Block) (offset l : Nat) : List Nat :=
  (List.range l).map (fun j => blk (offset + j))

/-! ## Block device -/

/-- Modelled from the spec: the block device behind `disk` (its implementation is not
among the sources): `nblks` blocks of `FS_BLOCK_SIZE` bytes, addressed `0 .. nblks-1`. -/
structure blkdev where
  nblks : Nat
  blocks : Nat → Block

/-- Modelled from the spec: `disk->ops->read(disk, first_blk, 1, buf)`: the status and the
buffer afterwards; a bad address leaves the buffer as it was. -/
def blkdev.read (d : blkdev) (first_blk : Int) (buf : Block) : Int × Block :=
  if 0 ≤ first_blk ∧ first_blk < d.nblks then (SUCCESS, d.blocks first_blk.toNat)
  else (E_BADADDR, buf)

/-- Modelled from the spec: `disk->ops->write(disk, first_blk, 1, buf)`: the device
afterwards (every caller drops the status); a bad address writes nothing. -/
def blkdev.write (d : blkdev) (first_blk : Int) (buf : Block) : blkdev :=
  if 0 ≤ first_blk ∧ first_blk < d.nblks then
    { d with blocks := fun b => if b = first_blk.toNat then buf else d.blocks b }
  else d

/-! ## Volume state -/

/-- The `struct fs_inode` of `fsx600.h`. -/
structure fs_inode where
  uid : Nat
  gid : Nat
  mode : Nat
  ctime : Nat
  mtime : Nat
  size : Nat
  nlink : Nat
  direct : Nat → Nat
  indir_1 : Nat
  indir_2 : Nat
  pad : Nat → Nat

/-- Modelled from the spec: the mounted volume (`fs` of `fs_util_vol`, not among the
sources) together with the block device `disk`: cached super-block fields, the two
bitmaps, the inode table and the two dirty sets.  `returned` is a history variable
recording the arguments of `return_blk`, latest first; `stack` stands for the
indeterminate contents of an automatic buffer that has not been written yet. -/
structure fs_state where
  inode_map_sz : Nat
  inode_region_sz : Nat
  block_map_sz : Nat
  num_blocks : Nat
  root_inode : Nat
  inode_map : Nat → Bool
  block_map : Nat → Bool
  inodes : Nat → fs_inode
  dirty_inodes : Nat → Bool
  dirty_maps : Nat → Bool
  disk : blkdev
  returned : List Nat
  stack : Block

/-- First block of the inode table. -/
def fs_state.inode_base (s : fs_state) : Nat := 1 + s.inode_map_sz + s.block_map_sz

/-- First block after the super-block, the bitmaps and the inode table. -/
def fs_state.data_base (s : fs_state) : Nat := s.inode_base + s.inode_region_sz

/-- Assignment to a field of `fs.inodes[inum]`. -/
def fs_state.set_inode (s : fs_state) (inum : Nat) (f : fs_inode → fs_inode) : fs_state :=
  { s with inodes := fun j => if j = inum then f (s.inodes j) else s.inodes j }

/-- A write to the block device, status dropped. -/
def fs_state.disk_write (s : fs_state) (first_blk : Int) (buf : Block) : fs_state :=
  { s with disk := s.disk.write first_blk buf }

/-! ## Metadata helpers (`fs_util_meta`) -/

/-- Modelled from the spec: `mark_inode(i)` sets bit `i / 16` of the inode-dirty set. -/
def mark_inode (s : fs_state) (inum : Nat) : fs_state :=
  { s with dirty_inodes := fun j => if j = inum / INODES_PER_BLK then true else s.dirty_inodes j }

/-- Word `w` (of 16) of the on-disk image of an inode. -/
def inode_word (ino : fs_inode) (w : Nat) : Nat :=
  if w = 0 then ino.uid % 65536 + 65536 * (ino.gid % 65536)
  else if w = 1 then ino.mode
  else if w = 2 then ino.ctime
  else if w = 3 then ino.mtime
  else if w = 4 then ino.size
  else if w = 5 then ino.nlink
  else if w < 12 then ino.direct (w - 6)
  else if w = 12 then ino.indir_1
  else if w = 13 then ino.indir_2
  else ino.pad (w - 14)

/-- Image of block `j` of the inode table. -/
def inode_blk (inodes : Nat → fs_inode) (j : Nat) : Block := fun i =>
  inode_word (inodes (INODES_PER_BLK * j + i / 64)) (i % 64 / 4) / 256 ^ (i % 4) % 256

/-- Image of block `j` of a bitmap. -/
def bitmap_blk (m : Nat → Bool) (j : Nat) : Block := fun i =>
  ((List.range 8).map (fun k => if m (BITS_PER_BLK * j + 8 * i + k) then 2 ^ k else 0)).sum

/-- Modelled from the spec: the contents of the device after `flush_metadata`: every dirty
bitmap block and every dirty inode-table block holds the image of its in-memory copy. -/
def flushed_blocks (s : fs_state) : Nat → Block := fun b =>
  if b < s.disk.nblks then
    if 1 ≤ b ∧ b < 1 + s.inode_map_sz ∧ s.dirty_maps (b - 1) = true then
      bitmap_blk s.inode_map (b - 1)
    else if 1 + s.inode_map_sz ≤ b ∧ b < s.inode_base ∧ s.dirty_maps (b - 1) = true then
      bitmap_blk s.block_map (b - 1 - s.inode_map_sz)
    else if s.inode_base ≤ b ∧ b < s.data_base ∧ s.dirty_inodes (b - s.inode_base) = true then
      inode_blk s.inodes (b - s.inode_base)
    else s.disk.blocks b
  else s.disk.blocks b

/-- Modelled from the spec: `flush_metadata` writes every dirty bitmap block and every
dirty inode-table block to the device, then clears both dirty sets. -/
def flush_metadata (s : fs_state) : fs_state :=
  { s with
    disk := { s.disk with blocks := flushed_blocks s }
    dirty_inodes := fun _ => false
    dirty_maps := fun _ => false }

/-- Smallest index `i ≤ j < i + k` whose bit is clear, or `0` when there is none. -/
def first_clear (bm : Nat → Bool) : Nat → Nat → Nat
  | 0, _ => 0
  | k + 1, i => if bm i = true then first_clear bm k (i + 1) else i

/-- Modelled from the spec: `get_free_blk()` returns the smallest block number `≥ 1` whose
block-bitmap bit is clear, sets the bit and marks the bitmap dirty; `0` if none is free. -/
def get_free_blk (s : fs_state) : Nat × fs_state :=
  let b := first_clear s.block_map (s.num_blocks - 1) 1
  if b = 0 then (0, s)
  else (b, { s with
    block_map := fun j => if j = b then true else s.block_map j
    dirty_maps := fun j => if j = s.inode_map_sz + b / BITS_PER_BLK then true else s.dirty_maps j })

/-- Modelled from the spec: `return_blk(b)` clears bit `b` of the block bitmap and marks the
bitmap dirty. -/
def return_blk (s : fs_state) (b : Nat) : fs_state :=
  { s with
    block_map := fun j => if j = b then false else s.block_map j
    dirty_maps := fun j => if j = s.inode_map_sz + b / BITS_PER_BLK then true else s.dirty_maps j
    returned := b :: s.returned }

/-! ## `get_file_blkno` (`fs_util_file.c`, lines 42-150) -/

/-- Lines 81-94: with `in->indir_1` set, the entry `n` of the single-indirect block. -/
def get_file_blkno_indir1 (s : fs_state) (inum n alloc : Nat) : Int × fs_state :=
  let buf := (s.disk.read (int_of_u32 (s.inodes inum).indir_1) s.stack).2
  if get32 buf n = 0 then
    if alloc = 0 then (0, s)
    else
      let r := get_free_blk s
      if r.1 = 0 then (0, r.2)
      else
        let buf1 := set32 buf n (r.1 % 4294967296)
        let s1 := r.2.disk_write (int_of_u32 (r.2.inodes inum).indir_1) buf1
        (int_of_u32 (get32 buf1 n), s1)
  else (int_of_u32 (get32 buf n), s)

/-- Lines 133-149: the entry `k` of the second-level block `buf[m]`; `buf` still holds the
double-indirect block when the read of block `buf_m` fails. -/
def get_file_blkno_indir2_leaf (s : fs_state) (buf : Block) (m k alloc : Nat) : Int × fs_state :=
  let buf_m := int_of_u32 (get32 buf m)
  let buf2 := (s.disk.read buf_m buf).2
  if get32 buf2 k = 0 then
    if alloc = 0 then (0, s)
    else
      let r := get_free_blk s
      if r.1 = 0 then (0, r.2)
      else
        let buf3 := set32 buf2 k (r.1 % 4294967296)
        let s1 := r.2.disk_write buf_m buf3
        let s2 := s1.disk_write (int_of_u32 (get32 buf3 k)) zeros
        (int_of_u32 (get32 buf3 k), s2)
  else (int_of_u32 (get32 buf2 k), s)

/-- Lines 117-149: with `in->indir_2` set, the entry `m` of the double-indirect block and
then the entry `k` below it. -/
def get_file_blkno_indir2 (s : fs_state) (inum m k alloc : Nat) : Int × fs_state :=
  let buf := (s.disk.read (int_of_u32 (s.inodes inum).indir_2) s.stack).2
  if get32 buf m = 0 then
    if alloc = 0 then (0, s)
    else
      let r := get_free_blk s
      if r.1 = 0 then (0, r.2)
      else
        let buf1 := set32 buf m (r.1 % 4294967296)
        let s1 := r.2.disk_write (int_of_u32 (r.2.inodes inum).indir_2) buf1
        let s2 := s1.disk_write (int_of_u32 (get32 buf1 m)) zeros
        get_file_blkno_indir2_leaf s2 buf1 m k alloc
  else get_file_blkno_indir2_leaf s buf m k alloc

/-- The function `get_file_blkno(inum, n, alloc)`: the block number of the `n`-th block of
the file, allocated on demand when `alloc` is not `0`; `0` if unavailable. -/
def get_file_blkno (s : fs_state) (inum n alloc : Nat) : Int × fs_state :=
  if n < N_DIRECT then
    if (s.inodes inum).direct n = 0 then
      if alloc = 0 then (0, s)
      else
        let r := get_free_blk s
        if r.1 = 0 then (0, r.2)
        else
          let s1 := r.2.set_inode inum
            (fun ino => { ino with direct := fun j => if j = n then r.1 % 4294967296 else ino.direct j })
          let s2 := mark_inode s1 inum
          let s3 := s2.disk_write (int_of_u32 ((s2.inodes inum).direct n)) zeros
          (int_of_u32 ((s3.inodes inum).direct n), s3)
    else (int_of_u32 ((s.inodes inum).direct n), s)
  else
    let n1 := n - N_DIRECT
    if n1 < PTRS_PER_BLK then
      if (s.inodes inum).indir_1 = 0 then
        if alloc = 0 then (0, s)
        else
          let r := get_free_blk s
          if r.1 = 0 then (0, r.2)
          else
            let s1 := r.2.set_inode inum (fun ino => { ino with indir_1 := r.1 % 4294967296 })
            let s2 := mark_inode s1 inum
            let s3 := s2.disk_write (int_of_u32 (s2.inodes inum).indir_1) zeros
            get_file_blkno_indir1 s3 inum n1 alloc
      else get_file_blkno_indir1 s inum n1 alloc
    else
      let n2 := n1 - PTRS_PER_BLK
      if n2 > PTRS_PER_BLK * PTRS_PER_BLK then (0, s)
      else
        let m := n2 / PTRS_PER_BLK
        let k := n2 - m * PTRS_PER_BLK
        if (s.inodes inum).indir_2 = 0 then
          if alloc = 0 then (0, s)
          else
            let r := get_free_blk s
            if r.1 = 0 then (0, r.2)
            else
              let s1 := r.2.set_inode inum (fun ino => { ino with indir_2 := r.1 % 4294967296 })
              let s2 := mark_inode s1 inum
              let s3 := s2.disk_write (int_of_u32 (s2.inodes inum).indir_2) zeros
              get_file_blkno_indir2 s3 inum m k alloc
        else get_file_blkno_indir2 s inum m k alloc

/-! ## `get_file_blk` (lines 169-182) -/

/-- The function `get_file_blk(inum, n, block, alloc)` for `block != NULL` (every caller
passes storage): the result and the contents of `block` afterwards. -/
def get_file_blk (s : fs_state) (inum n : Nat) (block : Block) (alloc : Nat) :
    Int × Block × fs_state :=
  let r := get_file_blkno s inum n alloc
  if r.1 > 0 then
    let rd := r.2.disk.read r.1 block
    if rd.1 < 0 then (- EIO, zeros, r.2)
    else (r.1, rd.2, r.2)
  else (r.1, block, r.2)

/-! ## `do_read` (lines 201-243) -/

/-- The loop of `do_read` (lines 222-239) with `cnt` iterations to go: whether it ran to
the end, the bytes stored into the caller's buffer so far, and the state. -/
def do_read_loop (inum : Nat) :
    Nat → Nat → Nat → Nat → List Nat → fs_state → Bool × List Nat × fs_state
  | 0, _, _, _, out, s => (true, out, s)
  | cnt + 1, blkindex, offset, len, out, s =>
    let r := get_file_blk s inum blkindex s.stack 0
    if r.1 ≤ 0 then (false, out, r.2.2)
    else
      let l := min (FS_BLOCK_SIZE - offset) len
      do_read_loop inum cnt (blkindex + 1) 0 (len - l)
        (out ++ memcpy_from_blk r.2.1 offset l) r.2.2

/-- The function `do_read(inum, buf, len, offset)`: the result, the bytes stored at the
start of `buf`, and the state. -/
def do_read (s : fs_state) (inum len offset : Nat) : Int × List Nat × fs_state :=
  if offset ≥ (s.inodes inum).size then (0, [], s)
  else
    let len1 := if (s.inodes inum).size < offset + len then (s.inodes inum).size - offset else len
    let blkidx1 := offset / FS_BLOCK_SIZE
    let blkidx2 := (offset + len1) / FS_BLOCK_SIZE
    let r := do_read_loop inum (blkidx2 + 1 - blkidx1) blkidx1
      (offset - blkidx1 * FS_BLOCK_SIZE) len1 [] s
    if r.1 = true then (int_of_u32 len1, r.2.1, r.2.2) else (- EIO, r.2.1, r.2.2)

/-! ## `do_write` (lines 263-307) -/

/-- The loop of `do_write` (lines 278-301) with `cnt` iterations to go: the error returned
from inside the loop, if any, the value of `len` afterwards, and the state.  `now` is the
value of `time(NULL)`. -/
def do_write_loop (inum now : Nat) :
    Nat → Nat → Nat → List Nat → Nat → fs_state → Option Int × Nat × fs_state
  | 0, _, _, _, len, s => (none, len, s)
  | cnt + 1, blkindex, offset, buf, len, s =>
    let r := get_file_blk s inum blkindex s.stack 1
    if r.1 ≤ 0 then
      (some (if r.1 = 0 then -ENOSPC else r.1), len, flush_metadata (mark_inode r.2.2 inum))
    else
      let l := min (FS_BLOCK_SIZE - offset) len
      let blk := memcpy_to_blk r.2.1 offset buf l
      let s1 := r.2.2.disk_write r.1 blk
      let s2 := s1.set_inode inum (fun ino =>
        { ino with size := (ino.size + l) % 4294967296, mtime := now % 4294967296 })
      do_write_loop inum now cnt (blkindex + 1) 0 (buf.drop l) (len - l) s2

/-- The function `do_write(inum, buf, len, offset)`: the result and the state. -/
def do_write (s : fs_state) (inum : Nat) (buf : List Nat) (len offset now : Nat) :
    Int × fs_state :=
  if offset > (s.inodes inum).size then (-EINVAL, s)
  else
    let blkidx1 := offset / FS_BLOCK_SIZE
    let blkidx2 := (offset + len) / FS_BLOCK_SIZE
    let r := do_write_loop inum now (blkidx2 + 1 - blkidx1) blkidx1
      (offset - blkidx1 * FS_BLOCK_SIZE) buf len s
    match r.1 with
    | some e => (e, r.2.2)
    | none => (int_of_u32 (len - r.2.1), flush_metadata (mark_inode r.2.2 inum))

/-! ## `do_truncate` (lines 320-375) -/

/-- Lines 338-342: release every non-zero entry of the second-level block in `buf1`. -/
def truncate_leaves (buf1 : Block) (s : fs_state) : fs_state :=
  (List.range PTRS_PER_BLK).foldl
    (fun t j => if get32 buf1 j ≠ 0 then return_blk t (get32 buf1 j) else t) s

/-- Lines 335-345: for every non-zero entry of the double-indirect block in `buf`, release
the blocks below it and then the second-level block itself; `buf1` is carried along. -/
def truncate_indir2 (buf : Block) (s : fs_state) : Block × fs_state :=
  (List.range PTRS_PER_BLK).foldl
    (fun p i =>
      if get32 buf i ≠ 0 then
        let buf1 := (p.2.disk.read (int_of_u32 (get32 buf i)) p.1).2
        (buf1, return_blk (truncate_leaves buf1 p.2) (get32 buf i))
      else p)
    (s.stack, s)

/-- Lines 363-368: release and clear the direct pointers. -/
def truncate_direct (inum : Nat) (s : fs_state) : fs_state :=
  (List.range N_DIRECT).foldl
    (fun t i =>
      if (t.inodes inum).direct i ≠ 0 then
        (return_blk t ((t.inodes inum).direct i)).set_inode inum
          (fun ino => { ino with direct := fun j => if j = i then 0 else ino.direct j })
      else t) s

/-- The function `do_truncate(inum, len)`: the result and the state.  The buffer `buf` is
shared by the double-indirect and the single-indirect part. -/
def do_truncate (s : fs_state) (inum : Nat) (len : Int) (now : Nat) : Int × fs_state :=
  if len ≠ 0 then (-EINVAL, s)
  else
    let buf2 :=
      if (s.inodes inum).indir_2 ≠ 0 then
        (s.disk.read (int_of_u32 (s.inodes inum).indir_2) s.stack).2
      else s.stack
    let s1 :=
      if (s.inodes inum).indir_2 ≠ 0 then
        let t := (truncate_indir2 buf2 s).2
        (return_blk t (t.inodes inum).indir_2).set_inode inum
          (fun ino => { ino with indir_2 := 0 })
      else s
    let s2 :=
      if (s1.inodes inum).indir_1 ≠ 0 then
        let buf := (s1.disk.read (int_of_u32 (s1.inodes inum).indir_1) buf2).2
        let t := truncate_leaves buf s1
        (return_blk t (t.inodes inum).indir_1).set_inode inum
          (fun ino => { ino with indir_1 := 0 })
      else s1
    let s3 := truncate_direct inum s2
    (0, s3.set_inode inum (fun ino => { ino with size := 0, mtime := now % 4294967296 }))

/-! ## Directories: constants (`fsx600.h`, `errno.h`, `sys/stat.h`) -/

abbrev DIRENTS_PER_BLK : Nat := 32
abbrev FS_FILENAME_SIZE : Nat := 28

abbrev ENOENT : Int := 2
abbrev EACCES : Int := 13
abbrev EEXIST : Int := 17
abbrev ENOTDIR : Int := 20
abbrev EISDIR : Int := 21
abbrev ENOTEMPTY : Int := 39

/-- The file-type bits of a mode, `(mode & S_IFMT) >> 12`; `S_IFMT = 0170000`. -/
def file_type (mode : Nat) : Nat := mode / 4096 % 16

/-- The macro `S_ISDIR(mode)`: `(mode & S_IFMT) == S_IFDIR`, with `S_IFDIR = 0040000`. -/
def S_ISDIR (mode : Nat) : Bool := decide (file_type mode = 4)

abbrev S_IFDIR : Nat := 16384
abbrev S_IFREG : Nat := 32768

/-! ## Directory entries (`struct fs_dirent`)

Entry `e` of a directory block occupies bytes `32 * e .. 32 * e + 31`: one 32-bit word
with the bit fields `valid` (bit 0), `isDir` (bit 1) and `inode` (bits 2-31), then the
28 bytes of `name`.  A C string argument is the list of its bytes before the terminating
NUL. -/

/-- The word that holds the bit fields of entry `e`. -/
def de_word (blk : Block) (e : Nat) : Nat := get32 blk (8 * e) % 4294967296

/-- Field `de[e].valid`. -/
def de_valid (blk : Block) (e : Nat) : Nat := de_word blk e % 2

/-- Field `de[e].isDir`. -/
def de_isDir (blk : Block) (e : Nat) : Nat := de_word blk e / 2 % 2

/-- Field `de[e].inode`. -/
def de_inode (blk : Block) (e : Nat) : Nat := de_word blk e / 4

/-- Byte `j` of `de[e].name`. -/
def de_name (blk : Block) (e j : Nat) : Nat := blk (32 * e + 4 + j)

/-- Assignment `de[e].valid = v`. -/
def set_de_valid (blk : Block) (e v : Nat) : Block :=
  set32 blk (8 * e) (de_word blk e / 2 * 2 + v % 2)

/-- Assignment `de[e].isDir = d`. -/
def set_de_isDir (blk : Block) (e d : Nat) : Block :=
  set32 blk (8 * e) (de_word blk e / 4 * 4 + 2 * (d % 2) + de_word blk e % 2)

/-- Assignment `de[e].inode = i` (30 bits). -/
def set_de_inode (blk : Block) (e i : Nat) : Block :=
  set32 blk (8 * e) (4 * (i % 1073741824) + de_word blk e % 4)

/-- The test `strcmp(p, name) == 0` for the string that starts at byte `off` of `blk`:
the bytes of `name` followed by a NUL. -/
def strcmp_eq (blk : Block) (off : Nat) (name : List Nat) : Bool :=
  (List.range name.length).all (fun j => decide (blk (off + j) = name.getD j 0)) &&
    decide (blk (off + name.length) = 0)

/-- The call `strncpy(de[e].name, name, FS_FILENAME_SIZE-1)`: the first 27 bytes of the
name field receive the bytes of `name`, padded with NUL; the last byte is not written. -/
def strncpy_name (blk : Block) (e : Nat) (name : List Nat) : Block := fun i =>
  if 32 * e + 4 ≤ i ∧ i < 32 * e + 4 + (FS_FILENAME_SIZE - 1) then name.getD (i - (32 * e + 4)) 0
  else blk i

/-! ## `fs_util_dir.c` -/

/-- The function `get_dir_entry_count(inum)` (lines 62-70). -/
def get_dir_entry_count (s : fs_state) (inum : Nat) : Int :=
  if ¬ S_ISDIR (s.inodes inum).mode then -ENOTDIR
  else (((s.inodes inum).size / 32 : Nat) : Int)

/-- The function `is_dir_empty(inum)` (lines 46-51). -/
def is_dir_empty (s : fs_state) (inum : Nat) : Int :=
  let count := get_dir_entry_count s inum
  if count < 0 then count else (if count = 0 then 1 else 0)

/-- The loop of `get_dir_entry_in_block` with `k` entries to go from `entno` on. -/
def get_dir_entry_in_block_from (de : Block) (name : List Nat) : Nat → Nat → Int
  | 0, _ => -ENOENT
  | k + 1, entno =>
    if de_valid de entno ≠ 0 ∧ strcmp_eq de (32 * entno + 4) name = true then (entno : Int)
    else get_dir_entry_in_block_from de name k (entno + 1)

/-- The function `get_dir_entry_in_block(de, name)` (lines 82-91). -/
def get_dir_entry_in_block (de : Block) (name : List Nat) : Int :=
  get_dir_entry_in_block_from de name DIRENTS_PER_BLK 0

/-- The loop of `get_free_entry_in_block` with `k` entries to go from `entno` on. -/
def get_free_entry_in_block_from (de : Block) : Nat → Nat → Int
  | 0, _ => -ENOSPC
  | k + 1, entno =>
    if de_valid de entno = 0 then (entno : Int)
    else get_free_entry_in_block_from de k (entno + 1)

/-- The function `get_free_entry_in_block(de)` (lines 102-111). -/
def get_free_entry_in_block (de : Block) : Int :=
  get_free_entry_in_block_from de DIRENTS_PER_BLK 0

/-- What `get_dir_entry_block` and `get_dir_free_entry_block` hand back: the result, the
caller's block buffer, `*blkno`, and the state. -/
structure dir_lookup where
  entno : Int
  block : Block
  blkno : Int
  state : fs_state

/-- The function `get_dir_entry_block(inum, block, &blkno, name)` (lines 127-154). -/
def get_dir_entry_block (s : fs_state) (inum : Nat) (block : Block) (name : List Nat) :
    dir_lookup :=
  if ¬ S_ISDIR (s.inodes inum).mode then
    { entno := -ENOTDIR, block := zeros, blkno := 0, state := s }
  else
    let r := get_file_blk s inum 0 block 0
    if r.1 ≤ 0 then
      { entno := if r.1 = 0 then -ENOENT else - EIO, block := zeros, blkno := 0, state := r.2.2 }
    else
      let entry_no := get_dir_entry_in_block r.2.1 name
      if entry_no ≥ 0 then
        { entno := entry_no, block := r.2.1, blkno := r.1, state := r.2.2 }
      else
        { entno := entry_no, block := zeros, blkno := 0, state := r.2.2 }

/-- The function `get_dir_free_entry_block(inum, block, &blkno)` (lines 170-187); `blkno`
is the previous value of `*blkno`, kept when block 0 cannot be obtained. -/
def get_dir_free_entry_block (s : fs_state) (inum : Nat) (block : Block) (blkno : Int) :
    dir_lookup :=
  let r := get_file_blk s inum 0 block 1
  if r.1 ≤ 0 then
    { entno := if r.1 = 0 then -ENOSPC else - EIO, block := zeros, blkno := blkno,
      state := r.2.2 }
  else
    let entry_no := get_free_entry_in_block r.2.1
    { entno := entry_no, block := if entry_no < 0 then zeros else r.2.1, blkno := r.1,
      state := r.2.2 }

/-- The function `get_dir_entry_inode(inum, name)` (lines 201-217), which leaves the state
as it is.  `FS_VERSION` is the value of the build flag of that name: with `FS_VERSION = 0`
the name `"."` is answered with `inum` itself. -/
def get_dir_entry_inode (FS_VERSION : Nat) (s : fs_state) (inum : Nat) (name : List Nat) :
    Int :=
  if FS_VERSION = 0 ∧ name = [46] then (inum : Int)
  else
    let r := get_dir_entry_block s inum s.stack name
    if r.entno < 0 then r.entno else (de_inode r.block r.entno.toNat : Int)

/-- The function `set_dir_entry(&de[e], inum, name)` (lines 226-237): the block that holds
the entry, and the state. -/
def set_dir_entry (s : fs_state) (blk : Block) (e inum : Nat) (name : List Nat) :
    Block × fs_state :=
  let blk1 := set_de_valid blk e 1
  let blk2 := set_de_isDir blk1 e (if S_ISDIR (s.inodes inum).mode then 1 else 0)
  let blk3 := strncpy_name blk2 e name
  let blk4 := set_de_inode blk3 e inum
  let s1 := s.set_inode inum (fun ino => { ino with nlink := (ino.nlink + 1) % 4294967296 })
  (blk4, mark_inode s1 inum)

/-! ## Inode allocator (`fs_util_meta`) -/

/-- Number of inodes of the volume. -/
def fs_state.n_inodes (s : fs_state) : Nat := s.inode_region_sz * INODES_PER_BLK

/-- An inode record of zero bytes. -/
def zero_inode : fs_inode :=
  { uid := 0, gid := 0, mode := 0, ctime := 0, mtime := 0, size := 0, nlink := 0,
    direct := fun _ => 0, indir_1 := 0, indir_2 := 0, pad := fun _ => 0 }

/-- Modelled from the spec: `get_free_inode()` (of `fs_util_meta`, not among the sources)
returns the smallest index `≥ 1` whose inode-bitmap bit is clear, sets the bit, zeroes the
inode record, marks the inode and the bitmap dirty; `0` if none is free. -/
def get_free_inode (s : fs_state) : Nat × fs_state :=
  let i := first_clear s.inode_map (s.n_inodes - 1) 1
  if i = 0 then (0, s)
  else (i, { s with
    inode_map := fun j => if j = i then true else s.inode_map j
    inodes := fun j => if j = i then zero_inode else s.inodes j
    dirty_inodes := fun j => if j = i / INODES_PER_BLK then true else s.dirty_inodes j
    dirty_maps := fun j => if j = i / BITS_PER_BLK then true else s.dirty_maps j })

/-- Modelled from the spec: `return_inode(i)` (of `fs_util_meta`, not among the sources)
clears bit `i` of the inode bitmap and marks the bitmap dirty. -/
def return_inode (s : fs_state) (i : Nat) : fs_state :=
  { s with
    inode_map := fun j => if j = i then false else s.inode_map j
    dirty_maps := fun j => if j = i / BITS_PER_BLK then true else s.dirty_maps j }

/-- Modelled from the spec: `max(a, b)` of `max.h` (not among the sources) is the larger of
its two arguments, compared in their common type. -/
def c_max (a b : Nat) : Nat := if a > b then a else b

/-- The value that `din->size = max(0, din->size - sizeof(struct fs_dirent))` stores
(`fs_util_dir.c` line 296, `fs_util_file.c` line 603): the difference of the `uint32_t`
field and the `size_t` constant 32 is computed in `size_t` (unsigned, 64 bits), and the
result goes back into the 32-bit field. -/
def dir_size_less (size : Nat) : Nat :=
  c_max 0 ((size + 18446744073709551616 - 32) % 18446744073709551616) % 4294967296

/-! ## `do_rmdir` (`fs_util_dir.c`, lines 253-303) -/

/-- The function `do_rmdir(dir_inum, leaf)`: the result and the state. -/
def do_rmdir (s : fs_state) (dir_inum : Nat) (leaf : List Nat) (now : Nat) : Int × fs_state :=
  if ¬ S_ISDIR (s.inodes dir_inum).mode then (-ENOTDIR, s)
  else
    let r := get_dir_entry_block s dir_inum s.stack leaf
    if r.entno < 0 then (-ENOENT, r.state)
    else
      let entno := r.entno.toNat
      let entry_inum := de_inode r.block entno
      if ¬ S_ISDIR (r.state.inodes entry_inum).mode then (-ENOTDIR, r.state)
      else if is_dir_empty r.state entry_inum ≠ 1 then (-ENOTEMPTY, r.state)
      else
        let buf := set_de_valid r.block entno 0
        let s1 := r.state.disk_write r.blkno buf
        let s2 := (do_truncate s1 entry_inum 0 now).2
        let s3 := mark_inode s2 entry_inum
        let s4 := return_inode s3 entry_inum
        let s5 := s4.set_inode dir_inum (fun ino => { ino with size := dir_size_less ino.size })
        (0, flush_metadata (mark_inode s5 dir_inum))

/-! ## `do_rename` (`fs_util_file.c`, lines 395-434) -/

/-- The function `do_rename(srcdir_inum, src_leaf, dstdir_inum, dst_leaf)`: the result and
the state, or `none` when the call indexes `fs.inodes` with a negative number (the two
directory arguments are C `int`s and are used as they come). -/
def do_rename (s : fs_state) (srcdir_inum : Int) (src_leaf : List Nat) (dstdir_inum : Int)
    (dst_leaf : List Nat) (now : Nat) : Option (Int × fs_state) :=
  if srcdir_inum = 0 ∨ srcdir_inum ≠ dstdir_inum then some (-EINVAL, s)
  else if srcdir_inum < 0 then none
  else
    let r1 := get_dir_entry_block s srcdir_inum.toNat s.stack src_leaf
    if r1.entno < 0 then some (-ENOENT, r1.state)
    else
      let r2 := get_dir_entry_block r1.state dstdir_inum.toNat r1.state.stack dst_leaf
      if r2.entno ≥ 0 then some (-EEXIST, r2.state)
      else
        let s_de := strncpy_name r1.block r1.entno.toNat dst_leaf
        let s1 := r2.state.disk_write r1.blkno s_de
        let s2 := s1.set_inode srcdir_inum.toNat
          (fun ino => { ino with mtime := now % 4294967296 })
        some (0, flush_metadata (mark_inode s2 srcdir_inum.toNat))

/-! ## `init_new_inode`, `do_mkentry`, `do_unlink` (lines 469-610) -/

/-- The function `init_new_inode(mode, ftype)`; `now` is `time(NULL)`, `uid` and `gid` are
the ids that the caller's context supplies. -/
def init_new_inode (s : fs_state) (mode ftype now uid gid : Nat) : Int × fs_state :=
  let r := get_free_inode s
  if r.1 = 0 then (-ENOSPC, r.2)
  else
    let s1 := r.2.set_inode r.1 (fun ino =>
      { ino with
        mode := mode % 4294967296 - file_type mode * 4096 + file_type ftype * 4096
        ctime := now % 4294967296
        mtime := now % 4294967296
        size := 0
        nlink := 0
        uid := uid % 65536
        gid := gid % 65536 })
    (int_of_u32 r.1, mark_inode s1 r.1)

/-- The function `do_mkentry(dir_inum, leaf, mode, ftype)`: the result and the state. -/
def do_mkentry (s : fs_state) (dir_inum : Nat) (leaf : List Nat) (mode ftype now uid gid : Nat) :
    Int × fs_state :=
  if ¬ S_ISDIR (s.inodes dir_inum).mode then (-ENOTDIR, s)
  else
    let r1 := get_dir_entry_block s dir_inum s.stack leaf
    if r1.entno ≥ 0 then (-EEXIST, r1.state)
    else
      let r2 := get_dir_free_entry_block r1.state dir_inum r1.block r1.blkno
      if r2.entno < 0 then (-ENOSPC, r2.state)
      else
        let r3 := init_new_inode r2.state mode ftype now uid gid
        if r3.1 < 0 then r3
        else
          let r4 := set_dir_entry r3.2 r2.block r2.entno.toNat r3.1.toNat leaf
          let s5 := r4.2.disk_write r2.blkno r4.1
          let s6 := s5.set_inode dir_inum
            (fun ino => { ino with size := (ino.size + 32) % 4294967296 })
          (r3.1, flush_metadata (mark_inode s6 dir_inum))

/-- The function `do_unlink(dir_inum, leaf)`: the result and the state. -/
def do_unlink (s : fs_state) (dir_inum : Nat) (leaf : List Nat) (now : Nat) : Int × fs_state :=
  if ¬ S_ISDIR (s.inodes dir_inum).mode then (-ENOTDIR, s)
  else
    let r := get_dir_entry_block s dir_inum s.stack leaf
    if r.entno < 0 then (-ENOENT, r.state)
    else
      let entno := r.entno.toNat
      let inum := de_inode r.block entno
      if S_ISDIR (r.state.inodes inum).mode then (-EISDIR, r.state)
      else
        let buf := set_de_valid r.block entno 0
        let s1 := r.state.disk_write r.blkno buf
        let s2 := (do_truncate s1 inum 0 now).2
        let s3 := mark_inode s2 inum
        let s4 := return_inode s3 inum
        let s5 := s4.set_inode dir_inum (fun ino => { ino with size := dir_size_less ino.size })
        (0, flush_metadata (mark_inode s5 dir_inum))

/-! ## Path resolution (`fs_util_path.c`) -/

/-- Modelled from the spec: `split(path, toks, n, "/")` (of `split.h`, not among the
sources) cuts a path at every `'/'` and discards empty tokens; `cur` is the token being
read. -/
def split_from : List Nat → List Nat → List (List Nat)
  | [], cur => if cur = [] then [] else [cur]
  | c :: cs, cur =>
    if c = 47 then (if cur = [] then split_from cs [] else cur :: split_from cs [])
    else split_from cs (cur ++ [c])

/-- The tokens that `init_path_state` stores for `path` (lines 51-70): a path that ends
with `'/'` gets the token `"."` appended. -/
def path_tokens (path : List Nat) : List (List Nat) :=
  split_from (if path.getLast? = some 47 then path ++ [46] else path) []

/-- The loop of `get_inode_of_path_state` (lines 109-123) over the tokens still to be
walked, `inum` being the inode reached: it stops with the error of a failed lookup, and
with `inum` when the tokens are used up or a lookup answers 0. -/
def walk_path (FS_VERSION : Nat) (s : fs_state) : List (List Nat) → Nat → Int
  | [], inum => (inum : Int)
  | tok :: toks, inum =>
    let status := get_dir_entry_inode FS_VERSION s inum tok
    if status > 0 then walk_path FS_VERSION s toks status.toNat
    else if status < 0 then status
    else (inum : Int)

/-- The function `get_inode_of_path(path)` (lines 136-145); `fs.root_inode` is taken to be
an inumber below `2^31`. -/
def get_inode_of_path (FS_VERSION : Nat) (s : fs_state) (path : List Nat) : Int :=
  walk_path FS_VERSION s (path_tokens path) s.root_inode

/-- The function `get_inode_of_path_dir(path, leaf)` (lines 161-175): the result and the
contents of `leaf` afterwards, which are the previous ones unless the result is positive.
A last token of more than 27 bytes does not fit the caller's array in C; here it is kept
whole. -/
def get_inode_of_path_dir (FS_VERSION : Nat) (s : fs_state) (path leaf : List Nat) :
    Int × List Nat :=
  let toks := path_tokens path
  let inum := walk_path FS_VERSION s (toks.take (toks.length - 1)) s.root_inode
  (inum, if inum > 0 then toks.getLastD [] else leaf)

/-! ## Operations (`fs_op_rename.c`, `fs_op_link.c`) and `do_link` -/

/-- The function `fs_rename(src_path, dst_path)`; `src_leaf` and `dst_leaf` are the contents
of the two automatic arrays before they are passed on. -/
def fs_rename (FS_VERSION : Nat) (s : fs_state) (src_path dst_path src_leaf dst_leaf : List Nat)
    (now : Nat) : Option (Int × fs_state) :=
  let a := get_inode_of_path_dir FS_VERSION s src_path src_leaf
  let b := get_inode_of_path_dir FS_VERSION s dst_path dst_leaf
  do_rename s a.1 a.2 b.1 b.2 now

/-- The function `increment_link_count(inum)` (lines 646-655); its result is not used. -/
def increment_link_count (s : fs_state) (inum : Nat) : fs_state :=
  if S_ISDIR (s.inodes inum).mode then s
  else s.set_inode inum (fun ino => { ino with nlink := (ino.nlink + 1) % 4294967296 })

/-- The function `do_link(src_inum, dir, leaf)` (lines 613-644): the result and the state.
The entry is set in the local buffer only. -/
def do_link (FS_VERSION : Nat) (s : fs_state) (src_inum : Nat) (dir leaf : List Nat) :
    Int × fs_state :=
  let p := get_inode_of_path_dir FS_VERSION s (dir ++ leaf) leaf
  if p.1 < 0 then (p.1, s)
  else
    let r1 := get_dir_entry_block s p.1.toNat s.stack p.2
    if r1.entno ≥ 0 then (-EEXIST, r1.state)
    else
      let r2 := get_dir_free_entry_block r1.state p.1.toNat r1.block r1.blkno
      if r2.entno < 0 then (-ENOSPC, r2.state)
      else
        let s3 := increment_link_count r2.state src_inum
        let r4 := set_dir_entry s3 r2.block r2.entno.toNat src_inum p.2
        (0, r4.2)

/-- The function `fs_link(src_path, dst_path)`; `leaf` is the content of the automatic
array before it is passed on. -/
def fs_link (FS_VERSION : Nat) (s : fs_state) (src_path dst_path leaf : List Nat) :
    Int × fs_state :=
  let src_inum := get_inode_of_path FS_VERSION s src_path
  if src_inum < 0 then (src_inum, s)
  else if S_ISDIR (s.inodes src_inum.toNat).mode then (-EISDIR, s)
  else
    let d := get_inode_of_path_dir FS_VERSION s dst_path leaf
    if d.1 < 0 then (d.1, s)
    else if ¬ S_ISDIR (s.inodes d.1.toNat).mode then (-ENOTDIR, s)
    else if d.2.length = 0 then (-EACCES, s)
    else
      let dst_inum := get_inode_of_path FS_VERSION s dst_path
      if dst_inum > 0 then (-EEXIST, s)
      else
        let dst_dir := dst_path.take (dst_path.length - d.2.length)
        (0, (do_link FS_VERSION s src_inum.toNat dst_dir d.2).2)

/-! ## `do_stat` (`fs_util_file.c`, lines 442-457) and `fs_getattr` -/

/-- The fields of `struct stat` that `do_stat` assigns; every other field is zeroed by the
`memset`. -/
structure stat where
  st_ino : Nat
  st_mode : Nat
  st_nlink : Nat
  st_uid : Nat
  st_gid : Nat
  st_size : Nat
  st_blocks : Nat
  st_atime : Nat
  st_mtime : Nat
  st_ctime : Nat

/-- The function `do_stat(inum, sb)`: the contents of `*sb` afterwards.  The sum
`in->size + 512 - 1` is computed in `uint32_t`. -/
def do_stat (s : fs_state) (inum : Nat) : stat :=
  { st_ino := inum
    st_mode := (s.inodes inum).mode
    st_nlink := (s.inodes inum).nlink
    st_uid := (s.inodes inum).uid
    st_gid := (s.inodes inum).gid
    st_size := (s.inodes inum).size
    st_blocks := ((s.inodes inum).size + 512 - 1) % 4294967296 / 512
    st_atime := (s.inodes inum).mtime
    st_mtime := (s.inodes inum).mtime
    st_ctime := (s.inodes inum).ctime }

/-- The function `fs_getattr(path, sb)` (`fs_op_getattr.c`, lines 31-52): the result and,
when it is 0, the contents of `*sb`; `leaf` is the content of the automatic array before it
is passed on. -/
def fs_getattr (FS_VERSION : Nat) (s : fs_state) (path leaf : List Nat) : Int × Option stat :=
  let p := get_inode_of_path_dir FS_VERSION s path leaf
  if p.1 < 0 then (p.1, none)
  else
    let inum := get_dir_entry_inode FS_VERSION s p.1.toNat p.2
    if inum < 0 then (inum, none)
    else (0, some (do_stat s inum.toNat))

/-! ## The device writes of `get_file_blkno` when a second-level block is created -/

/-- Lines 117-131 of `get_file_blkno` once more, for the order of the two device writes
made when entry `m` of the double-indirect block is empty and a block is to be had: the
state after line 128 (the double-indirect block with the new pointer in entry `m` is
written) and the state after line 129 (`zeros` is written to the new block).  No state is
listed when nothing is written. -/
def get_file_blkno_indir2_writes (s : fs_state) (inum m alloc : Nat) : List fs_state :=
  let buf := (s.disk.read (int_of_u32 (s.inodes inum).indir_2) s.stack).2
  if get32 buf m = 0 then
    if alloc = 0 then []
    else
      let r := get_free_blk s
      if r.1 = 0 then []
      else
        let buf1 := set32 buf m (r.1 % 4294967296)
        let s1 := r.2.disk_write (int_of_u32 (r.2.inodes inum).indir_2) buf1
        let s2 := s1.disk_write (int_of_u32 (get32 buf1 m)) zeros
        [s1, s2]
  else []

/-! ## Vocabulary for well-formed block maps -/

/-- The places where a block pointer of a file is stored: the inode (`direct`, `ind1`,
`ind2`), the single-indirect block (`leaf1`), the double-indirect block (`mid`) and the
second-level blocks (`leaf2`). -/
inductive Slot where
  | direct (n : Nat)
  | ind1
  | leaf1 (n : Nat)
  | ind2
  | mid (m : Nat)
  | leaf2 (m k : Nat)
  deriving DecidableEq

/-- The indices of a slot are inside the arrays. -/
def Slot.ok : Slot → Prop
  | .direct n => n < N_DIRECT
  | .ind1 => True
  | .leaf1 n => n < PTRS_PER_BLK
  | .ind2 => True
  | .mid m => m < PTRS_PER_BLK
  | .leaf2 m k => m < PTRS_PER_BLK ∧ k < PTRS_PER_BLK

/-- The slot points to a data block (not to an index block). -/
def Slot.is_leaf : Slot → Prop
  | .direct _ => True
  | .leaf1 _ => True
  | .leaf2 _ _ => True
  | _ => False

/-- The pointer stored in a slot of inode `inum`; `0` when the slot does not exist because
an index block above it is missing. -/
def ptr (s : fs_state) (inum : Nat) : Slot → Nat
  | .direct n => (s.inodes inum).direct n
  | .ind1 => (s.inodes inum).indir_1
  | .leaf1 n =>
    if (s.inodes inum).indir_1 = 0 then 0
    else get32 (s.disk.blocks (s.inodes inum).indir_1) n
  | .ind2 => (s.inodes inum).indir_2
  | .mid m =>
    if (s.inodes inum).indir_2 = 0 then 0
    else get32 (s.disk.blocks (s.inodes inum).indir_2) m
  | .leaf2 m k =>
    if (s.inodes inum).indir_2 = 0 then 0
    else if get32 (s.disk.blocks (s.inodes inum).indir_2) m = 0 then 0
    else get32 (s.disk.blocks (get32 (s.disk.blocks (s.inodes inum).indir_2) m)) k

/-- The slot that maps logical block `n` of a file (section 3 of the specification). -/
def lslot (n : Nat) : Slot :=
  if n < N_DIRECT then .direct n
  else if n - N_DIRECT < PTRS_PER_BLK then .leaf1 (n - N_DIRECT)
  else .leaf2 ((n - N_DIRECT - PTRS_PER_BLK) / PTRS_PER_BLK)
    ((n - N_DIRECT - PTRS_PER_BLK) % PTRS_PER_BLK)

/-- Number of logical blocks a file can address: `6 + 256 + 256 * 256`. -/
abbrev MAX_BLOCKS : Nat := N_DIRECT + PTRS_PER_BLK + PTRS_PER_BLK * PTRS_PER_BLK

/-- Number of clear bits of the block bitmap among blocks `1 .. num_blocks - 1`. -/
def free_count (s : fs_state) : Nat :=
  ((Finset.range s.num_blocks).filter (fun b => 1 ≤ b ∧ s.block_map b = false)).card

/-- Byte `p` of the file, read through the block map. -/
def file_byte (s : fs_state) (inum p : Nat) : Nat :=
  s.disk.blocks (ptr s inum (lslot (p / FS_BLOCK_SIZE))) (p % FS_BLOCK_SIZE)

/-- The part of volume well-formedness (section 3, invariants 1-3) that concerns the block
map of inode `inum`: the bitmap covers the device, the reserved region is marked
allocated, and every non-zero pointer of the inode names an allocated block of the data
region that no other pointer of the inode names. -/
structure wf (s : fs_state) (inum : Nat) : Prop where
  nblks_le : s.num_blocks ≤ s.disk.nblks
  nblks_lt : s.disk.nblks < 2147483648
  reserved : ∀ b, b < s.data_base → s.block_map b = true
  ptr_ok : ∀ σ : Slot, σ.ok → ptr s inum σ ≠ 0 →
    s.data_base ≤ ptr s inum σ ∧ ptr s inum σ < s.num_blocks ∧
      s.block_map (ptr s inum σ) = true
  inj : ∀ σ τ : Slot, σ.ok → τ.ok → ptr s inum σ ≠ 0 → ptr s inum σ = ptr s inum τ → σ = τ

/-- Block number `p` can be read from the device: it is below the number of blocks and
fits the `int` parameter of the read operation. -/
def readable (s : fs_state) (p : Nat) : Prop :=
  p < s.disk.nblks ∧ p < 2147483648

/-- The state in which `get_free_blk` has handed out block `b`. -/
def alloc_state (s : fs_state) (b : Nat) : fs_state :=
  { s with
    block_map := fun j => if j = b then true else s.block_map j
    dirty_maps := fun j => if j = s.inode_map_sz + b / BITS_PER_BLK then true else s.dirty_maps j }

/-- Block `b` may be handed out by the allocator: it is a block of the volume other than
block 0 and its bitmap bit is clear. -/
def is_free (s : fs_state) (b : Nat) : Prop :=
  1 ≤ b ∧ b < s.num_blocks ∧ s.block_map b = false

/-- The states `s` and `t` agree on everything but the inode table, the block bitmap, the
dirty sets and the contents of the device. -/
def same_frame (s t : fs_state) : Prop :=
  t.inode_map_sz = s.inode_map_sz ∧ t.inode_region_sz = s.inode_region_sz ∧
  t.block_map_sz = s.block_map_sz ∧ t.num_blocks = s.num_blocks ∧
  t.root_inode = s.root_inode ∧ t.inode_map = s.inode_map ∧
  t.disk.nblks = s.disk.nblks ∧ t.returned = s.returned ∧ t.stack = s.stack

/-- The state `t` is `s` after one allocation for inode `inum`: the free block `b` has been
stored in the empty slot `σ`; no other pointer and no data block of the file changed. -/
structure alloc_step (s t : fs_state) (inum : Nat) (σ : Slot) (b : Nat) : Prop where
  frame : same_frame s t
  ptr_eq : ∀ τ : Slot, τ.ok → ptr t inum τ = if τ = σ then b else ptr s inum τ
  map_eq : ∀ j, t.block_map j = if j = b then true else s.block_map j
  data_eq : ∀ τ : Slot, τ.ok → τ.is_leaf → ptr s inum τ ≠ 0 →
    t.disk.blocks (ptr s inum τ) = s.disk.blocks (ptr s inum τ)
  size_eq : (t.inodes inum).size = (s.inodes inum).size

/-- The state `t` is `s` after at most `k` allocations for inode `inum`: pointers that
were set are kept, and every block that became allocated was free and is now named by a
pointer of the inode. -/
structure grow (k : Nat) (s t : fs_state) (inum : Nat) : Prop where
  frame : same_frame s t
  ptr_keep : ∀ τ : Slot, τ.ok → ptr s inum τ ≠ 0 → ptr t inum τ = ptr s inum τ
  ptr_new : ∀ τ : Slot, τ.ok → ptr s inum τ = 0 → ptr t inum τ ≠ 0 →
    s.block_map (ptr t inum τ) = false
  map_keep : ∀ j, s.block_map j = true → t.block_map j = true
  map_new : ∀ j, t.block_map j = true → s.block_map j = true ∨
    ∃ τ : Slot, τ.ok ∧ ptr t inum τ = j ∧ j ≠ 0
  free_le : free_count s ≤ free_count t + k

/-- The data blocks that inode `inum` maps in `s` hold the same bytes in `t`. -/
def keeps_data (s t : fs_state) (inum : Nat) : Prop :=
  ∀ τ : Slot, τ.ok → τ.is_leaf → ptr s inum τ ≠ 0 →
    t.disk.blocks (ptr s inum τ) = s.disk.blocks (ptr s inum τ)

/-- What a call of `get_file_blkno` with `alloc = 1` for slot `σ` of a well-formed inode
achieves: the state stays well-formed and grows by at most `k` blocks, mapped data blocks
and the file size are untouched, the result is the pointer now stored in `σ` unless it is
`0`, and it is not `0` when `k` blocks were free. -/
structure alloc_ok (k : Nat) (s : fs_state) (inum : Nat) (σ : Slot) (r : Int × fs_state) :
    Prop where
  wf : wf r.2 inum
  grow : grow k s r.2 inum
  data : keeps_data s r.2 inum
  size_eq : (r.2.inodes inum).size = (s.inodes inum).size
  result : r.1 = 0 ∨ (ptr r.2 inum σ ≠ 0 ∧ r.1 = ((ptr r.2 inum σ : Nat) : Int))
  nonzero : k ≤ free_count s → r.1 ≠ 0

/-- Bytes of the file outside `[pos, pos + len)` that inode `inum` maps in `s` are the same
in `t`. -/
def frame_ok (s t : fs_state) (inum pos len : Nat) : Prop :=
  ∀ q, q / FS_BLOCK_SIZE < MAX_BLOCKS → ptr s inum (lslot (q / FS_BLOCK_SIZE)) ≠ 0 →
    (q < pos ∨ pos + len ≤ q) → file_byte t inum q = file_byte s inum q

/-- What the loop of `do_write` achieves on a well-formed inode when it starts with `cnt`
iterations to go at block `B`, offset `o` in the block, and `len` bytes of `buf` to copy;
`r` is the result of `do_write_loop`. -/
structure write_loop_ok (s : fs_state) (inum cnt B o : Nat) (buf : List Nat) (len : Nat)
    (r : Option Int × Nat × fs_state) : Prop where
  wf : wf r.2.2 inum
  grow : grow (3 * cnt) s r.2.2 inum
  frame : frame_ok s r.2.2 inum (B * FS_BLOCK_SIZE + o) len
  base : cnt = 0 → r.2.2 = s
  err : ∀ e, r.1 = some e → e = -ENOSPC
  rem : r.1 = none → r.2.1 = 0
  size_eq : r.1 = none → 0 < cnt →
    (r.2.2.inodes inum).size = ((s.inodes inum).size + len) % 4294967296
  written : r.1 = none → ∀ j, j < len →
    file_byte r.2.2 inum (B * FS_BLOCK_SIZE + o + j) = buf.getD j 0
  mapped : r.1 = none → ∀ n, B ≤ n → n < B + cnt → ptr r.2.2 inum (lslot n) ≠ 0
  succeeds : 3 * cnt ≤ free_count s → r.1 = none

/-- What `do_write(inum, buf, len, off)` achieves on a well-formed inode when the whole
range is addressable; `w` is the result of `do_write`. -/
structure write_ok (s : fs_state) (inum : Nat) (buf : List Nat) (len off : Nat)
    (w : Int × fs_state) : Prop where
  wf : wf w.2 inum
  grow : grow (3 * ((off + len) / FS_BLOCK_SIZE + 1 - off / FS_BLOCK_SIZE)) s w.2 inum
  frame : frame_ok s w.2 inum off len
  result : w.1 = -ENOSPC ∨ w.1 = (len : Int)
  size_eq : w.1 = (len : Int) →
    (w.2.inodes inum).size = ((s.inodes inum).size + len) % 4294967296
  written : w.1 = (len : Int) → ∀ j, j < len → file_byte w.2 inum (off + j) = buf.getD j 0
  mapped : w.1 = (len : Int) → ∀ n, off / FS_BLOCK_SIZE ≤ n → n ≤ (off + len) / FS_BLOCK_SIZE →
    ptr w.2 inum (lslot n) ≠ 0
  succeeds : 3 * ((off + len) / FS_BLOCK_SIZE + 1 - off / FS_BLOCK_SIZE) ≤ free_count s →
    w.1 = (len : Int)

/-! ## Example volumes -/

/-- An inode as `init_new_inode` leaves it for a regular file: size 0, no block. -/
def fresh_inode : fs_inode :=
  { uid := 1000, gid := 1000, mode := 0o100644, ctime := 0, mtime := 0, size := 0, nlink := 1,
    direct := fun _ => 0, indir_1 := 0, indir_2 := 0, pad := fun _ => 0 }

/-- A volume with the geometry of the image builder (1024 blocks, one block per bitmap,
four blocks of inodes, data from block 7) in which blocks `0 .. 7` are allocated and every
inode is fresh. -/
def fresh_vol : fs_state :=
  { inode_map_sz := 1, inode_region_sz := 4, block_map_sz := 1, num_blocks := 1024,
    root_inode := 1,
    inode_map := fun j => decide (j < 3),
    block_map := fun b => decide (b < 8),
    inodes := fun _ => fresh_inode,
    dirty_inodes := fun _ => false, dirty_maps := fun _ => false,
    disk := { nblks := 1024, blocks := fun _ => zeros },
    returned := [], stack := zeros }

/-- The five bytes of "hello". -/
def hello : List Nat := [104, 101, 108, 108, 111]

/-- The example volume in which inode 2 is a file of exactly one block: size 1024, logical
block 0 stored in block 8 (allocated, filled with 'A'), no other block. -/
def aligned_vol : fs_state :=
  { fresh_vol with
    block_map := fun b => decide (b < 9)
    inodes := fun j =>
      if j = 2 then
        { fresh_inode with size := 1024, direct := fun n => if n = 0 then 8 else 0 }
      else fresh_inode
    disk := { nblks := 1024, blocks := fun b => if b = 8 then (fun _ => 65) else zeros } }

/-- The example volume with every block allocated, in which inode 2 is a file of 5 bytes
whose logical block 0 is block 8. -/
def full_vol : fs_state :=
  { fresh_vol with
    block_map := fun _ => true
    inodes := fun j =>
      if j = 2 then
        { fresh_inode with size := 5, direct := fun n => if n = 0 then 8 else 0 }
      else fresh_inode }

/-! ## Vocabulary for truncation -/

/-- All slots of a file, in the order in which `do_truncate` visits them: for every entry
`m` of the double-indirect block the entries below it and then the entry itself, the
double-indirect pointer, the entries of the single-indirect block, the single-indirect
pointer, the direct pointers. -/
def all_slots : List Slot :=
  (List.range PTRS_PER_BLK).flatMap
      (fun m => (List.range PTRS_PER_BLK).map (Slot.leaf2 m) ++ [Slot.mid m]) ++
    [Slot.ind2] ++ (List.range PTRS_PER_BLK).map Slot.leaf1 ++ [Slot.ind1] ++
    (List.range N_DIRECT).map Slot.direct

/-- The test `!= 0` that `do_truncate` applies to a pointer before releasing it. -/
def nonzero (b : Nat) : Bool := decide (b ≠ 0)

/-- The blocks that the non-zero pointers of inode `inum` name, in the order of
`all_slots`. -/
def owned_blocks (s : fs_state) (inum : Nat) : List Nat :=
  (all_slots.map (ptr s inum)).filter nonzero

/-- The state after `return_blk` has been called on the blocks of `l`, first to last. -/
def release_all (s : fs_state) (l : List Nat) : fs_state :=
  l.foldl return_blk s

/-- The inode that `do_truncate` leaves: no block, size 0, the new modification time. -/
def truncated_inode (now : Nat) (ino : fs_inode) : fs_inode :=
  { ino with
    direct := fun j => if j < N_DIRECT then 0 else ino.direct j
    indir_1 := 0
    indir_2 := 0
    size := 0
    mtime := now % 4294967296 }

/-! ## Repeated writes -/

/-- A buffer of 1023 bytes, each 'K'. -/
def filler : List Nat := List.replicate 1023 75

/-- The state after `k` calls `do_write(inum, buf, len, off)` in a row, results dropped. -/
def write_repeat (inum : Nat) (buf : List Nat) (len off now : Nat) : Nat → fs_state → fs_state
  | 0, s => s
  | k + 1, s => (do_write (write_repeat inum buf len off now k s) inum buf len off now).2

/-- The state after the calls `do_write(inum, buf, len, off)` for the triples
`(buf, len, off)` of the list, first to last, results dropped. -/
def run_writes (inum now : Nat) : List (List Nat × Nat × Nat) → fs_state → fs_state
  | [], s => s
  | w :: ws, s => run_writes inum now ws (do_write s inum w.1 w.2.1 w.2.2 now).2

/-- The blocks allocated in `s` that inode `inum` does not own are the blocks allocated
in `s0`. -/
def only_owned_new (s0 s : fs_state) (inum : Nat) : Prop :=
  ∀ c, s0.block_map c = true ↔ (s.block_map c = true ∧ c ∉ owned_blocks s inum)

/-! ## Example volumes with directories -/

/-- A directory entry laid out as the image builder does: the three bit fields in one
little-endian word, then the name, NUL padded to 28 bytes. -/
def put_dirent (blk : Block) (e valid isDir inode : Nat) (name : List Nat) : Block := fun i =>
  if 32 * e ≤ i ∧ i < 32 * e + 4 then
    (valid % 2 + 2 * (isDir % 2) + 4 * inode) / 256 ^ (i - 32 * e) % 256
  else if 32 * e + 4 ≤ i ∧ i < 32 * e + 32 then name.getD (i - (32 * e + 4)) 0
  else blk i

/-- A directory inode whose only block is `blk`. -/
def dir_inode (blk size nlink : Nat) : fs_inode :=
  { fresh_inode with mode := 0o40755, size := size, nlink := nlink,
                     direct := fun n => if n = 0 then blk else 0 }

/-- A freshly formatted volume without `.` and `..`: inode 1 is the root directory, its
block 7 holds no entry, every other inode is free. -/
def empty_root_vol : fs_state :=
  { fresh_vol with
    inode_map := fun j => decide (j < 2)
    inodes := fun j => if j = 1 then dir_inode 7 0 0 else fresh_inode }

/-- The root block of `tree_vol`: `.`, `..`, the names `f` and `g` of inode 2, and the
directory `d`. -/
def tree_root_blk : Block :=
  put_dirent (put_dirent (put_dirent (put_dirent (put_dirent zeros 0 1 1 1 [46]) 1 1 1 1 [46, 46])
    2 1 0 2 [102]) 3 1 0 2 [103]) 4 1 1 3 [100]

/-- The block of directory `d` of `tree_vol`: `.` and `..` only. -/
def tree_d_blk : Block :=
  put_dirent (put_dirent zeros 0 1 1 3 [46]) 1 1 1 1 [46, 46]

/-- A volume with `.` and `..` entries: the root directory (inode 1, block 7) holds the
regular file inode 2 under the two names `f` and `g` (5 bytes in block 9, `nlink = 2`)
and the directory `d` (inode 3, block 8), which holds `.` and `..` only. -/
def tree_vol : fs_state :=
  { fresh_vol with
    inode_map := fun j => decide (j < 4)
    block_map := fun b => decide (b < 10)
    inodes := fun j =>
      if j = 1 then dir_inode 7 160 3
      else if j = 2 then
        { fresh_inode with size := 5, nlink := 2, direct := fun n => if n = 0 then 9 else 0 }
      else if j = 3 then dir_inode 8 64 2
      else fresh_inode
    disk := { nblks := 1024,
              blocks := fun b => if b = 7 then tree_root_blk else if b = 8 then tree_d_blk
                else zeros } }

/-- A root directory without `.` and `..` that holds the file inode 2 under the name `a`. -/
def one_file_vol : fs_state :=
  { fresh_vol with
    inodes := fun j => if j = 1 then dir_inode 7 32 0 else fresh_inode
    disk := { nblks := 1024,
              blocks := fun b => if b = 7 then put_dirent zeros 0 1 0 2 [97] else zeros } }

/-- A root directory in which two valid entries carry the name `a`: slot 0 for inode 2,
slot 1 for inode 3. -/
def twin_vol : fs_state :=
  { fresh_vol with
    inode_map := fun j => decide (j < 4)
    inodes := fun j => if j = 1 then dir_inode 7 64 0 else fresh_inode
    disk := { nblks := 1024,
              blocks := fun b =>
                if b = 7 then put_dirent (put_dirent zeros 0 1 0 2 [97]) 1 1 0 3 [97]
                else zeros } }

/-- A name of 28 bytes, one more than a directory entry stores. -/
def long_name : List Nat := List.replicate 28 97

/-- A root directory without `.` and `..` that holds the empty directory inode 2 (size 0,
no block) under the name `d`. -/
def sub_dir_vol : fs_state :=
  { fresh_vol with
    inodes := fun j =>
      if j = 1 then dir_inode 7 32 0 else if j = 2 then dir_inode 0 0 1 else fresh_inode
    disk := { nblks := 1024,
              blocks := fun b => if b = 7 then put_dirent zeros 0 1 1 2 [100] else zeros } }

/-! ## Vocabulary for directory blocks -/

/-- The name stored in entry `e` of `blk`, read as a C string, is `name`. -/
def name_is (blk : Block) (e : Nat) (name : List Nat) : Prop :=
  (∀ j, j < name.length → de_name blk e j = name.getD j 0) ∧ de_name blk e name.length = 0

instance (blk : Block) (e : Nat) (name : List Nat) : Decidable (name_is blk e name) := by
  unfold name_is; infer_instance

/-- Entry `e` of `blk` is valid and carries the name `name`. -/
def entry_named (blk : Block) (e : Nat) (name : List Nat) : Prop :=
  de_valid blk e = 1 ∧ name_is blk e name

instance (blk : Block) (e : Nat) (name : List Nat) : Decidable (entry_named blk e name) := by
  unfold entry_named; infer_instance

/-- Entry `e` is the first valid entry of `blk` that carries the name `name`. -/
def first_entry (blk : Block) (name : List Nat) (e : Nat) : Prop :=
  e < DIRENTS_PER_BLK ∧ entry_named blk e name ∧ ∀ e', e' < e → ¬ entry_named blk e' name

instance (blk : Block) (name : List Nat) (e : Nat) : Decidable (first_entry blk name e) := by
  unfold first_entry; infer_instance

/-- No valid entry of `blk` carries the name `name`. -/
def no_entry (blk : Block) (name : List Nat) : Prop :=
  ∀ e, e < DIRENTS_PER_BLK → ¬ entry_named blk e name

instance (blk : Block) (name : List Nat) : Decidable (no_entry blk name) := by
  unfold no_entry; infer_instance

/-- Entry `e` is the first entry of `blk` with `valid = 0`. -/
def first_free (blk : Block) (e : Nat) : Prop :=
  e < DIRENTS_PER_BLK ∧ de_valid blk e = 0 ∧ ∀ e', e' < e → de_valid blk e' = 1

instance (blk : Block) (e : Nat) : Decidable (first_free blk e) := by
  unfold first_free; infer_instance

/-- At most one valid entry of `blk` carries the name `name` (as in every block whose
valid entry names are pairwise distinct). -/
def unique_name (blk : Block) (name : List Nat) : Prop :=
  ∀ e1, e1 < DIRENTS_PER_BLK → ∀ e2, e2 < DIRENTS_PER_BLK →
    entry_named blk e1 name → entry_named blk e2 name → e1 = e2

instance (blk : Block) (name : List Nat) : Decidable (unique_name blk name) := by
  unfold unique_name; infer_instance

/-- The number of block 0 of directory `dir`, as `get_file_blkno` returns it. -/
def dir_blkno (s : fs_state) (dir : Nat) : Int := int_of_u32 ((s.inodes dir).direct 0)

/-- Block 0 of directory `dir` as the device holds it. -/
def dir_block (s : fs_state) (dir : Nat) : Block := s.disk.blocks (dir_blkno s dir).toNat

/-- Block 0 of directory `dir` exists and can be read. -/
def has_block0 (s : fs_state) (dir : Nat) : Prop :=
  0 < dir_blkno s dir ∧ dir_blkno s dir < s.disk.nblks

instance (s : fs_state) (dir : Nat) : Decidable (has_block0 s dir) := by
  unfold has_block0; infer_instance

/-- Inode `dir` is a directory whose block 0 can be read and holds `name` in entry `e`,
the first valid entry of that name. -/
def dir_entry (s : fs_state) (dir : Nat) (name : List Nat) (e : Nat) : Prop :=
  S_ISDIR (s.inodes dir).mode = true ∧ has_block0 s dir ∧ first_entry (dir_block s dir) name e

instance (s : fs_state) (dir : Nat) (name : List Nat) (e : Nat) :
    Decidable (dir_entry s dir name e) := by
  unfold dir_entry; infer_instance

/-- Bytes of `blk2` outside entry `e` are those of `blk1`. -/
def same_outside (blk1 blk2 : Block) (e : Nat) : Prop :=
  ∀ i, (i < 32 * e ∨ 32 * e + 32 ≤ i) → blk2 i = blk1 i

/-- The state that `do_unlink` and `do_rmdir` reach when they remove entry `e` of block 0 of
directory `dir`: the entry is invalidated on the device, the inode it names is truncated
and released, the size of `dir` is reduced, the metadata is written back. -/
def remove_entry (s : fs_state) (dir e now : Nat) : fs_state :=
  let tgt := de_inode (dir_block s dir) e
  let s1 := s.disk_write (dir_blkno s dir) (set_de_valid (dir_block s dir) e 0)
  let s2 := (do_truncate s1 tgt 0 now).2
  let s4 := return_inode (mark_inode s2 tgt) tgt
  flush_metadata (mark_inode
    (s4.set_inode dir (fun ino => { ino with size := dir_size_less ino.size })) dir)

/-- Directory `dir` and inode `tgt` are well-formed files of `s` and no pointer of `tgt`
names block 0 of `dir`. -/
structure dir_and_file (s : fs_state) (dir tgt : Nat) : Prop where
  wf_dir : wf s dir
  wf_tgt : wf s tgt
  apart : ∀ σ : Slot, σ.ok → ptr s tgt σ ≠ (s.inodes dir).direct 0

/-- The list holds the bytes of a C string: none of them is the terminator. -/
def is_cstr (name : List Nat) : Prop := ∀ c, c ∈ name → c ≠ 0

instance (name : List Nat) : Decidable (is_cstr name) := by
  unfold is_cstr; infer_instance

/-- The name `name` is stored whole by `strncpy(de[e].name, name, 27)` and ends inside the
name field: it has at most 26 bytes, or 27 and the last byte of the field is already 0. -/
def name_fits (blk : Block) (e : Nat) (name : List Nat) : Prop :=
  name.length < FS_FILENAME_SIZE - 1 ∨
    (name.length = FS_FILENAME_SIZE - 1 ∧ de_name blk e (FS_FILENAME_SIZE - 1) = 0)

instance (blk : Block) (e : Nat) (name : List Nat) : Decidable (name_fits blk e name) := by
  unfold name_fits; infer_instance

/-- The state that `do_rename` reaches when it gives entry `e` of block 0 of directory `dir`
the name `name`. -/
def rename_entry (s : fs_state) (dir e : Nat) (name : List Nat) (now : Nat) : fs_state :=
  flush_metadata (mark_inode
    ((s.disk_write (dir_blkno s dir) (strncpy_name (dir_block s dir) e name)).set_inode dir
      (fun ino => { ino with mtime := now % 4294967296 })) dir)

/-- The inumber that `get_free_inode` hands out in state `s`, `0` if no inode is free. -/
def free_inode (s : fs_state) : Nat := first_clear s.inode_map (s.n_inodes - 1) 1

/-- The state that `do_mkentry` reaches when it fills entry `e` of block 0 of directory
`dir`: a new inode is initialised, the entry is set and written to the device, the size of
`dir` grows by one entry, the metadata is written back. -/
def add_entry (s : fs_state) (dir e : Nat) (leaf : List Nat) (mode ftype now uid gid : Nat) :
    fs_state :=
  let r3 := init_new_inode s mode ftype now uid gid
  let r4 := set_dir_entry r3.2 (dir_block s dir) e r3.1.toNat leaf
  flush_metadata (mark_inode
    ((r4.2.disk_write (dir_blkno s dir) r4.1).set_inode dir
      (fun ino => { ino with size := (ino.size + 32) % 4294967296 })) dir)

/-- The inode record that `do_mkentry` leaves for the new inode: the zeroed record with the
fields that `init_new_inode` sets, and the link of the new entry. -/
def new_inode (mode ftype now uid gid : Nat) : fs_inode :=
  { zero_inode with
    mode := mode % 4294967296 - file_type mode * 4096 + file_type ftype * 4096
    ctime := now % 4294967296
    mtime := now % 4294967296
    nlink := 1
    uid := uid % 65536
    gid := gid % 65536 }

/-- The block that `set_dir_entry` produces. -/
def entry_block (blk : Block) (e isDir inum : Nat) (name : List Nat) : Block :=
  set_de_inode (strncpy_name (set_de_isDir (set_de_valid blk e 1) e isDir) e name) e inum

/-! ## Vocabulary and examples for paths, `stat` and the block map -/

/-- The root directory block that the image builder lays out (`mktest.c`, lines 93-240);
`FS_VERSION` is the build flag of that name.  Slots 2 and 5 are invalid entries that carry
the names of slots 3 and 6; slot 7 is the entry `file.7`, whose inode is the sixth that the
builder hands out, or the seventh in a build with `FS_VERSION > 1`, which has one more file
in `dir1`. -/
def mktest_root_blk (FS_VERSION : Nat) : Block :=
  let b1 :=
    if FS_VERSION > 0 then put_dirent (put_dirent zeros 0 1 1 1 [46]) 1 1 1 1 [46, 46]
    else zeros
  let b2 := put_dirent (put_dirent b1 2 0 0 1717 [102, 105, 108, 101, 46, 65]) 3 1 0 2
    [102, 105, 108, 101, 46, 65]
  let b3 :=
    if FS_VERSION > 0 then
      put_dirent b2 4 1 0 2 [102, 105, 108, 101, 95, 108, 105, 110, 107, 46, 65]
    else b2
  let b4 := put_dirent (put_dirent b3 5 0 1 2 [100, 105, 114, 49]) 6 1 1 3 [100, 105, 114, 49]
  put_dirent b4 7 1 0 (if FS_VERSION > 1 then 7 else 6) [102, 105, 108, 101, 46, 55]

/-- Invariant 5 of the volume format: no valid entry of the first block of a directory
names inode 0. -/
def no_zero_entry (s : fs_state) : Prop :=
  ∀ i e, S_ISDIR (s.inodes i).mode = true → has_block0 s i → e < DIRENTS_PER_BLK →
    de_valid (dir_block s i) e = 1 → de_inode (dir_block s i) e ≠ 0

/-- Invariant 3 of the volume format, for the first pointer of a directory: it is 0 or
names a block of the device. -/
def dir_blocks_ok (s : fs_state) : Prop :=
  ∀ i, S_ISDIR (s.inodes i).mode = true → dir_blkno s i = 0 ∨ has_block0 s i

/-- The first slot of `blk` that holds a valid entry named `name`, if there is one. -/
def find_entry (blk : Block) (name : List Nat) : Option Nat :=
  (List.range DIRENTS_PER_BLK).find? (fun e => decide (entry_named blk e name))

/-- The reference walk of the path resolver, as the specification words it: for each
token, `-ENOTDIR` if the current inode is not a directory, `-ENOENT` if the directory has
no valid entry with that name, otherwise on to the inumber of the entry; the final inumber
when the tokens are used up. -/
def reference_walk (s : fs_state) : List (List Nat) → Nat → Int
  | [], inum => (inum : Int)
  | tok :: toks, inum =>
    if ¬ S_ISDIR (s.inodes inum).mode then -ENOTDIR
    else
      match (if has_block0 s inum then find_entry (dir_block s inum) tok else none) with
      | none => -ENOENT
      | some e => reference_walk s toks (de_inode (dir_block s inum) e)

/-- A root directory whose slot 0 is a valid entry `z` that names inode 0. -/
def zero_entry_vol : fs_state :=
  { fresh_vol with
    inodes := fun j => if j = 1 then dir_inode 7 32 0 else fresh_inode
    disk := { nblks := 1024,
              blocks := fun b => if b = 7 then put_dirent zeros 0 1 0 0 [122] else zeros } }

/-- The volume `fresh_vol` on a device whose free blocks still hold the bytes of a file
that was removed: every byte of the blocks from 8 on is `'K'`. -/
def stale_vol : fs_state :=
  { fresh_vol with
    disk := { nblks := 1024, blocks := fun b => if 8 ≤ b then (fun _ => 75) else zeros } }

/-- The volume `stale_vol` in which inode 2 already has its double-indirect block, the
empty block 8. -/
def indir2_vol : fs_state :=
  { fresh_vol with
    block_map := fun b => decide (b < 9)
    inodes := fun j => if j = 2 then { fresh_inode with indir_2 := 8 } else fresh_inode
    disk := { nblks := 1024, blocks := fun b => if 9 ≤ b then (fun _ => 75) else zeros } }

/-! ## Vocabulary and examples for names, sizes and full directories -/

/-- A name of 27 bytes, as many as a directory entry stores. -/
def name27 : List Nat := List.replicate 27 97

/-- A directory block whose slot 0 is invalid and still holds 28 bytes `'K'` in its name
field. -/
def stale_slot_blk : Block := fun i => if 4 ≤ i ∧ i < 32 then 75 else 0

/-- A root directory whose slot 0 is the valid entry `a` of inode 2; the name field holds
`'a'`, 26 NUL bytes and a last byte `'K'`. -/
def stale_name_vol : fs_state :=
  { fresh_vol with
    inodes := fun j => if j = 1 then dir_inode 7 32 0 else fresh_inode
    disk := { nblks := 1024,
              blocks := fun b =>
                if b = 7 then put_dirent zeros 0 1 0 2 ([97] ++ List.replicate 26 0 ++ [75])
                else zeros } }

/-- A directory block with 32 valid entries of inode 2, named by the single letters from
`'A'` on. -/
def full_root_blk : Block := fun i =>
  if i % 32 = 0 then 9 else if i % 32 = 4 then 65 + i / 32 else 0

/-- A root directory whose block 0 is full. -/
def full_dir_vol : fs_state :=
  { fresh_vol with
    inodes := fun j => if j = 1 then dir_inode 7 1024 0 else fresh_inode
    disk := { nblks := 1024, blocks := fun b => if b = 7 then full_root_blk else zeros } }

/-- A root directory of size 5 that holds two valid entries: the regular file `a` (inode 2)
and the empty directory `d` (inode 3, size 0, no block). -/
def short_vol : fs_state :=
  { fresh_vol with
    inode_map := fun j => decide (j < 4)
    inodes := fun j =>
      if j = 1 then dir_inode 7 5 0 else if j = 3 then dir_inode 0 0 1 else fresh_inode
    disk := { nblks := 1024,
              blocks := fun b =>
                if b = 7 then put_dirent (put_dirent zeros 0 1 0 2 [97]) 1 1 1 3 [100]
                else zeros } }

/-- The number of valid entries of a directory block. -/
def count_valid (blk : Block) : Nat :=
  (List.range DIRENTS_PER_BLK).countP (fun e => decide (de_valid blk e = 1))

/-- The number of valid entries of directory `d`, whose entries are in its block 0 (the
format uses a single block of entries per directory); 0 when it has no block 0. -/
def valid_count (s : fs_state) (d : Nat) : Nat :=
  if has_block0 s d then count_valid (dir_block s d) else 0

/-- Invariant 4 of the volume format: the size of every allocated directory is 32 times
the number of its valid entries. -/
def size_ok (s : fs_state) : Prop :=
  ∀ d, s.inode_map d = true → S_ISDIR (s.inodes d).mode = true →
    (s.inodes d).size = 32 * valid_count s d

/-- The volume `aligned_vol` without a free block. -/
def aligned_full_vol : fs_state := { aligned_vol with block_map := fun _ => true }

/-- A root directory whose only valid entry is `..`, naming the empty directory inode 2
(size 0, no block), as `do_mkentry(1, "..", 0755, S_IFDIR)` leaves it on a volume without
`.` and `..`. -/
def dotdot_vol : fs_state :=
  { fresh_vol with
    inodes := fun j =>
      if j = 1 then dir_inode 7 32 0 else if j = 2 then dir_inode 0 0 1 else fresh_inode
    disk := { nblks := 1024,
              blocks := fun b => if b = 7 then put_dirent zeros 0 1 1 2 [46, 46] else zeros } }

/-! ## Vocabulary for the whole volume -/

/-- What one allocation of block `b` for inode `inum` leaves alone: the other inode
records, the mode of the inode, and every block of the device other than `b` and the index
blocks of the inode. -/
structure step_local (s t : fs_state) (inum b : Nat) : Prop where
  others : ∀ j, j ≠ inum → t.inodes j = s.inodes j
  mode_eq : (t.inodes inum).mode = (s.inodes inum).mode
  disk_eq : ∀ c, c ≠ b → (∀ τ : Slot, τ.ok → ¬ τ.is_leaf → ptr s inum τ ≠ c) →
    t.disk.blocks c = s.disk.blocks c

/-- What a call of `get_file_blkno` with `alloc = 1` for slot `σ` of inode `inum` leaves
alone: the other inode records, the mode of the inode, the pointers in the data slots other
than `σ`, and every allocated block that is not an index block of the inode. -/
structure alloc_local (s t : fs_state) (inum : Nat) (σ : Slot) : Prop where
  others : ∀ j, j ≠ inum → t.inodes j = s.inodes j
  mode_eq : (t.inodes inum).mode = (s.inodes inum).mode
  leaf_eq : ∀ τ : Slot, τ.ok → τ.is_leaf → τ ≠ σ → ptr t inum τ = ptr s inum τ
  disk_eq : ∀ c, s.block_map c = true → (∀ τ : Slot, τ.ok → ¬ τ.is_leaf → ptr s inum τ ≠ c) →
    t.disk.blocks c = s.disk.blocks c

/-- The allocation invariant of the volume (section 3, invariants 1-3): every inode record
is well-formed, and no block is named by pointers of two inodes. -/
structure vol_ok (s : fs_state) : Prop where
  wf : ∀ i, wf s i
  apart : ∀ i j : Nat, i ≠ j → ∀ σ τ : Slot, σ.ok → τ.ok → ptr s i σ ≠ 0 →
    ptr s i σ ≠ ptr s j τ

/-- Every pointer that is set in `t` is the pointer that the same slot holds in `s`:
pointers are kept or cleared. -/
def ptr_sub (s t : fs_state) : Prop :=
  ∀ (j : Nat) (τ : Slot), τ.ok → ptr t j τ ≠ 0 → ptr t j τ = ptr s j τ

/-- One call of an operation that changes block maps or directories. -/
inductive fs_call where
  | write (inum : Nat) (buf : List Nat) (len off now : Nat)
  | truncate (inum now : Nat)
  | mkentry (dir : Nat) (leaf : List Nat) (mode ftype now uid gid : Nat)
  | unlink (dir : Nat) (leaf : List Nat) (now : Nat)
  | rmdir (dir : Nat) (leaf : List Nat) (now : Nat)
  | rename (srcdir : Nat) (src_leaf : List Nat) (dstdir : Nat) (dst_leaf : List Nat) (now : Nat)

/-- The state after one call (`do_write`, `do_truncate(i, 0)`, `do_mkentry`, `do_unlink`,
`do_rmdir`, `do_rename`); the result of the call is dropped. -/
def run_call (s : fs_state) : fs_call → fs_state
  | .write i buf len off now => (do_write s i buf len off now).2
  | .truncate i now => (do_truncate s i 0 now).2
  | .mkentry d l m f n u g => (do_mkentry s d l m f n u g).2
  | .unlink d l n => (do_unlink s d l n).2
  | .rmdir d l n => (do_rmdir s d l n).2
  | .rename d1 a d2 b n =>
    match do_rename s (d1 : Int) a (d2 : Int) b n with
    | some r => r.2
    | none => s

/-- The state after a sequence of calls, first to last. -/
def run_calls (s : fs_state) (cs : List fs_call) : fs_state := cs.foldl run_call s

/-- The call stays inside the blocks that a file can address: a write ends below logical
block `MAX_BLOCKS` (from that index on `get_file_blkno` indexes its buffer out of bounds
or refuses). -/
def fs_call.addressable : fs_call → Prop
  | .write _ _ len off _ => (off + len) / FS_BLOCK_SIZE < MAX_BLOCKS
  | _ => True

/-- Every name field of the block has a NUL in its last byte: the names of the format are
NUL-terminated in 28 bytes. -/
def terminated (blk : Block) : Prop :=
  ∀ e, e < DIRENTS_PER_BLK → de_name blk e (FS_FILENAME_SIZE - 1) = 0

instance (blk : Block) : Decidable (terminated blk) := by
  unfold terminated; infer_instance

/-- No two valid entries of the block carry the same name. -/
def names_unique (blk : Block) : Prop :=
  ∀ name : List Nat, is_cstr name → name.length < FS_FILENAME_SIZE → unique_name blk name

/-- Block 0 of directory `dir`, when the directory has one, holds NUL-terminated names and
no two valid entries of it have equal names. -/
def names_ok (s : fs_state) (dir : Nat) : Prop :=
  has_block0 s dir → terminated (dir_block s dir) ∧ names_unique (dir_block s dir)

/-! ## Vocabulary and examples for a failing block allocation -/

/-- If the result of the call is `0`, no block is free in the state it returns. -/
def zero_is_full (r : Int × fs_state) : Prop :=
  r.1 = 0 → ∀ j, ¬ is_free r.2 j

/-- Block allocation fails in the loop of `do_write` (lines 278-301) with `cnt` iterations
to go: in an iteration that the loop reaches, `get_file_blk(inum, blkindex, blk, 1)` returns
`0` and the state it returns is one in which `get_free_blk` returns `0`.  With `alloc = 1`
the function `get_file_blkno` returns `0` either for an index past the addressable range,
without a call of `get_free_blk`, or right after a call of `get_free_blk` that returned `0`,
in the state of that call. -/
def alloc_fails_loop (inum now : Nat) : Nat → Nat → Nat → List Nat → Nat → fs_state → Bool
  | 0, _, _, _, _, _ => false
  | cnt + 1, blkindex, offset, buf, len, s =>
    let r := get_file_blk s inum blkindex s.stack 1
    if r.1 ≤ 0 then decide (r.1 = 0 ∧ (get_free_blk r.2.2).1 = 0)
    else
      let l := min (FS_BLOCK_SIZE - offset) len
      let blk := memcpy_to_blk r.2.1 offset buf l
      let s1 := r.2.2.disk_write r.1 blk
      let s2 := s1.set_inode inum (fun ino =>
        { ino with size := (ino.size + l) % 4294967296, mtime := now % 4294967296 })
      alloc_fails_loop inum now cnt (blkindex + 1) 0 (buf.drop l) (len - l) s2

/-- Block allocation fails during the call `do_write(inum, buf, len, offset)` (for
`offset ≤ size`): it fails in the loop of the call. -/
def alloc_fails (s : fs_state) (inum : Nat) (buf : List Nat) (len offset now : Nat) : Bool :=
  let blkidx1 := offset / FS_BLOCK_SIZE
  let blkidx2 := (offset + len) / FS_BLOCK_SIZE
  alloc_fails_loop inum now (blkidx2 + 1 - blkidx1) blkidx1 (offset - blkidx1 * FS_BLOCK_SIZE)
    buf len s

/-- The volume `fresh_vol` in which inode 2 has the size `65799 * 1024` and no block: the
offset `65799 * 1024` is not past the end of the file, and logical block 65799 is the first
one past the `6 + 256 + 256 * 256 + 1` indices that `get_file_blkno` accepts. -/
def long_file_vol : fs_state :=
  { fresh_vol with
    inodes := fun j => if j = 2 then { fresh_inode with size := 67378176 } else fresh_inode }

/-- The volume `fresh_vol` in which the first direct pointer of inode 2 is 5000, a number
that is no block of the device of 1024 blocks. -/
def bad_ptr_vol : fs_state :=
  { fresh_vol with
    inodes := fun j =>
      if j = 2 then { fresh_inode with direct := fun n => if n = 0 then 5000 else 0 }
      else fresh_inode }

/-- A volume of nine blocks in which block 8 is the only free block and every inode is
fresh. -/
def last_blk_vol : fs_state :=
  { fresh_vol with
    num_blocks := 9
    disk := { nblks := 9, blocks := fun _ => zeros } }

/-! ## Basic facts -/

theorem get32_zeros (n : Nat) : get32 zeros n = 0 := by
  simp [get32, zeros]

theorem get32_set32_same (b : Block) (n v : Nat) :
    get32 (set32 b n v) n = v % 4294967296 := by
  simp only [get32, set32]
  have h1 : (4 * n + 1 = 4 * n) = False := by simp
  have h2 : (4 * n + 2 = 4 * n) = False := by simp
  have h3 : (4 * n + 3 = 4 * n) = False := by simp
  have h4 : (4 * n + 2 = 4 * n + 1) = False := by simp
  have h5 : (4 * n + 3 = 4 * n + 1) = False := by simp
  have h6 : (4 * n + 3 = 4 * n + 2) = False := by simp
  simp only [h1, h2, h3, h4, h5, h6, if_true, if_false]
  omega

theorem get32_set32_ne (b : Block) {n m : Nat} (h : m ≠ n) (v : Nat) :
    get32 (set32 b n v) m = get32 b m := by
  simp only [get32, set32]
  have e0 : ∀ a c : Nat, a < 4 → c < 4 → (4 * m + a = 4 * n + c) = False := by
    intro a c ha hc; simp only [eq_iff_iff, iff_false]; omega
  have a0 := e0 0 0 (by omega) (by omega)
  have a1 := e0 0 1 (by omega) (by omega)
  have a2 := e0 0 2 (by omega) (by omega)
  have a3 := e0 0 3 (by omega) (by omega)
  have b0 := e0 1 0 (by omega) (by omega)
  have b1 := e0 1 1 (by omega) (by omega)
  have b2 := e0 1 2 (by omega) (by omega)
  have b3 := e0 1 3 (by omega) (by omega)
  have c0 := e0 2 0 (by omega) (by omega)
  have c1 := e0 2 1 (by omega) (by omega)
  have c2 := e0 2 2 (by omega) (by omega)
  have c3 := e0 2 3 (by omega) (by omega)
  have d0 := e0 3 0 (by omega) (by omega)
  have d1 := e0 3 1 (by omega) (by omega)
  have d2 := e0 3 2 (by omega) (by omega)
  have d3 := e0 3 3 (by omega) (by omega)
  simp only [Nat.add_zero] at a0 a1 a2 a3 b0 c0 d0
  simp only [a0, a1, a2, a3, b0, b1, b2, b3, c0, c1, c2, c3, d0, d1, d2, d3, if_false]

theorem int_of_u32_lt {v : Nat} (h : v < 2147483648) : int_of_u32 v = (v : Int) := by
  have h1 : v % 4294967296 = v := Nat.mod_eq_of_lt (by omega)
  simp [int_of_u32, h1, h]

theorem int_of_u32_zero : int_of_u32 0 = 0 := by
  simp [int_of_u32]

theorem blkdev_read_valid (d : blkdev) {b : Nat} (h : b < d.nblks) (buf : Block) :
    d.read (b : Int) buf = (0, d.blocks b) := by
  have h1 : (0 : Int) ≤ (b : Int) ∧ (b : Int) < (d.nblks : Int) := ⟨by omega, by omega⟩
  simp [blkdev.read, h1]

theorem blkdev_write_valid (d : blkdev) {b : Nat} (h : b < d.nblks) (buf : Block) :
    d.write (b : Int) buf =
      { d with blocks := fun c => if c = b then buf else d.blocks c } := by
  have h1 : (0 : Int) ≤ (b : Int) ∧ (b : Int) < (d.nblks : Int) := ⟨by omega, by omega⟩
  simp [blkdev.write, h1]

theorem blkdev_write_nblks (d : blkdev) (c : Int) (buf : Block) :
    (d.write c buf).nblks = d.nblks := by
  unfold blkdev.write
  split_ifs <;> rfl

theorem blkdev_write_blocks (d : blkdev) {b : Nat} (h : b < d.nblks) (buf : Block) :
    (d.write (b : Int) buf).blocks = fun c => if c = b then buf else d.blocks c := by
  rw [blkdev_write_valid d h]

theorem lslot_ok {n : Nat} (h : n < MAX_BLOCKS) : (lslot n).ok := by
  unfold lslot
  split_ifs with h1 h2
  · exact h1
  · exact h2
  · simp only [Slot.ok]
    refine ⟨?_, Nat.mod_lt _ (by decide)⟩
    rw [Nat.div_lt_iff_lt_mul (by decide)]
    simp only [MAX_BLOCKS] at h
    omega

theorem wf.ptr_lt {s : fs_state} {i : Nat} (h : wf s i) {σ : Slot} (hσ : σ.ok)
    (hp : ptr s i σ ≠ 0) : ptr s i σ < s.disk.nblks ∧ ptr s i σ < 2147483648 := by
  have := h.ptr_ok σ hσ hp
  have := h.nblks_le
  have := h.nblks_lt
  omega

/-- Reading an index or data block named by a non-zero pointer of a well-formed inode. -/
theorem wf.read {s : fs_state} {i : Nat} (h : wf s i) {σ : Slot} (hσ : σ.ok)
    (hp : ptr s i σ ≠ 0) (buf : Block) :
    s.disk.read (int_of_u32 (ptr s i σ)) buf = (0, s.disk.blocks (ptr s i σ)) := by
  have h1 := h.ptr_lt hσ hp
  rw [int_of_u32_lt h1.2, blkdev_read_valid _ h1.1]

theorem get_file_blkno_noalloc {s : fs_state} {i n : Nat} (h : wf s i) (hn : n < MAX_BLOCKS) :
    get_file_blkno s i n 0 = (((ptr s i (lslot n) : Nat) : Int), s) := by
  unfold get_file_blkno lslot
  by_cases h1 : n < N_DIRECT
  · simp only [h1, if_true]
    by_cases h2 : (s.inodes i).direct n = 0
    · simp [h2, ptr]
    · have := h.ptr_lt (σ := .direct n) h1 h2
      simp only [ptr] at this
      simp [h2, ptr, int_of_u32_lt this.2]
  · simp only [h1, if_false]
    by_cases h2 : n - N_DIRECT < PTRS_PER_BLK
    · simp only [h2, if_true]
      by_cases h3 : (s.inodes i).indir_1 = 0
      · simp [h3, ptr]
      · have hr := h.read (σ := .ind1) trivial h3 s.stack
        simp only [ptr] at hr
        simp only [h3, if_false, get_file_blkno_indir1, hr, ptr]
        by_cases h4 : get32 (s.disk.blocks (s.inodes i).indir_1) (n - N_DIRECT) = 0
        · simp [h4]
        · have := h.ptr_lt (σ := .leaf1 (n - N_DIRECT)) h2 (by simpa [ptr, h3] using h4)
          simp only [ptr, h3, if_false] at this
          simp [h4, int_of_u32_lt this.2]
    · simp only [h2, if_false]
      have h5 : ¬ (n - N_DIRECT - PTRS_PER_BLK > PTRS_PER_BLK * PTRS_PER_BLK) := by
        simp only [MAX_BLOCKS] at hn; omega
      have hm : (n - N_DIRECT - PTRS_PER_BLK) / PTRS_PER_BLK < PTRS_PER_BLK := by
        rw [Nat.div_lt_iff_lt_mul (by decide)]; simp only [MAX_BLOCKS] at hn; omega
      have hk : n - N_DIRECT - PTRS_PER_BLK - (n - N_DIRECT - PTRS_PER_BLK) / PTRS_PER_BLK * PTRS_PER_BLK
          = (n - N_DIRECT - PTRS_PER_BLK) % PTRS_PER_BLK := by
        have := Nat.div_add_mod (n - N_DIRECT - PTRS_PER_BLK) PTRS_PER_BLK
        have := Nat.mul_comm ((n - N_DIRECT - PTRS_PER_BLK) / PTRS_PER_BLK) PTRS_PER_BLK
        omega
      have hk2 : (n - N_DIRECT - PTRS_PER_BLK) % PTRS_PER_BLK < PTRS_PER_BLK := Nat.mod_lt _ (by decide)
      simp only [h5, if_false, hk]
      generalize (n - N_DIRECT - PTRS_PER_BLK) / PTRS_PER_BLK = m at hm ⊢
      generalize (n - N_DIRECT - PTRS_PER_BLK) % PTRS_PER_BLK = k at hk2 ⊢
      by_cases h3 : (s.inodes i).indir_2 = 0
      · simp [h3, ptr]
      · have hr := h.read (σ := .ind2) trivial h3 s.stack
        simp only [ptr] at hr
        simp only [h3, if_false, get_file_blkno_indir2, hr, ptr]
        by_cases h4 : get32 (s.disk.blocks (s.inodes i).indir_2) m = 0
        · simp [h4]
        · have h4' : ptr s i (.mid m) ≠ 0 := by simpa [ptr, h3] using h4
          have hr2 := h.read (σ := .mid m) hm h4' (s.disk.blocks (s.inodes i).indir_2)
          simp only [ptr, h3, if_false] at hr2
          simp only [h4, if_false, get_file_blkno_indir2_leaf, hr2]
          by_cases h6 : get32 (s.disk.blocks (get32 (s.disk.blocks (s.inodes i).indir_2) m)) k = 0
          · simp [h6]
          · have := h.ptr_lt (σ := .leaf2 m k) ⟨hm, hk2⟩ (by simpa [ptr, h3, h4] using h6)
            simp only [ptr, h3, h4, if_false] at this
            simp [h6, int_of_u32_lt this.2]

theorem read_readable {s : fs_state} {p : Nat} (h : readable s p) (buf : Block) :
    s.disk.read (int_of_u32 p) buf = (0, s.disk.blocks p) := by
  rw [int_of_u32_lt h.2, blkdev_read_valid _ h.1]


theorem first_clear_spec (bm : Nat → Bool) : ∀ k i : Nat,
    (first_clear bm k i = 0 ∧ ∀ j, i ≤ j → j < i + k → bm j = true) ∨
    (i ≤ first_clear bm k i ∧ first_clear bm k i < i + k ∧ bm (first_clear bm k i) = false) := by
  intro k
  induction k with
  | zero => intro i; left; exact ⟨rfl, fun j h1 h2 => by omega⟩
  | succ k ih =>
    intro i
    simp only [first_clear]
    by_cases h : bm i = true
    · simp only [h, if_true]
      rcases ih (i + 1) with ⟨h0, hall⟩ | ⟨h1, h2, h3⟩
      · left
        refine ⟨h0, fun j hj1 hj2 => ?_⟩
        by_cases hji : j = i
        · rw [hji]; exact h
        · exact hall j (by omega) (by omega)
      · right; exact ⟨by omega, by omega, h3⟩
    · have h' : bm i = false := by simpa using h
      simp only [h', Bool.false_eq_true, if_false]
      right
      exact ⟨le_refl _, by omega, trivial⟩

theorem get_free_blk_cases (s : fs_state) :
    (get_free_blk s = (0, s) ∧ ∀ j, ¬ is_free s j) ∨
    ∃ b, is_free s b ∧ get_free_blk s = (b, alloc_state s b) := by
  unfold get_free_blk
  rcases first_clear_spec s.block_map (s.num_blocks - 1) 1 with ⟨h0, hall⟩ | ⟨h1, h2, h3⟩
  · left
    simp only [h0, if_true, true_and]
    intro j hj
    have := hall j hj.1 (by have := hj.2.1; omega)
    rw [hj.2.2] at this
    exact Bool.noConfusion this
  · right
    refine ⟨first_clear s.block_map (s.num_blocks - 1) 1, ⟨h1, by omega, h3⟩, ?_⟩
    have : first_clear s.block_map (s.num_blocks - 1) 1 ≠ 0 := by omega
    simp only [this, if_false, alloc_state]

theorem free_count_pos {s : fs_state} (h : 0 < free_count s) : ∃ j, is_free s j := by
  unfold free_count at h
  obtain ⟨j, hj⟩ := Finset.card_pos.mp h
  simp only [Finset.mem_filter, Finset.mem_range] at hj
  exact ⟨j, hj.2.1, hj.1, hj.2.2⟩

theorem get_free_blk_pos {s : fs_state} (h : 0 < free_count s) :
    ∃ b, is_free s b ∧ get_free_blk s = (b, alloc_state s b) := by
  rcases get_free_blk_cases s with ⟨_, hno⟩ | hb
  · obtain ⟨j, hj⟩ := free_count_pos h
    exact absurd hj (hno j)
  · exact hb

theorem free_count_alloc {s t : fs_state} {b : Nat} (hb : is_free s b)
    (hn : t.num_blocks = s.num_blocks)
    (hm : ∀ j, t.block_map j = if j = b then true else s.block_map j) :
    free_count t + 1 = free_count s := by
  unfold free_count
  rw [hn]
  have hmem : b ∈ (Finset.range s.num_blocks).filter (fun b => 1 ≤ b ∧ s.block_map b = false) := by
    simp only [Finset.mem_filter, Finset.mem_range]
    exact ⟨hb.2.1, hb.1, hb.2.2⟩
  have heq : (Finset.range s.num_blocks).filter (fun b => 1 ≤ b ∧ t.block_map b = false)
      = ((Finset.range s.num_blocks).filter (fun b => 1 ≤ b ∧ s.block_map b = false)).erase b := by
    ext j
    simp only [Finset.mem_filter, Finset.mem_range, Finset.mem_erase, hm j]
    by_cases hj : j = b
    · simp [hj]
    · simp [hj]
  rw [heq, Finset.card_erase_of_mem hmem]
  have := Finset.card_pos.mpr ⟨b, hmem⟩
  omega

theorem same_frame_refl (s : fs_state) : same_frame s s :=
  ⟨rfl, rfl, rfl, rfl, rfl, rfl, rfl, rfl, rfl⟩

theorem same_frame_trans {s t u : fs_state} (h1 : same_frame s t) (h2 : same_frame t u) :
    same_frame s u := by
  obtain ⟨a1, a2, a3, a4, a5, a6, a7, a8, a9⟩ := h1
  obtain ⟨b1, b2, b3, b4, b5, b6, b7, b8, b9⟩ := h2
  exact ⟨b1.trans a1, b2.trans a2, b3.trans a3, b4.trans a4, b5.trans a5, b6.trans a6,
    b7.trans a7, b8.trans a8, b9.trans a9⟩

theorem same_frame.data_base {s t : fs_state} (h : same_frame s t) :
    t.data_base = s.data_base := by
  obtain ⟨a1, a2, a3, _⟩ := h
  simp only [fs_state.data_base, fs_state.inode_base, a1, a2, a3]

theorem is_free.ge_data_base {s : fs_state} {i b : Nat} (h : wf s i) (hb : is_free s b) :
    s.data_base ≤ b := by
  by_contra hlt
  have := h.reserved b (by omega)
  rw [hb.2.2] at this
  exact Bool.noConfusion this

theorem wf_of_alloc_step {s t : fs_state} {i b : Nat} {σ : Slot} (h : wf s i)
    (hb : is_free s b) (st : alloc_step s t i σ b) : wf t i := by
  have hfr := st.frame
  have hdb := hfr.data_base
  obtain ⟨_, _, _, hnb, _, _, hnk, _, _⟩ := hfr
  have hbne : b ≠ 0 := by have := hb.1; omega
  refine ⟨by rw [hnb, hnk]; exact h.nblks_le, by rw [hnk]; exact h.nblks_lt, ?_, ?_, ?_⟩
  · intro j hj
    rw [st.map_eq j]
    split_ifs
    · rfl
    · exact h.reserved j (by rw [hdb] at hj; exact hj)
  · intro τ hτ hp
    rw [st.ptr_eq τ hτ] at hp ⊢
    rw [st.map_eq, hdb, hnb]
    by_cases hτσ : τ = σ
    · simp only [hτσ, if_true]
      exact ⟨is_free.ge_data_base h hb, hb.2.1, trivial⟩
    · simp only [hτσ, if_false] at hp ⊢
      obtain ⟨p1, p2, p3⟩ := h.ptr_ok τ hτ hp
      refine ⟨p1, p2, ?_⟩
      split_ifs
      · rfl
      · exact p3
  · intro τ1 τ2 h1 h2 hp heq
    rw [st.ptr_eq τ1 h1] at hp heq
    rw [st.ptr_eq τ2 h2] at heq
    by_cases e1 : τ1 = σ
    · by_cases e2 : τ2 = σ
      · rw [e1, e2]
      · simp only [e1, e2, if_true, if_false] at heq
        have hne : ptr s i τ2 ≠ 0 := by rw [← heq]; exact hbne
        have := (h.ptr_ok τ2 h2 hne).2.2
        rw [← heq, hb.2.2] at this
        exact Bool.noConfusion this
    · by_cases e2 : τ2 = σ
      · simp only [e1, e2, if_true, if_false] at heq hp
        have := (h.ptr_ok τ1 h1 hp).2.2
        rw [heq, hb.2.2] at this
        exact Bool.noConfusion this
      · simp only [e1, e2, if_false] at heq hp
        exact h.inj τ1 τ2 h1 h2 hp heq

theorem grow_of_alloc_step {s t : fs_state} {i b : Nat} {σ : Slot} (hσ : σ.ok)
    (h0 : ptr s i σ = 0) (hb : is_free s b) (st : alloc_step s t i σ b) : grow 1 s t i := by
  have hbne : b ≠ 0 := by have := hb.1; omega
  refine ⟨st.frame, ?_, ?_, ?_, ?_, ?_⟩
  · intro τ hτ hp
    rw [st.ptr_eq τ hτ]
    have : τ ≠ σ := fun e => hp (e ▸ h0)
    simp only [this, if_false]
  · intro τ hτ hz hp
    rw [st.ptr_eq τ hτ] at hp ⊢
    by_cases e : τ = σ
    · simp only [e, if_true]; exact hb.2.2
    · simp only [e, if_false] at hp; exact absurd hz hp
  · intro j hj
    rw [st.map_eq]
    split_ifs
    · rfl
    · exact hj
  · intro j hj
    rw [st.map_eq] at hj
    by_cases e : j = b
    · right
      refine ⟨σ, hσ, ?_, by rw [e]; exact hbne⟩
      rw [st.ptr_eq σ hσ, e]; simp
    · left; simpa [e] using hj
  · have := free_count_alloc hb st.frame.2.2.2.1 st.map_eq
    omega

theorem grow_refl (s : fs_state) (i : Nat) : grow 0 s s i :=
  ⟨same_frame_refl s, fun _ _ _ => rfl, fun _ _ h0 h1 => absurd h0 h1, fun _ h => h,
    fun _ h => Or.inl h, le_refl _⟩

theorem grow_mono {k k' : Nat} {s t : fs_state} {i : Nat} (h : grow k s t i) (hk : k ≤ k') :
    grow k' s t i :=
  ⟨h.frame, h.ptr_keep, h.ptr_new, h.map_keep, h.map_new, le_trans h.free_le (by omega)⟩

theorem grow_trans {k1 k2 : Nat} {s t u : fs_state} {i : Nat} (h1 : grow k1 s t i)
    (h2 : grow k2 t u i) : grow (k1 + k2) s u i := by
  refine ⟨same_frame_trans h1.frame h2.frame, ?_, ?_, ?_, ?_, ?_⟩
  · intro τ hτ hp
    have e1 := h1.ptr_keep τ hτ hp
    rw [h2.ptr_keep τ hτ (by rw [e1]; exact hp), e1]
  · intro τ hτ hz hp
    by_cases ht : ptr t i τ = 0
    · have := h2.ptr_new τ hτ ht hp
      by_contra hc
      have hc' : s.block_map (ptr u i τ) = true := by simpa using hc
      rw [h1.map_keep _ hc'] at this
      exact Bool.noConfusion this
    · rw [h2.ptr_keep τ hτ ht]
      exact h1.ptr_new τ hτ hz ht
  · intro j hj
    exact h2.map_keep j (h1.map_keep j hj)
  · intro j hj
    rcases h2.map_new j hj with h | h
    · rcases h1.map_new j h with h' | ⟨τ, hτ, hp, hj0⟩
      · exact Or.inl h'
      · right
        refine ⟨τ, hτ, ?_, hj0⟩
        rw [h2.ptr_keep τ hτ (by rw [hp]; exact hj0), hp]
    · exact Or.inr h
  · have := h1.free_le
    have := h2.free_le
    omega

theorem keeps_data_refl (s : fs_state) (i : Nat) : keeps_data s s i :=
  fun _ _ _ _ => rfl

theorem keeps_data_trans {s t u : fs_state} {i : Nat} (h1 : keeps_data s t i)
    (hk : ∀ τ : Slot, τ.ok → ptr s i τ ≠ 0 → ptr t i τ = ptr s i τ)
    (h2 : keeps_data t u i) : keeps_data s u i := by
  intro τ hτ hl hp
  have e1 := hk τ hτ hp
  have := h2 τ hτ hl (by rw [e1]; exact hp)
  rw [e1] at this
  rw [this, h1 τ hτ hl hp]

theorem wf.ne_free {s : fs_state} {i b : Nat} (h : wf s i) (hb : is_free s b) {τ : Slot}
    (hτ : τ.ok) (hp : ptr s i τ ≠ 0) : ptr s i τ ≠ b := by
  intro e
  have := (h.ptr_ok τ hτ hp).2.2
  rw [e, hb.2.2] at this
  exact Bool.noConfusion this

theorem is_free.lt {s : fs_state} {i b : Nat} (h : wf s i) (hb : is_free s b) :
    b < s.disk.nblks ∧ b < 2147483648 ∧ b % 4294967296 = b ∧ int_of_u32 b = (b : Int) := by
  have h1 := h.nblks_le
  have h2 := h.nblks_lt
  have h3 := hb.2.1
  have h4 : b < 2147483648 := by omega
  exact ⟨by omega, h4, Nat.mod_eq_of_lt (by omega), int_of_u32_lt h4⟩

/-- Allocation of a direct block (lines 54-60). -/
theorem step_direct {s : fs_state} {i n b : Nat} (h : wf s i)
    (hb : is_free s b) :
    alloc_step s
      ((mark_inode ((alloc_state s b).set_inode i
        (fun ino => { ino with direct := fun j => if j = n then b else ino.direct j })) i).disk_write
          (b : Int) zeros) i (.direct n) b := by
  have hbl := is_free.lt h hb
  have hw := hbl.1
  have key : ∀ τ : Slot, τ.ok → ptr s i τ ≠ 0 → ptr s i τ ≠ b := fun τ hτ hp => h.ne_free hb hτ hp
  have k1 := key .ind1 trivial
  have k2 := key .ind2 trivial
  have k3 := fun m (hm : m < PTRS_PER_BLK) => key (.mid m) hm
  simp only [ptr] at k1 k2 k3
  refine ⟨?_, ?_, ?_, ?_, ?_⟩
  · simp only [same_frame, fs_state.disk_write, blkdev_write_blocks _ hw, blkdev_write_nblks, mark_inode,
      fs_state.set_inode, alloc_state, and_self]
  · intro τ hτ
    cases τ with
    | direct n' =>
      simp only [ptr, fs_state.disk_write, mark_inode, fs_state.set_inode, alloc_state, if_true,
        Slot.direct.injEq]
    | ind1 =>
      simp [ptr, fs_state.disk_write, mark_inode, fs_state.set_inode, alloc_state]
    | ind2 =>
      simp [ptr, fs_state.disk_write, mark_inode, fs_state.set_inode, alloc_state]
    | leaf1 n' =>
      simp only [ptr, fs_state.disk_write, blkdev_write_blocks _ hw, blkdev_write_nblks, mark_inode,
        fs_state.set_inode, alloc_state, if_true, reduceCtorEq, if_false]
      by_cases e : (s.inodes i).indir_1 = 0
      · simp only [e, if_true]
      · simp only [e, if_false, k1 e]
    | mid m =>
      simp only [ptr, fs_state.disk_write, blkdev_write_blocks _ hw, blkdev_write_nblks, mark_inode,
        fs_state.set_inode, alloc_state, if_true, reduceCtorEq, if_false]
      by_cases e : (s.inodes i).indir_2 = 0
      · simp only [e, if_true]
      · simp only [e, if_false, k2 e]
    | leaf2 m k =>
      simp only [ptr, fs_state.disk_write, blkdev_write_blocks _ hw, blkdev_write_nblks, mark_inode,
        fs_state.set_inode, alloc_state, if_true, reduceCtorEq, if_false]
      by_cases e : (s.inodes i).indir_2 = 0
      · simp only [e, if_true]
      · simp only [e, if_false, k2 e]
        by_cases e2 : get32 (s.disk.blocks (s.inodes i).indir_2) m = 0
        · simp only [e2, if_true]
        · have := k3 m hτ.1 (by simpa [e] using e2)
          simp only [e, if_false] at this
          simp only [e2, if_false, this]
  · intro j
    simp only [fs_state.disk_write, mark_inode, fs_state.set_inode, alloc_state]
  · intro τ hτ _ hp
    have := key τ hτ hp
    simp only [fs_state.disk_write, blkdev_write_blocks _ hw, blkdev_write_nblks, mark_inode,
        fs_state.set_inode, alloc_state, this, if_false]
  · simp only [fs_state.disk_write, mark_inode, fs_state.set_inode, alloc_state, if_true]

theorem wf.ne_of_slot_ne {s : fs_state} {i : Nat} (h : wf s i) {σ τ : Slot} (hσ : σ.ok)
    (hτ : τ.ok) (hp : ptr s i σ ≠ 0) (hne : σ ≠ τ) : ptr s i σ ≠ ptr s i τ :=
  fun e => hne (h.inj σ τ hσ hτ hp e)

/-- Allocation of the single-indirect block (lines 73-79). -/
theorem step_ind1 {s : fs_state} {i b : Nat} (h : wf s i) (h0 : (s.inodes i).indir_1 = 0)
    (hb : is_free s b) :
    alloc_step s
      ((mark_inode ((alloc_state s b).set_inode i
        (fun ino => { ino with indir_1 := b })) i).disk_write (b : Int) zeros) i .ind1 b := by
  have hbl := is_free.lt h hb
  have hw := hbl.1
  have hb0 : b ≠ 0 := by have := hb.1; omega
  have key : ∀ τ : Slot, τ.ok → ptr s i τ ≠ 0 → ptr s i τ ≠ b := fun τ hτ hp => h.ne_free hb hτ hp
  have k2 := key .ind2 trivial
  have k3 := fun m (hm : m < PTRS_PER_BLK) => key (.mid m) hm
  simp only [ptr] at k2 k3
  refine ⟨?_, ?_, ?_, ?_, ?_⟩
  · simp only [same_frame, fs_state.disk_write, blkdev_write_nblks, mark_inode,
      fs_state.set_inode, alloc_state, and_self]
  · intro τ hτ
    cases τ with
    | direct n' =>
      simp [ptr, fs_state.disk_write, mark_inode, fs_state.set_inode, alloc_state]
    | ind1 =>
      simp [ptr, fs_state.disk_write, mark_inode, fs_state.set_inode, alloc_state]
    | ind2 =>
      simp [ptr, fs_state.disk_write, mark_inode, fs_state.set_inode, alloc_state]
    | leaf1 n' =>
      simp only [ptr, fs_state.disk_write, blkdev_write_blocks _ hw, mark_inode,
        fs_state.set_inode, alloc_state, if_true, reduceCtorEq, if_false, hb0, h0, get32_zeros]
    | mid m =>
      simp only [ptr, fs_state.disk_write, blkdev_write_blocks _ hw, mark_inode,
        fs_state.set_inode, alloc_state, if_true, reduceCtorEq, if_false]
      by_cases e : (s.inodes i).indir_2 = 0
      · simp only [e, if_true]
      · simp only [e, if_false, k2 e]
    | leaf2 m k =>
      simp only [ptr, fs_state.disk_write, blkdev_write_blocks _ hw, mark_inode,
        fs_state.set_inode, alloc_state, if_true, reduceCtorEq, if_false]
      by_cases e : (s.inodes i).indir_2 = 0
      · simp only [e, if_true]
      · simp only [e, if_false, k2 e]
        by_cases e2 : get32 (s.disk.blocks (s.inodes i).indir_2) m = 0
        · simp only [e2, if_true]
        · have := k3 m hτ.1 (by simpa [e] using e2)
          simp only [e, if_false] at this
          simp only [e2, if_false, this]
  · intro j
    simp only [fs_state.disk_write, mark_inode, fs_state.set_inode, alloc_state]
  · intro τ hτ _ hp
    have := key τ hτ hp
    simp only [fs_state.disk_write, blkdev_write_blocks _ hw, mark_inode,
        fs_state.set_inode, alloc_state, this, if_false]
  · simp only [fs_state.disk_write, mark_inode, fs_state.set_inode, alloc_state, if_true]

/-- Allocation of the double-indirect block (lines 108-114). -/
theorem step_ind2 {s : fs_state} {i b : Nat} (h : wf s i) (h0 : (s.inodes i).indir_2 = 0)
    (hb : is_free s b) :
    alloc_step s
      ((mark_inode ((alloc_state s b).set_inode i
        (fun ino => { ino with indir_2 := b })) i).disk_write (b : Int) zeros) i .ind2 b := by
  have hbl := is_free.lt h hb
  have hw := hbl.1
  have hb0 : b ≠ 0 := by have := hb.1; omega
  have key : ∀ τ : Slot, τ.ok → ptr s i τ ≠ 0 → ptr s i τ ≠ b := fun τ hτ hp => h.ne_free hb hτ hp
  have k1 := key .ind1 trivial
  simp only [ptr] at k1
  refine ⟨?_, ?_, ?_, ?_, ?_⟩
  · simp only [same_frame, fs_state.disk_write, blkdev_write_nblks, mark_inode,
      fs_state.set_inode, alloc_state, and_self]
  · intro τ hτ
    cases τ with
    | direct n' =>
      simp [ptr, fs_state.disk_write, mark_inode, fs_state.set_inode, alloc_state]
    | ind1 =>
      simp [ptr, fs_state.disk_write, mark_inode, fs_state.set_inode, alloc_state]
    | ind2 =>
      simp [ptr, fs_state.disk_write, mark_inode, fs_state.set_inode, alloc_state]
    | leaf1 n' =>
      simp only [ptr, fs_state.disk_write, blkdev_write_blocks _ hw, mark_inode,
        fs_state.set_inode, alloc_state, if_true, reduceCtorEq, if_false]
      by_cases e : (s.inodes i).indir_1 = 0
      · simp only [e, if_true]
      · simp only [e, if_false, k1 e]
    | mid m =>
      simp only [ptr, fs_state.disk_write, blkdev_write_blocks _ hw, mark_inode,
        fs_state.set_inode, alloc_state, if_true, reduceCtorEq, if_false, hb0, h0, get32_zeros]
    | leaf2 m k =>
      simp only [ptr, fs_state.disk_write, blkdev_write_blocks _ hw, mark_inode,
        fs_state.set_inode, alloc_state, if_true, reduceCtorEq, if_false, hb0, h0, get32_zeros]
  · intro j
    simp only [fs_state.disk_write, mark_inode, fs_state.set_inode, alloc_state]
  · intro τ hτ _ hp
    have := key τ hτ hp
    simp only [fs_state.disk_write, blkdev_write_blocks _ hw, mark_inode,
        fs_state.set_inode, alloc_state, this, if_false]
  · simp only [fs_state.disk_write, mark_inode, fs_state.set_inode, alloc_state, if_true]

/-- Allocation of a data block under the single-indirect block (lines 87-92). -/
theorem step_leaf1 {s : fs_state} {i n b : Nat} (h : wf s i)
    (h1 : (s.inodes i).indir_1 ≠ 0) (hb : is_free s b) :
    alloc_step s
      ((alloc_state s b).disk_write ((s.inodes i).indir_1 : Nat)
        (set32 (s.disk.blocks (s.inodes i).indir_1) n b)) i (.leaf1 n) b := by
  have hw : (s.inodes i).indir_1 < s.disk.nblks := (h.ptr_lt (σ := .ind1) trivial h1).1
  have d1 : ∀ τ : Slot, τ.ok → τ ≠ .ind1 → ptr s i τ ≠ 0 → ptr s i τ ≠ (s.inodes i).indir_1 :=
    fun τ hτ hne hp => h.ne_of_slot_ne hτ (τ := .ind1) trivial hp hne
  have k2 := d1 .ind2 trivial (by simp)
  have k3 := fun m (hm : m < PTRS_PER_BLK) => d1 (.mid m) hm (by simp)
  simp only [ptr] at k2 k3
  refine ⟨?_, ?_, ?_, ?_, ?_⟩
  · simp only [same_frame, fs_state.disk_write, blkdev_write_nblks, alloc_state, and_self]
  · intro τ hτ
    cases τ with
    | direct n' => simp [ptr, fs_state.disk_write, alloc_state]
    | ind1 => simp [ptr, fs_state.disk_write, alloc_state]
    | ind2 => simp [ptr, fs_state.disk_write, alloc_state]
    | leaf1 n' =>
      simp only [ptr, fs_state.disk_write, blkdev_write_blocks _ hw, alloc_state, if_true,
        h1, if_false, Slot.leaf1.injEq]
      by_cases e : n' = n
      · have hb32 := (is_free.lt h hb).2.2.1
        simp only [e, if_true, get32_set32_same, hb32]
      · simp only [e, if_false, get32_set32_ne _ e]
    | mid m =>
      simp only [ptr, fs_state.disk_write, blkdev_write_blocks _ hw, alloc_state, if_true,
        reduceCtorEq, if_false]
      by_cases e : (s.inodes i).indir_2 = 0
      · simp only [e, if_true]
      · simp only [e, if_false, k2 e]
    | leaf2 m k =>
      simp only [ptr, fs_state.disk_write, blkdev_write_blocks _ hw, alloc_state, if_true,
        reduceCtorEq, if_false]
      by_cases e : (s.inodes i).indir_2 = 0
      · simp only [e, if_true]
      · simp only [e, if_false, k2 e]
        by_cases e2 : get32 (s.disk.blocks (s.inodes i).indir_2) m = 0
        · simp only [e2, if_true]
        · have := k3 m hτ.1 (by simpa [e] using e2)
          simp only [e, if_false] at this
          simp only [e2, if_false, this]
  · intro j
    simp only [fs_state.disk_write, alloc_state]
  · intro τ hτ hl hp
    have : ptr s i τ ≠ (s.inodes i).indir_1 :=
      d1 τ hτ (by intro e; rw [e] at hl; exact hl) hp
    simp only [fs_state.disk_write, blkdev_write_blocks _ hw, alloc_state, this, if_false]
  · simp only [fs_state.disk_write, alloc_state]

/-- Allocation of a second-level index block (lines 124-130). -/
theorem step_mid {s : fs_state} {i m b : Nat} (h : wf s i)
    (h2 : (s.inodes i).indir_2 ≠ 0) (h0 : get32 (s.disk.blocks (s.inodes i).indir_2) m = 0)
    (hb : is_free s b) :
    alloc_step s
      (((alloc_state s b).disk_write ((s.inodes i).indir_2 : Nat)
        (set32 (s.disk.blocks (s.inodes i).indir_2) m b)).disk_write (b : Int) zeros)
      i (.mid m) b := by
  have hbl := is_free.lt h hb
  have hb0 : b ≠ 0 := by have := hb.1; omega
  have hw : (s.inodes i).indir_2 < s.disk.nblks := (h.ptr_lt (σ := .ind2) trivial h2).1
  have hwb : b < (s.disk.write ((s.inodes i).indir_2 : Nat)
      (set32 (s.disk.blocks (s.inodes i).indir_2) m b)).nblks := by
    rw [blkdev_write_nblks]; exact hbl.1
  have key : ∀ τ : Slot, τ.ok → ptr s i τ ≠ 0 → ptr s i τ ≠ b := fun τ hτ hp => h.ne_free hb hτ hp
  have d2 : ∀ τ : Slot, τ.ok → τ ≠ .ind2 → ptr s i τ ≠ 0 → ptr s i τ ≠ (s.inodes i).indir_2 :=
    fun τ hτ hne hp => h.ne_of_slot_ne hτ (τ := .ind2) trivial hp hne
  have kb1 := key .ind1 trivial
  have kb2 := key .ind2 trivial h2
  have kb3 := fun m (hm : m < PTRS_PER_BLK) => key (.mid m) hm
  have k1 := d2 .ind1 trivial (by simp)
  have k3 := fun m (hm : m < PTRS_PER_BLK) => d2 (.mid m) hm (by simp)
  simp only [ptr, h2, if_false] at kb1 kb2 kb3 k1 k3
  refine ⟨?_, ?_, ?_, ?_, ?_⟩
  · simp only [same_frame, fs_state.disk_write, blkdev_write_nblks, alloc_state, and_self]
  · intro τ hτ
    cases τ with
    | direct n' => simp [ptr, fs_state.disk_write, alloc_state]
    | ind1 => simp [ptr, fs_state.disk_write, alloc_state]
    | ind2 => simp [ptr, fs_state.disk_write, alloc_state]
    | leaf1 n' =>
      simp only [ptr, fs_state.disk_write, blkdev_write_blocks _ hwb, blkdev_write_blocks _ hw,
        alloc_state, if_true, reduceCtorEq, if_false]
      by_cases e : (s.inodes i).indir_1 = 0
      · simp only [e, if_true]
      · simp only [e, if_false, k1 e, kb1 e]
    | mid m' =>
      simp only [ptr, fs_state.disk_write, blkdev_write_blocks _ hwb, blkdev_write_blocks _ hw,
        alloc_state, if_true, h2, kb2, if_false, Slot.mid.injEq]
      by_cases e : m' = m
      · simp only [e, if_true, get32_set32_same, hbl.2.2.1]
      · simp only [e, if_false, get32_set32_ne _ e]
    | leaf2 m' k =>
      simp only [ptr, fs_state.disk_write, blkdev_write_blocks _ hwb, blkdev_write_blocks _ hw,
        alloc_state, if_true, h2, kb2, if_false, reduceCtorEq]
      by_cases e : m' = m
      · simp only [e, get32_set32_same, hbl.2.2.1, hb0, if_true, if_false, get32_zeros, h0]
      · simp only [get32_set32_ne _ e]
        by_cases e2 : get32 (s.disk.blocks (s.inodes i).indir_2) m' = 0
        · simp only [e2, if_true]
        · simp only [e2, if_false, k3 m' hτ.1 e2, kb3 m' hτ.1 e2]
  · intro j
    simp only [fs_state.disk_write, alloc_state]
  · intro τ hτ hl hp
    have : ptr s i τ ≠ (s.inodes i).indir_2 :=
      d2 τ hτ (by intro e; rw [e] at hl; exact hl) hp
    simp only [fs_state.disk_write, blkdev_write_blocks _ hwb, blkdev_write_blocks _ hw,
      alloc_state, this, key τ hτ hp, if_false]
  · simp only [fs_state.disk_write, alloc_state]

/-- Allocation of a data block under a second-level index block (lines 141-147). -/
theorem step_leaf2 {s : fs_state} {i m k b : Nat} (h : wf s i) (hm : m < PTRS_PER_BLK)
    (h2 : (s.inodes i).indir_2 ≠ 0)
    (h3 : get32 (s.disk.blocks (s.inodes i).indir_2) m ≠ 0) (hb : is_free s b) :
    alloc_step s
      (((alloc_state s b).disk_write ((get32 (s.disk.blocks (s.inodes i).indir_2) m : Nat) : Int)
        (set32 (s.disk.blocks (get32 (s.disk.blocks (s.inodes i).indir_2) m)) k b)).disk_write
          (b : Int) zeros)
      i (.leaf2 m k) b := by
  have hbl := is_free.lt h hb
  have hb0 : b ≠ 0 := by have := hb.1; omega
  have hpm : ptr s i (.mid m) ≠ 0 := by simpa [ptr, h2] using h3
  have hw0 := (h.ptr_lt (σ := .mid m) hm hpm).1
  simp only [ptr, h2, if_false] at hw0
  generalize he : get32 (s.disk.blocks (s.inodes i).indir_2) m = e at *
  have hpe : ptr s i (.mid m) = e := by simp [ptr, h2, he]
  have hwb : b < (s.disk.write (e : Nat) (set32 (s.disk.blocks e) k b)).nblks := by
    rw [blkdev_write_nblks]; exact hbl.1
  have key : ∀ τ : Slot, τ.ok → ptr s i τ ≠ 0 → ptr s i τ ≠ b := fun τ hτ hp => h.ne_free hb hτ hp
  have d2 : ∀ τ : Slot, τ.ok → τ ≠ .mid m → ptr s i τ ≠ 0 → ptr s i τ ≠ e := by
    intro τ hτ hne hp
    rw [← hpe]
    exact h.ne_of_slot_ne hτ (τ := .mid m) hm hp hne
  have kb1 := key .ind1 trivial
  have kb2 := key .ind2 trivial h2
  have kb3 := fun m (hm : m < PTRS_PER_BLK) => key (.mid m) hm
  have k1 := d2 .ind1 trivial (by simp)
  have k2 := d2 .ind2 trivial (by simp) h2
  have k3 := fun m' (hm' : m' < PTRS_PER_BLK) (hne : m' ≠ m) => d2 (.mid m') hm' (by simpa using hne)
  simp only [ptr, h2, if_false] at kb1 kb2 kb3 k1 k2 k3
  refine ⟨?_, ?_, ?_, ?_, ?_⟩
  · simp only [same_frame, fs_state.disk_write, blkdev_write_nblks, alloc_state, and_self]
  · intro τ hτ
    cases τ with
    | direct n' => simp [ptr, fs_state.disk_write, alloc_state]
    | ind1 => simp [ptr, fs_state.disk_write, alloc_state]
    | ind2 => simp [ptr, fs_state.disk_write, alloc_state]
    | leaf1 n' =>
      simp only [ptr, fs_state.disk_write, blkdev_write_blocks _ hwb, blkdev_write_blocks _ hw0,
        alloc_state, if_true, reduceCtorEq, if_false]
      by_cases e1 : (s.inodes i).indir_1 = 0
      · simp only [e1, if_true]
      · simp only [e1, if_false, k1 e1, kb1 e1]
    | mid m' =>
      simp only [ptr, fs_state.disk_write, blkdev_write_blocks _ hwb, blkdev_write_blocks _ hw0,
        alloc_state, if_true, h2, kb2, k2, if_false, reduceCtorEq]
    | leaf2 m' k' =>
      simp only [ptr, fs_state.disk_write, blkdev_write_blocks _ hwb, blkdev_write_blocks _ hw0,
        alloc_state, if_true, h2, kb2, k2, if_false, Slot.leaf2.injEq]
      by_cases e1 : m' = m
      · have hne : e ≠ b := by rw [← hpe]; exact key _ hm hpm
        simp only [e1, he, h3, hne, if_true, if_false, true_and]
        by_cases e2 : k' = k
        · simp only [e2, if_true, get32_set32_same, hbl.2.2.1]
        · simp only [e2, if_false, get32_set32_ne _ e2]
      · simp only [e1, false_and, if_false]
        by_cases e2 : get32 (s.disk.blocks (s.inodes i).indir_2) m' = 0
        · simp only [e2, if_true]
        · simp only [e2, if_false, k3 m' hτ.1 e1 e2, kb3 m' hτ.1 e2]
  · intro j
    simp only [fs_state.disk_write, alloc_state]
  · intro τ hτ hl hp
    have : ptr s i τ ≠ e :=
      d2 τ hτ (by intro e; rw [e] at hl; exact hl) hp
    simp only [fs_state.disk_write, blkdev_write_blocks _ hwb, blkdev_write_blocks _ hw0,
      alloc_state, this, key τ hτ hp, if_false]
  · simp only [fs_state.disk_write, alloc_state]

theorem alloc_ok_mono {k k' : Nat} {s : fs_state} {i : Nat} {σ : Slot} {r : Int × fs_state}
    (h : alloc_ok k s i σ r) (hk : k ≤ k') : alloc_ok k' s i σ r :=
  ⟨h.wf, grow_mono h.grow hk, h.data, h.size_eq, h.result, fun hf => h.nonzero (le_trans hk hf)⟩

/-- A slot that is already set: nothing is allocated. -/
theorem alloc_ok_present {s : fs_state} {i : Nat} {σ : Slot} (h : wf s i) (hσ : σ.ok)
    (hp : ptr s i σ ≠ 0) (k : Nat) : alloc_ok k s i σ (int_of_u32 (ptr s i σ), s) := by
  refine ⟨h, grow_mono (grow_refl s i) (Nat.zero_le k), keeps_data_refl s i, rfl,
    Or.inr ⟨hp, ?_⟩, fun _ => ?_⟩
  · exact int_of_u32_lt (h.ptr_lt hσ hp).2
  · simp only [int_of_u32_lt (h.ptr_lt hσ hp).2]
    exact_mod_cast hp

/-- The allocator is exhausted: nothing changes and the result is `0`. -/
theorem alloc_ok_fail {s : fs_state} {i : Nat} {σ : Slot} (h : wf s i)
    (hno : ∀ j, ¬ is_free s j) (k : Nat) (hk : 1 ≤ k) : alloc_ok k s i σ (0, s) := by
  refine ⟨h, grow_mono (grow_refl s i) (Nat.zero_le k), keeps_data_refl s i, rfl, Or.inl rfl,
    fun hf => ?_⟩
  obtain ⟨j, hj⟩ := free_count_pos (s := s) (by omega)
  exact absurd hj (hno j)

/-- One allocation step into the empty slot `σ`, returning the new block. -/
theorem alloc_ok_step {s t : fs_state} {i b : Nat} {σ : Slot} (h : wf s i) (hσ : σ.ok)
    (h0 : ptr s i σ = 0) (hb : is_free s b) (st : alloc_step s t i σ b) (k : Nat) (hk : 1 ≤ k) :
    alloc_ok k s i σ ((b : Int), t) := by
  have hb0 : b ≠ 0 := by have := hb.1; omega
  have hp : ptr t i σ = b := by rw [st.ptr_eq σ hσ]; simp
  refine ⟨wf_of_alloc_step h hb st, grow_mono (grow_of_alloc_step hσ h0 hb st) hk,
    st.data_eq, st.size_eq, Or.inr ⟨by rw [hp]; exact hb0, by rw [hp]⟩, fun _ => ?_⟩
  show (b : Int) ≠ 0
  exact_mod_cast hb0

/-- Lines 133-149 on a well-formed inode whose entry `m` of the double-indirect block is set. -/
theorem indir2_leaf_alloc {s : fs_state} {i m k : Nat} (buf : Block) (h : wf s i)
    (hm : m < PTRS_PER_BLK) (hk : k < PTRS_PER_BLK) (h2 : (s.inodes i).indir_2 ≠ 0)
    (hbuf : get32 buf m = get32 (s.disk.blocks (s.inodes i).indir_2) m)
    (h3 : get32 (s.disk.blocks (s.inodes i).indir_2) m ≠ 0) :
    alloc_ok 1 s i (.leaf2 m k) (get_file_blkno_indir2_leaf s buf m k 1) := by
  have hpm : ptr s i (.mid m) ≠ 0 := by simpa [ptr, h2] using h3
  have hlt := h.ptr_lt (σ := .mid m) hm hpm
  have hrd := h.read (σ := .mid m) hm hpm buf
  simp only [ptr, h2, if_false] at hlt hrd
  unfold get_file_blkno_indir2_leaf
  simp only [hbuf, hrd]
  by_cases h4 : get32 (s.disk.blocks (get32 (s.disk.blocks (s.inodes i).indir_2) m)) k = 0
  · simp only [h4, if_true, one_ne_zero, if_false]
    rcases get_free_blk_cases s with ⟨hf, hno⟩ | ⟨b, hb, hf⟩
    · simp only [hf, if_true]
      exact alloc_ok_fail h hno 1 (le_refl _)
    · have hb0 : b ≠ 0 := by have := hb.1; omega
      have hbl := is_free.lt h hb
      simp only [hf, hb0, if_false, hbl.2.2.1, get32_set32_same, hbl.2.2.2,
        int_of_u32_lt hlt.2]
      have hz : ptr s i (.leaf2 m k) = 0 := by simp [ptr, h2, h3, h4]
      exact alloc_ok_step h (σ := .leaf2 m k) ⟨hm, hk⟩ hz hb (step_leaf2 h hm h2 h3 hb) 1
        (le_refl _)
  · simp only [h4, if_false]
    have hp : ptr s i (.leaf2 m k) ≠ 0 := by simpa [ptr, h2, h3] using h4
    have := alloc_ok_present h (σ := .leaf2 m k) ⟨hm, hk⟩ hp 1
    simpa [ptr, h2, h3] using this

theorem alloc_ok_after_step {s t : fs_state} {i b k : Nat} {ρ σ : Slot} {r : Int × fs_state}
    (hσ1 : ρ.ok) (h0 : ptr s i ρ = 0) (hb : is_free s b) (st : alloc_step s t i ρ b)
    (hr : alloc_ok k t i σ r) : alloc_ok (k + 1) s i σ r := by
  have hg := grow_of_alloc_step hσ1 h0 hb st
  refine ⟨hr.wf, ?_, keeps_data_trans st.data_eq hg.ptr_keep hr.data,
    hr.size_eq.trans st.size_eq, hr.result, fun hf => hr.nonzero ?_⟩
  · have := grow_trans hg hr.grow
    rwa [Nat.add_comm] at this
  · have := free_count_alloc hb st.frame.2.2.2.1 st.map_eq
    omega

theorem alloc_state_inodes (s : fs_state) (b : Nat) : (alloc_state s b).inodes = s.inodes := rfl

theorem alloc_state_disk (s : fs_state) (b : Nat) : (alloc_state s b).disk = s.disk := rfl

theorem alloc_state_stack (s : fs_state) (b : Nat) : (alloc_state s b).stack = s.stack := rfl

/-- Lines 81-94 on a well-formed inode whose single-indirect block exists. -/
theorem indir1_alloc {s : fs_state} {i n : Nat} (h : wf s i) (hn : n < PTRS_PER_BLK)
    (h1 : (s.inodes i).indir_1 ≠ 0) :
    alloc_ok 1 s i (.leaf1 n) (get_file_blkno_indir1 s i n 1) := by
  have hlt := h.ptr_lt (σ := .ind1) trivial h1
  have hrd := h.read (σ := .ind1) trivial h1 s.stack
  simp only [ptr] at hlt hrd
  unfold get_file_blkno_indir1
  simp only [hrd]
  by_cases h4 : get32 (s.disk.blocks (s.inodes i).indir_1) n = 0
  · simp only [h4, if_true, one_ne_zero, if_false]
    rcases get_free_blk_cases s with ⟨hf, hno⟩ | ⟨b, hb, hf⟩
    · simp only [hf, if_true]
      exact alloc_ok_fail h hno 1 (le_refl _)
    · have hb0 : b ≠ 0 := by have := hb.1; omega
      have hbl := is_free.lt h hb
      simp only [hf, hb0, if_false, hbl.2.2.1, get32_set32_same, hbl.2.2.2,
        int_of_u32_lt hlt.2, alloc_state_inodes]
      have hz : ptr s i (.leaf1 n) = 0 := by simp [ptr, h1, h4]
      exact alloc_ok_step h (σ := .leaf1 n) hn hz hb (step_leaf1 h h1 hb) 1 (le_refl _)
  · simp only [h4, if_false]
    have hp : ptr s i (.leaf1 n) ≠ 0 := by simpa [ptr, h1] using h4
    have := alloc_ok_present h (σ := .leaf1 n) hn hp 1
    simpa [ptr, h1] using this

/-- Lines 117-149 on a well-formed inode whose double-indirect block exists. -/
theorem indir2_alloc {s : fs_state} {i m k : Nat} (h : wf s i) (hm : m < PTRS_PER_BLK)
    (hk : k < PTRS_PER_BLK) (h2 : (s.inodes i).indir_2 ≠ 0) :
    alloc_ok 2 s i (.leaf2 m k) (get_file_blkno_indir2 s i m k 1) := by
  have hlt := h.ptr_lt (σ := .ind2) trivial h2
  have hrd := h.read (σ := .ind2) trivial h2 s.stack
  simp only [ptr] at hlt hrd
  unfold get_file_blkno_indir2
  simp only [hrd]
  by_cases h4 : get32 (s.disk.blocks (s.inodes i).indir_2) m = 0
  · simp only [h4, if_true, one_ne_zero, if_false]
    rcases get_free_blk_cases s with ⟨hf, hno⟩ | ⟨b, hb, hf⟩
    · simp only [hf, if_true]
      exact alloc_ok_fail h hno 2 (by omega)
    · have hb0 : b ≠ 0 := by have := hb.1; omega
      have hbl := is_free.lt h hb
      simp only [hf, hb0, if_false, hbl.2.2.1, get32_set32_same, hbl.2.2.2,
        int_of_u32_lt hlt.2, alloc_state_inodes]
      have hz : ptr s i (.mid m) = 0 := by simp [ptr, h2, h4]
      have st := step_mid h h2 h4 hb
      have hwf := wf_of_alloc_step h hb st
      have hpt := st.ptr_eq (.mid m) hm
      have hi2 := st.ptr_eq .ind2 trivial
      simp only [if_true] at hpt
      simp only [reduceCtorEq, if_false] at hi2
      generalize ((alloc_state s b).disk_write ((s.inodes i).indir_2 : Nat)
        (set32 (s.disk.blocks (s.inodes i).indir_2) m b)).disk_write (b : Int) zeros = t at *
      have ht2 : (t.inodes i).indir_2 ≠ 0 := by
        simp only [ptr] at hi2; rw [hi2]; exact h2
      simp only [ptr, ht2, if_false] at hpt
      have := indir2_leaf_alloc (s := t) (i := i) (m := m) (k := k)
        (set32 (s.disk.blocks (s.inodes i).indir_2) m b) hwf hm hk ht2
        (by rw [get32_set32_same, hbl.2.2.1, hpt]) (by rw [hpt]; exact hb0)
      exact alloc_ok_after_step (ρ := .mid m) hm hz hb st this
  · simp only [h4, if_false]
    exact alloc_ok_mono (indir2_leaf_alloc _ h hm hk h2 rfl h4) (by omega)

theorem sub_div_mul_eq_mod (x : Nat) :
    x - x / PTRS_PER_BLK * PTRS_PER_BLK = x % PTRS_PER_BLK := by
  have := Nat.div_add_mod x PTRS_PER_BLK
  have := Nat.mul_comm (x / PTRS_PER_BLK) PTRS_PER_BLK
  omega

/-- The function `get_file_blkno` with `alloc = 1` on a well-formed inode, for an
addressable block index. -/
theorem get_file_blkno_alloc {s : fs_state} {i n : Nat} (h : wf s i) (hn : n < MAX_BLOCKS) :
    alloc_ok 3 s i (lslot n) (get_file_blkno s i n 1) := by
  unfold get_file_blkno lslot
  by_cases c1 : n < N_DIRECT
  · simp only [c1, if_true]
    by_cases c2 : (s.inodes i).direct n = 0
    · simp only [c2, if_true, one_ne_zero, if_false]
      rcases get_free_blk_cases s with ⟨hf, hno⟩ | ⟨b, hb, hf⟩
      · simp only [hf, if_true]
        exact alloc_ok_fail h hno 3 (by omega)
      · have hb0 : b ≠ 0 := by have := hb.1; omega
        have hbl := is_free.lt h hb
        simp only [hf, hb0, if_false, hbl.2.2.1]
        have e1 : ∀ t : fs_state, ((mark_inode (t.set_inode i (fun ino =>
            { ino with direct := fun j => if j = n then b else ino.direct j })) i).inodes i).direct n
            = b := by
          intro t; simp [mark_inode, fs_state.set_inode]
        have e2 : ∀ (t : fs_state) (c : Int) (z : Block), (((mark_inode (t.set_inode i (fun ino =>
            { ino with direct := fun j => if j = n then b else ino.direct j })) i).disk_write c z).inodes
              i).direct n = b := by
          intro t c z; simp [mark_inode, fs_state.set_inode, fs_state.disk_write]
        rw [e1, e2, hbl.2.2.2]
        exact alloc_ok_step h (σ := .direct n) c1 c2 hb (step_direct h hb) 3 (by omega)
    · simp only [c2, if_false]
      exact alloc_ok_present h (σ := .direct n) c1 c2 3
  · simp only [c1, if_false]
    by_cases c2 : n - N_DIRECT < PTRS_PER_BLK
    · simp only [c2, if_true]
      by_cases c3 : (s.inodes i).indir_1 = 0
      · simp only [c3, if_true, one_ne_zero, if_false]
        rcases get_free_blk_cases s with ⟨hf, hno⟩ | ⟨b, hb, hf⟩
        · simp only [hf, if_true]
          exact alloc_ok_fail h hno 3 (by omega)
        · have hb0 : b ≠ 0 := by have := hb.1; omega
          have hbl := is_free.lt h hb
          simp only [hf, hb0, if_false, hbl.2.2.1]
          have e1 : ∀ t : fs_state, ((mark_inode (t.set_inode i (fun ino =>
              { ino with indir_1 := b })) i).inodes i).indir_1 = b := by
            intro t; simp [mark_inode, fs_state.set_inode]
          rw [e1, hbl.2.2.2]
          have st := step_ind1 h c3 hb
          have hwf := wf_of_alloc_step h hb st
          have hpt := st.ptr_eq .ind1 trivial
          simp only [if_true, ptr] at hpt
          have := indir1_alloc hwf c2 (by rw [hpt]; exact hb0)
          exact alloc_ok_mono (alloc_ok_after_step (ρ := .ind1) trivial c3 hb st this) (by omega)
      · simp only [c3, if_false]
        exact alloc_ok_mono (indir1_alloc h c2 c3) (by omega)
    · simp only [c2, if_false]
      have c4 : ¬ (n - N_DIRECT - PTRS_PER_BLK > PTRS_PER_BLK * PTRS_PER_BLK) := by
        simp only [MAX_BLOCKS] at hn; omega
      have hm : (n - N_DIRECT - PTRS_PER_BLK) / PTRS_PER_BLK < PTRS_PER_BLK := by
        rw [Nat.div_lt_iff_lt_mul (by decide)]; simp only [MAX_BLOCKS] at hn; omega
      have hk : (n - N_DIRECT - PTRS_PER_BLK) % PTRS_PER_BLK < PTRS_PER_BLK :=
        Nat.mod_lt _ (by decide)
      simp only [c4, if_false, sub_div_mul_eq_mod]
      generalize (n - N_DIRECT - PTRS_PER_BLK) / PTRS_PER_BLK = m at hm ⊢
      generalize (n - N_DIRECT - PTRS_PER_BLK) % PTRS_PER_BLK = k at hk ⊢
      by_cases c3 : (s.inodes i).indir_2 = 0
      · simp only [c3, if_true, one_ne_zero, if_false]
        rcases get_free_blk_cases s with ⟨hf, hno⟩ | ⟨b, hb, hf⟩
        · simp only [hf, if_true]
          exact alloc_ok_fail h hno 3 (by omega)
        · have hb0 : b ≠ 0 := by have := hb.1; omega
          have hbl := is_free.lt h hb
          simp only [hf, hb0, if_false, hbl.2.2.1]
          have e1 : ∀ t : fs_state, ((mark_inode (t.set_inode i (fun ino =>
              { ino with indir_2 := b })) i).inodes i).indir_2 = b := by
            intro t; simp [mark_inode, fs_state.set_inode]
          rw [e1, hbl.2.2.2]
          have st := step_ind2 h c3 hb
          have hwf := wf_of_alloc_step h hb st
          have hpt := st.ptr_eq .ind2 trivial
          simp only [if_true, ptr] at hpt
          have := indir2_alloc hwf hm hk (by rw [hpt]; exact hb0)
          exact alloc_ok_after_step (ρ := .ind2) trivial c3 hb st this
      · simp only [c3, if_false]
        exact alloc_ok_mono (indir2_alloc h hm hk c3) (by omega)

/-! ## States with the same block map -/

theorem ptr_congr {s t : fs_state} {i : Nat}
    (hd : (t.inodes i).direct = (s.inodes i).direct)
    (h1 : (t.inodes i).indir_1 = (s.inodes i).indir_1)
    (h2 : (t.inodes i).indir_2 = (s.inodes i).indir_2)
    (hb : ∀ τ : Slot, τ.ok → ¬ τ.is_leaf → ptr s i τ ≠ 0 →
      t.disk.blocks (ptr s i τ) = s.disk.blocks (ptr s i τ)) :
    ∀ τ : Slot, τ.ok → ptr t i τ = ptr s i τ := by
  have b1 := hb .ind1 trivial (fun h => h)
  have b2 := hb .ind2 trivial (fun h => h)
  have b3 := fun m (hm : m < PTRS_PER_BLK) => hb (.mid m) hm (fun h => h)
  simp only [ptr] at b1 b2 b3
  intro τ hτ
  cases τ with
  | direct n => simp only [ptr, hd]
  | ind1 => simp only [ptr, h1]
  | ind2 => simp only [ptr, h2]
  | leaf1 n =>
    simp only [ptr, h1]
    by_cases e : (s.inodes i).indir_1 = 0
    · simp only [e, if_true]
    · simp only [e, if_false, b1 e]
  | mid m =>
    simp only [ptr, h2]
    by_cases e : (s.inodes i).indir_2 = 0
    · simp only [e, if_true]
    · simp only [e, if_false, b2 e]
  | leaf2 m k =>
    simp only [ptr, h2]
    by_cases e : (s.inodes i).indir_2 = 0
    · simp only [e, if_true]
    · simp only [e, if_false, b2 e]
      by_cases e2 : get32 (s.disk.blocks (s.inodes i).indir_2) m = 0
      · simp only [e2, if_true]
      · have := b3 m hτ.1
        simp only [e, if_false] at this
        simp only [e2, if_false, this e2]

theorem wf_of_same_map {s t : fs_state} {i : Nat} (h : wf s i) (hf : same_frame s t)
    (hm : t.block_map = s.block_map) (hp : ∀ τ : Slot, τ.ok → ptr t i τ = ptr s i τ) :
    wf t i := by
  have hdb := hf.data_base
  obtain ⟨_, _, _, hnb, _, _, hnk, _, _⟩ := hf
  refine ⟨by rw [hnb, hnk]; exact h.nblks_le, by rw [hnk]; exact h.nblks_lt, ?_, ?_, ?_⟩
  · intro b hb
    rw [hm]; exact h.reserved b (by rw [hdb] at hb; exact hb)
  · intro τ hτ hne
    rw [hp τ hτ] at hne ⊢
    rw [hm, hdb, hnb]
    exact h.ptr_ok τ hτ hne
  · intro τ1 τ2 h1 h2 hne heq
    rw [hp τ1 h1] at hne heq
    rw [hp τ2 h2] at heq
    exact h.inj τ1 τ2 h1 h2 hne heq

theorem free_count_congr {s t : fs_state} (hn : t.num_blocks = s.num_blocks)
    (hm : t.block_map = s.block_map) : free_count t = free_count s := by
  unfold free_count
  rw [hn, hm]

theorem grow_of_same_map {s t : fs_state} {i : Nat} (hf : same_frame s t)
    (hm : t.block_map = s.block_map) (hp : ∀ τ : Slot, τ.ok → ptr t i τ = ptr s i τ) :
    grow 0 s t i := by
  refine ⟨hf, fun τ hτ _ => hp τ hτ, ?_, ?_, ?_, ?_⟩
  · intro τ hτ h0 h1
    rw [hp τ hτ] at h1
    exact absurd h0 h1
  · intro j hj; rw [hm]; exact hj
  · intro j hj; rw [hm] at hj; exact Or.inl hj
  · rw [free_count_congr hf.2.2.2.1 hm]
    exact le_refl _

/-! ## Metadata write-back -/

theorem flush_mark_frame (s : fs_state) (i : Nat) :
    same_frame s (flush_metadata (mark_inode s i)) := by
  simp only [same_frame, flush_metadata, mark_inode, and_self]

theorem flush_mark_blocks (s : fs_state) (i : Nat) {c : Nat} (hc : s.data_base ≤ c) :
    (flush_metadata (mark_inode s i)).disk.blocks c = s.disk.blocks c := by
  simp only [flush_metadata, flushed_blocks, mark_inode, fs_state.data_base,
    fs_state.inode_base] at hc ⊢
  have c1 : ¬ (1 ≤ c ∧ c < 1 + s.inode_map_sz ∧ s.dirty_maps (c - 1) = true) := by
    intro h; omega
  have c2 : ¬ (1 + s.inode_map_sz ≤ c ∧ c < 1 + s.inode_map_sz + s.block_map_sz ∧
      s.dirty_maps (c - 1) = true) := by
    intro h; omega
  have c3 : ∀ P : Prop, ¬ (1 + s.inode_map_sz + s.block_map_sz ≤ c ∧
      c < 1 + s.inode_map_sz + s.block_map_sz + s.inode_region_sz ∧ P) := by
    intro P h; omega
  simp only [c1, c2, c3, if_false, ite_self]

theorem flush_mark_inodes (s : fs_state) (i : Nat) :
    (flush_metadata (mark_inode s i)).inodes = s.inodes := rfl

theorem flush_mark_block_map (s : fs_state) (i : Nat) :
    (flush_metadata (mark_inode s i)).block_map = s.block_map := rfl

theorem flush_mark_ptr {s : fs_state} {i : Nat} (h : wf s i) :
    ∀ τ : Slot, τ.ok → ptr (flush_metadata (mark_inode s i)) i τ = ptr s i τ := by
  apply ptr_congr
  · rw [flush_mark_inodes]
  · rw [flush_mark_inodes]
  · rw [flush_mark_inodes]
  · intro τ hτ _ hp
    exact flush_mark_blocks s i (h.ptr_ok τ hτ hp).1

theorem flush_mark_wf {s : fs_state} {i : Nat} (h : wf s i) :
    wf (flush_metadata (mark_inode s i)) i :=
  wf_of_same_map h (flush_mark_frame s i) (flush_mark_block_map s i) (flush_mark_ptr h)

theorem flush_mark_grow {s : fs_state} {i : Nat} (h : wf s i) :
    grow 0 s (flush_metadata (mark_inode s i)) i :=
  grow_of_same_map (flush_mark_frame s i) (flush_mark_block_map s i) (flush_mark_ptr h)

theorem flush_mark_file_byte {s : fs_state} {i : Nat} (h : wf s i) {q : Nat}
    (hq : q / FS_BLOCK_SIZE < MAX_BLOCKS) (hp : ptr s i (lslot (q / FS_BLOCK_SIZE)) ≠ 0) :
    file_byte (flush_metadata (mark_inode s i)) i q = file_byte s i q := by
  unfold file_byte
  rw [flush_mark_ptr h _ (lslot_ok hq), flush_mark_blocks s i (h.ptr_ok _ (lslot_ok hq) hp).1]

/-! ## `get_file_blk` on a well-formed inode -/

theorem get_file_blk_noalloc {s : fs_state} {i n : Nat} (h : wf s i) (hn : n < MAX_BLOCKS)
    (blk : Block) :
    get_file_blk s i n blk 0 =
      if ptr s i (lslot n) = 0 then (0, blk, s)
      else (((ptr s i (lslot n) : Nat) : Int), s.disk.blocks (ptr s i (lslot n)), s) := by
  unfold get_file_blk
  rw [get_file_blkno_noalloc h hn]
  by_cases hp : ptr s i (lslot n) = 0
  · simp [hp]
  · have hlt := h.ptr_lt (lslot_ok hn) hp
    have hpos : ((ptr s i (lslot n) : Nat) : Int) > 0 := by
      have : 0 < ptr s i (lslot n) := Nat.pos_of_ne_zero hp
      exact_mod_cast this
    simp only [hpos, if_true, hp, if_false, blkdev_read_valid _ hlt.1]
    simp

theorem get_file_blk_alloc {s : fs_state} {i n : Nat} (h : wf s i) (hn : n < MAX_BLOCKS)
    (blk : Block) :
    alloc_ok 3 s i (lslot n) ((get_file_blk s i n blk 1).1, (get_file_blk s i n blk 1).2.2) ∧
    ((get_file_blk s i n blk 1).1 ≠ 0 →
      (get_file_blk s i n blk 1).2.1 =
        (get_file_blk s i n blk 1).2.2.disk.blocks
          (ptr (get_file_blk s i n blk 1).2.2 i (lslot n))) := by
  have hr := get_file_blkno_alloc h hn
  unfold get_file_blk
  generalize get_file_blkno s i n 1 = r at hr
  rcases hr.result with h0 | ⟨hp, he⟩
  · have : ¬ (r.1 > 0) := by rw [h0]; simp
    simp only [this, if_false]
    exact ⟨hr, fun hne => absurd h0 hne⟩
  · have hlt := hr.wf.ptr_lt (lslot_ok hn) hp
    have hpos : r.1 > 0 := by
      rw [he]
      have : 0 < ptr r.2 i (lslot n) := Nat.pos_of_ne_zero hp
      exact_mod_cast this
    have hrd : r.2.disk.read r.1 blk = (0, r.2.disk.blocks (ptr r.2 i (lslot n))) := by
      rw [he, blkdev_read_valid _ hlt.1]
    simp only [hpos, if_true, hrd, lt_self_iff_false, if_false]
    exact ⟨hr, fun _ => trivial⟩

/-! ## The data write of one `do_write` iteration -/

/-- State after `disk->ops->write(disk, blkno, 1, blk)` and the update of size and mtime. -/
theorem data_write_spec {t : fs_state} {i : Nat} {σ : Slot} (h : wf t i) (hσ : σ.ok)
    (hl : σ.is_leaf) (hp : ptr t i σ ≠ 0) (blk : Block) (sz mt : Nat) :
    let u := (t.disk_write ((ptr t i σ : Nat) : Int) blk).set_inode i
      (fun ino => { ino with size := sz, mtime := mt })
    same_frame t u ∧ u.block_map = t.block_map ∧ (∀ τ : Slot, τ.ok → ptr u i τ = ptr t i τ) ∧
    (∀ c, u.disk.blocks c = if c = ptr t i σ then blk else t.disk.blocks c) ∧
    (u.inodes i).size = sz := by
  intro u
  have hlt := (h.ptr_lt hσ hp).1
  have hblocks : ∀ c, u.disk.blocks c = if c = ptr t i σ then blk else t.disk.blocks c := by
    intro c
    simp only [u, fs_state.set_inode, fs_state.disk_write, blkdev_write_blocks _ hlt]
  refine ⟨?_, ?_, ?_, hblocks, ?_⟩
  · simp only [u, same_frame, fs_state.set_inode, fs_state.disk_write, blkdev_write_nblks,
      and_self]
  · simp only [u, fs_state.set_inode, fs_state.disk_write]
  · apply ptr_congr
    · simp only [u, fs_state.set_inode, fs_state.disk_write, if_true]
    · simp only [u, fs_state.set_inode, fs_state.disk_write, if_true]
    · simp only [u, fs_state.set_inode, fs_state.disk_write, if_true]
    · intro τ hτ hnl hpτ
      rw [hblocks]
      have : ptr t i τ ≠ ptr t i σ :=
        h.ne_of_slot_ne hτ hσ hpτ (by intro e; rw [e] at hnl; exact hnl hl)
      simp only [this, if_false]
  · simp only [u, fs_state.set_inode, fs_state.disk_write, if_true]

/-! ## The loop of `do_write` -/

theorem lslot_is_leaf (n : Nat) : (lslot n).is_leaf := by
  unfold lslot
  split_ifs <;> trivial

theorem lslot_inj {n1 n2 : Nat} (h : lslot n1 = lslot n2) : n1 = n2 := by
  unfold lslot at h
  split_ifs at h with a1 a2 a3 a4 a5 a6 a7 a8
  · simpa using h
  · simp only [Slot.leaf1.injEq] at h; omega
  · simp only [Slot.leaf2.injEq] at h
    have e1 := Nat.div_add_mod (n1 - N_DIRECT - PTRS_PER_BLK) PTRS_PER_BLK
    have e2 := Nat.div_add_mod (n2 - N_DIRECT - PTRS_PER_BLK) PTRS_PER_BLK
    rw [h.1, h.2] at e1
    omega

theorem getD_drop (buf : List Nat) (l k : Nat) : (buf.drop l).getD k 0 = buf.getD (l + k) 0 := by
  simp only [List.getD_eq_getElem?_getD, List.getElem?_drop]

theorem do_write_loop_spec (i now : Nat) : ∀ (cnt : Nat) (s : fs_state) (B o : Nat)
    (buf : List Nat) (len : Nat), wf s i → o < FS_BLOCK_SIZE → len + o ≤ cnt * FS_BLOCK_SIZE →
    B + cnt ≤ MAX_BLOCKS →
    write_loop_ok s i cnt B o buf len (do_write_loop i now cnt B o buf len s) := by
  intro cnt
  induction cnt with
  | zero =>
    intro s B o buf len h ho hlen hB
    have hl0 : len = 0 := by omega
    simp only [do_write_loop]
    exact ⟨h, grow_refl s i, fun q _ _ _ => rfl, fun _ => rfl, fun e he => by simp at he,
      fun _ => hl0,
      fun _ hc => absurd hc (lt_irrefl 0), fun _ j hj => by omega, fun _ n h1 h2 => by omega,
      fun _ => rfl⟩
  | succ cnt ih =>
    intro s B o buf len h ho hlen hB
    have hBlt : B < MAX_BLOCKS := by omega
    obtain ⟨hg, hblk⟩ := get_file_blk_alloc h hBlt s.stack
    unfold do_write_loop
    generalize get_file_blk s i B s.stack 1 = g at hg hblk
    obtain ⟨gres, gblk, t⟩ := g
    simp only at hg hblk ⊢
    have hkeep := hg.grow.ptr_keep
    have hfb_ts : ∀ q, q / FS_BLOCK_SIZE < MAX_BLOCKS →
        ptr s i (lslot (q / FS_BLOCK_SIZE)) ≠ 0 → file_byte t i q = file_byte s i q := by
      intro q hq hp
      unfold file_byte
      rw [hkeep _ (lslot_ok hq) hp, hg.data _ (lslot_ok hq) (lslot_is_leaf _) hp]
    by_cases hle : gres ≤ 0
    · -- the block is unavailable
      simp only [hle, if_true]
      have hwf' := flush_mark_wf (i := i) hg.wf
      have hg0 : gres = 0 := by
        rcases hg.result with h0 | ⟨hp, he⟩
        · exact h0
        · simp only at he
          have : 0 < ptr t i (lslot B) := Nat.pos_of_ne_zero hp
          omega
      refine ⟨hwf', ?_, ?_, fun hc => by omega, ?_, fun hc => by simp at hc,
        fun hc => by simp at hc, fun hc => by simp at hc, fun hc => by simp at hc, ?_⟩
      · exact grow_mono (grow_trans hg.grow (flush_mark_grow hg.wf)) (by omega)
      · intro q hq hp _
        have hpt : ptr t i (lslot (q / FS_BLOCK_SIZE)) ≠ 0 := by
          rw [hkeep _ (lslot_ok hq) hp]; exact hp
        rw [flush_mark_file_byte hg.wf hq hpt, hfb_ts q hq hp]
      · intro e he
        simp only [hg0, if_true, Option.some.injEq] at he
        exact he.symm
      · intro hfree
        have := hg.nonzero (by omega)
        rcases hg.result with h0 | ⟨hp, he⟩
        · exact absurd h0 this
        · simp only at he
          have : 0 < ptr t i (lslot B) := Nat.pos_of_ne_zero hp
          omega
    · -- the block is available
      simp only [hle, if_false]
      have hp : ptr t i (lslot B) ≠ 0 ∧ gres = ((ptr t i (lslot B) : Nat) : Int) := by
        rcases hg.result with h0 | h1
        · simp only at h0; omega
        · exact h1
      obtain ⟨hp, he⟩ := hp
      have hgb : gblk = t.disk.blocks (ptr t i (lslot B)) :=
        hblk (by rw [he]; exact_mod_cast hp)
      subst he
      set l := min (FS_BLOCK_SIZE - o) len with hl
      set blk := memcpy_to_blk gblk o buf l with hblkdef
      obtain ⟨uf, um, up, ub, _⟩ := data_write_spec hg.wf (lslot_ok hBlt) (lslot_is_leaf B) hp blk
        (((t.inodes i).size + l) % 4294967296) (now % 4294967296)
      have usz : (((t.disk_write ((ptr t i (lslot B) : Nat) : Int) blk).set_inode i
          (fun ino => { ino with size := (ino.size + l) % 4294967296,
                                 mtime := now % 4294967296 })).inodes i).size
          = ((s.inodes i).size + l) % 4294967296 := by
        simp only [fs_state.set_inode, fs_state.disk_write, if_true]
        rw [← hg.size_eq]
      have hueq : (t.disk_write ((ptr t i (lslot B) : Nat) : Int) blk).set_inode i
          (fun ino => { ino with size := (ino.size + l) % 4294967296,
                                 mtime := now % 4294967296 })
          = (t.disk_write ((ptr t i (lslot B) : Nat) : Int) blk).set_inode i
          (fun ino => { ino with size := ((t.inodes i).size + l) % 4294967296,
                                 mtime := now % 4294967296 }) := by
        simp only [fs_state.set_inode, fs_state.disk_write]
        congr 1
        funext j
        by_cases hj : j = i
        · simp only [hj, if_true]
        · simp only [hj, if_false]
      rw [hueq] at usz ⊢
      generalize (t.disk_write ((ptr t i (lslot B) : Nat) : Int) blk).set_inode i
          (fun ino => { ino with size := ((t.inodes i).size + l) % 4294967296,
                                 mtime := now % 4294967296 }) = u at uf um up ub usz ⊢
      have hwfu : wf u i := wf_of_same_map hg.wf uf um up
      have hll : l ≤ len := by rw [hl]; exact Nat.min_le_right _ _
      have hlo : l ≤ FS_BLOCK_SIZE - o := by rw [hl]; exact Nat.min_le_left _ _
      have hlen' : (len - l) + 0 ≤ cnt * FS_BLOCK_SIZE := by
        rcases Nat.le_total (FS_BLOCK_SIZE - o) len with c | c
        · have : l = FS_BLOCK_SIZE - o := by rw [hl]; exact Nat.min_eq_left c
          simp only [FS_BLOCK_SIZE] at *; omega
        · have : l = len := by rw [hl]; exact Nat.min_eq_right c
          omega
      have IH := ih u (B + 1) 0 (buf.drop l) (len - l) hwfu (by decide) hlen' (by omega)
      generalize do_write_loop i now cnt (B + 1) 0 (buf.drop l) (len - l) u = r at IH
      have hfb_ut : ∀ q, q / FS_BLOCK_SIZE < MAX_BLOCKS →
          (q / FS_BLOCK_SIZE = B → q % FS_BLOCK_SIZE < o ∨ o + l ≤ q % FS_BLOCK_SIZE) →
          file_byte u i q = file_byte t i q := by
        intro q hq hcond
        unfold file_byte
        rw [up _ (lslot_ok hq), ub]
        by_cases hpe : ptr t i (lslot (q / FS_BLOCK_SIZE)) = ptr t i (lslot B)
        · have hqB : q / FS_BLOCK_SIZE = B := by
            apply lslot_inj
            exact hg.wf.inj _ _ (lslot_ok hq) (lslot_ok hBlt) (by rw [hpe]; exact hp) hpe
          have hc := hcond hqB
          simp only [hpe, if_true, hblkdef, memcpy_to_blk, hgb]
          have : ¬ (o ≤ q % FS_BLOCK_SIZE ∧ q % FS_BLOCK_SIZE < o + l) := by omega
          simp only [this, if_false]
        · simp only [hpe, if_false]
      have hgrow_su : grow 3 s u i := by
        have := grow_trans hg.grow (grow_of_same_map (i := i) uf um up)
        simpa using this
      refine ⟨IH.wf, ?_, ?_, fun hc => by omega, IH.err, IH.rem, ?_, ?_, ?_, ?_⟩
      · exact grow_mono (grow_trans hgrow_su IH.grow) (by omega)
      · intro q hq hps hpos
        have hpt : ptr t i (lslot (q / FS_BLOCK_SIZE)) ≠ 0 := by
          rw [hkeep _ (lslot_ok hq) hps]; exact hps
        have hpu : ptr u i (lslot (q / FS_BLOCK_SIZE)) ≠ 0 := by
          rw [up _ (lslot_ok hq)]; exact hpt
        have h1 : file_byte r.2.2 i q = file_byte u i q := by
          apply IH.frame q hq hpu
          rcases Nat.le_total (FS_BLOCK_SIZE - o) len with c | c
          · have : l = FS_BLOCK_SIZE - o := by rw [hl]; exact Nat.min_eq_left c
            simp only [FS_BLOCK_SIZE] at *; omega
          · have : l = len := by rw [hl]; exact Nat.min_eq_right c
            simp only [FS_BLOCK_SIZE] at *; omega
        have h2 : file_byte u i q = file_byte t i q := by
          apply hfb_ut q hq
          intro hqB
          simp only [FS_BLOCK_SIZE] at *; omega
        rw [h1, h2, hfb_ts q hq hps]
      · intro hnone _
        by_cases hc0 : cnt = 0
        · rw [IH.base hc0, usz]
          have : l = len := by
            rw [hl]; apply Nat.min_eq_right
            simp only [hc0, FS_BLOCK_SIZE] at *; omega
          rw [this]
        · rw [IH.size_eq hnone (Nat.pos_of_ne_zero hc0), usz, Nat.add_mod, Nat.mod_mod,
            ← Nat.add_mod]
          congr 1; omega
      · intro hnone j hj
        have hpuB : ptr u i (lslot B) ≠ 0 := by rw [up _ (lslot_ok hBlt)]; exact hp
        by_cases hjl : j < l
        · have hq : (B * FS_BLOCK_SIZE + o + j) / FS_BLOCK_SIZE = B := by
            simp only [FS_BLOCK_SIZE] at *; omega
          have hqm : (B * FS_BLOCK_SIZE + o + j) % FS_BLOCK_SIZE = o + j := by
            simp only [FS_BLOCK_SIZE] at *; omega
          have h1 : file_byte r.2.2 i (B * FS_BLOCK_SIZE + o + j)
              = file_byte u i (B * FS_BLOCK_SIZE + o + j) := by
            apply IH.frame _ (by rw [hq]; exact hBlt) (by rw [hq]; exact hpuB)
            left; simp only [FS_BLOCK_SIZE] at *; omega
          rw [h1]
          unfold file_byte
          rw [hq, hqm, up _ (lslot_ok hBlt), ub]
          simp only [if_true, hblkdef, memcpy_to_blk]
          have : o ≤ o + j ∧ o + j < o + l := by omega
          simp only [this, and_self, if_true, Nat.add_sub_cancel_left]
        · have hlo' : l = FS_BLOCK_SIZE - o := by
            rcases Nat.le_total (FS_BLOCK_SIZE - o) len with c | c
            · rw [hl]; exact Nat.min_eq_left c
            · have : l = len := by rw [hl]; exact Nat.min_eq_right c
              omega
          have := IH.written hnone (j - l) (by omega)
          rw [getD_drop] at this
          have e1 : (B + 1) * FS_BLOCK_SIZE + 0 + (j - l) = B * FS_BLOCK_SIZE + o + j := by
            simp only [FS_BLOCK_SIZE] at *; omega
          have e2 : l + (j - l) = j := by omega
          rw [e1, e2] at this
          exact this
      · intro hnone n hn1 hn2
        by_cases hnB : n = B
        · rw [hnB, IH.grow.ptr_keep _ (lslot_ok hBlt) (by rw [up _ (lslot_ok hBlt)]; exact hp),
            up _ (lslot_ok hBlt)]
          exact hp
        · exact IH.mapped hnone n (by omega) (by omega)
      · intro hfree
        apply IH.succeeds
        have := hgrow_su.free_le
        omega

/-! ## `do_read` on a well-formed inode -/

theorem do_read_loop_spec (i : Nat) : ∀ (cnt : Nat) (s : fs_state) (B o len : Nat)
    (out : List Nat), wf s i → o < FS_BLOCK_SIZE → len + o ≤ cnt * FS_BLOCK_SIZE →
    B + cnt ≤ MAX_BLOCKS → (∀ n, B ≤ n → n < B + cnt → ptr s i (lslot n) ≠ 0) →
    do_read_loop i cnt B o len out s =
      (true, out ++ (List.range len).map (fun j => file_byte s i (B * FS_BLOCK_SIZE + o + j)),
        s) := by
  intro cnt
  induction cnt with
  | zero =>
    intro s B o len out _ _ hlen _ _
    have : len = 0 := by omega
    simp [do_read_loop, this]
  | succ cnt ih =>
    intro s B o len out h ho hlen hB hmap
    have hBlt : B < MAX_BLOCKS := by omega
    have hp := hmap B (le_refl _) (by omega)
    have hpos : ¬ (((ptr s i (lslot B) : Nat) : Int) ≤ 0) := by
      have : 0 < ptr s i (lslot B) := Nat.pos_of_ne_zero hp
      omega
    unfold do_read_loop
    simp only [get_file_blk_noalloc h hBlt, hp, if_false, hpos]
    set l := min (FS_BLOCK_SIZE - o) len with hl
    have hll : l ≤ len := by rw [hl]; exact Nat.min_le_right _ _
    have hlo : l ≤ FS_BLOCK_SIZE - o := by rw [hl]; exact Nat.min_le_left _ _
    have hcase : l = len ∨ (l = FS_BLOCK_SIZE - o ∧ l < len) := by
      rcases Nat.lt_or_ge len (FS_BLOCK_SIZE - o) with c | c
      · left; rw [hl]; exact Nat.min_eq_right (Nat.le_of_lt c)
      · rcases Nat.eq_or_lt_of_le c with c' | c'
        · left; rw [hl, c']; exact Nat.min_self _
        · right; exact ⟨by rw [hl]; exact Nat.min_eq_left c, by
            rw [hl, Nat.min_eq_left c]; exact c'⟩
    have hlen' : (len - l) + 0 ≤ cnt * FS_BLOCK_SIZE := by
      simp only [FS_BLOCK_SIZE] at *; omega
    rw [ih s (B + 1) 0 (len - l) _ h (by decide) hlen' (by omega)
      (fun n h1 h2 => hmap n (by omega) (by omega))]
    have hsplit : List.range len = List.range l ++ (List.range (len - l)).map (fun j => l + j) := by
      have : len = l + (len - l) := by omega
      conv_lhs => rw [this]
      rw [List.range_add]
    have h1 : memcpy_from_blk (s.disk.blocks (ptr s i (lslot B))) o l
        = (List.range l).map (fun j => file_byte s i (B * FS_BLOCK_SIZE + o + j)) := by
      unfold memcpy_from_blk
      apply List.map_congr_left
      intro j hj
      rw [List.mem_range] at hj
      unfold file_byte
      have e1 : (B * FS_BLOCK_SIZE + o + j) / FS_BLOCK_SIZE = B := by
        simp only [FS_BLOCK_SIZE] at *; omega
      have e2 : (B * FS_BLOCK_SIZE + o + j) % FS_BLOCK_SIZE = o + j := by
        simp only [FS_BLOCK_SIZE] at *; omega
      rw [e1, e2]
    have h2 : (List.range (len - l)).map (fun j => file_byte s i ((B + 1) * FS_BLOCK_SIZE + 0 + j))
        = ((List.range (len - l)).map (fun j => l + j)).map
            (fun j => file_byte s i (B * FS_BLOCK_SIZE + o + j)) := by
      rw [List.map_map]
      apply List.map_congr_left
      intro j hj
      rw [List.mem_range] at hj
      have : (B + 1) * FS_BLOCK_SIZE + 0 + j = B * FS_BLOCK_SIZE + o + (l + j) := by
        simp only [FS_BLOCK_SIZE] at *; omega
      simp only [Function.comp, this]
    rw [h1, h2, hsplit, List.map_append, List.append_assoc]

/-- The bytes `[off, off + len)` of the file as `do_read` returns them. -/
theorem do_read_spec {s : fs_state} {i len off : Nat} (h : wf s i)
    (hoff : off < (s.inodes i).size) (hlen : off + len ≤ (s.inodes i).size)
    (hmax : (off + len) / FS_BLOCK_SIZE < MAX_BLOCKS)
    (hmap : ∀ n, off / FS_BLOCK_SIZE ≤ n → n ≤ (off + len) / FS_BLOCK_SIZE →
      ptr s i (lslot n) ≠ 0) :
    do_read s i len off =
      (int_of_u32 len, (List.range len).map (fun j => file_byte s i (off + j)), s) := by
  unfold do_read
  have c1 : ¬ (off ≥ (s.inodes i).size) := by omega
  have c2 : ¬ ((s.inodes i).size < off + len) := by omega
  simp only [c1, c2, if_false]
  have hle : off / FS_BLOCK_SIZE ≤ (off + len) / FS_BLOCK_SIZE :=
    Nat.div_le_div_right (Nat.le_add_right _ _)
  have hpos : off / FS_BLOCK_SIZE * FS_BLOCK_SIZE + (off - off / FS_BLOCK_SIZE * FS_BLOCK_SIZE)
      = off := by
    simp only [FS_BLOCK_SIZE]; omega
  rw [do_read_loop_spec i _ s _ _ len [] h (by simp only [FS_BLOCK_SIZE]; omega)
    (by simp only [FS_BLOCK_SIZE] at *; omega) (by omega)
    (fun n h1 h2 => hmap n h1 (by omega))]
  simp only [hpos, List.nil_append, if_true]

/-! ## `do_write` on a well-formed inode -/

theorem MAX_BLOCKS_eq : MAX_BLOCKS = 65798 := rfl

theorem do_write_spec {s : fs_state} {i : Nat} (buf : List Nat) {len off : Nat} (now : Nat)
    (h : wf s i) (hoff : off ≤ (s.inodes i).size)
    (hmax : (off + len) / FS_BLOCK_SIZE < MAX_BLOCKS) :
    write_ok s i buf len off (do_write s i buf len off now) := by
  have hle : off / FS_BLOCK_SIZE ≤ (off + len) / FS_BLOCK_SIZE :=
    Nat.div_le_div_right (Nat.le_add_right _ _)
  have hpos : off / FS_BLOCK_SIZE * FS_BLOCK_SIZE + (off - off / FS_BLOCK_SIZE * FS_BLOCK_SIZE)
      = off := by
    simp only [FS_BLOCK_SIZE]; omega
  have hlen31 : len < 2147483648 := by
    rw [MAX_BLOCKS_eq] at hmax; simp only [FS_BLOCK_SIZE] at hmax; omega
  have L := do_write_loop_spec i now ((off + len) / FS_BLOCK_SIZE + 1 - off / FS_BLOCK_SIZE) s
    (off / FS_BLOCK_SIZE) (off - off / FS_BLOCK_SIZE * FS_BLOCK_SIZE) buf len h
    (by simp only [FS_BLOCK_SIZE]; omega) (by simp only [FS_BLOCK_SIZE] at *; omega) (by omega)
  have Lframe := L.frame
  have Lwritten := L.written
  rw [hpos] at Lframe Lwritten
  unfold do_write
  have c1 : ¬ (off > (s.inodes i).size) := by omega
  simp only [c1, if_false]
  generalize do_write_loop i now ((off + len) / FS_BLOCK_SIZE + 1 - off / FS_BLOCK_SIZE)
    (off / FS_BLOCK_SIZE) (off - off / FS_BLOCK_SIZE * FS_BLOCK_SIZE) buf len s = r
    at L Lframe Lwritten
  obtain ⟨r1, rem, t⟩ := r
  cases r1 with
  | some e =>
    have he := L.err e rfl
    simp only at he ⊢
    have hne : ¬ (e = (len : Int)) := by rw [he]; simp only [ENOSPC]; omega
    refine ⟨L.wf, L.grow, Lframe, Or.inl he, fun hc => absurd hc hne, fun hc => absurd hc hne,
      fun hc => absurd hc hne, fun hf => ?_⟩
    have := L.succeeds hf
    simp at this
  | none =>
    have hrem : rem = 0 := L.rem rfl
    simp only [hrem, Nat.sub_zero, int_of_u32_lt hlen31] at L Lframe Lwritten ⊢
    have hcnt : 0 < (off + len) / FS_BLOCK_SIZE + 1 - off / FS_BLOCK_SIZE := by omega
    refine ⟨flush_mark_wf L.wf, ?_, ?_, Or.inr rfl, fun _ => ?_, fun _ j hj => ?_,
      fun _ n h1 h2 => ?_, fun _ => rfl⟩
    · have := grow_trans L.grow (flush_mark_grow L.wf)
      simpa using this
    · intro q hq hp hout
      have hpt : ptr t i (lslot (q / FS_BLOCK_SIZE)) ≠ 0 := by
        rw [L.grow.ptr_keep _ (lslot_ok hq) hp]; exact hp
      rw [flush_mark_file_byte L.wf hq hpt]
      exact Lframe q hq hp hout
    · rw [flush_mark_inodes]
      exact L.size_eq rfl hcnt
    · have hq : (off + j) / FS_BLOCK_SIZE < MAX_BLOCKS := by
        have : (off + j) / FS_BLOCK_SIZE ≤ (off + len) / FS_BLOCK_SIZE :=
          Nat.div_le_div_right (by omega)
        omega
      have hm : ptr t i (lslot ((off + j) / FS_BLOCK_SIZE)) ≠ 0 := by
        apply L.mapped rfl
        · exact Nat.div_le_div_right (Nat.le_add_right _ _)
        · have : (off + j) / FS_BLOCK_SIZE ≤ (off + len) / FS_BLOCK_SIZE :=
            Nat.div_le_div_right (by omega)
          omega
      rw [flush_mark_file_byte L.wf hq hm]
      exact Lwritten trivial j hj
    · have hn : n < MAX_BLOCKS := by omega
      rw [flush_mark_ptr L.wf _ (lslot_ok hn)]
      exact L.mapped rfl n h1 (by omega)

/-- Whatever the state, the loop of `do_write` consumes all of `len` unless it leaves with
an error, and the error is negative. -/
theorem do_write_loop_rem (i now : Nat) : ∀ (cnt : Nat) (s : fs_state) (B o : Nat)
    (buf : List Nat) (len : Nat), o < FS_BLOCK_SIZE → len + o ≤ cnt * FS_BLOCK_SIZE →
    ((do_write_loop i now cnt B o buf len s).1 = none →
      (do_write_loop i now cnt B o buf len s).2.1 = 0) ∧
    (∀ e, (do_write_loop i now cnt B o buf len s).1 = some e → e < 0) := by
  intro cnt
  induction cnt with
  | zero =>
    intro s B o buf len _ hlen
    simp only [do_write_loop]
    exact ⟨fun _ => by omega, fun e he => by simp at he⟩
  | succ cnt ih =>
    intro s B o buf len ho hlen
    unfold do_write_loop
    generalize get_file_blk s i B s.stack 1 = g
    by_cases hle : g.1 ≤ 0
    · simp only [hle, if_true]
      refine ⟨fun hc => by simp at hc, fun e he => ?_⟩
      simp only [Option.some.injEq] at he
      rw [← he]
      split_ifs with h0
      · simp only [ENOSPC]; omega
      · omega
    · simp only [hle, if_false]
      apply ih
      · decide
      · rcases Nat.le_total (FS_BLOCK_SIZE - o) len with c | c
        · rw [Nat.min_eq_left c]; simp only [FS_BLOCK_SIZE] at *; omega
        · rw [Nat.min_eq_right c]; omega

/-! ## Facts about the example volume -/

theorem fresh_vol_ptr (i : Nat) (σ : Slot) : ptr fresh_vol i σ = 0 := by
  cases σ <;> simp [ptr, fresh_vol, fresh_inode]

theorem fresh_vol_wf (i : Nat) : wf fresh_vol i := by
  refine ⟨le_refl _, by decide, ?_, ?_, ?_⟩
  · intro b hb
    simp only [fs_state.data_base, fs_state.inode_base, fresh_vol] at hb
    simp only [fresh_vol, decide_eq_true_eq]
    omega
  · intro σ _ hp
    exact absurd (fresh_vol_ptr i σ) hp
  · intro σ τ _ _ hp
    exact absurd (fresh_vol_ptr i σ) hp

theorem free_count_ge_three {s : fs_state} {a b c : Nat} (ha : is_free s a) (hb : is_free s b)
    (hc : is_free s c) (hab : a ≠ b) (hac : a ≠ c) (hbc : b ≠ c) : 3 ≤ free_count s := by
  unfold free_count
  have hsub : ({a, b, c} : Finset Nat) ⊆
      (Finset.range s.num_blocks).filter (fun b => 1 ≤ b ∧ s.block_map b = false) := by
    intro x hx
    simp only [Finset.mem_insert, Finset.mem_singleton] at hx
    simp only [Finset.mem_filter, Finset.mem_range]
    rcases hx with rfl | rfl | rfl
    · exact ⟨ha.2.1, ha.1, ha.2.2⟩
    · exact ⟨hb.2.1, hb.1, hb.2.2⟩
    · exact ⟨hc.2.1, hc.1, hc.2.2⟩
  have hcard : ({a, b, c} : Finset Nat).card = 3 := by
    rw [Finset.card_insert_of_not_mem (by simp [hab, hac]),
      Finset.card_insert_of_not_mem (by simp [hbc]), Finset.card_singleton]
  calc 3 = ({a, b, c} : Finset Nat).card := hcard.symm
    _ ≤ _ := Finset.card_le_card hsub

theorem fresh_vol_free : 3 ≤ free_count fresh_vol :=
  free_count_ge_three (a := 8) (b := 9) (c := 10) (by simp [is_free, fresh_vol])
    (by simp [is_free, fresh_vol]) (by simp [is_free, fresh_vol]) (by decide) (by decide)
    (by decide)

/-! ## Reading back what was written -/

theorem do_read_loop_true (i : Nat) : ∀ (cnt : Nat) (s : fs_state) (B o len : Nat)
    (out : List Nat), wf s i → B + cnt ≤ MAX_BLOCKS →
    (do_read_loop i cnt B o len out s).1 = true →
    ∀ n, B ≤ n → n < B + cnt → ptr s i (lslot n) ≠ 0 := by
  intro cnt
  induction cnt with
  | zero => intro s B o len out _ _ _ n h1 h2; omega
  | succ cnt ih =>
    intro s B o len out h hB hres n h1 h2
    have hBlt : B < MAX_BLOCKS := by omega
    unfold do_read_loop at hres
    simp only [get_file_blk_noalloc h hBlt] at hres
    by_cases hp : ptr s i (lslot B) = 0
    · simp [hp] at hres
    · have hpos : ¬ (((ptr s i (lslot B) : Nat) : Int) ≤ 0) := by
        have : 0 < ptr s i (lslot B) := Nat.pos_of_ne_zero hp
        omega
      simp only [hp, if_false, hpos] at hres
      by_cases hn : n = B
      · rw [hn]; exact hp
      · exact ih s (B + 1) 0 _ _ h (by omega) hres n (by omega) (by omega)

/-- A one-byte `do_read` that succeeds returns the byte of the file at that position. -/
theorem do_read_one {s : fs_state} {i p : Nat} (h : wf s i) (hp : p < (s.inodes i).size)
    (hmax : (p + 1) / FS_BLOCK_SIZE < MAX_BLOCKS) (hrd : (do_read s i 1 p).1 = 1) :
    (∀ n, p / FS_BLOCK_SIZE ≤ n → n ≤ (p + 1) / FS_BLOCK_SIZE → ptr s i (lslot n) ≠ 0) ∧
    (do_read s i 1 p).2.1 = [file_byte s i p] := by
  have hmapped : ∀ n, p / FS_BLOCK_SIZE ≤ n → n ≤ (p + 1) / FS_BLOCK_SIZE →
      ptr s i (lslot n) ≠ 0 := by
    have hle : p / FS_BLOCK_SIZE ≤ (p + 1) / FS_BLOCK_SIZE :=
      Nat.div_le_div_right (Nat.le_add_right _ _)
    unfold do_read at hrd
    have c1 : ¬ (p ≥ (s.inodes i).size) := by omega
    have c2 : ¬ ((s.inodes i).size < p + 1) := by omega
    simp only [c1, c2, if_false] at hrd
    intro n h1 h2
    apply do_read_loop_true i ((p + 1) / FS_BLOCK_SIZE + 1 - p / FS_BLOCK_SIZE) s
      (p / FS_BLOCK_SIZE) (p - p / FS_BLOCK_SIZE * FS_BLOCK_SIZE) 1 [] h (by omega) _ n h1
      (by omega)
    by_contra hc
    simp only [hc, EIO] at hrd
    simp at hrd
  refine ⟨hmapped, ?_⟩
  rw [do_read_spec h hp (by omega) hmax hmapped]
  simp [List.range_succ]

/-! ## Releasing lists of blocks -/

theorem release_all_nil (s : fs_state) : release_all s [] = s := rfl

theorem release_all_append (s : fs_state) (l1 l2 : List Nat) :
    release_all s (l1 ++ l2) = release_all (release_all s l1) l2 := by
  simp [release_all, List.foldl_append]

theorem release_all_snoc (s : fs_state) (l : List Nat) (b : Nat) :
    release_all s (l ++ [b]) = return_blk (release_all s l) b := by
  simp [release_all, List.foldl_append]

theorem release_all_disk (l : List Nat) : ∀ s : fs_state, (release_all s l).disk = s.disk := by
  induction l with
  | nil => intro s; rfl
  | cons b l ih => intro s; exact (ih (return_blk s b)).trans rfl

theorem release_all_inodes (l : List Nat) :
    ∀ s : fs_state, (release_all s l).inodes = s.inodes := by
  induction l with
  | nil => intro s; rfl
  | cons b l ih => intro s; exact (ih (return_blk s b)).trans rfl

theorem release_all_stack (l : List Nat) : ∀ s : fs_state, (release_all s l).stack = s.stack := by
  induction l with
  | nil => intro s; rfl
  | cons b l ih => intro s; exact (ih (return_blk s b)).trans rfl

theorem release_all_inode_map (l : List Nat) :
    ∀ s : fs_state, (release_all s l).inode_map = s.inode_map := by
  induction l with
  | nil => intro s; rfl
  | cons b l ih => intro s; exact (ih (return_blk s b)).trans rfl

theorem release_all_returned (l : List Nat) :
    ∀ s : fs_state, (release_all s l).returned = l.reverse ++ s.returned := by
  induction l with
  | nil => intro s; rfl
  | cons b l ih =>
    intro s
    show (release_all (return_blk s b) l).returned = _
    rw [ih]
    simp [return_blk]

theorem release_all_block_map (l : List Nat) :
    ∀ (s : fs_state) (c : Nat),
      (release_all s l).block_map c = if c ∈ l then false else s.block_map c := by
  induction l with
  | nil => intro s c; simp [release_all]
  | cons b l ih =>
    intro s c
    show (release_all (return_blk s b) l).block_map c = _
    rw [ih]
    by_cases h1 : c ∈ l
    · simp [h1]
    · by_cases h2 : c = b
      · simp [h1, h2, return_blk]
      · simp [h1, h2, return_blk]

theorem release_all_set_inode (l : List Nat) (i : Nat) (f : fs_inode → fs_inode) :
    ∀ s : fs_state, release_all (s.set_inode i f) l = (release_all s l).set_inode i f := by
  induction l with
  | nil => intro s; rfl
  | cons b l ih =>
    intro s
    show release_all (return_blk (s.set_inode i f) b) l = _
    have : return_blk (s.set_inode i f) b = (return_blk s b).set_inode i f := rfl
    rw [this, ih]
    rfl

theorem set_inode_set_inode (s : fs_state) (i : Nat) (f g : fs_inode → fs_inode) :
    (s.set_inode i f).set_inode i g = s.set_inode i (fun ino => g (f ino)) := by
  simp only [fs_state.set_inode]
  congr 1
  funext j
  by_cases h : j = i
  · simp [h]
  · simp [h]

theorem set_inode_congr (s : fs_state) (i : Nat) {f g : fs_inode → fs_inode}
    (h : f (s.inodes i) = g (s.inodes i)) : s.set_inode i f = s.set_inode i g := by
  simp only [fs_state.set_inode]
  congr 1
  funext j
  by_cases hj : j = i
  · simp [hj, h]
  · simp [hj]

theorem set_inode_id (s : fs_state) (i : Nat) {f : fs_inode → fs_inode}
    (h : f (s.inodes i) = s.inodes i) : s.set_inode i f = s := by
  have : s.inodes = fun j => if j = i then f (s.inodes j) else s.inodes j := by
    funext j
    by_cases hj : j = i
    · simp [hj, h]
    · simp [hj]
  simp only [fs_state.set_inode]
  rw [← this]

/-! ## The loops of `do_truncate` -/

theorem release_fold (f : Nat → Nat) (l : List Nat) :
    ∀ s : fs_state,
      l.foldl (fun t j => if f j ≠ 0 then return_blk t (f j) else t) s =
        release_all s ((l.map f).filter nonzero) := by
  induction l with
  | nil => intro s; rfl
  | cons a l ih =>
    intro s
    simp only [List.foldl_cons, List.map_cons]
    rw [ih]
    by_cases h : f a = 0
    · simp [h, List.filter_cons, nonzero]
    · simp [h, List.filter_cons, release_all, nonzero]

theorem truncate_leaves_eq (buf1 : Block) (s : fs_state) :
    truncate_leaves buf1 s =
      release_all s (((List.range PTRS_PER_BLK).map (get32 buf1)).filter
        nonzero) :=
  release_fold (get32 buf1) _ s

/-- The blocks released for entry `m` of the double-indirect block in `buf`. -/
theorem truncate_indir2_fold (s : fs_state) (buf : Block) (l : List Nat)
    (hr : ∀ m ∈ l, get32 buf m ≠ 0 → readable s (get32 buf m)) :
    ∀ (b1 : Block) (t : fs_state), t.disk = s.disk →
      (l.foldl
        (fun p i =>
          if get32 buf i ≠ 0 then
            let buf1 := (p.2.disk.read (int_of_u32 (get32 buf i)) p.1).2
            (buf1, return_blk (truncate_leaves buf1 p.2) (get32 buf i))
          else p) (b1, t)).2 =
      release_all t (l.flatMap (fun m =>
        if get32 buf m ≠ 0 then
          ((List.range PTRS_PER_BLK).map (get32 (s.disk.blocks (get32 buf m)))).filter
            nonzero ++ [get32 buf m]
        else [])) := by
  induction l with
  | nil => intro b1 t _; rfl
  | cons a l ih =>
    intro b1 t ht
    have hr' : ∀ m ∈ l, get32 buf m ≠ 0 → readable s (get32 buf m) :=
      fun m hm => hr m (List.mem_cons_of_mem _ hm)
    simp only [List.foldl_cons, List.flatMap_cons]
    by_cases h : get32 buf a = 0
    · simp only [h, ne_eq, not_true_eq_false, if_false, List.nil_append]
      exact ih hr' b1 t ht
    · have hra := hr a (List.mem_cons_self _ _) h
      have hrd : t.disk.read (int_of_u32 (get32 buf a)) b1 = (0, s.disk.blocks (get32 buf a)) := by
        rw [ht]; exact read_readable hra b1
      simp only [h, ne_eq, not_false_eq_true, if_true, hrd]
      rw [ih hr' _ _ (by
        show (return_blk (truncate_leaves _ t) _).disk = s.disk
        rw [truncate_leaves_eq]
        exact (release_all_disk _ t).trans ht)]
      rw [truncate_leaves_eq, ← release_all_snoc, ← release_all_append]

theorem truncate_direct_fold (i : Nat) (l : List Nat) (hl : l.Nodup) : ∀ t : fs_state,
    l.foldl
      (fun t a =>
        if (t.inodes i).direct a ≠ 0 then
          (return_blk t ((t.inodes i).direct a)).set_inode i
            (fun ino => { ino with direct := fun j => if j = a then 0 else ino.direct j })
        else t) t =
      (release_all t ((l.map (t.inodes i).direct).filter nonzero)).set_inode i
        (fun ino => { ino with direct := fun j => if j ∈ l then 0 else ino.direct j }) := by
  induction l with
  | nil =>
    intro t
    simp only [List.foldl_nil, List.map_nil, List.filter_nil, release_all_nil]
    symm
    apply set_inode_id
    simp
  | cons a l ih =>
    intro t
    have hal : a ∉ l := (List.nodup_cons.mp hl).1
    have hl' : l.Nodup := (List.nodup_cons.mp hl).2
    simp only [List.foldl_cons, List.map_cons]
    by_cases h : (t.inodes i).direct a = 0
    · simp only [h, ne_eq, not_true_eq_false, if_false]
      rw [ih hl' t]
      have hf : (List.filter nonzero (0 :: List.map (t.inodes i).direct l))
          = List.filter nonzero (List.map (t.inodes i).direct l) := by
        simp [List.filter_cons, nonzero]
      rw [hf]
      apply set_inode_congr
      rw [release_all_inodes]
      congr 1
      funext j
      by_cases hj : j = a
      · simp [hj, hal, h]
      · simp [hj]
    · simp only [h, ne_eq, not_false_eq_true, if_true]
      rw [ih hl' _]
      have hmap : List.map (((return_blk t ((t.inodes i).direct a)).set_inode i
          (fun ino => { ino with direct := fun j => if j = a then 0 else ino.direct j })).inodes
            i).direct l = List.map (t.inodes i).direct l := by
        apply List.map_congr_left
        intro j hj
        have : j ≠ a := fun e => hal (e ▸ hj)
        simp [fs_state.set_inode, return_blk, this]
      rw [hmap, release_all_set_inode, set_inode_set_inode]
      have hf : (List.filter nonzero
          ((t.inodes i).direct a :: List.map (t.inodes i).direct l))
          = (t.inodes i).direct a ::
            List.filter nonzero (List.map (t.inodes i).direct l) := by
        simp [List.filter_cons, h, nonzero]
      rw [hf]
      have hrel : ∀ L, release_all (return_blk t ((t.inodes i).direct a)) L
          = release_all t ((t.inodes i).direct a :: L) := fun L => rfl
      rw [hrel]
      apply set_inode_congr
      congr 1
      funext j
      by_cases hj : j = a
      · simp [hj]
      · simp [hj]

/-! ## The slots of a file -/

theorem mem_all_slots (σ : Slot) : σ ∈ all_slots ↔ σ.ok := by
  cases σ <;> simp [all_slots, Slot.ok]

theorem all_slots_nodup : all_slots.Nodup := by
  unfold all_slots
  have h2 : ((List.range PTRS_PER_BLK).flatMap
      (fun m => (List.range PTRS_PER_BLK).map (Slot.leaf2 m) ++ [Slot.mid m])).Nodup := by
    rw [List.nodup_flatMap]
    constructor
    · intro m _
      rw [List.nodup_append]
      refine ⟨?_, List.nodup_singleton _, ?_⟩
      · exact (List.nodup_range _).map (fun a b h => by simpa using h)
      · intro σ h1 h2
        simp only [List.mem_map, List.mem_range] at h1
        simp only [List.mem_singleton] at h2
        obtain ⟨k, _, rfl⟩ := h1
        exact Slot.noConfusion h2
    · apply (List.nodup_range _).pairwise_of_forall_ne
      intro a _ b _ hab σ h1 h2
      simp only [List.mem_append, List.mem_map, List.mem_range, List.mem_singleton] at h1 h2
      rcases h1 with ⟨k, _, rfl⟩ | rfl
      · rcases h2 with ⟨k', _, h⟩ | h
        · simp only [Slot.leaf2.injEq] at h; exact hab h.1.symm
        · exact Slot.noConfusion h
      · rcases h2 with ⟨k', _, h⟩ | h
        · exact Slot.noConfusion h
        · simp only [Slot.mid.injEq] at h; exact hab h
  have h1 : ((List.range PTRS_PER_BLK).map Slot.leaf1).Nodup :=
    (List.nodup_range _).map (fun a b h => by simpa using h)
  have hd : ((List.range N_DIRECT).map Slot.direct).Nodup :=
    (List.nodup_range _).map (fun a b h => by simpa using h)
  simp only [List.nodup_append, h2, h1, hd, List.nodup_singleton, true_and, and_true]
  refine ⟨⟨⟨?_, ?_⟩, ?_⟩, ?_⟩ <;>
    · intro σ hσ hτ
      simp only [List.mem_append, List.mem_flatMap, List.mem_map, List.mem_range,
        List.mem_singleton] at hσ hτ
      cases σ <;> simp_all

/-! ## The blocks a file owns -/

theorem mem_owned_blocks (s : fs_state) (i b : Nat) :
    b ∈ owned_blocks s i ↔ b ≠ 0 ∧ ∃ σ : Slot, σ.ok ∧ ptr s i σ = b := by
  simp only [owned_blocks, List.mem_filter, List.mem_map, mem_all_slots, nonzero,
    decide_eq_true_eq]
  exact ⟨fun ⟨h1, h2⟩ => ⟨h2, h1⟩, fun ⟨h1, h2⟩ => ⟨h2, h1⟩⟩

theorem owned_blocks_nodup {s : fs_state} {i : Nat} (h : wf s i) : (owned_blocks s i).Nodup := by
  unfold owned_blocks
  rw [List.filter_map]
  apply List.Nodup.map_on
  · intro σ hσ τ hτ he
    simp only [List.mem_filter, mem_all_slots, Function.comp, nonzero, decide_eq_true_eq]
      at hσ hτ
    exact h.inj σ τ hσ.1 hτ.1 hσ.2 he
  · exact all_slots_nodup.filter _

theorem filter_zeros (l : List Nat) (f : Nat → Nat) (h : ∀ a ∈ l, f a = 0) :
    (l.map f).filter nonzero = [] := by
  rw [List.filter_eq_nil_iff]
  intro b hb
  simp only [List.mem_map] at hb
  obtain ⟨a, ha, rfl⟩ := hb
  simp [h a ha, nonzero]

theorem filter_nonzero_singleton (b : Nat) :
    [b].filter nonzero = if b ≠ 0 then [b] else [] := by
  by_cases h : b = 0
  · simp [h, nonzero]
  · simp [h, nonzero]

theorem owned_leaf2 (s : fs_state) (i m : Nat) :
    ((List.range PTRS_PER_BLK).map (ptr s i ∘ Slot.leaf2 m)).filter nonzero ++
        [ptr s i (Slot.mid m)].filter nonzero =
      if (s.inodes i).indir_2 ≠ 0 ∧ get32 (s.disk.blocks (s.inodes i).indir_2) m ≠ 0 then
        ((List.range PTRS_PER_BLK).map
          (get32 (s.disk.blocks (get32 (s.disk.blocks (s.inodes i).indir_2) m)))).filter
            nonzero ++ [get32 (s.disk.blocks (s.inodes i).indir_2) m]
      else [] := by
  by_cases h2 : (s.inodes i).indir_2 = 0
  · rw [filter_zeros _ _ (fun a _ => by simp [ptr, h2]), filter_nonzero_singleton]
    simp [ptr, h2]
  · by_cases h3 : get32 (s.disk.blocks (s.inodes i).indir_2) m = 0
    · rw [filter_zeros _ _ (fun a _ => by simp [ptr, h2, h3]), filter_nonzero_singleton]
      simp [ptr, h2, h3]
    · have e1 : List.map (ptr s i ∘ Slot.leaf2 m) (List.range PTRS_PER_BLK)
          = List.map (get32 (s.disk.blocks (get32 (s.disk.blocks (s.inodes i).indir_2) m)))
              (List.range PTRS_PER_BLK) := by
        apply List.map_congr_left
        intro k _
        simp [ptr, h2, h3]
      rw [e1, filter_nonzero_singleton]
      simp [ptr, h2, h3]

theorem owned_indir2 (s : fs_state) (i : Nat) :
    (List.range PTRS_PER_BLK).flatMap (fun m =>
        ((List.range PTRS_PER_BLK).map (ptr s i ∘ Slot.leaf2 m)).filter nonzero ++
          [ptr s i (Slot.mid m)].filter nonzero) ++ [ptr s i Slot.ind2].filter nonzero =
      if (s.inodes i).indir_2 ≠ 0 then
        (List.range PTRS_PER_BLK).flatMap (fun m =>
          if get32 (s.disk.blocks (s.inodes i).indir_2) m ≠ 0 then
            ((List.range PTRS_PER_BLK).map
              (get32 (s.disk.blocks (get32 (s.disk.blocks (s.inodes i).indir_2) m)))).filter
                nonzero ++ [get32 (s.disk.blocks (s.inodes i).indir_2) m]
          else []) ++ [(s.inodes i).indir_2]
      else [] := by
  have hf := funext (owned_leaf2 s i)
  rw [hf, filter_nonzero_singleton]
  by_cases h2 : (s.inodes i).indir_2 = 0
  · simp [h2, ptr]
  · simp [h2, ptr]

theorem owned_indir1 (s : fs_state) (i : Nat) :
    ((List.range PTRS_PER_BLK).map (ptr s i ∘ Slot.leaf1)).filter nonzero ++
        [ptr s i Slot.ind1].filter nonzero =
      if (s.inodes i).indir_1 ≠ 0 then
        ((List.range PTRS_PER_BLK).map (get32 (s.disk.blocks (s.inodes i).indir_1))).filter
          nonzero ++ [(s.inodes i).indir_1]
      else [] := by
  by_cases h1 : (s.inodes i).indir_1 = 0
  · rw [filter_zeros _ _ (fun a _ => by simp [ptr, h1]), filter_nonzero_singleton]
    simp [ptr, h1]
  · have e1 : List.map (ptr s i ∘ Slot.leaf1) (List.range PTRS_PER_BLK)
        = List.map (get32 (s.disk.blocks (s.inodes i).indir_1)) (List.range PTRS_PER_BLK) := by
      apply List.map_congr_left
      intro k _
      simp [ptr, h1]
    rw [e1, filter_nonzero_singleton]
    simp [ptr, h1]

/-- The owned blocks, part by part as `do_truncate` releases them. -/
theorem owned_blocks_eq (s : fs_state) (i : Nat) :
    owned_blocks s i =
      (if (s.inodes i).indir_2 ≠ 0 then
        (List.range PTRS_PER_BLK).flatMap (fun m =>
          if get32 (s.disk.blocks (s.inodes i).indir_2) m ≠ 0 then
            ((List.range PTRS_PER_BLK).map
              (get32 (s.disk.blocks (get32 (s.disk.blocks (s.inodes i).indir_2) m)))).filter
                nonzero ++ [get32 (s.disk.blocks (s.inodes i).indir_2) m]
          else []) ++ [(s.inodes i).indir_2]
      else []) ++
      ((if (s.inodes i).indir_1 ≠ 0 then
        ((List.range PTRS_PER_BLK).map (get32 (s.disk.blocks (s.inodes i).indir_1))).filter
          nonzero ++ [(s.inodes i).indir_1]
      else []) ++
      ((List.range N_DIRECT).map (s.inodes i).direct).filter nonzero) := by
  rw [← owned_indir2, ← owned_indir1]
  unfold owned_blocks all_slots
  simp only [List.map_append, List.filter_append, List.map_flatMap, List.filter_flatMap,
    List.map_map, List.map_cons, List.map_nil, List.append_assoc]
  rfl

/-! ## `do_truncate` on a well-formed inode -/

theorem clear_indir_2_id {s : fs_state} {i : Nat} (h : (s.inodes i).indir_2 = 0) :
    s.set_inode i (fun ino => { ino with indir_2 := 0 }) = s := by
  apply set_inode_id
  rw [← h]

theorem clear_indir_1_id {s : fs_state} {i : Nat} (h : (s.inodes i).indir_1 = 0) :
    s.set_inode i (fun ino => { ino with indir_1 := 0 }) = s := by
  apply set_inode_id
  rw [← h]

/-- Lines 333-348: the double-indirect part of `do_truncate`. -/
theorem truncate_part2 {s : fs_state} {i : Nat} (h : wf s i)
    (h2 : (s.inodes i).indir_2 ≠ 0) :
    (return_blk (truncate_indir2 (s.disk.blocks (s.inodes i).indir_2) s).2
        (((truncate_indir2 (s.disk.blocks (s.inodes i).indir_2) s).2.inodes i).indir_2)).set_inode
        i (fun ino => { ino with indir_2 := 0 }) =
      (release_all s ((List.range PTRS_PER_BLK).flatMap (fun m =>
          if get32 (s.disk.blocks (s.inodes i).indir_2) m ≠ 0 then
            ((List.range PTRS_PER_BLK).map
              (get32 (s.disk.blocks (get32 (s.disk.blocks (s.inodes i).indir_2) m)))).filter
                nonzero ++ [get32 (s.disk.blocks (s.inodes i).indir_2) m]
          else []) ++ [(s.inodes i).indir_2])).set_inode i
        (fun ino => { ino with indir_2 := 0 }) := by
  have hr : ∀ m ∈ List.range PTRS_PER_BLK,
      get32 (s.disk.blocks (s.inodes i).indir_2) m ≠ 0 →
      readable s (get32 (s.disk.blocks (s.inodes i).indir_2) m) := by
    intro m hm hne
    rw [List.mem_range] at hm
    have := h.ptr_lt (σ := .mid m) hm (by simpa [ptr, h2] using hne)
    simpa [ptr, h2, readable] using this
  have e := truncate_indir2_fold s (s.disk.blocks (s.inodes i).indir_2) _ hr s.stack s rfl
  unfold truncate_indir2
  rw [e, release_all_inodes, release_all_snoc]

/-- Lines 351-360: the single-indirect part of `do_truncate`. -/
theorem truncate_part1 (s t : fs_state) (i : Nat) :
    (return_blk (truncate_leaves (s.disk.blocks (s.inodes i).indir_1) t)
        (((truncate_leaves (s.disk.blocks (s.inodes i).indir_1) t).inodes i).indir_1)).set_inode
        i (fun ino => { ino with indir_1 := 0 }) =
      (release_all t (((List.range PTRS_PER_BLK).map
          (get32 (s.disk.blocks (s.inodes i).indir_1))).filter nonzero ++
            [(t.inodes i).indir_1])).set_inode i
        (fun ino => { ino with indir_1 := 0 }) := by
  rw [truncate_leaves_eq, release_all_inodes, release_all_snoc]

theorem do_truncate_eq {s : fs_state} {i : Nat} (h : wf s i) (now : Nat) :
    do_truncate s i 0 now =
      (0, (release_all s (owned_blocks s i)).set_inode i (truncated_inode now)) := by
  rw [owned_blocks_eq]
  unfold do_truncate
  simp only [ne_eq, not_true_eq_false, if_false]
  -- the double-indirect part
  have p2 : (if ¬ (s.inodes i).indir_2 = 0 then
        (return_blk (truncate_indir2
            (if ¬ (s.inodes i).indir_2 = 0 then
              (s.disk.read (int_of_u32 (s.inodes i).indir_2) s.stack).2 else s.stack) s).2
          (((truncate_indir2
            (if ¬ (s.inodes i).indir_2 = 0 then
              (s.disk.read (int_of_u32 (s.inodes i).indir_2) s.stack).2 else s.stack) s).2.inodes
              i).indir_2)).set_inode
          i (fun ino => { ino with indir_2 := 0 })
      else s) =
      (release_all s (if ¬ (s.inodes i).indir_2 = 0 then
        (List.range PTRS_PER_BLK).flatMap (fun m =>
          if ¬ get32 (s.disk.blocks (s.inodes i).indir_2) m = 0 then
            ((List.range PTRS_PER_BLK).map
              (get32 (s.disk.blocks (get32 (s.disk.blocks (s.inodes i).indir_2) m)))).filter
                nonzero ++ [get32 (s.disk.blocks (s.inodes i).indir_2) m]
          else []) ++ [(s.inodes i).indir_2]
      else [])).set_inode i (fun ino => { ino with indir_2 := 0 }) := by
    by_cases h2 : (s.inodes i).indir_2 = 0
    · simp only [h2, not_true_eq_false, if_false, release_all_nil]
      exact (clear_indir_2_id h2).symm
    · have hrd := h.read (σ := .ind2) trivial h2 s.stack
      simp only [ptr] at hrd
      simp only [h2, not_false_eq_true, if_true, hrd]
      exact truncate_part2 h h2
  rw [p2]
  generalize hA2 : (if ¬ (s.inodes i).indir_2 = 0 then
        (List.range PTRS_PER_BLK).flatMap (fun m =>
          if ¬ get32 (s.disk.blocks (s.inodes i).indir_2) m = 0 then
            ((List.range PTRS_PER_BLK).map
              (get32 (s.disk.blocks (get32 (s.disk.blocks (s.inodes i).indir_2) m)))).filter
                nonzero ++ [get32 (s.disk.blocks (s.inodes i).indir_2) m]
          else []) ++ [(s.inodes i).indir_2]
      else []) = A2
  -- the single-indirect part
  have hs1i : (((release_all s A2).set_inode i (fun ino => { ino with indir_2 := 0 })).inodes
      i).indir_1 = (s.inodes i).indir_1 := by
    simp [fs_state.set_inode, release_all_inodes]
  have hs1d : ((release_all s A2).set_inode i (fun ino => { ino with indir_2 := 0 })).disk
      = s.disk := by
    simp [fs_state.set_inode, release_all_disk]
  have p1 : ∀ buf2 : Block, (if ¬ (s.inodes i).indir_1 = 0 then
        (return_blk (truncate_leaves
            (s.disk.read (int_of_u32 (s.inodes i).indir_1) buf2).2
            ((release_all s A2).set_inode i (fun ino => { ino with indir_2 := 0 })))
          (((truncate_leaves
            (s.disk.read (int_of_u32 (s.inodes i).indir_1) buf2).2
            ((release_all s A2).set_inode i (fun ino => { ino with indir_2 := 0 }))).inodes
              i).indir_1)).set_inode
          i (fun ino => { ino with indir_1 := 0 })
      else (release_all s A2).set_inode i (fun ino => { ino with indir_2 := 0 })) =
      (release_all s (A2 ++ (if ¬ (s.inodes i).indir_1 = 0 then
        ((List.range PTRS_PER_BLK).map (get32 (s.disk.blocks (s.inodes i).indir_1))).filter
          nonzero ++ [(s.inodes i).indir_1]
      else []))).set_inode i (fun ino => { ino with indir_1 := 0, indir_2 := 0 }) := by
    intro buf2
    by_cases h1 : (s.inodes i).indir_1 = 0
    · simp only [h1, not_true_eq_false, if_false, List.append_nil]
      apply set_inode_congr
      rw [release_all_inodes, h1]
    · have hrd := h.read (σ := .ind1) trivial h1 buf2
      simp only [ptr] at hrd
      simp only [h1, not_false_eq_true, if_true, hrd]
      rw [truncate_part1 s _ i, hs1i, release_all_set_inode, set_inode_set_inode,
        ← release_all_append]
  simp only [hs1i, hs1d]
  rw [p1]
  generalize hA1 : (if ¬ (s.inodes i).indir_1 = 0 then
        ((List.range PTRS_PER_BLK).map (get32 (s.disk.blocks (s.inodes i).indir_1))).filter
          nonzero ++ [(s.inodes i).indir_1]
      else []) = A1
  -- the direct pointers
  unfold truncate_direct
  rw [truncate_direct_fold i _ (List.nodup_range _)]
  have hd : (((release_all s (A2 ++ A1)).set_inode i
      (fun ino => { ino with indir_1 := 0, indir_2 := 0 })).inodes i).direct
      = (s.inodes i).direct := by
    simp [fs_state.set_inode, release_all_inodes]
  rw [hd, release_all_set_inode, set_inode_set_inode, set_inode_set_inode,
    ← release_all_append, List.append_assoc]
  congr 1
  apply set_inode_congr
  simp only [truncated_inode, List.mem_range]

/-! ## Writing over blocks that are already mapped -/

theorem get_file_blkno_present {s : fs_state} {i n : Nat} (h : wf s i) (hn : n < MAX_BLOCKS)
    (hp : ptr s i (lslot n) ≠ 0) (alloc : Nat) :
    get_file_blkno s i n alloc = (((ptr s i (lslot n) : Nat) : Int), s) := by
  unfold lslot at hp ⊢
  unfold get_file_blkno
  by_cases h1 : n < N_DIRECT
  · simp only [h1, if_true] at hp ⊢
    have := h.ptr_lt (σ := .direct n) h1 hp
    simp only [ptr] at this hp
    simp [hp, ptr, int_of_u32_lt this.2]
  · simp only [h1, if_false] at hp ⊢
    by_cases h2 : n - N_DIRECT < PTRS_PER_BLK
    · simp only [h2, if_true] at hp ⊢
      have h3 : (s.inodes i).indir_1 ≠ 0 := by
        intro e; simp [ptr, e] at hp
      have hr := h.read (σ := .ind1) trivial h3 s.stack
      have hlt := h.ptr_lt (σ := .leaf1 (n - N_DIRECT)) h2 hp
      simp only [ptr, h3, if_false] at hr hp hlt
      simp only [h3, if_false, get_file_blkno_indir1, hr, ptr, hp, int_of_u32_lt hlt.2]
    · simp only [h2, if_false] at hp ⊢
      have h5 : ¬ (n - N_DIRECT - PTRS_PER_BLK > PTRS_PER_BLK * PTRS_PER_BLK) := by
        rw [MAX_BLOCKS_eq] at hn; simp only [N_DIRECT, PTRS_PER_BLK] at *; omega
      have hm : (n - N_DIRECT - PTRS_PER_BLK) / PTRS_PER_BLK < PTRS_PER_BLK := by
        rw [Nat.div_lt_iff_lt_mul (by decide)]
        rw [MAX_BLOCKS_eq] at hn; simp only [N_DIRECT, PTRS_PER_BLK] at *; omega
      have hk : (n - N_DIRECT - PTRS_PER_BLK) % PTRS_PER_BLK < PTRS_PER_BLK :=
        Nat.mod_lt _ (by decide)
      simp only [h5, if_false, sub_div_mul_eq_mod]
      generalize (n - N_DIRECT - PTRS_PER_BLK) / PTRS_PER_BLK = m at hm hp ⊢
      generalize (n - N_DIRECT - PTRS_PER_BLK) % PTRS_PER_BLK = k at hk hp ⊢
      have h3 : (s.inodes i).indir_2 ≠ 0 := by
        intro e; simp [ptr, e] at hp
      have h4 : get32 (s.disk.blocks (s.inodes i).indir_2) m ≠ 0 := by
        intro e; simp [ptr, h3, e] at hp
      have hr := h.read (σ := .ind2) trivial h3 s.stack
      have hr2 := h.read (σ := .mid m) hm (by simpa [ptr, h3] using h4)
        (s.disk.blocks (s.inodes i).indir_2)
      have hlt := h.ptr_lt (σ := .leaf2 m k) ⟨hm, hk⟩ hp
      simp only [ptr, h3, h4, if_false] at hr hr2 hp hlt
      simp only [h3, h4, if_false, get_file_blkno_indir2, get_file_blkno_indir2_leaf, hr, hr2,
        ptr, hp, int_of_u32_lt hlt.2]

theorem get_file_blk_present {s : fs_state} {i n : Nat} (h : wf s i) (hn : n < MAX_BLOCKS)
    (hp : ptr s i (lslot n) ≠ 0) (blk : Block) (alloc : Nat) :
    get_file_blk s i n blk alloc =
      (((ptr s i (lslot n) : Nat) : Int), s.disk.blocks (ptr s i (lslot n)), s) := by
  unfold get_file_blk
  rw [get_file_blkno_present h hn hp]
  have hlt := h.ptr_lt (lslot_ok hn) hp
  have hpos : ((ptr s i (lslot n) : Nat) : Int) > 0 := by
    have : 0 < ptr s i (lslot n) := Nat.pos_of_ne_zero hp
    exact_mod_cast this
  simp only [hpos, if_true, blkdev_read_valid _ hlt.1]
  simp

theorem do_write_loop_present (i now : Nat) : ∀ (cnt : Nat) (s : fs_state) (B o : Nat)
    (buf : List Nat) (len : Nat), wf s i → B + cnt ≤ MAX_BLOCKS →
    (∀ n, B ≤ n → n < B + cnt → ptr s i (lslot n) ≠ 0) →
    (do_write_loop i now cnt B o buf len s).1 = none ∧
    (do_write_loop i now cnt B o buf len s).2.2.block_map = s.block_map ∧
    (∀ τ : Slot, τ.ok → ptr (do_write_loop i now cnt B o buf len s).2.2 i τ = ptr s i τ) := by
  intro cnt
  induction cnt with
  | zero => intro s B o buf len _ _ _; exact ⟨rfl, rfl, fun _ _ => rfl⟩
  | succ cnt ih =>
    intro s B o buf len h hB hmap
    have hBlt : B < MAX_BLOCKS := by omega
    have hp := hmap B (le_refl _) (by omega)
    have hpos : ¬ (((ptr s i (lslot B) : Nat) : Int) ≤ 0) := by
      have : 0 < ptr s i (lslot B) := Nat.pos_of_ne_zero hp
      omega
    unfold do_write_loop
    simp only [get_file_blk_present h hBlt hp, hpos, if_false]
    set l := min (FS_BLOCK_SIZE - o) len
    have hueq : (s.disk_write ((ptr s i (lslot B) : Nat) : Int)
          (memcpy_to_blk (s.disk.blocks (ptr s i (lslot B))) o buf l)).set_inode i
          (fun ino => { ino with size := (ino.size + l) % 4294967296,
                                 mtime := now % 4294967296 })
        = (s.disk_write ((ptr s i (lslot B) : Nat) : Int)
          (memcpy_to_blk (s.disk.blocks (ptr s i (lslot B))) o buf l)).set_inode i
          (fun ino => { ino with size := ((s.inodes i).size + l) % 4294967296,
                                 mtime := now % 4294967296 }) := by
      apply set_inode_congr
      rfl
    rw [hueq]
    obtain ⟨uf, um, up, _, _⟩ := data_write_spec h (lslot_ok hBlt) (lslot_is_leaf B) hp
      (memcpy_to_blk (s.disk.blocks (ptr s i (lslot B))) o buf l)
      (((s.inodes i).size + l) % 4294967296) (now % 4294967296)
    generalize (s.disk_write ((ptr s i (lslot B) : Nat) : Int)
          (memcpy_to_blk (s.disk.blocks (ptr s i (lslot B))) o buf l)).set_inode i
          (fun ino => { ino with size := ((s.inodes i).size + l) % 4294967296,
                                 mtime := now % 4294967296 }) = u at uf um up ⊢
    have hwfu : wf u i := wf_of_same_map h uf um up
    obtain ⟨r1, r2, r3⟩ := ih u (B + 1) 0 (buf.drop l) (len - l) hwfu (by omega)
      (fun n h1 h2 => by
        have hn : n < MAX_BLOCKS := by omega
        rw [up _ (lslot_ok hn)]
        exact hmap n (by omega) (by omega))
    exact ⟨r1, r2.trans um, fun τ hτ => (r3 τ hτ).trans (up τ hτ)⟩

/-- A `do_write` whose blocks are all mapped allocates nothing: it returns `len`, keeps
the bitmap and every pointer, and adds `len` to the size. -/
theorem do_write_present {s : fs_state} {i : Nat} (buf : List Nat) {len off : Nat} (now : Nat)
    (h : wf s i) (hoff : off ≤ (s.inodes i).size)
    (hmax : (off + len) / FS_BLOCK_SIZE < MAX_BLOCKS)
    (hmap : ∀ n, off / FS_BLOCK_SIZE ≤ n → n ≤ (off + len) / FS_BLOCK_SIZE →
      ptr s i (lslot n) ≠ 0) :
    (do_write s i buf len off now).1 = (len : Int) ∧
    wf (do_write s i buf len off now).2 i ∧
    same_frame s (do_write s i buf len off now).2 ∧
    (do_write s i buf len off now).2.block_map = s.block_map ∧
    (∀ τ : Slot, τ.ok → ptr (do_write s i buf len off now).2 i τ = ptr s i τ) ∧
    ((do_write s i buf len off now).2.inodes i).size =
      ((s.inodes i).size + len) % 4294967296 := by
  have W := do_write_spec buf now h hoff hmax
  have hle : off / FS_BLOCK_SIZE ≤ (off + len) / FS_BLOCK_SIZE :=
    Nat.div_le_div_right (Nat.le_add_right _ _)
  have L := do_write_loop_present i now ((off + len) / FS_BLOCK_SIZE + 1 - off / FS_BLOCK_SIZE) s
    (off / FS_BLOCK_SIZE) (off - off / FS_BLOCK_SIZE * FS_BLOCK_SIZE) buf len h (by omega)
    (fun n h1 h2 => hmap n h1 (by omega))
  have L2 := do_write_loop_spec i now ((off + len) / FS_BLOCK_SIZE + 1 - off / FS_BLOCK_SIZE) s
    (off / FS_BLOCK_SIZE) (off - off / FS_BLOCK_SIZE * FS_BLOCK_SIZE) buf len h
    (by simp only [FS_BLOCK_SIZE]; omega) (by simp only [FS_BLOCK_SIZE] at *; omega) (by omega)
  have hret : (do_write s i buf len off now).1 = (len : Int) := by
    rcases W.result with h1 | h1
    · exfalso
      unfold do_write at h1
      have c1 : ¬ (off > (s.inodes i).size) := by omega
      simp only [c1, if_false, L.1] at h1
      have hlen31 : len < 2147483648 := by
        rw [MAX_BLOCKS_eq] at hmax; simp only [FS_BLOCK_SIZE] at hmax; omega
      rw [L2.rem L.1, Nat.sub_zero, int_of_u32_lt hlen31] at h1
      simp only [ENOSPC] at h1
      omega
    · exact h1
  refine ⟨hret, W.wf, W.grow.frame, ?_, ?_, W.size_eq hret⟩
  · unfold do_write
    have c1 : ¬ (off > (s.inodes i).size) := by omega
    simp only [c1, if_false, L.1]
    exact L.2.1
  · unfold do_write
    have c1 : ¬ (off > (s.inodes i).size) := by omega
    simp only [c1, if_false, L.1]
    intro τ hτ
    rw [flush_mark_ptr L2.wf τ hτ]
    exact L.2.2 τ hτ

/-! ## The logical block one past the addressable range -/

/-- The call `get_file_blkno(inum, 65798, 1)` on a file without double-indirect block and
with three free blocks: the guard of line 99 lets the index pass, entry 256 of the new
double-indirect block is used, and three blocks are allocated. -/
theorem far_blkno {s : fs_state} {i : Nat} (h : wf s i) (h2 : (s.inodes i).indir_2 = 0)
    (hfree : 3 ≤ free_count s) :
    ∃ (b1 b2 b3 : Nat) (v : fs_state), get_file_blkno s i 65798 1 = ((b3 : Int), v) ∧
      is_free s b1 ∧ is_free s b2 ∧ is_free s b3 ∧ b1 ≠ b2 ∧ b1 ≠ b3 ∧ b2 ≠ b3 ∧
      same_frame s v ∧
      (∀ j, v.block_map j = if j = b3 then true else if j = b2 then true
        else if j = b1 then true else s.block_map j) ∧
      (v.inodes i).direct = (s.inodes i).direct ∧
      (v.inodes i).indir_1 = (s.inodes i).indir_1 ∧
      (v.inodes i).indir_2 = b1 ∧
      (v.inodes i).size = (s.inodes i).size ∧
      (∀ c, v.disk.blocks c = if c = b3 then zeros else if c = b2 then set32 zeros 0 b3
        else if c = b1 then set32 zeros 256 b2 else s.disk.blocks c) := by
  have hle := h.nblks_le
  have hlt := h.nblks_lt
  obtain ⟨b1, hb1, hf1⟩ := get_free_blk_pos (s := s) (by omega)
  have l1 := is_free.lt h hb1
  have hb10 : b1 ≠ 0 := by have := hb1.1; omega
  have st := step_ind2 h h2 hb1
  have hwf1 := wf_of_alloc_step h hb1 st
  have hfc1 := free_count_alloc hb1 st.frame.2.2.2.1 st.map_eq
  have hblk1 : ∀ c, ((mark_inode ((alloc_state s b1).set_inode i
        (fun ino => { ino with indir_2 := b1 })) i).disk_write (b1 : Int) zeros).disk.blocks c =
      if c = b1 then zeros else s.disk.blocks c := by
    intro c
    simp only [fs_state.disk_write, blkdev_write_blocks _ l1.1, mark_inode, fs_state.set_inode,
      alloc_state]
  have hino1 : ((mark_inode ((alloc_state s b1).set_inode i
        (fun ino => { ino with indir_2 := b1 })) i).disk_write (b1 : Int) zeros).inodes i =
      { s.inodes i with indir_2 := b1 } := by
    simp only [fs_state.disk_write, mark_inode, fs_state.set_inode, alloc_state, if_true]
  generalize ht1 : (mark_inode ((alloc_state s b1).set_inode i
        (fun ino => { ino with indir_2 := b1 })) i).disk_write (b1 : Int) zeros = t1
    at st hwf1 hfc1 hblk1 hino1
  obtain ⟨b2, hb2, hf2⟩ := get_free_blk_pos (s := t1) (by omega)
  have l2 := is_free.lt hwf1 hb2
  have hb20 : b2 ≠ 0 := by have := hb2.1; omega
  have hb2s : is_free s b2 := by
    refine ⟨hb2.1, by rw [← st.frame.2.2.2.1]; exact hb2.2.1, ?_⟩
    have := hb2.2.2
    rw [st.map_eq] at this
    by_cases e : b2 = b1
    · simp [e] at this
    · simpa [e] using this
  have h12 : b1 ≠ b2 := by
    intro e
    have := hb2.2.2
    rw [st.map_eq, e] at this
    simp at this
  have hfr1 := st.frame
  have hfc2 : free_count (((alloc_state t1 b2).disk_write (b1 : Int)
      (set32 zeros 256 b2)).disk_write (b2 : Int) zeros) + 1 = free_count t1 :=
    free_count_alloc hb2 rfl (fun j => rfl)
  generalize ht2 : ((alloc_state t1 b2).disk_write (b1 : Int)
      (set32 zeros 256 b2)).disk_write (b2 : Int) zeros = t2 at hfc2
  obtain ⟨b3, hb3, hf3⟩ := get_free_blk_pos (s := t2) (by omega)
  refine ⟨b1, b2, b3, ((alloc_state t2 b3).disk_write (b2 : Int)
      (set32 zeros 0 b3)).disk_write (b3 : Int) zeros, ?_, hb1, hb2s, ?_⟩
  · unfold get_file_blkno
    have c1 : ¬ (65798 < N_DIRECT) := by decide
    have c2 : ¬ (65798 - N_DIRECT < PTRS_PER_BLK) := by decide
    have c3 : ¬ (65798 - N_DIRECT - PTRS_PER_BLK > PTRS_PER_BLK * PTRS_PER_BLK) := by decide
    have c4 : (65798 - N_DIRECT - PTRS_PER_BLK) / PTRS_PER_BLK = 256 := by decide
    have c5 : 65798 - N_DIRECT - PTRS_PER_BLK - 256 * PTRS_PER_BLK = 0 := by decide
    simp only [c1, c2, c3, c4, c5, if_false, h2, if_true, one_ne_zero, hf1, hb10, l1.2.2.1]
    have e1 : ((mark_inode ((alloc_state s b1).set_inode i
        (fun ino => { ino with indir_2 := b1 })) i).inodes i).indir_2 = b1 := by
      simp only [mark_inode, fs_state.set_inode, if_true]
    rw [e1, l1.2.2.2, ht1]
    have e2 : (t1.inodes i).indir_2 = b1 := by rw [hino1]
    have l3 : b3 < t2.disk.nblks ∧ b3 < 2147483648 := by
      have := hb3.2.1
      rw [← ht2] at this ⊢
      simp only [fs_state.disk_write, blkdev_write_nblks, alloc_state] at this ⊢
      have := hfr1.2.2.2.1
      have := hfr1.2.2.2.2.2.2.1
      omega
    have hb30 : b3 ≠ 0 := by have := hb3.1; omega
    have n1 : b1 < t1.disk.nblks := by rw [hfr1.2.2.2.2.2.2.1]; exact l1.1
    have n2 : b2 < t2.disk.nblks := by
      rw [← ht2]
      simp only [fs_state.disk_write, blkdev_write_nblks, alloc_state]
      exact l2.1
    have hblk2 : t2.disk.blocks b2 = zeros := by
      rw [← ht2]
      simp only [fs_state.disk_write, alloc_state_disk]
      rw [blkdev_write_blocks _ (by rw [blkdev_write_nblks]; exact l2.1)]
      simp only [if_true]
    unfold get_file_blkno_indir2
    simp only [e2, l1.2.2.2, blkdev_read_valid _ n1, hblk1, if_true, get32_zeros, one_ne_zero,
      if_false, hf2, hb20, l2.2.2.1, alloc_state_inodes, get32_set32_same, l2.2.2.2, ht2]
    unfold get_file_blkno_indir2_leaf
    simp only [get32_set32_same, l2.2.2.1, l2.2.2.2, blkdev_read_valid _ n2, hblk2, get32_zeros,
      if_true, one_ne_zero, if_false, hf3, hb30, Nat.mod_eq_of_lt (show b3 < 4294967296 by omega),
      int_of_u32_lt l3.2]
  · have hblk2 : ∀ c, t2.disk.blocks c = if c = b2 then zeros
        else if c = b1 then set32 zeros 256 b2 else s.disk.blocks c := by
      intro c
      rw [← ht2]
      simp only [fs_state.disk_write, alloc_state_disk]
      rw [blkdev_write_blocks _ (by rw [blkdev_write_nblks]; exact l2.1),
        blkdev_write_blocks _ (by rw [hfr1.2.2.2.2.2.2.1]; exact l1.1)]
      simp only [hblk1]
      by_cases e1 : c = b2
      · simp only [e1, if_true]
      · by_cases e2 : c = b1
        · simp only [e1, e2, if_true, if_false]
        · simp only [e1, e2, if_false]
    have hmap2 : ∀ j, t2.block_map j = if j = b2 then true else if j = b1 then true
        else s.block_map j := by
      intro j
      rw [← ht2]
      simp only [fs_state.disk_write, alloc_state, st.map_eq]
    have hfr2 : same_frame t1 t2 := by
      rw [← ht2]
      simp only [same_frame, fs_state.disk_write, blkdev_write_nblks, alloc_state, and_self]
    have hino2 : t2.inodes = t1.inodes := by
      rw [← ht2]
      simp only [fs_state.disk_write, alloc_state]
    have n2 : b2 < t2.disk.nblks := by rw [hfr2.2.2.2.2.2.2.1]; exact l2.1
    have n3 : b3 < t2.disk.nblks := by
      have := hb3.2.1
      have := hfr2.2.2.2.1
      have := hfr1.2.2.2.1
      have := hfr2.2.2.2.2.2.2.1
      have := hfr1.2.2.2.2.2.2.1
      omega
    have hb3m := hb3.2.2
    rw [hmap2] at hb3m
    have h23 : b2 ≠ b3 := by
      intro e; rw [e] at hb3m; simp at hb3m
    have h13 : b1 ≠ b3 := by
      intro e; rw [← e] at hb3m; simp at hb3m
    have hb3s : is_free s b3 := by
      refine ⟨hb3.1, ?_, ?_⟩
      · have := hb3.2.1
        rw [hfr2.2.2.2.1, hfr1.2.2.2.1] at this
        exact this
      · simpa [Ne.symm h23, Ne.symm h13] using hb3m
    refine ⟨hb3s, h12, h13, h23, ?_, ?_, ?_, ?_, ?_, ?_, ?_⟩
    · have : same_frame t2 (((alloc_state t2 b3).disk_write (b2 : Int)
          (set32 zeros 0 b3)).disk_write (b3 : Int) zeros) := by
        simp only [same_frame, fs_state.disk_write, blkdev_write_nblks, alloc_state, and_self]
      exact same_frame_trans hfr1 (same_frame_trans hfr2 this)
    · intro j
      simp only [fs_state.disk_write, alloc_state, hmap2]
    · simp only [fs_state.disk_write, alloc_state, hino2, hino1]
    · simp only [fs_state.disk_write, alloc_state, hino2, hino1]
    · simp only [fs_state.disk_write, alloc_state, hino2, hino1]
    · simp only [fs_state.disk_write, alloc_state, hino2, hino1]
    · intro c
      simp only [fs_state.disk_write, alloc_state_disk]
      rw [blkdev_write_blocks _ (by rw [blkdev_write_nblks]; exact n3),
        blkdev_write_blocks _ n2]
      simp only [hblk2]
      by_cases e1 : c = b3
      · simp only [e1, if_true]
      · by_cases e2 : c = b2
        · simp only [e1, e2, if_true, if_false]
        · simp only [e1, e2, if_false]

theorem wf_of_ptr_step {s u : fs_state} {i b : Nat} {σ : Slot} (h : wf s i)
    (hb : is_free s b) (hfr : same_frame s u)
    (hmk : ∀ j, s.block_map j = true → u.block_map j = true) (hmb : u.block_map b = true)
    (hpt : ∀ τ : Slot, τ.ok → ptr u i τ = if τ = σ then b else ptr s i τ) : wf u i := by
  have hdb := hfr.data_base
  obtain ⟨_, _, _, hnb, _, _, hnk, _, _⟩ := hfr
  have hbne : b ≠ 0 := by have := hb.1; omega
  refine ⟨by rw [hnb, hnk]; exact h.nblks_le, by rw [hnk]; exact h.nblks_lt, ?_, ?_, ?_⟩
  · intro j hj
    exact hmk j (h.reserved j (by rw [hdb] at hj; exact hj))
  · intro τ hτ hp
    rw [hpt τ hτ] at hp ⊢
    rw [hdb, hnb]
    by_cases hτσ : τ = σ
    · simp only [hτσ, if_true]
      exact ⟨is_free.ge_data_base h hb, hb.2.1, hmb⟩
    · simp only [hτσ, if_false] at hp ⊢
      obtain ⟨p1, p2, p3⟩ := h.ptr_ok τ hτ hp
      exact ⟨p1, p2, hmk _ p3⟩
  · intro τ1 τ2 h1 h2 hp heq
    rw [hpt τ1 h1] at hp heq
    rw [hpt τ2 h2] at heq
    by_cases e1 : τ1 = σ
    · by_cases e2 : τ2 = σ
      · rw [e1, e2]
      · simp only [e1, e2, if_true, if_false] at heq
        have hne : ptr s i τ2 ≠ 0 := by rw [← heq]; exact hbne
        have := (h.ptr_ok τ2 h2 hne).2.2
        rw [← heq, hb.2.2] at this
        exact Bool.noConfusion this
    · by_cases e2 : τ2 = σ
      · simp only [e1, e2, if_true, if_false] at heq hp
        have := (h.ptr_ok τ1 h1 hp).2.2
        rw [heq, hb.2.2] at this
        exact Bool.noConfusion this
      · simp only [e1, e2, if_false] at heq hp
        exact h.inj τ1 τ2 h1 h2 hp heq

/-- A one-byte `do_write` at offset 67377152 (logical block 65798) into a file without
double-indirect block: the call succeeds and leaves a block allocated that no pointer of
the inode names. -/
theorem far_write {s : fs_state} {i : Nat} (h : wf s i) (h2 : (s.inodes i).indir_2 = 0)
    (hfree : 3 ≤ free_count s) (hsz : 67377152 ≤ (s.inodes i).size) (buf : List Nat)
    (now : Nat) :
    (do_write s i buf 1 67377152 now).1 = 1 ∧ wf (do_write s i buf 1 67377152 now).2 i ∧
    ∃ b, b ≠ 0 ∧ s.block_map b = false ∧ (do_write s i buf 1 67377152 now).2.block_map b = true ∧
      ∀ τ : Slot, τ.ok → ptr (do_write s i buf 1 67377152 now).2 i τ ≠ b := by
  obtain ⟨b1, b2, b3, v, hv, f1, f2, f3, h12, h13, h23, hfr, hmap, hd, hi1, hi2, hsize, hblk⟩ :=
    far_blkno h h2 hfree
  have l1 := is_free.lt h f1
  have l2 := is_free.lt h f2
  have l3 := is_free.lt h f3
  have n3 : b3 < v.disk.nblks := by rw [hfr.2.2.2.2.2.2.1]; exact l3.1
  have hb10 : b1 ≠ 0 := by have := f1.1; omega
  have hb20 : b2 ≠ 0 := by have := f2.1; omega
  have hb30 : b3 ≠ 0 := by have := f3.1; omega
  have hpos : ¬ ((b3 : Int) ≤ 0) := by omega
  have hpos2 : (b3 : Int) > 0 := by omega
  have c1 : ¬ (67377152 > (s.inodes i).size) := by omega
  have c2 : 67377152 / FS_BLOCK_SIZE = 65798 := by decide
  have c3 : (67377152 + 1) / FS_BLOCK_SIZE = 65798 := by decide
  have c4 : 65798 + 1 - 65798 = 0 + 1 := by decide
  have c5 : 67377152 - 65798 * FS_BLOCK_SIZE = 0 := by decide
  have hw : do_write s i buf 1 67377152 now =
      (1, flush_metadata (mark_inode ((v.disk_write (b3 : Int)
        (memcpy_to_blk zeros 0 buf 1)).set_inode i (fun ino =>
          { ino with size := (ino.size + 1) % 4294967296, mtime := now % 4294967296 })) i)) := by
    unfold do_write
    simp only [c1, if_false, c2, c3, c4, c5]
    unfold do_write_loop
    unfold get_file_blk
    simp only [hv, hpos2, if_true, blkdev_read_valid _ n3, SUCCESS, lt_self_iff_false, if_false,
      hpos, hblk]
    unfold do_write_loop
    simp [int_of_u32, FS_BLOCK_SIZE]
  rw [hw]
  generalize hu : (v.disk_write (b3 : Int)
        (memcpy_to_blk zeros 0 buf 1)).set_inode i (fun ino =>
          { ino with size := (ino.size + 1) % 4294967296, mtime := now % 4294967296 }) = u
  have ufr : same_frame s u := by
    rw [← hu]
    have : same_frame v ((v.disk_write (b3 : Int)
        (memcpy_to_blk zeros 0 buf 1)).set_inode i (fun ino =>
          { ino with size := (ino.size + 1) % 4294967296, mtime := now % 4294967296 })) := by
      simp only [same_frame, fs_state.set_inode, fs_state.disk_write, blkdev_write_nblks,
        and_self]
    exact same_frame_trans hfr this
  have umap : u.block_map = v.block_map := by
    rw [← hu]; simp only [fs_state.set_inode, fs_state.disk_write]
  have ud : (u.inodes i).direct = (s.inodes i).direct := by
    rw [← hu, ← hd]; simp only [fs_state.set_inode, fs_state.disk_write, if_true]
  have ui1 : (u.inodes i).indir_1 = (s.inodes i).indir_1 := by
    rw [← hu, ← hi1]; simp only [fs_state.set_inode, fs_state.disk_write, if_true]
  have ui2 : (u.inodes i).indir_2 = b1 := by
    rw [← hu, ← hi2]; simp only [fs_state.set_inode, fs_state.disk_write, if_true]
  have ublk : ∀ c, c ≠ b3 → u.disk.blocks c = v.disk.blocks c := by
    intro c hc
    rw [← hu]
    simp only [fs_state.set_inode, fs_state.disk_write, blkdev_write_blocks _ n3, hc, if_false]
  have key : ∀ τ : Slot, τ.ok → ptr s i τ ≠ 0 →
      ptr s i τ ≠ b1 ∧ ptr s i τ ≠ b2 ∧ ptr s i τ ≠ b3 :=
    fun τ hτ hp => ⟨h.ne_free f1 hτ hp, h.ne_free f2 hτ hp, h.ne_free f3 hτ hp⟩
  have uptr : ∀ τ : Slot, τ.ok → ptr u i τ = if τ = .ind2 then b1 else ptr s i τ := by
    intro τ hτ
    cases τ with
    | direct n => simp only [ptr, ud, reduceCtorEq, if_false]
    | ind1 => simp only [ptr, ui1, reduceCtorEq, if_false]
    | ind2 => simp only [ptr, ui2, if_true]
    | leaf1 n =>
      simp only [ptr, ui1, reduceCtorEq, if_false]
      by_cases e : (s.inodes i).indir_1 = 0
      · simp only [e, if_true]
      · have k := key .ind1 trivial e
        simp only [ptr] at k
        simp only [e, if_false, ublk _ k.2.2, hblk, k.1, k.2.1, k.2.2]
    | mid m =>
      have hm : m ≠ 256 := by
        have : m < 256 := hτ
        omega
      simp only [ptr, ui2, hb10, h2, if_true, if_false, reduceCtorEq, ublk _ h13, hblk, h13, h12,
        get32_set32_ne _ hm, get32_zeros]
    | leaf2 m k =>
      have hm : m ≠ 256 := by
        have : m < 256 := hτ.1
        omega
      simp only [ptr, ui2, hb10, h2, if_true, if_false, reduceCtorEq, ublk _ h13, hblk, h13, h12,
        get32_set32_ne _ hm, get32_zeros]
  have umb : ∀ j, s.block_map j = true → u.block_map j = true := by
    intro j hj
    rw [umap, hmap]
    split_ifs <;> first | rfl | exact hj
  have uwf : wf u i := by
    apply wf_of_ptr_step h f1 ufr umb _ uptr
    rw [umap, hmap]
    simp only [if_true, ite_self]
  refine ⟨rfl, flush_mark_wf uwf, b2, hb20, f2.2.2, ?_, ?_⟩
  · show (flush_metadata (mark_inode u i)).block_map b2 = true
    rw [flush_mark_block_map, umap, hmap]
    simp only [if_true, ite_self]
  · intro τ hτ
    show ptr (flush_metadata (mark_inode u i)) i τ ≠ b2
    rw [flush_mark_ptr uwf τ hτ, uptr τ hτ]
    by_cases e : τ = .ind2
    · simp only [e, if_true]; exact h12
    · simp only [e, if_false]
      intro e2
      exact (key τ hτ (by rw [e2]; exact hb20)).2.1 e2

/-- After the far write, `do_truncate(inum, 0)` leaves a block allocated that was free
before the write. -/
theorem far_write_truncate {s : fs_state} {i : Nat} (h : wf s i)
    (h2 : (s.inodes i).indir_2 = 0) (hfree : 3 ≤ free_count s)
    (hsz : 67377152 ≤ (s.inodes i).size) (buf : List Nat) (now now2 : Nat) :
    (do_write s i buf 1 67377152 now).1 = 1 ∧
    (do_truncate (do_write s i buf 1 67377152 now).2 i 0 now2).1 = 0 ∧
    ∃ b, s.block_map b = false ∧
      (do_truncate (do_write s i buf 1 67377152 now).2 i 0 now2).2.block_map b = true := by
  obtain ⟨hr, hwf, b, hb0, hbs, hbt, hnp⟩ := far_write h h2 hfree hsz buf now
  rw [do_truncate_eq hwf]
  refine ⟨hr, rfl, b, hbs, ?_⟩
  show (release_all _ _).block_map b = true
  rw [release_all_block_map]
  have : b ∉ owned_blocks (do_write s i buf 1 67377152 now).2 i := by
    rw [mem_owned_blocks]
    rintro ⟨_, τ, hτ, e⟩
    exact hnp τ hτ e
  simp only [this, if_false, hbt]

theorem fresh_vol_free_count : free_count fresh_vol = 1016 := by
  unfold free_count
  have : (Finset.range fresh_vol.num_blocks).filter
      (fun b => 1 ≤ b ∧ fresh_vol.block_map b = false) = Finset.Ico 8 1024 := by
    ext b
    simp only [fresh_vol, Finset.mem_filter, Finset.mem_range, decide_eq_false_iff_not,
      Finset.mem_Ico]
    omega
  rw [this]
  simp

theorem first_write_indir_2 : ((do_write fresh_vol 2 filler 1023 0 0).2.inodes 2).indir_2 = 0 := by
  decide

/-- The file after `k + 1` writes of 1023 bytes at offset 0 into the fresh inode 2: every
call returns 1023, only logical block 0 is mapped, and the size is `1023 * (k + 1)`. -/
theorem write_repeat_inv (k : Nat) (hk : 1023 * (k + 1) < 4294967296) :
    wf (write_repeat 2 filler 1023 0 0 (k + 1) fresh_vol) 2 ∧
    ((write_repeat 2 filler 1023 0 0 (k + 1) fresh_vol).inodes 2).indir_2 = 0 ∧
    3 ≤ free_count (write_repeat 2 filler 1023 0 0 (k + 1) fresh_vol) ∧
    ((write_repeat 2 filler 1023 0 0 (k + 1) fresh_vol).inodes 2).size = 1023 * (k + 1) ∧
    ptr (write_repeat 2 filler 1023 0 0 (k + 1) fresh_vol) 2 (lslot 0) ≠ 0 ∧
    (∀ j, fresh_vol.block_map j = true →
      (write_repeat 2 filler 1023 0 0 (k + 1) fresh_vol).block_map j = true) ∧
    (do_write (write_repeat 2 filler 1023 0 0 k fresh_vol) 2 filler 1023 0 0).1 = 1023 := by
  induction k with
  | zero =>
    show wf (do_write fresh_vol 2 filler 1023 0 0).2 2 ∧
      ((do_write fresh_vol 2 filler 1023 0 0).2.inodes 2).indir_2 = 0 ∧
      3 ≤ free_count (do_write fresh_vol 2 filler 1023 0 0).2 ∧
      ((do_write fresh_vol 2 filler 1023 0 0).2.inodes 2).size = 1023 * (0 + 1) ∧
      ptr (do_write fresh_vol 2 filler 1023 0 0).2 2 (lslot 0) ≠ 0 ∧
      (∀ j, fresh_vol.block_map j = true →
        (do_write fresh_vol 2 filler 1023 0 0).2.block_map j = true) ∧
      (do_write fresh_vol 2 filler 1023 0 0).1 = 1023
    have W := @do_write_spec fresh_vol 2 filler 1023 0 0
      (fresh_vol_wf 2) (Nat.zero_le _) (by decide)
    have hfc := W.grow.free_le
    rw [fresh_vol_free_count] at hfc
    have c : 3 * ((0 + 1023) / FS_BLOCK_SIZE + 1 - 0 / FS_BLOCK_SIZE) = 3 := by decide
    rw [c] at hfc
    have hres : (do_write fresh_vol 2 filler 1023 0 0).1 = ((1023 : Nat) : Int) :=
      W.succeeds (by rw [c, fresh_vol_free_count]; omega)
    refine ⟨W.wf, first_write_indir_2, by omega, ?_, ?_, W.grow.map_keep, hres⟩
    · rw [W.size_eq hres]
      rfl
    · exact W.mapped hres 0 (by decide) (by decide)
  | succ k ih =>
    obtain ⟨hwf, hi2, hfree, hsize, hmap, hkeep, _⟩ := ih (by omega)
    show wf (do_write (write_repeat 2 filler 1023 0 0 (k + 1) fresh_vol) 2 filler 1023 0 0).2 2 ∧
      ((do_write (write_repeat 2 filler 1023 0 0 (k + 1) fresh_vol) 2 filler 1023 0 0).2.inodes
        2).indir_2 = 0 ∧
      3 ≤ free_count (do_write (write_repeat 2 filler 1023 0 0 (k + 1) fresh_vol) 2 filler
        1023 0 0).2 ∧
      ((do_write (write_repeat 2 filler 1023 0 0 (k + 1) fresh_vol) 2 filler 1023 0 0).2.inodes
        2).size = 1023 * (k + 1 + 1) ∧
      ptr (do_write (write_repeat 2 filler 1023 0 0 (k + 1) fresh_vol) 2 filler 1023 0 0).2 2
        (lslot 0) ≠ 0 ∧
      (∀ j, fresh_vol.block_map j = true →
        (do_write (write_repeat 2 filler 1023 0 0 (k + 1) fresh_vol) 2 filler 1023 0 0).2.block_map
          j = true) ∧
      (do_write (write_repeat 2 filler 1023 0 0 (k + 1) fresh_vol) 2 filler 1023 0 0).1 = 1023
    generalize write_repeat 2 filler 1023 0 0 (k + 1) fresh_vol = s at hwf hi2 hfree hsize hmap hkeep ⊢
    obtain ⟨p1, p2, p3, p4, p5, p6⟩ := @do_write_present s 2 filler 1023 0
      0 hwf (Nat.zero_le _) (by decide)
      (fun n _ h2 => by
        have : n = 0 := by
          have : (0 + 1023) / FS_BLOCK_SIZE = 0 := by decide
          omega
        rw [this]; exact hmap)
    refine ⟨p2, ?_, ?_, ?_, ?_, ?_, p1⟩
    · have := p5 .ind2 trivial
      simp only [ptr] at this
      rw [this]; exact hi2
    · rw [free_count_congr p3.2.2.2.1 p4]; exact hfree
    · rw [p6, hsize]
      omega
    · rw [p5 _ (lslot_ok (by decide))]; exact hmap
    · intro j hj
      rw [p4]; exact hkeep j hj


/-! ## A second truncation -/

theorem truncated_ptr (s : fs_state) (i now : Nat) (σ : Slot) (hσ : σ.ok) :
    ptr (s.set_inode i (truncated_inode now)) i σ = 0 := by
  cases σ with
  | direct n =>
    have : n < N_DIRECT := hσ
    simp [ptr, fs_state.set_inode, truncated_inode, this]
  | ind1 => simp [ptr, fs_state.set_inode, truncated_inode]
  | ind2 => simp [ptr, fs_state.set_inode, truncated_inode]
  | leaf1 n => simp [ptr, fs_state.set_inode, truncated_inode]
  | mid m => simp [ptr, fs_state.set_inode, truncated_inode]
  | leaf2 m k => simp [ptr, fs_state.set_inode, truncated_inode]

/-- A `do_truncate(inum, 0)` that follows a `do_truncate(inum, 0)` on a well-formed inode
returns 0, releases nothing and leaves the bitmaps, the pointers and the size as they are. -/
theorem do_truncate_twice {s : fs_state} {i : Nat} (h : wf s i) (now now2 : Nat) :
    (do_truncate (do_truncate s i 0 now).2 i 0 now2).1 = 0 ∧
    (do_truncate (do_truncate s i 0 now).2 i 0 now2).2.returned =
      (do_truncate s i 0 now).2.returned ∧
    (do_truncate (do_truncate s i 0 now).2 i 0 now2).2.block_map =
      (do_truncate s i 0 now).2.block_map ∧
    (do_truncate (do_truncate s i 0 now).2 i 0 now2).2.inode_map =
      (do_truncate s i 0 now).2.inode_map ∧
    (∀ σ : Slot, σ.ok → ptr (do_truncate (do_truncate s i 0 now).2 i 0 now2).2 i σ = 0 ∧
      ptr (do_truncate s i 0 now).2 i σ = 0) ∧
    ((do_truncate (do_truncate s i 0 now).2 i 0 now2).2.inodes i).size = 0 ∧
    ((do_truncate s i 0 now).2.inodes i).size = 0 := by
  rw [do_truncate_eq h now]
  show (do_truncate ((release_all s (owned_blocks s i)).set_inode i (truncated_inode now)) i 0
      now2).1 = 0 ∧ _
  generalize hu : release_all s (owned_blocks s i) = u
  have hz : ∀ σ : Slot, σ.ok → ptr (u.set_inode i (truncated_inode now)) i σ = 0 :=
    truncated_ptr u i now
  have hwf : wf (u.set_inode i (truncated_inode now)) i := by
    refine ⟨?_, ?_, ?_, fun σ hσ hp => absurd (hz σ hσ) hp, fun σ τ hσ _ hp => absurd (hz σ hσ) hp⟩
    · rw [← hu]
      show (release_all s _).num_blocks ≤ (release_all s _).disk.nblks
      rw [release_all_disk]
      have : ∀ (l : List Nat) (s : fs_state), (release_all s l).num_blocks = s.num_blocks := by
        intro l
        induction l with
        | nil => intro s; rfl
        | cons b l ih => intro s; exact (ih (return_blk s b)).trans rfl
      rw [this]
      exact h.nblks_le
    · rw [← hu]
      show (release_all s _).disk.nblks < 2147483648
      rw [release_all_disk]
      exact h.nblks_lt
    · intro b hb
      have hdb : (u.set_inode i (truncated_inode now)).data_base = s.data_base := by
        rw [← hu]
        have : ∀ (l : List Nat) (s : fs_state),
            (release_all s l).data_base = s.data_base := by
          intro l
          induction l with
          | nil => intro s; rfl
          | cons b l ih => intro s; exact (ih (return_blk s b)).trans rfl
        exact this _ s
      rw [hdb] at hb
      show u.block_map b = true
      rw [← hu, release_all_block_map]
      have : b ∉ owned_blocks s i := by
        rw [mem_owned_blocks]
        rintro ⟨hb0, σ, hσ, e⟩
        have := (h.ptr_ok σ hσ (by rw [e]; exact hb0)).1
        omega
      simp only [this, if_false]
      exact h.reserved b hb
  have hown : owned_blocks (u.set_inode i (truncated_inode now)) i = [] := by
    apply List.eq_nil_iff_forall_not_mem.mpr
    intro b hb
    rw [mem_owned_blocks] at hb
    obtain ⟨hb0, σ, hσ, e⟩ := hb
    exact hb0 (by rw [← e]; exact hz σ hσ)
  rw [do_truncate_eq hwf now2, hown, release_all_nil]
  refine ⟨rfl, rfl, rfl, rfl, fun σ hσ => ⟨?_, hz σ hσ⟩, ?_, ?_⟩
  · exact truncated_ptr _ i now2 σ hσ
  · simp [fs_state.set_inode, truncated_inode]
  · simp [fs_state.set_inode, truncated_inode]


/-! ## No leak while every write stays inside the addressable range -/

theorem only_owned_new_grow {s0 s t : fs_state} {i k : Nat} (hinv : only_owned_new s0 s i)
    (hg : grow k s t i) : only_owned_new s0 t i := by
  intro c
  constructor
  · intro hc
    obtain ⟨h1, h2⟩ := (hinv c).mp hc
    refine ⟨hg.map_keep c h1, ?_⟩
    rw [mem_owned_blocks]
    rintro ⟨hc0, τ, hτ, e⟩
    by_cases hp : ptr s i τ = 0
    · have := hg.ptr_new τ hτ hp (by rw [e]; exact hc0)
      rw [e, h1] at this
      exact Bool.noConfusion this
    · apply h2
      rw [mem_owned_blocks]
      exact ⟨hc0, τ, hτ, by rw [← hg.ptr_keep τ hτ hp]; exact e⟩
  · rintro ⟨h1, h2⟩
    apply (hinv c).mpr
    have hs : s.block_map c = true := by
      rcases hg.map_new c h1 with hs | ⟨τ, hτ, e, hc0⟩
      · exact hs
      · exfalso
        apply h2
        rw [mem_owned_blocks]
        exact ⟨hc0, τ, hτ, e⟩
    refine ⟨hs, ?_⟩
    rw [mem_owned_blocks]
    rintro ⟨hc0, τ, hτ, e⟩
    apply h2
    rw [mem_owned_blocks]
    exact ⟨hc0, τ, hτ, by rw [hg.ptr_keep τ hτ (by rw [e]; exact hc0)]; exact e⟩

theorem run_writes_inv (i now : Nat) (s0 : fs_state) :
    ∀ (ws : List (List Nat × Nat × Nat)) (s : fs_state), wf s i → only_owned_new s0 s i →
      (∀ w, w ∈ ws → (w.2.2 + w.2.1) / FS_BLOCK_SIZE < MAX_BLOCKS) →
      wf (run_writes i now ws s) i ∧ only_owned_new s0 (run_writes i now ws s) i := by
  intro ws
  induction ws with
  | nil => intro s h hinv _; exact ⟨h, hinv⟩
  | cons w ws ih =>
    intro s h hinv hws
    show wf (run_writes i now ws (do_write s i w.1 w.2.1 w.2.2 now).2) i ∧
      only_owned_new s0 (run_writes i now ws (do_write s i w.1 w.2.1 w.2.2 now).2) i
    have hrest : ∀ w1, w1 ∈ ws → (w1.2.2 + w1.2.1) / FS_BLOCK_SIZE < MAX_BLOCKS :=
      fun w1 h1 => hws w1 (List.mem_cons_of_mem _ h1)
    by_cases hoff : w.2.2 ≤ (s.inodes i).size
    · have W := do_write_spec w.1 now h hoff (hws w (List.mem_cons_self _ _))
      exact ih _ W.wf (only_owned_new_grow hinv W.grow) hrest
    · have : do_write s i w.1 w.2.1 w.2.2 now = (-EINVAL, s) := by
        unfold do_write
        rw [if_pos (by omega)]
      rw [this]
      exact ih s h hinv hrest

/-- While every write stays below logical block 65798, the writes followed by
`do_truncate(inum, 0)` return the block bitmap to what it was. -/
theorem no_leak_addressable {s0 : fs_state} {i : Nat} (h : wf s0 i)
    (hfresh : ∀ σ : Slot, σ.ok → ptr s0 i σ = 0) (ws : List (List Nat × Nat × Nat))
    (hws : ∀ w, w ∈ ws → (w.2.2 + w.2.1) / FS_BLOCK_SIZE < MAX_BLOCKS) (now now2 : Nat) :
    (do_truncate (run_writes i now ws s0) i 0 now2).1 = 0 ∧
    (do_truncate (run_writes i now ws s0) i 0 now2).2.block_map = s0.block_map := by
  have h0 : only_owned_new s0 s0 i := by
    intro c
    constructor
    · intro hc
      refine ⟨hc, ?_⟩
      rw [mem_owned_blocks]
      rintro ⟨hc0, τ, hτ, e⟩
      exact hc0 (by rw [← e]; exact hfresh τ hτ)
    · exact fun hc => hc.1
  obtain ⟨hwf, hinv⟩ := run_writes_inv i now s0 ws s0 h h0 hws
  rw [do_truncate_eq hwf]
  refine ⟨rfl, ?_⟩
  funext c
  show (release_all _ _).block_map c = s0.block_map c
  rw [release_all_block_map]
  have := hinv c
  by_cases hm : c ∈ owned_blocks (run_writes i now ws s0) i
  · simp only [hm, if_true]
    cases hc : s0.block_map c with
    | false => rfl
    | true => exact absurd hm (this.mp hc).2
  · simp only [hm, if_false]
    cases hc : s0.block_map c with
    | false =>
      cases hr : (run_writes i now ws s0).block_map c with
      | false => rfl
      | true =>
        have := this.mpr ⟨hr, hm⟩
        rw [hc] at this
        exact Bool.noConfusion this
    | true => exact (this.mp hc).1

/-! ## Directory entries -/

theorem de_word_lt (blk : Block) (e : Nat) : de_word blk e < 4294967296 :=
  Nat.mod_lt _ (by decide)

theorem de_word_set32 (blk : Block) (e w : Nat) :
    de_word (set32 blk (8 * e) w) e = w % 4294967296 := by
  simp only [de_word, get32_set32_same, Nat.mod_mod]

theorem set32_outside (blk : Block) (n w i : Nat) (h : i < 4 * n ∨ 4 * n + 4 ≤ i) :
    set32 blk n w i = blk i := by
  have h0 : i ≠ 4 * n := by omega
  have h1 : i ≠ 4 * n + 1 := by omega
  have h2 : i ≠ 4 * n + 2 := by omega
  have h3 : i ≠ 4 * n + 3 := by omega
  simp only [set32, h0, h1, h2, h3, if_false]

theorem de_word_set32_ne (blk : Block) {e e' : Nat} (h : e' ≠ e) (w : Nat) :
    de_word (set32 blk (8 * e) w) e' = de_word blk e' := by
  simp only [de_word]
  rw [get32_set32_ne _ (by omega)]

theorem de_name_set32 (blk : Block) (e e' w j : Nat) (hj : j < FS_FILENAME_SIZE) :
    de_name (set32 blk (8 * e) w) e' j = de_name blk e' j := by
  simp only [de_name, FS_FILENAME_SIZE] at *
  apply set32_outside
  omega

theorem de_valid_set_de_valid (blk : Block) (e v : Nat) :
    de_valid (set_de_valid blk e v) e = v % 2 := by
  simp only [de_valid, set_de_valid, de_word_set32]
  have := de_word_lt blk e
  omega

theorem de_inode_set_de_valid (blk : Block) (e v : Nat) :
    de_inode (set_de_valid blk e v) e = de_inode blk e := by
  simp only [de_inode, set_de_valid, de_word_set32]
  have := de_word_lt blk e
  omega

theorem set_de_valid_outside (blk : Block) (e v i : Nat) (h : i < 32 * e ∨ 32 * e + 4 ≤ i) :
    set_de_valid blk e v i = blk i := by
  unfold set_de_valid
  apply set32_outside
  omega

theorem strcmp_eq_iff (blk : Block) (e : Nat) (name : List Nat) :
    strcmp_eq blk (32 * e + 4) name = true ↔ name_is blk e name := by
  simp only [strcmp_eq, name_is, de_name, Bool.and_eq_true, List.all_eq_true, List.mem_range,
    decide_eq_true_eq]

theorem entry_test_iff (blk : Block) (e : Nat) (name : List Nat) :
    (de_valid blk e ≠ 0 ∧ strcmp_eq blk (32 * e + 4) name = true) ↔ entry_named blk e name := by
  rw [strcmp_eq_iff]
  unfold entry_named
  have : de_valid blk e < 2 := Nat.mod_lt _ (by decide)
  constructor
  · rintro ⟨h1, h2⟩; exact ⟨by omega, h2⟩
  · rintro ⟨h1, h2⟩; exact ⟨by omega, h2⟩

theorem get_dir_entry_in_block_from_spec (blk : Block) (name : List Nat) :
    ∀ k entno : Nat,
      (get_dir_entry_in_block_from blk name k entno = -ENOENT ∧
        ∀ e, entno ≤ e → e < entno + k → ¬ entry_named blk e name) ∨
      (∃ e : Nat, get_dir_entry_in_block_from blk name k entno = (e : Int) ∧ entno ≤ e ∧
        e < entno + k ∧ entry_named blk e name ∧
        ∀ e', entno ≤ e' → e' < e → ¬ entry_named blk e' name) := by
  intro k
  induction k with
  | zero => intro entno; left; exact ⟨rfl, fun e h1 h2 => by omega⟩
  | succ k ih =>
    intro entno
    unfold get_dir_entry_in_block_from
    by_cases h : de_valid blk entno ≠ 0 ∧ strcmp_eq blk (32 * entno + 4) name = true
    · right
      rw [if_pos h]
      exact ⟨entno, rfl, le_refl _, by omega, (entry_test_iff _ _ _).mp h,
        fun e' h1 h2 => by omega⟩
    · rw [if_neg h]
      have hn : ¬ entry_named blk entno name := fun hh => h ((entry_test_iff _ _ _).mpr hh)
      rcases ih (entno + 1) with ⟨h1, h2⟩ | ⟨e, h1, h2, h3, h4, h5⟩
      · left
        refine ⟨h1, fun e he1 he2 => ?_⟩
        by_cases he : e = entno
        · rw [he]; exact hn
        · exact h2 e (by omega) (by omega)
      · right
        refine ⟨e, h1, by omega, by omega, h4, fun e' he1 he2 => ?_⟩
        by_cases he : e' = entno
        · rw [he]; exact hn
        · exact h5 e' (by omega) he2

theorem get_dir_entry_in_block_found {blk : Block} {name : List Nat} {e : Nat}
    (h : first_entry blk name e) : get_dir_entry_in_block blk name = (e : Int) := by
  obtain ⟨h1, h2, h3⟩ := h
  unfold get_dir_entry_in_block
  rcases get_dir_entry_in_block_from_spec blk name DIRENTS_PER_BLK 0 with
    ⟨_, hno⟩ | ⟨e', he, _, _, h5, h6⟩
  · exact absurd h2 (hno e (Nat.zero_le _) (by omega))
  · rw [he]
    have : e' = e := by
      rcases Nat.lt_trichotomy e' e with c | c | c
      · exact absurd h5 (h3 e' c)
      · exact c
      · exact absurd h2 (h6 e (Nat.zero_le _) c)
    rw [this]

theorem get_dir_entry_in_block_none {blk : Block} {name : List Nat} (h : no_entry blk name) :
    get_dir_entry_in_block blk name = -ENOENT := by
  unfold get_dir_entry_in_block
  rcases get_dir_entry_in_block_from_spec blk name DIRENTS_PER_BLK 0 with
    ⟨h1, _⟩ | ⟨e', _, _, h4, h5, _⟩
  · exact h1
  · exact absurd h5 (h e' (by omega))

theorem get_dir_entry_in_block_cases (blk : Block) (name : List Nat) :
    (get_dir_entry_in_block blk name = -ENOENT ∧ no_entry blk name) ∨
    ∃ e : Nat, get_dir_entry_in_block blk name = (e : Int) ∧ first_entry blk name e := by
  unfold get_dir_entry_in_block
  rcases get_dir_entry_in_block_from_spec blk name DIRENTS_PER_BLK 0 with
    ⟨h1, h2⟩ | ⟨e, h1, _, h3, h4, h5⟩
  · left; exact ⟨h1, fun e he => h2 e (Nat.zero_le _) (by omega)⟩
  · right
    exact ⟨e, h1, by omega, h4, fun e' he => h5 e' (Nat.zero_le _) he⟩

theorem get_free_entry_in_block_from_spec (blk : Block) :
    ∀ k entno : Nat,
      (get_free_entry_in_block_from blk k entno = -ENOSPC ∧
        ∀ e, entno ≤ e → e < entno + k → de_valid blk e = 1) ∨
      (∃ e : Nat, get_free_entry_in_block_from blk k entno = (e : Int) ∧ entno ≤ e ∧
        e < entno + k ∧ de_valid blk e = 0 ∧ ∀ e', entno ≤ e' → e' < e → de_valid blk e' = 1) := by
  intro k
  induction k with
  | zero => intro entno; left; exact ⟨rfl, fun e h1 h2 => by omega⟩
  | succ k ih =>
    intro entno
    unfold get_free_entry_in_block_from
    have hv : de_valid blk entno < 2 := Nat.mod_lt _ (by decide)
    by_cases h : de_valid blk entno = 0
    · right
      rw [if_pos h]
      exact ⟨entno, rfl, le_refl _, by omega, h, fun e' h1 h2 => by omega⟩
    · rw [if_neg h]
      have hn : de_valid blk entno = 1 := by omega
      rcases ih (entno + 1) with ⟨h1, h2⟩ | ⟨e, h1, h2, h3, h4, h5⟩
      · left
        refine ⟨h1, fun e he1 he2 => ?_⟩
        by_cases he : e = entno
        · rw [he]; exact hn
        · exact h2 e (by omega) (by omega)
      · right
        refine ⟨e, h1, by omega, by omega, h4, fun e' he1 he2 => ?_⟩
        by_cases he : e' = entno
        · rw [he]; exact hn
        · exact h5 e' (by omega) he2

theorem get_free_entry_in_block_found {blk : Block} {e : Nat} (h : first_free blk e) :
    get_free_entry_in_block blk = (e : Int) := by
  obtain ⟨h1, h2, h3⟩ := h
  unfold get_free_entry_in_block
  rcases get_free_entry_in_block_from_spec blk DIRENTS_PER_BLK 0 with
    ⟨_, hall⟩ | ⟨e', he, _, _, h5, h6⟩
  · have := hall e (Nat.zero_le _) (by omega)
    omega
  · rw [he]
    have : e' = e := by
      rcases Nat.lt_trichotomy e' e with c | c | c
      · have := h3 e' c; omega
      · exact c
      · have := h6 e (Nat.zero_le _) c; omega
    rw [this]

/-! ## Looking a name up in a directory -/

theorem get_file_blkno_zero_noalloc (s : fs_state) (i : Nat) :
    get_file_blkno s i 0 0 = (int_of_u32 ((s.inodes i).direct 0), s) := by
  unfold get_file_blkno
  have c : (0 : Nat) < N_DIRECT := by decide
  simp only [c, if_true]
  by_cases h : (s.inodes i).direct 0 = 0
  · simp [h, int_of_u32_zero]
  · simp [h]

theorem get_file_blk_zero_noalloc_state (s : fs_state) (i : Nat) (blk : Block) :
    (get_file_blk s i 0 blk 0).2.2 = s := by
  unfold get_file_blk
  rw [get_file_blkno_zero_noalloc]
  simp only
  split_ifs <;> rfl

theorem get_file_blk_block0 {s : fs_state} {dir : Nat} (h : has_block0 s dir) (blk : Block)
    (alloc : Nat) (hr : get_file_blkno s dir 0 alloc = (dir_blkno s dir, s)) :
    get_file_blk s dir 0 blk alloc = (dir_blkno s dir, dir_block s dir, s) := by
  unfold get_file_blk
  rw [hr]
  have h1 : dir_blkno s dir > 0 := h.1
  have h2 : (0 : Int) ≤ dir_blkno s dir ∧ dir_blkno s dir < (s.disk.nblks : Int) :=
    ⟨le_of_lt h.1, h.2⟩
  simp only [h1, if_true, blkdev.read, h2, and_self, SUCCESS, lt_self_iff_false, if_false,
    dir_block]

theorem get_file_blk_no_block0 {s : fs_state} {dir : Nat} (h : ¬ has_block0 s dir)
    (blk : Block) : (get_file_blk s dir 0 blk 0).1 ≤ 0 := by
  unfold get_file_blk
  rw [get_file_blkno_zero_noalloc]
  by_cases h1 : int_of_u32 ((s.inodes dir).direct 0) > 0
  · simp only [h1, if_true]
    have h2 : ¬ ((0 : Int) ≤ int_of_u32 ((s.inodes dir).direct 0) ∧
        int_of_u32 ((s.inodes dir).direct 0) < (s.disk.nblks : Int)) := by
      intro hh
      exact h ⟨h1, hh.2⟩
    simp only [blkdev.read, h2, if_false, E_BADADDR]
    simp [ EIO]
  · simp only [h1, if_false]
    omega

theorem get_dir_entry_block_state (s : fs_state) (dir : Nat) (blk : Block) (name : List Nat) :
    (get_dir_entry_block s dir blk name).state = s := by
  unfold get_dir_entry_block
  have := get_file_blk_zero_noalloc_state s dir blk
  simp only
  split_ifs <;> first | rfl | exact this

/-- A successful lookup: the entry number, the directory block, its number. -/
theorem lookup_found {s : fs_state} {dir e : Nat} {name : List Nat}
    (h : dir_entry s dir name e) (blk : Block) :
    get_dir_entry_block s dir blk name =
      { entno := (e : Int), block := dir_block s dir, blkno := dir_blkno s dir, state := s } := by
  obtain ⟨h1, h2, h3⟩ := h
  unfold get_dir_entry_block
  have hb := get_file_blk_block0 h2 blk 0 (get_file_blkno_zero_noalloc s dir)
  have hpos : ¬ (dir_blkno s dir ≤ 0) := not_le.mpr h2.1
  have hge : ((e : Nat) : Int) ≥ 0 := Int.natCast_nonneg e
  simp only [h1, not_true_eq_false, if_false, hb, hpos, get_dir_entry_in_block_found h3, hge,
    if_true]

/-- A lookup in a readable directory block without the name answers `-ENOENT`. -/
theorem lookup_absent {s : fs_state} {dir : Nat} {name : List Nat}
    (h1 : S_ISDIR (s.inodes dir).mode = true) (h2 : has_block0 s dir)
    (h3 : no_entry (dir_block s dir) name) (blk : Block) :
    get_dir_entry_block s dir blk name =
      { entno := -ENOENT, block := zeros, blkno := 0, state := s } := by
  unfold get_dir_entry_block
  have hb := get_file_blk_block0 h2 blk 0 (get_file_blkno_zero_noalloc s dir)
  have hpos : ¬ (dir_blkno s dir ≤ 0) := not_le.mpr h2.1
  have hlt : ¬ (-ENOENT ≥ (0 : Int)) := by decide
  simp only [h1, not_true_eq_false, if_false, hb, hpos, get_dir_entry_in_block_none h3, hlt]

theorem lookup_notdir {s : fs_state} {dir : Nat} (h : ¬ S_ISDIR (s.inodes dir).mode = true)
    (blk : Block) (name : List Nat) :
    get_dir_entry_block s dir blk name =
      { entno := -ENOTDIR, block := zeros, blkno := 0, state := s } := by
  unfold get_dir_entry_block
  rw [if_pos h]

/-- A failed lookup: a negative result, a zeroed buffer and no block number. -/
theorem lookup_none {s : fs_state} {dir : Nat} {name : List Nat}
    (h : ∀ e, ¬ dir_entry s dir name e) (blk : Block) :
    (get_dir_entry_block s dir blk name).entno < 0 ∧
    (get_dir_entry_block s dir blk name).block = zeros ∧
    (get_dir_entry_block s dir blk name).blkno = 0 ∧
    (get_dir_entry_block s dir blk name).state = s := by
  by_cases h1 : S_ISDIR (s.inodes dir).mode = true
  · by_cases h2 : has_block0 s dir
    · have h3 : no_entry (dir_block s dir) name := by
        rcases get_dir_entry_in_block_cases (dir_block s dir) name with ⟨_, hn⟩ | ⟨e, _, he⟩
        · exact hn
        · exact absurd ⟨h1, h2, he⟩ (h e)
      rw [lookup_absent h1 h2 h3]
      refine ⟨?_, rfl, rfl, rfl⟩
      show (-ENOENT : Int) < 0
      decide
    · have hle := get_file_blk_no_block0 h2 blk
      have hst := get_file_blk_zero_noalloc_state s dir blk
      unfold get_dir_entry_block
      simp only [h1, not_true_eq_false, if_false, hle, if_true, hst]
      refine ⟨?_, trivial, trivial, trivial⟩
      split_ifs
      · show (-ENOENT : Int) < 0
        decide
      · show (- EIO : Int) < 0
        decide
  · rw [lookup_notdir h1]
    refine ⟨?_, rfl, rfl, rfl⟩
    show (-ENOTDIR : Int) < 0
    decide

theorem lookup_cases (s : fs_state) (dir : Nat) (name : List Nat) :
    (∃ e, dir_entry s dir name e) ∨ ∀ e, ¬ dir_entry s dir name e := by
  by_cases h : ∃ e, dir_entry s dir name e
  · exact Or.inl h
  · exact Or.inr (fun e he => h ⟨e, he⟩)

theorem dir_entry_unique {s : fs_state} {dir e1 e2 : Nat} {name : List Nat}
    (h1 : dir_entry s dir name e1) (h2 : dir_entry s dir name e2) : e1 = e2 := by
  obtain ⟨_, _, _, a2, a3⟩ := h1
  obtain ⟨_, _, _, b2, b3⟩ := h2
  rcases Nat.lt_trichotomy e1 e2 with c | c | c
  · exact absurd a2 (b3 e1 c)
  · exact c
  · exact absurd b2 (a3 e2 c)

/-- The value of `get_dir_entry_inode` when entry `e` is found. -/
theorem get_dir_entry_inode_found {v : Nat} {s : fs_state} {dir e : Nat} {name : List Nat}
    (hv : ¬ (v = 0 ∧ name = [46])) (h : dir_entry s dir name e) :
    get_dir_entry_inode v s dir name = (de_inode (dir_block s dir) e : Int) := by
  unfold get_dir_entry_inode
  have hge : ¬ (((e : Nat) : Int) < 0) := by omega
  simp only [hv, if_false, lookup_found h, hge, Int.toNat_ofNat]

/-- The value of `get_dir_entry_inode` when no entry is found is negative. -/
theorem get_dir_entry_inode_none {v : Nat} {s : fs_state} {dir : Nat} {name : List Nat}
    (hv : ¬ (v = 0 ∧ name = [46])) (h : ∀ e, ¬ dir_entry s dir name e) :
    get_dir_entry_inode v s dir name < 0 := by
  unfold get_dir_entry_inode
  have := (lookup_none h s.stack).1
  simp only [hv, if_false, this, if_true]

theorem get_dir_entry_inode_absent {v : Nat} {s : fs_state} {dir : Nat} {name : List Nat}
    (hv : ¬ (v = 0 ∧ name = [46])) (h1 : S_ISDIR (s.inodes dir).mode = true)
    (h2 : has_block0 s dir) (h3 : no_entry (dir_block s dir) name) :
    get_dir_entry_inode v s dir name = -ENOENT := by
  unfold get_dir_entry_inode
  have hlt : (-ENOENT : Int) < 0 := by decide
  simp only [hv, if_false, lookup_absent h1 h2 h3, hlt, if_true]

/-! ## Removing a directory entry -/

theorem name_is_congr {blk1 blk2 : Block} {e : Nat} {name : List Nat}
    (hlen : name.length < FS_FILENAME_SIZE)
    (h : ∀ j, j < FS_FILENAME_SIZE → de_name blk2 e j = de_name blk1 e j) :
    name_is blk2 e name ↔ name_is blk1 e name := by
  unfold name_is
  rw [h _ hlen]
  constructor
  · rintro ⟨a, b⟩
    exact ⟨fun j hj => by rw [← h j (by omega)]; exact a j hj, b⟩
  · rintro ⟨a, b⟩
    exact ⟨fun j hj => by rw [h j (by omega)]; exact a j hj, b⟩

theorem de_name_set_de_valid (blk : Block) (e v e' j : Nat) (hj : j < FS_FILENAME_SIZE) :
    de_name (set_de_valid blk e v) e' j = de_name blk e' j :=
  de_name_set32 blk e e' _ j hj

theorem entry_named_set_de_valid_ne (blk : Block) {e e' : Nat} (h : e' ≠ e) (v : Nat)
    {name : List Nat} (hlen : name.length < FS_FILENAME_SIZE) :
    entry_named (set_de_valid blk e v) e' name ↔ entry_named blk e' name := by
  unfold entry_named
  have h1 : de_valid (set_de_valid blk e v) e' = de_valid blk e' := by
    simp only [de_valid, set_de_valid, de_word_set32_ne _ h]
  rw [h1, name_is_congr hlen (fun j hj => de_name_set_de_valid blk e v e' j hj)]

theorem no_entry_after_clear {blk : Block} {e : Nat} {name : List Nat}
    (hlen : name.length < FS_FILENAME_SIZE) (he : entry_named blk e name)
    (he32 : e < DIRENTS_PER_BLK) (hu : unique_name blk name) :
    no_entry (set_de_valid blk e 0) name := by
  intro e' he' hn
  by_cases hee : e' = e
  · rw [hee] at hn
    have := hn.1
    rw [de_valid_set_de_valid] at this
    exact absurd this (by decide)
  · rw [entry_named_set_de_valid_ne blk hee 0 hlen] at hn
    exact hee (hu e' he' e he32 hn he)

theorem do_unlink_found {s : fs_state} {dir e : Nat} {leaf : List Nat}
    (h : dir_entry s dir leaf e)
    (hreg : ¬ S_ISDIR (s.inodes (de_inode (dir_block s dir) e)).mode = true) (now : Nat) :
    do_unlink s dir leaf now = (0, remove_entry s dir e now) := by
  unfold do_unlink remove_entry
  have hge : ¬ (((e : Nat) : Int) < 0) := by omega
  simp only [h.1, not_true_eq_false, if_false, lookup_found h, hge, Int.toNat_ofNat, hreg,
    Bool.false_eq_true]

theorem dir_blkno_of_wf {s : fs_state} {dir : Nat} (h : wf s dir) (h0 : has_block0 s dir) :
    dir_blkno s dir = (((s.inodes dir).direct 0 : Nat) : Int) ∧
    s.data_base ≤ (s.inodes dir).direct 0 ∧ (s.inodes dir).direct 0 < s.disk.nblks := by
  have hne : (s.inodes dir).direct 0 ≠ 0 := by
    intro e
    have := h0.1
    simp only [dir_blkno, e, int_of_u32_zero] at this
    omega
  have hok : (Slot.direct 0).ok := show (0 : Nat) < N_DIRECT by decide
  have h1 := h.ptr_lt (σ := .direct 0) hok hne
  have h2 := h.ptr_ok (.direct 0) hok hne
  simp only [ptr] at h1 h2
  exact ⟨int_of_u32_lt h1.2, h2.1, h1.1⟩

theorem do_truncate_inodes_ne {s : fs_state} {i j : Nat} (h : wf s i) (hj : j ≠ i) (now : Nat) :
    (do_truncate s i 0 now).2.inodes j = s.inodes j := by
  rw [do_truncate_eq h]
  simp only [fs_state.set_inode, hj, if_false, release_all_inodes]

theorem owned_blocks_congr {s t : fs_state} {i : Nat}
    (h : ∀ σ : Slot, σ.ok → ptr t i σ = ptr s i σ) : owned_blocks t i = owned_blocks s i := by
  unfold owned_blocks
  congr 1
  apply List.map_congr_left
  intro σ hσ
  exact h σ ((mem_all_slots σ).mp hσ)

/-- The state after the directory block has been written: the file `tgt` is as before. -/
theorem dir_write_keeps_file {s : fs_state} {dir tgt : Nat} (h : dir_and_file s dir tgt)
    (h0 : has_block0 s dir) (blk : Block) :
    wf (s.disk_write (dir_blkno s dir) blk) tgt ∧
    owned_blocks (s.disk_write (dir_blkno s dir) blk) tgt = owned_blocks s tgt ∧
    (∀ c, (s.disk_write (dir_blkno s dir) blk).disk.blocks c =
      if c = (s.inodes dir).direct 0 then blk else s.disk.blocks c) := by
  obtain ⟨hb, _, hlt⟩ := dir_blkno_of_wf h.wf_dir h0
  have hblocks : ∀ c, (s.disk_write (dir_blkno s dir) blk).disk.blocks c =
      if c = (s.inodes dir).direct 0 then blk else s.disk.blocks c := by
    intro c
    rw [hb]
    simp only [fs_state.disk_write, blkdev_write_blocks _ hlt]
  have hptr : ∀ σ : Slot, σ.ok →
      ptr (s.disk_write (dir_blkno s dir) blk) tgt σ = ptr s tgt σ := by
    apply ptr_congr
    · rfl
    · rfl
    · rfl
    · intro τ hτ _ _
      rw [hblocks]
      simp only [h.apart τ hτ, if_false]
  refine ⟨wf_of_same_map h.wf_tgt ?_ rfl hptr, owned_blocks_congr hptr, hblocks⟩
  simp only [same_frame, fs_state.disk_write, blkdev_write_nblks, and_self]

theorem release_all_data_base (l : List Nat) :
    ∀ s : fs_state, (release_all s l).data_base = s.data_base := by
  induction l with
  | nil => intro s; rfl
  | cons b l ih => intro s; exact (ih (return_blk s b)).trans rfl

theorem remove_entry_eq {s : fs_state} {dir e tgt : Nat}
    (htgt : de_inode (dir_block s dir) e = tgt)
    (hwf1 : wf (s.disk_write (dir_blkno s dir) (set_de_valid (dir_block s dir) e 0)) tgt)
    (now : Nat) :
    remove_entry s dir e now =
      flush_metadata (mark_inode
        ((return_inode (mark_inode
          ((release_all (s.disk_write (dir_blkno s dir) (set_de_valid (dir_block s dir) e 0))
            (owned_blocks (s.disk_write (dir_blkno s dir) (set_de_valid (dir_block s dir) e 0))
              tgt)).set_inode tgt (truncated_inode now)) tgt) tgt).set_inode dir
            (fun ino => { ino with size := dir_size_less ino.size })) dir) := by
  unfold remove_entry
  dsimp only
  rw [htgt, do_truncate_eq hwf1]

/-- What `remove_entry` leaves, for a directory and a target file that are well-formed and
apart. -/
theorem remove_entry_spec {s : fs_state} {dir e tgt : Nat} (h0 : has_block0 s dir)
    (htgt : de_inode (dir_block s dir) e = tgt) (h : dir_and_file s dir tgt)
    (hne : dir ≠ tgt) (now : Nat) :
    (remove_entry s dir e now).inodes dir =
      { s.inodes dir with size := dir_size_less (s.inodes dir).size } ∧
    (remove_entry s dir e now).disk.nblks = s.disk.nblks ∧
    dir_block (remove_entry s dir e now) dir = set_de_valid (dir_block s dir) e 0 ∧
    (∀ j, (remove_entry s dir e now).inode_map j = if j = tgt then false else s.inode_map j) ∧
    (∀ c, (remove_entry s dir e now).block_map c =
      if c ∈ owned_blocks s tgt then false else s.block_map c) := by
  obtain ⟨hb, hdb, hlt⟩ := dir_blkno_of_wf h.wf_dir h0
  obtain ⟨hwf1, hown, hblocks⟩ := dir_write_keeps_file h h0 (set_de_valid (dir_block s dir) e 0)
  rw [remove_entry_eq htgt hwf1, hown]
  generalize hu : release_all (s.disk_write (dir_blkno s dir) (set_de_valid (dir_block s dir) e 0))
    (owned_blocks s tgt) = u
  have u1 : u.inodes = s.inodes := by rw [← hu, release_all_inodes]; rfl
  have u2 : u.disk = (s.disk_write (dir_blkno s dir) (set_de_valid (dir_block s dir) e 0)).disk := by
    rw [← hu, release_all_disk]
  have u3 : u.inode_map = s.inode_map := by rw [← hu, release_all_inode_map]; rfl
  have u4 : ∀ c, u.block_map c = if c ∈ owned_blocks s tgt then false else s.block_map c := by
    intro c; rw [← hu, release_all_block_map]; rfl
  have u5 : u.data_base = s.data_base := by rw [← hu, release_all_data_base]; rfl
  clear hu hwf1 hown
  generalize hx : (return_inode (mark_inode (u.set_inode tgt (truncated_inode now)) tgt)
    tgt).set_inode dir (fun ino => { ino with size := dir_size_less ino.size }) = x
  have x1 : x.inodes dir = { s.inodes dir with size := dir_size_less (s.inodes dir).size } := by
    rw [← hx]
    simp only [fs_state.set_inode, if_true, return_inode, mark_inode, hne, if_false, u1]
  have x2 : x.disk = u.disk := by rw [← hx]; rfl
  have x3 : ∀ j, x.inode_map j = if j = tgt then false else s.inode_map j := by
    intro j; rw [← hx]
    simp only [fs_state.set_inode, return_inode, mark_inode, u3]
  have x4 : x.block_map = u.block_map := by rw [← hx]; rfl
  have x5 : x.data_base = s.data_base := by rw [← hx, ← u5]; rfl
  clear hx
  have t1 : (flush_metadata (mark_inode x dir)).inodes dir =
      { s.inodes dir with size := dir_size_less (s.inodes dir).size } := by
    rw [flush_mark_inodes, x1]
  refine ⟨t1, ?_, ?_, fun j => x3 j, fun c => ?_⟩
  · show x.disk.nblks = _
    rw [x2, u2]
    simp only [fs_state.disk_write, blkdev_write_nblks]
  · have hbn : dir_blkno (flush_metadata (mark_inode x dir)) dir = dir_blkno s dir := by
      unfold dir_blkno
      rw [t1]
    unfold dir_block
    rw [hbn, hb, Int.toNat_ofNat, flush_mark_blocks x dir (by rw [x5]; exact hdb), x2, u2, hblocks,
      if_pos rfl]
    unfold dir_block
    rw [hb, Int.toNat_ofNat]
  · rw [flush_mark_block_map, x4, u4]

/-- An inode whose only pointer is `direct[0]`, naming an allocated block of the data
region (or nothing), is well-formed. -/
theorem wf_of_one_block {s : fs_state} {i b : Nat} (hn : s.num_blocks ≤ s.disk.nblks)
    (hl : s.disk.nblks < 2147483648) (hres : ∀ c, c < s.data_base → s.block_map c = true)
    (hd : ∀ n, (s.inodes i).direct n = if n = 0 then b else 0)
    (h1 : (s.inodes i).indir_1 = 0) (h2 : (s.inodes i).indir_2 = 0)
    (hb : b = 0 ∨ (s.data_base ≤ b ∧ b < s.num_blocks ∧ s.block_map b = true)) : wf s i := by
  have hp : ∀ σ : Slot, ptr s i σ = if σ = .direct 0 then b else 0 := by
    intro σ
    cases σ with
    | direct n =>
      by_cases h : n = 0
      · simp [ptr, hd, h]
      · simp [ptr, hd, h]
    | ind1 => simp [ptr, h1]
    | ind2 => simp [ptr, h2]
    | leaf1 n => simp [ptr, h1]
    | mid m => simp [ptr, h2]
    | leaf2 m k => simp [ptr, h2]
  refine ⟨hn, hl, hres, ?_, ?_⟩
  · intro σ _ hne
    rw [hp] at hne ⊢
    by_cases h : σ = .direct 0
    · simp only [h, if_true] at hne ⊢
      rcases hb with hb | hb
      · exact absurd hb hne
      · exact hb
    · simp [h] at hne
  · intro σ τ _ _ hne he
    rw [hp] at hne he
    rw [hp] at he
    by_cases h : σ = .direct 0
    · by_cases h' : τ = .direct 0
      · rw [h, h']
      · simp only [h, h', if_true, if_false] at he hne
        exact absurd he hne
    · simp [h] at hne

theorem ptr_of_one_block {s : fs_state} {i b : Nat}
    (hd : ∀ n, (s.inodes i).direct n = if n = 0 then b else 0)
    (h1 : (s.inodes i).indir_1 = 0) (h2 : (s.inodes i).indir_2 = 0) (σ : Slot) :
    ptr s i σ = if σ = .direct 0 then b else 0 := by
  cases σ with
  | direct n =>
    by_cases h : n = 0
    · simp [ptr, hd, h]
    · simp [ptr, hd, h]
  | ind1 => simp [ptr, h1]
  | ind2 => simp [ptr, h2]
  | leaf1 n => simp [ptr, h1]
  | mid m => simp [ptr, h2]
  | leaf2 m k => simp [ptr, h2]

theorem tree_vol_wf_root : wf tree_vol 1 :=
  wf_of_one_block (b := 7) (le_refl _) (by decide) (by decide) (fun _ => rfl) rfl rfl
    (Or.inr (by decide))

theorem tree_vol_wf_file : wf tree_vol 2 :=
  wf_of_one_block (b := 9) (le_refl _) (by decide) (by decide) (fun _ => rfl) rfl rfl
    (Or.inr (by decide))

theorem tree_vol_file : dir_and_file tree_vol 1 2 := by
  refine ⟨tree_vol_wf_root, tree_vol_wf_file, ?_⟩
  intro σ _
  rw [ptr_of_one_block (b := 9) (fun _ => rfl) rfl rfl]
  split_ifs <;> decide

/-! ## `do_rmdir` -/

theorem is_dir_empty_iff {s : fs_state} {i : Nat} (h : S_ISDIR (s.inodes i).mode = true) :
    is_dir_empty s i = 1 ↔ (s.inodes i).size < 32 := by
  unfold is_dir_empty get_dir_entry_count
  simp only [h, not_true_eq_false, if_false]
  have hnn : ¬ ((((s.inodes i).size / 32 : Nat) : Int) < 0) := by omega
  rw [if_neg hnn]
  by_cases hz : (s.inodes i).size / 32 = 0
  · simp only [hz, Nat.cast_zero, if_true, true_iff]
    omega
  · have h1 : ¬ ((((s.inodes i).size / 32 : Nat) : Int) = 0) := by omega
    simp only [h1, if_false, zero_ne_one, false_iff]
    omega

theorem do_rmdir_found {s : fs_state} {dir e : Nat} {leaf : List Nat}
    (h : dir_entry s dir leaf e)
    (hd : S_ISDIR (s.inodes (de_inode (dir_block s dir) e)).mode = true) (now : Nat) :
    do_rmdir s dir leaf now =
      if 32 ≤ (s.inodes (de_inode (dir_block s dir) e)).size then (-ENOTEMPTY, s)
      else (0, remove_entry s dir e now) := by
  unfold do_rmdir remove_entry
  have hge : ¬ (((e : Nat) : Int) < 0) := by omega
  simp only [h.1, not_true_eq_false, if_false, lookup_found h, hge, Int.toNat_ofNat, hd]
  by_cases hs : 32 ≤ (s.inodes (de_inode (dir_block s dir) e)).size
  · have : is_dir_empty s (de_inode (dir_block s dir) e) ≠ 1 := by
      rw [ne_eq, is_dir_empty_iff hd]; omega
    rw [if_pos this, if_pos hs]
  · have : ¬ (is_dir_empty s (de_inode (dir_block s dir) e) ≠ 1) := by
      rw [ne_eq, not_not, is_dir_empty_iff hd]; omega
    rw [if_neg this, if_neg hs]

/-! ## The size update of `do_unlink` and `do_rmdir` -/

/-- From a size of at least one entry the update takes 32 away. -/
theorem dir_size_less_ge {size : Nat} (h1 : 32 ≤ size) (h2 : size < 4294967296) :
    dir_size_less size = size - 32 := by
  unfold dir_size_less c_max
  rw [if_neg (Nat.not_lt_zero _)]
  omega

/-- From a size below one entry the update wraps around in the 32-bit field. -/
theorem dir_size_less_lt {size : Nat} (h : size < 32) :
    dir_size_less size = size + 4294967296 - 32 := by
  unfold dir_size_less c_max
  rw [if_neg (Nat.not_lt_zero _)]
  omega


/-! ## Writing a name and an entry -/

theorem strncpy_name_outside (blk : Block) (e : Nat) (name : List Nat) (i : Nat)
    (h : i < 32 * e + 4 ∨ 32 * e + 31 ≤ i) : strncpy_name blk e name i = blk i := by
  unfold strncpy_name
  rw [if_neg]
  simp only [FS_FILENAME_SIZE]
  omega

theorem de_word_strncpy_name (blk : Block) (e e' : Nat) (name : List Nat) :
    de_word (strncpy_name blk e name) e' = de_word blk e' := by
  simp only [de_word, get32]
  rw [strncpy_name_outside, strncpy_name_outside, strncpy_name_outside, strncpy_name_outside] <;>
    omega

theorem de_name_strncpy_name_ne (blk : Block) {e e' : Nat} (h : e' ≠ e) (name : List Nat)
    (j : Nat) (hj : j < FS_FILENAME_SIZE) :
    de_name (strncpy_name blk e name) e' j = de_name blk e' j := by
  simp only [de_name, FS_FILENAME_SIZE] at *
  apply strncpy_name_outside
  omega

theorem de_name_strncpy_name (blk : Block) (e : Nat) (name : List Nat) (j : Nat)
    (hj : j < FS_FILENAME_SIZE - 1) :
    de_name (strncpy_name blk e name) e j = name.getD j 0 := by
  simp only [de_name, strncpy_name, FS_FILENAME_SIZE] at *
  rw [if_pos (by omega)]
  congr 1
  omega

theorem de_name_strncpy_name_last (blk : Block) (e : Nat) (name : List Nat) :
    de_name (strncpy_name blk e name) e (FS_FILENAME_SIZE - 1) =
      de_name blk e (FS_FILENAME_SIZE - 1) := by
  simp only [de_name, FS_FILENAME_SIZE]
  apply strncpy_name_outside
  omega

/-- After `strncpy` the entry carries the name, provided the name fits. -/
theorem name_is_strncpy_name {blk : Block} {e : Nat} {name : List Nat}
    (h : name_fits blk e name) : name_is (strncpy_name blk e name) e name := by
  unfold name_is
  unfold name_fits at h
  simp only [FS_FILENAME_SIZE] at h
  constructor
  · intro j hj
    exact de_name_strncpy_name blk e name j (by simp only [FS_FILENAME_SIZE]; omega)
  · rcases h with h | ⟨h1, h2⟩
    · rw [de_name_strncpy_name blk e name _ (by simp only [FS_FILENAME_SIZE]; omega)]
      exact List.getD_eq_default _ _ (le_refl _)
    · rw [h1]
      have := de_name_strncpy_name_last blk e name
      simp only [FS_FILENAME_SIZE] at this
      rw [this, h2]

theorem entry_named_strncpy_name_ne (blk : Block) {e e' : Nat} (h : e' ≠ e) (name : List Nat)
    {n : List Nat} (hlen : n.length < FS_FILENAME_SIZE) :
    entry_named (strncpy_name blk e name) e' n ↔ entry_named blk e' n := by
  unfold entry_named
  have h1 : de_valid (strncpy_name blk e name) e' = de_valid blk e' := by
    simp only [de_valid, de_word_strncpy_name]
  rw [h1, name_is_congr hlen (fun j hj => de_name_strncpy_name_ne blk h name j hj)]

/-- Two C strings read from the same entry are equal. -/
theorem name_is_inj {blk : Block} {e : Nat} {n1 n2 : List Nat} (c1 : is_cstr n1)
    (c2 : is_cstr n2) (h1 : name_is blk e n1) (h2 : name_is blk e n2) : n1 = n2 := by
  have hlen : n1.length = n2.length := by
    rcases Nat.lt_trichotomy n1.length n2.length with c | c | c
    · exfalso
      have a := h2.1 _ c
      rw [h1.2, List.getD_eq_getElem _ _ c] at a
      exact c2 _ (List.getElem_mem c) a.symm
    · exact c
    · exfalso
      have a := h1.1 _ c
      rw [h2.2, List.getD_eq_getElem _ _ c] at a
      exact c1 _ (List.getElem_mem c) a.symm
  apply List.ext_getElem hlen
  intro j hj1 hj2
  have a := h1.1 j hj1
  have b := h2.1 j hj2
  rw [List.getD_eq_getElem _ _ hj1] at a
  rw [List.getD_eq_getElem _ _ hj2] at b
  rw [← a, ← b]


/-! ## Renaming a directory entry -/

theorem do_rename_found {s : fs_state} {d e : Nat} {sname tname : List Nat} (hd : 0 < d)
    (he : dir_entry s d sname e) (hno : ∀ e', ¬ dir_entry s d tname e') (now : Nat) :
    do_rename s (d : Int) sname (d : Int) tname now = some (0, rename_entry s d e tname now) := by
  have c1 : ¬ ((d : Int) = 0 ∨ (d : Int) ≠ (d : Int)) := by
    rintro (c | c)
    · omega
    · exact c rfl
  have c2 : ¬ ((d : Int) < 0) := by omega
  have g1 : ¬ (((e : Nat) : Int) < 0) := by omega
  obtain ⟨a, _, _, st⟩ := lookup_none hno s.stack
  have a' : ¬ ((get_dir_entry_block s d s.stack tname).entno ≥ 0) := by omega
  unfold do_rename rename_entry
  simp only [c1, c2, if_false, Int.toNat_ofNat, lookup_found he, g1, a', st]

theorem do_rename_errors_aux (s : fs_state) (d : Nat) (sname tname : List Nat) (now : Nat) :
    (0 < d → (∀ e, ¬ dir_entry s d sname e) →
      do_rename s (d : Int) sname (d : Int) tname now = some (-ENOENT, s)) ∧
    (0 < d → ∀ e1 e2, dir_entry s d sname e1 → dir_entry s d tname e2 →
      do_rename s (d : Int) sname (d : Int) tname now = some (-EEXIST, s)) := by
  have c1 : ¬ ((d : Int) = 0 ∨ (d : Int) ≠ (d : Int)) ∨ d = 0 := by
    by_cases h : d = 0
    · exact Or.inr h
    · left
      rintro (c | c)
      · omega
      · exact c rfl
  have c2 : ¬ ((d : Int) < 0) := by omega
  refine ⟨fun hd hno => ?_, fun hd e1 e2 h1 h2 => ?_⟩
  · rcases c1 with c1 | c1
    · obtain ⟨a, _, _, st⟩ := lookup_none hno s.stack
      unfold do_rename
      simp only [c1, c2, if_false, Int.toNat_ofNat, a, if_true, st]
    · omega
  · rcases c1 with c1 | c1
    · have g1 : ¬ (((e1 : Nat) : Int) < 0) := by omega
      have g2 : ((e2 : Nat) : Int) ≥ 0 := by omega
      unfold do_rename
      simp only [c1, c2, if_false, Int.toNat_ofNat, lookup_found h1, g1, lookup_found h2, g2,
        if_true]
    · omega

theorem do_rename_zero {s t : fs_state} {d : Nat} {sname tname : List Nat} {now : Nat}
    (h : do_rename s (d : Int) sname (d : Int) tname now = some (0, t)) :
    0 < d ∧ (∃ e, dir_entry s d sname e) ∧ ∀ e', ¬ dir_entry s d tname e' := by
  have hd : 0 < d := by
    by_contra hc
    have : d = 0 := by omega
    unfold do_rename at h
    rw [if_pos (Or.inl (by rw [this]; rfl))] at h
    have := congrArg (fun o => o.map Prod.fst) h
    simp only [Option.map_some'] at this
    exact absurd (Option.some.inj this) (by decide)
  refine ⟨hd, ?_, ?_⟩
  · rcases lookup_cases s d sname with he | hno
    · exact he
    · exfalso
      have := (do_rename_errors_aux s d sname tname now).1 hd hno
      rw [this] at h
      have := congrArg (fun o => o.map Prod.fst) h
      simp only [Option.map_some'] at this
      exact absurd (Option.some.inj this) (by decide)
  · intro e' he'
    rcases lookup_cases s d sname with ⟨e, he⟩ | hno
    · have := (do_rename_errors_aux s d sname tname now).2 hd e e' he he'
      rw [this] at h
      have := congrArg (fun o => o.map Prod.fst) h
      simp only [Option.map_some'] at this
      exact absurd (Option.some.inj this) (by decide)
    · have := (do_rename_errors_aux s d sname tname now).1 hd hno
      rw [this] at h
      have := congrArg (fun o => o.map Prod.fst) h
      simp only [Option.map_some'] at this
      exact absurd (Option.some.inj this) (by decide)

/-- What `rename_entry` leaves in a well-formed directory. -/
theorem rename_entry_spec {s : fs_state} {d : Nat} (hwf : wf s d) (h0 : has_block0 s d)
    (e : Nat) (name : List Nat) (now : Nat) :
    (rename_entry s d e name now).inodes d = { s.inodes d with mtime := now % 4294967296 } ∧
    (rename_entry s d e name now).disk.nblks = s.disk.nblks ∧
    dir_block (rename_entry s d e name now) d = strncpy_name (dir_block s d) e name ∧
    (rename_entry s d e name now).inode_map = s.inode_map ∧
    (rename_entry s d e name now).block_map = s.block_map := by
  obtain ⟨hb, hdb, hlt⟩ := dir_blkno_of_wf hwf h0
  unfold rename_entry
  generalize hx : (s.disk_write (dir_blkno s d) (strncpy_name (dir_block s d) e name)).set_inode d
    (fun ino => { ino with mtime := now % 4294967296 }) = x
  have x1 : x.inodes d = { s.inodes d with mtime := now % 4294967296 } := by
    rw [← hx]
    simp only [fs_state.set_inode, if_true, fs_state.disk_write]
  have x2 : x.disk.nblks = s.disk.nblks := by
    rw [← hx]
    simp only [fs_state.set_inode, fs_state.disk_write, blkdev_write_nblks]
  have x3 : x.disk.blocks ((s.inodes d).direct 0) = strncpy_name (dir_block s d) e name := by
    rw [← hx, hb]
    simp only [fs_state.set_inode, fs_state.disk_write, blkdev_write_blocks _ hlt, if_true]
  have x5 : x.data_base = s.data_base := by rw [← hx]; rfl
  have x6 : x.inode_map = s.inode_map := by rw [← hx]; rfl
  have x7 : x.block_map = s.block_map := by rw [← hx]; rfl
  clear hx
  have t1 : (flush_metadata (mark_inode x d)).inodes d =
      { s.inodes d with mtime := now % 4294967296 } := by
    rw [flush_mark_inodes, x1]
  refine ⟨t1, x2, ?_, x6, x7⟩
  have hbn : dir_blkno (flush_metadata (mark_inode x d)) d = dir_blkno s d := by
    unfold dir_blkno
    rw [t1]
  unfold dir_block
  rw [hbn, hb, Int.toNat_ofNat, flush_mark_blocks x d (by rw [x5]; exact hdb), x3]
  unfold dir_block
  rw [hb, Int.toNat_ofNat]


/-! ## `set_dir_entry` -/

theorem de_valid_congr {blk1 blk2 : Block} {e : Nat}
    (h : ∀ i, 32 * e ≤ i → i < 32 * e + 4 → blk2 i = blk1 i) : de_word blk2 e = de_word blk1 e := by
  simp only [de_word, get32]
  rw [h (4 * (8 * e)) (by omega) (by omega), h (4 * (8 * e) + 1) (by omega) (by omega),
    h (4 * (8 * e) + 2) (by omega) (by omega), h (4 * (8 * e) + 3) (by omega) (by omega)]

/-- Entries other than `e` read the same in two blocks that agree outside entry `e`. -/
theorem entry_named_of_same_outside {blk1 blk2 : Block} {e e' : Nat}
    (h : same_outside blk1 blk2 e) (hne : e' ≠ e) {n : List Nat}
    (hlen : n.length < FS_FILENAME_SIZE) :
    entry_named blk2 e' n ↔ entry_named blk1 e' n := by
  unfold entry_named
  have h1 : de_valid blk2 e' = de_valid blk1 e' := by
    simp only [de_valid]
    rw [de_valid_congr (fun i h1 h2 => h i (by omega))]
  rw [h1, name_is_congr hlen (fun j hj => by
    simp only [de_name, FS_FILENAME_SIZE] at *
    exact h _ (by omega))]

theorem entry_block_word (blk : Block) (e d inum : Nat) (name : List Nat) :
    de_word (entry_block blk e d inum name) e = 4 * (inum % 1073741824) + 2 * (d % 2) + 1 := by
  simp only [entry_block, set_de_inode, set_de_isDir, set_de_valid, de_word_set32,
    de_word_strncpy_name]
  have := de_word_lt blk e
  omega

theorem entry_block_valid (blk : Block) (e d inum : Nat) (name : List Nat) :
    de_valid (entry_block blk e d inum name) e = 1 := by
  simp only [de_valid, entry_block_word]
  omega

theorem entry_block_inode (blk : Block) (e d inum : Nat) (name : List Nat) :
    de_inode (entry_block blk e d inum name) e = inum % 1073741824 := by
  simp only [de_inode, entry_block_word]
  omega

theorem entry_block_isDir (blk : Block) (e d inum : Nat) (name : List Nat) :
    de_isDir (entry_block blk e d inum name) e = d % 2 := by
  simp only [de_isDir, entry_block_word]
  omega

theorem entry_block_outside (blk : Block) (e d inum : Nat) (name : List Nat) :
    same_outside blk (entry_block blk e d inum name) e := by
  intro i hi
  simp only [entry_block, set_de_inode, set_de_isDir, set_de_valid]
  rw [set32_outside _ _ _ _ (by omega), strncpy_name_outside _ _ _ _ (by omega),
    set32_outside _ _ _ _ (by omega), set32_outside _ _ _ _ (by omega)]

theorem entry_block_last (blk : Block) (e d inum : Nat) (name : List Nat) :
    de_name (entry_block blk e d inum name) e (FS_FILENAME_SIZE - 1) =
      de_name blk e (FS_FILENAME_SIZE - 1) := by
  simp only [entry_block, set_de_inode, set_de_isDir, set_de_valid, de_name, FS_FILENAME_SIZE]
  rw [set32_outside _ _ _ _ (by omega), strncpy_name_outside _ _ _ _ (by omega),
    set32_outside _ _ _ _ (by omega), set32_outside _ _ _ _ (by omega)]

theorem entry_block_name {blk : Block} {e : Nat} {name : List Nat} (d inum : Nat)
    (hlen : name.length < FS_FILENAME_SIZE) (h : name_fits blk e name) :
    name_is (entry_block blk e d inum name) e name := by
  unfold entry_block set_de_inode
  rw [name_is_congr hlen (fun j hj => de_name_set32 _ e e _ j hj)]
  apply name_is_strncpy_name
  unfold name_fits at h ⊢
  rcases h with h | ⟨h1, h2⟩
  · exact Or.inl h
  · refine Or.inr ⟨h1, ?_⟩
    rw [← h2]
    simp only [set_de_isDir, set_de_valid]
    rw [de_name_set32 _ _ _ _ _ (by decide), de_name_set32 _ _ _ _ _ (by decide)]

theorem set_dir_entry_block (s : fs_state) (blk : Block) (e inum : Nat) (name : List Nat) :
    (set_dir_entry s blk e inum name).1 =
      entry_block blk e (if S_ISDIR (s.inodes inum).mode then 1 else 0) inum name := rfl

theorem set_dir_entry_state (s : fs_state) (blk : Block) (e inum : Nat) (name : List Nat) :
    (set_dir_entry s blk e inum name).2 =
      mark_inode (s.set_inode inum
        (fun ino => { ino with nlink := (ino.nlink + 1) % 4294967296 })) inum := rfl


/-! ## `do_mkentry` -/

theorem free_inode_spec {s : fs_state} (h : free_inode s ≠ 0) :
    0 < free_inode s ∧ free_inode s < s.n_inodes ∧ s.inode_map (free_inode s) = false := by
  unfold free_inode at h ⊢
  rcases first_clear_spec s.inode_map (s.n_inodes - 1) 1 with ⟨h0, _⟩ | ⟨h1, h2, h3⟩
  · exact absurd h0 h
  · exact ⟨by omega, by omega, h3⟩

theorem free_inode_exists {s : fs_state}
    (h : ∃ j, 0 < j ∧ j < s.n_inodes ∧ s.inode_map j = false) : free_inode s ≠ 0 := by
  obtain ⟨j, h1, h2, h3⟩ := h
  intro h0
  unfold free_inode at h0
  rcases first_clear_spec s.inode_map (s.n_inodes - 1) 1 with ⟨_, hall⟩ | ⟨h1, _, _⟩
  · have := hall j (by omega) (by omega)
    rw [h3] at this
    exact absurd this (by decide)
  · omega

/-- The free slot that `get_dir_free_entry_block` finds in a present block 0. -/
theorem free_lookup_found {s : fs_state} {dir e : Nat} (hwf : wf s dir) (h0 : has_block0 s dir)
    (hfree : first_free (dir_block s dir) e) (blk : Block) (blkno : Int) :
    get_dir_free_entry_block s dir blk blkno =
      { entno := (e : Int), block := dir_block s dir, blkno := dir_blkno s dir, state := s } := by
  obtain ⟨hb, _, _⟩ := dir_blkno_of_wf hwf h0
  have hne : ptr s dir (lslot 0) ≠ 0 := by
    show (s.inodes dir).direct 0 ≠ 0
    intro e0
    have := h0.1
    rw [hb, e0] at this
    exact absurd this (by decide)
  have hr : get_file_blkno s dir 0 1 = (dir_blkno s dir, s) := by
    rw [get_file_blkno_present hwf (by decide) hne 1, hb]
    rfl
  unfold get_dir_free_entry_block
  have hpos : ¬ (dir_blkno s dir ≤ 0) := not_le.mpr h0.1
  have hge : ¬ (((e : Nat) : Int) < 0) := by omega
  simp only [get_file_blk_block0 h0 blk 1 hr, hpos, if_false, get_free_entry_in_block_found hfree,
    hge]

theorem init_new_inode_found {s : fs_state} (h : free_inode s ≠ 0)
    (hn : s.n_inodes ≤ 1073741824) (mode ftype now uid gid : Nat) :
    (init_new_inode s mode ftype now uid gid).1 = (free_inode s : Int) := by
  have h1 := free_inode_spec h
  unfold init_new_inode get_free_inode
  simp only [show first_clear s.inode_map (s.n_inodes - 1) 1 = free_inode s from rfl, h, if_false]
  exact int_of_u32_lt (by omega)

/-- The result and the state of `do_mkentry` when the name is new, entry `e` is the first
free one and an inode is to be had. -/
theorem do_mkentry_found {s : fs_state} {dir e : Nat} {leaf : List Nat}
    (hdir : S_ISDIR (s.inodes dir).mode = true) (hwf : wf s dir) (h0 : has_block0 s dir)
    (hno : no_entry (dir_block s dir) leaf) (hfree : first_free (dir_block s dir) e)
    (mode ftype now uid gid : Nat)
    (hi : ¬ (init_new_inode s mode ftype now uid gid).1 < 0) :
    do_mkentry s dir leaf mode ftype now uid gid =
      ((init_new_inode s mode ftype now uid gid).1,
        add_entry s dir e leaf mode ftype now uid gid) := by
  unfold do_mkentry add_entry
  have hlt : ¬ (-ENOENT ≥ (0 : Int)) := by decide
  have hge : ¬ (((e : Nat) : Int) < 0) := by omega
  simp only [hdir, not_true_eq_false, if_false, lookup_absent hdir h0 hno, hlt,
    free_lookup_found hwf h0 hfree, hge, hi, Int.toNat_ofNat]

/-- A name that is found is rejected and nothing changes. -/
theorem do_mkentry_exists {s : fs_state} {dir e : Nat} {leaf : List Nat}
    (h : dir_entry s dir leaf e) (mode ftype now uid gid : Nat) :
    do_mkentry s dir leaf mode ftype now uid gid = (-EEXIST, s) := by
  unfold do_mkentry
  have hge : ((e : Nat) : Int) ≥ 0 := Int.natCast_nonneg e
  simp only [h.1, not_true_eq_false, if_false, lookup_found h, hge, if_true]

theorem init_new_inode_eq {s : fs_state} (h : free_inode s ≠ 0)
    (hn : s.n_inodes ≤ 1073741824) (mode ftype now uid gid : Nat) :
    init_new_inode s mode ftype now uid gid =
      ((free_inode s : Int), mark_inode ((get_free_inode s).2.set_inode (free_inode s) (fun ino =>
        { ino with
          mode := mode % 4294967296 - file_type mode * 4096 + file_type ftype * 4096
          ctime := now % 4294967296
          mtime := now % 4294967296
          size := 0
          nlink := 0
          uid := uid % 65536
          gid := gid % 65536 })) (free_inode s)) := by
  have h1 := free_inode_spec h
  have h2 : int_of_u32 (free_inode s) = (free_inode s : Int) := int_of_u32_lt (by omega)
  have h3 : (get_free_inode s).1 = free_inode s := by
    unfold get_free_inode
    simp only [show first_clear s.inode_map (s.n_inodes - 1) 1 = free_inode s from rfl, h,
      if_false]
  unfold init_new_inode
  simp only [h3, h, if_false, h2]

/-- What `add_entry` leaves in a well-formed directory. -/
theorem add_entry_spec {s : fs_state} {dir : Nat} (hwf : wf s dir) (h0 : has_block0 s dir)
    (h : free_inode s ≠ 0) (hn : s.n_inodes ≤ 1073741824) (hne : dir ≠ free_inode s)
    (e : Nat) (leaf : List Nat) (mode ftype now uid gid : Nat) :
    (add_entry s dir e leaf mode ftype now uid gid).inodes dir =
      { s.inodes dir with size := ((s.inodes dir).size + 32) % 4294967296 } ∧
    (add_entry s dir e leaf mode ftype now uid gid).inodes (free_inode s) =
      new_inode mode ftype now uid gid ∧
    (add_entry s dir e leaf mode ftype now uid gid).disk.nblks = s.disk.nblks ∧
    dir_block (add_entry s dir e leaf mode ftype now uid gid) dir =
      entry_block (dir_block s dir) e
        (if S_ISDIR (new_inode mode ftype now uid gid).mode then 1 else 0) (free_inode s) leaf ∧
    (∀ j, (add_entry s dir e leaf mode ftype now uid gid).inode_map j =
      if j = free_inode s then true else s.inode_map j) ∧
    (add_entry s dir e leaf mode ftype now uid gid).block_map = s.block_map := by
  obtain ⟨hb, hdb, hlt⟩ := dir_blkno_of_wf hwf h0
  have h3 : (get_free_inode s).2 = { s with
      inode_map := fun j => if j = free_inode s then true else s.inode_map j
      inodes := fun j => if j = free_inode s then zero_inode else s.inodes j
      dirty_inodes := fun j =>
        if j = free_inode s / INODES_PER_BLK then true else s.dirty_inodes j
      dirty_maps := fun j =>
        if j = free_inode s / BITS_PER_BLK then true else s.dirty_maps j } := by
    unfold get_free_inode
    simp only [show first_clear s.inode_map (s.n_inodes - 1) 1 = free_inode s from rfl, h,
      if_false]
  unfold add_entry
  rw [init_new_inode_eq h hn]
  simp only [Int.toNat_ofNat, set_dir_entry_block, set_dir_entry_state]
  generalize hx : mark_inode ((get_free_inode s).2.set_inode (free_inode s) (fun ino =>
        { ino with
          mode := mode % 4294967296 - file_type mode * 4096 + file_type ftype * 4096
          ctime := now % 4294967296
          mtime := now % 4294967296
          size := 0
          nlink := 0
          uid := uid % 65536
          gid := gid % 65536 })) (free_inode s) = x
  have x1 : x.inodes dir = s.inodes dir := by
    rw [← hx, h3]
    simp only [mark_inode, fs_state.set_inode, hne, if_false]
  have x2 : x.inodes (free_inode s) =
      { new_inode mode ftype now uid gid with nlink := 0 } := by
    rw [← hx, h3]
    simp only [mark_inode, fs_state.set_inode, if_true, new_inode, zero_inode]
  have x3 : x.disk = s.disk := by rw [← hx, h3]; rfl
  have x4 : ∀ j, x.inode_map j = if j = free_inode s then true else s.inode_map j := by
    intro j; rw [← hx, h3]; rfl
  have x5 : x.block_map = s.block_map := by rw [← hx, h3]; rfl
  have x6 : x.data_base = s.data_base := by rw [← hx, h3]; rfl
  clear hx h3
  have xm : (x.inodes (free_inode s)).mode = (new_inode mode ftype now uid gid).mode := by
    rw [x2]
  rw [xm]
  generalize hblk : entry_block (dir_block s dir) e
    (if S_ISDIR (new_inode mode ftype now uid gid).mode then 1 else 0) (free_inode s) leaf = nb
  generalize hy : ((mark_inode (x.set_inode (free_inode s)
      (fun ino => { ino with nlink := (ino.nlink + 1) % 4294967296 }))
      (free_inode s)).disk_write (dir_blkno s dir) nb).set_inode dir
      (fun ino => { ino with size := (ino.size + 32) % 4294967296 }) = y
  have y1 : y.inodes dir =
      { s.inodes dir with size := ((s.inodes dir).size + 32) % 4294967296 } := by
    rw [← hy]
    simp only [fs_state.set_inode, fs_state.disk_write, mark_inode, if_true, hne, if_false, x1]
  have y2 : y.inodes (free_inode s) = new_inode mode ftype now uid gid := by
    rw [← hy]
    simp only [fs_state.set_inode, fs_state.disk_write, mark_inode, if_true, Ne.symm hne,
      if_false, x2]
    rfl
  have y3 : y.disk.nblks = s.disk.nblks := by
    rw [← hy]
    simp only [fs_state.set_inode, fs_state.disk_write, mark_inode, blkdev_write_nblks, x3]
  have y4 : y.disk.blocks ((s.inodes dir).direct 0) = nb := by
    rw [← hy, hb]
    simp only [fs_state.set_inode, fs_state.disk_write, mark_inode, x3,
      blkdev_write_blocks _ hlt, if_true]
  have y5 : y.data_base = s.data_base := by rw [← hy, ← x6]; rfl
  have y6 : ∀ j, y.inode_map j = if j = free_inode s then true else s.inode_map j := by
    intro j; rw [← hy, ← x4]; rfl
  have y7 : y.block_map = s.block_map := by rw [← hy, ← x5]; rfl
  clear hy
  have t1 : (flush_metadata (mark_inode y dir)).inodes dir =
      { s.inodes dir with size := ((s.inodes dir).size + 32) % 4294967296 } := by
    rw [flush_mark_inodes, y1]
  refine ⟨t1, ?_, y3, ?_, y6, y7⟩
  · rw [flush_mark_inodes, y2]
  · have hbn : dir_blkno (flush_metadata (mark_inode y dir)) dir = dir_blkno s dir := by
      unfold dir_blkno
      rw [t1]
    unfold dir_block
    rw [hbn, hb, Int.toNat_ofNat, flush_mark_blocks y dir (by rw [y5]; exact hdb), y4]

theorem empty_root_vol_wf : wf empty_root_vol 1 :=
  wf_of_one_block (b := 7) (le_refl _) (by decide) (by decide) (fun _ => rfl) rfl rfl
    (Or.inr (by decide))


/-! ## Paths -/

theorem split_from_ne_nil : ∀ (l cur : List Nat), (cur ≠ [] ∨ ∃ c, c ∈ l ∧ c ≠ 47) →
    split_from l cur ≠ [] := by
  intro l
  induction l with
  | nil =>
    intro cur h
    rcases h with h | ⟨c, hc, _⟩
    · simp [split_from, h]
    · exact absurd hc (List.not_mem_nil c)
  | cons c cs ih =>
    intro cur h
    unfold split_from
    by_cases h47 : c = 47
    · rw [if_pos h47]
      by_cases hcur : cur = []
      · rw [if_pos hcur]
        apply ih
        right
        rcases h with h | ⟨c', hc', hne⟩
        · exact absurd hcur h
        · rcases List.mem_cons.mp hc' with e | e
          · exact absurd (e.trans h47) hne
          · exact ⟨c', e, hne⟩
      · rw [if_neg hcur]
        exact List.cons_ne_nil _ _
    · rw [if_neg h47]
      apply ih
      left
      simp

/-- A path that is not the empty string has at least one token. -/
theorem path_tokens_ne_nil {p : List Nat} (hp : p ≠ []) : path_tokens p ≠ [] := by
  unfold path_tokens
  apply split_from_ne_nil
  right
  by_cases h : p.getLast? = some 47
  · rw [if_pos h]
    exact ⟨46, by simp, by decide⟩
  · rw [if_neg h]
    refine ⟨p.getLast hp, List.getLast_mem hp, ?_⟩
    intro hc
    apply h
    rw [List.getLast?_eq_getLast _ hp, hc]

theorem split_from_last_dot : ∀ (l cur : List Nat),
    (split_from (l ++ [47, 46]) cur).getLastD [] = [46] := by
  intro l
  induction l with
  | nil =>
    intro cur
    by_cases hcur : cur = []
    · simp [split_from, hcur]
    · simp [split_from, hcur]
  | cons c cs ih =>
    intro cur
    rw [List.cons_append]
    unfold split_from
    by_cases h47 : c = 47
    · rw [if_pos h47]
      by_cases hcur : cur = []
      · rw [if_pos hcur]
        exact ih []
      · rw [if_neg hcur]
        have hne : split_from (cs ++ [47, 46]) [] ≠ [] :=
          split_from_ne_nil _ _ (Or.inr ⟨46, by simp, by decide⟩)
        have := ih []
        cases hx : split_from (cs ++ [47, 46]) [] with
        | nil => exact absurd hx hne
        | cons a as =>
          rw [hx] at this
          simpa [List.getLastD] using this
    · rw [if_neg h47]
      exact ih _

/-- The last token of a path that ends with `'/'` is the appended `"."`. -/
theorem path_tokens_slash {p : List Nat} (h : p.getLast? = some 47) :
    (path_tokens p).getLastD [] = [46] := by
  unfold path_tokens
  rw [if_pos h]
  have hp : p ≠ [] := by
    intro e
    rw [e] at h
    exact absurd h (by simp)
  have hl : p = p.dropLast ++ [47] := by
    have h1 := List.dropLast_append_getLast hp
    rw [List.getLast?_eq_getLast _ hp] at h
    rw [Option.some.inj h] at h1
    exact h1.symm
  rw [hl, List.append_assoc]
  exact split_from_last_dot _ _

/-- The value of a lookup: the directory itself for `"."` in a build with `FS_VERSION = 0`,
a negative number, or the inumber in a valid entry of block 0. -/
theorem get_dir_entry_inode_cases (v : Nat) (s : fs_state) (dir : Nat) (name : List Nat) :
    (v = 0 ∧ name = [46] ∧ get_dir_entry_inode v s dir name = (dir : Int)) ∨
    (¬ (v = 0 ∧ name = [46]) ∧ get_dir_entry_inode v s dir name < 0) ∨
    (¬ (v = 0 ∧ name = [46]) ∧ ∃ e, dir_entry s dir name e ∧
      get_dir_entry_inode v s dir name = (de_inode (dir_block s dir) e : Int)) := by
  by_cases hv : v = 0 ∧ name = [46]
  · left
    refine ⟨hv.1, hv.2, ?_⟩
    unfold get_dir_entry_inode
    rw [if_pos hv]
  · right
    rcases lookup_cases s dir name with ⟨e, he⟩ | hno
    · right
      exact ⟨hv, e, he, get_dir_entry_inode_found hv he⟩
    · left
      exact ⟨hv, get_dir_entry_inode_none hv hno⟩

/-- With invariant 5 a lookup in a directory other than inode 0 never answers 0. -/
theorem lookup_ne_zero {s : fs_state} (hnz : no_zero_entry s) (v : Nat) {dir : Nat}
    (name : List Nat) (hd : 0 < dir ∨ ¬ (v = 0 ∧ name = [46])) :
    get_dir_entry_inode v s dir name ≠ 0 := by
  rcases get_dir_entry_inode_cases v s dir name with ⟨h1, h2, h3⟩ | ⟨_, h⟩ | ⟨_, e, he, h⟩
  · rcases hd with hd | hd
    · rw [h3]
      omega
    · exact absurd ⟨h1, h2⟩ hd
  · omega
  · rw [h]
    have := hnz dir e he.1 he.2.1 he.2.2.1 he.2.2.2.1.1
    omega

/-- One more token at the end of a walk: an error of the walk stays, and from an inode
reached the last token is looked up. -/
theorem walk_path_snoc {s : fs_state} (hnz : no_zero_entry s) (v : Nat) (t : List Nat) :
    ∀ (pre : List (List Nat)) (i : Nat),
      (walk_path v s pre i < 0 → walk_path v s (pre ++ [t]) i = walk_path v s pre i) ∧
      (0 < walk_path v s pre i → walk_path v s (pre ++ [t]) i =
        get_dir_entry_inode v s (walk_path v s pre i).toNat t) := by
  intro pre
  induction pre with
  | nil =>
    intro i
    simp only [walk_path, List.nil_append, Int.toNat_ofNat]
    refine ⟨fun h => by omega, fun h => ?_⟩
    have hne := lookup_ne_zero hnz v t (Or.inl (by omega : 0 < i))
    by_cases h1 : get_dir_entry_inode v s i t > 0
    · rw [if_pos h1]
      omega
    · rw [if_neg h1]
      have h2 : get_dir_entry_inode v s i t < 0 := by omega
      rw [if_pos h2]
  | cons a pre ih =>
    intro i
    simp only [walk_path, List.cons_append]
    by_cases h1 : get_dir_entry_inode v s i a > 0
    · simp only [h1, if_true]
      exact ih _
    · simp only [h1, if_false]
      by_cases h2 : get_dir_entry_inode v s i a < 0
      · simp only [h2, if_true]
        exact ⟨fun _ => trivial, fun h => by omega⟩
      · simp only [h2, if_false]
        refine ⟨fun h => by omega, fun h => ?_⟩
        have hne := lookup_ne_zero hnz v a (Or.inl (by omega : 0 < i))
        omega

theorem get_inode_of_path_dir_fst (v : Nat) (s : fs_state) (p leaf : List Nat) :
    (get_inode_of_path_dir v s p leaf).1 =
      walk_path v s ((path_tokens p).take ((path_tokens p).length - 1)) s.root_inode := rfl

theorem get_inode_of_path_dir_snd (v : Nat) (s : fs_state) (p leaf : List Nat)
    (h : 0 < (get_inode_of_path_dir v s p leaf).1) :
    (get_inode_of_path_dir v s p leaf).2 = (path_tokens p).getLastD [] := by
  rw [get_inode_of_path_dir_fst] at h
  unfold get_inode_of_path_dir
  simp only
  rw [if_pos h]

theorem take_append_getLastD {α : Type} (l : List α) (d : α) (h : l ≠ []) :
    l = l.take (l.length - 1) ++ [l.getLastD d] := by
  have h1 := List.dropLast_append_getLast h
  rw [List.dropLast_eq_take] at h1
  have h2 : l.getLastD d = l.getLast h := by
    rw [List.getLastD_eq_getLast?, List.getLast?_eq_getLast _ h]
    rfl
  rw [h2]
  exact h1.symm

/-! ## The walk of the path resolver and the reference walk -/

theorem find_entry_some {blk : Block} {name : List Nat} {e : Nat} (h : first_entry blk name e) :
    find_entry blk name = some e := by
  unfold find_entry
  rw [List.find?_range_eq_some]
  refine ⟨decide_eq_true h.2.1, List.mem_range.mpr h.1, fun j hj => ?_⟩
  simp only [Bool.not_eq_true', decide_eq_false_iff_not]
  exact h.2.2 j hj

theorem find_entry_none {blk : Block} {name : List Nat} (h : no_entry blk name) :
    find_entry blk name = none := by
  unfold find_entry
  rw [List.find?_range_eq_none]
  intro i hi
  simp only [Bool.not_eq_true', decide_eq_false_iff_not]
  exact h i hi

/-- A directory without block 0 has no entry. -/
theorem lookup_no_block {s : fs_state} {dir : Nat} (h1 : S_ISDIR (s.inodes dir).mode = true)
    (h2 : dir_blkno s dir = 0) (blk : Block) (name : List Nat) :
    get_dir_entry_block s dir blk name =
      { entno := -ENOENT, block := zeros, blkno := 0, state := s } := by
  have hb : get_file_blk s dir 0 blk 0 = (0, blk, s) := by
    unfold get_file_blk
    rw [get_file_blkno_zero_noalloc]
    have : int_of_u32 ((s.inodes dir).direct 0) = 0 := h2
    simp only [this, gt_iff_lt, lt_self_iff_false, if_false]
  unfold get_dir_entry_block
  simp only [h1, not_true_eq_false, if_false, hb, le_refl, if_true]

theorem get_dir_entry_inode_notdir {v : Nat} {s : fs_state} {dir : Nat} {name : List Nat}
    (hv : ¬ (v = 0 ∧ name = [46])) (h : ¬ S_ISDIR (s.inodes dir).mode = true) :
    get_dir_entry_inode v s dir name = -ENOTDIR := by
  unfold get_dir_entry_inode
  have hlt : (-ENOTDIR : Int) < 0 := by decide
  simp only [hv, if_false, lookup_notdir h, hlt, if_true]

theorem get_dir_entry_inode_no_block {v : Nat} {s : fs_state} {dir : Nat} {name : List Nat}
    (hv : ¬ (v = 0 ∧ name = [46])) (h1 : S_ISDIR (s.inodes dir).mode = true)
    (h2 : dir_blkno s dir = 0) : get_dir_entry_inode v s dir name = -ENOENT := by
  unfold get_dir_entry_inode
  have hlt : (-ENOENT : Int) < 0 := by decide
  simp only [hv, if_false, lookup_no_block h1 h2, hlt, if_true]

/-- The walk of the code is the reference walk when no token is answered by the
`FS_VERSION = 0` shortcut. -/
theorem walk_path_reference {s : fs_state} (hnz : no_zero_entry s) (hblk : dir_blocks_ok s)
    (v : Nat) : ∀ (toks : List (List Nat)) (i : Nat),
      (v = 0 → ∀ t, t ∈ toks → t ≠ [46]) →
      walk_path v s toks i = reference_walk s toks i := by
  intro toks
  induction toks with
  | nil => intro i _; rfl
  | cons tok toks ih =>
    intro i hv
    have hv1 : ¬ (v = 0 ∧ tok = [46]) := fun hc => hv hc.1 tok (List.mem_cons_self _ _) hc.2
    have hv2 : v = 0 → ∀ t, t ∈ toks → t ≠ [46] :=
      fun h0 t ht => hv h0 t (List.mem_cons_of_mem _ ht)
    have e1 : (-ENOTDIR : Int) < 0 := by decide
    have e2 : ¬ ((-ENOTDIR : Int) > 0) := by decide
    have e3 : (-ENOENT : Int) < 0 := by decide
    have e4 : ¬ ((-ENOENT : Int) > 0) := by decide
    unfold walk_path reference_walk
    by_cases hd : S_ISDIR (s.inodes i).mode = true
    · by_cases h0 : has_block0 s i
      · rcases get_dir_entry_in_block_cases (dir_block s i) tok with ⟨_, hno⟩ | ⟨e, _, he⟩
        · simp only [get_dir_entry_inode_absent hv1 hd h0 hno, e3, e4, if_true, if_false, hd,
            not_true_eq_false, h0, find_entry_none hno]
        · have hne := hnz i e hd h0 he.1 he.2.1.1
          have hpos : ((de_inode (dir_block s i) e : Nat) : Int) > 0 := by omega
          simp only [get_dir_entry_inode_found hv1 ⟨hd, h0, he⟩, hpos, if_true, hd,
            not_true_eq_false, if_false, h0, find_entry_some he, Int.toNat_ofNat]
          exact ih _ hv2
      · have hz : dir_blkno s i = 0 := by
          rcases hblk i hd with h | h
          · exact h
          · exact absurd h h0
        simp only [get_dir_entry_inode_no_block hv1 hd hz, e3, e4, if_true, if_false, hd,
          not_true_eq_false, h0]
    · rw [if_pos hd]
      simp only [get_dir_entry_inode_notdir hv1 hd, e1, e2, if_true, if_false]

/-! ## Example volumes and the invariants -/

theorem tree_vol_inodes (i : Nat) (h1 : i ≠ 1) (h3 : i ≠ 3) :
    S_ISDIR (tree_vol.inodes i).mode = false := by
  by_cases h2 : i = 2
  · rw [h2]; decide
  · have : tree_vol.inodes i = fresh_inode := by
      simp [tree_vol, h1, h2, h3]
    rw [this]
    decide

theorem tree_vol_no_zero_entry : no_zero_entry tree_vol := by
  intro i e hd _ he hv
  by_cases h1 : i = 1
  · rw [h1] at hv ⊢
    have : ∀ e, e < DIRENTS_PER_BLK → de_valid (dir_block tree_vol 1) e = 1 →
        de_inode (dir_block tree_vol 1) e ≠ 0 := by decide
    exact this e he hv
  · by_cases h3 : i = 3
    · rw [h3] at hv ⊢
      have : ∀ e, e < DIRENTS_PER_BLK → de_valid (dir_block tree_vol 3) e = 1 →
          de_inode (dir_block tree_vol 3) e ≠ 0 := by decide
      exact this e he hv
    · rw [tree_vol_inodes i h1 h3] at hd
      exact absurd hd (by decide)

theorem tree_vol_dir_blocks_ok : dir_blocks_ok tree_vol := by
  intro i hd
  by_cases h1 : i = 1
  · rw [h1]; right; decide
  · by_cases h3 : i = 3
    · rw [h3]; right; decide
    · rw [tree_vol_inodes i h1 h3] at hd
      exact absurd hd (by decide)

/-! ## `get_file_blkno` past the double-indirect range -/

/-- Every index from `6 + 256 + 256 * 256 + 1` on is answered with 0 and no change. -/
theorem get_file_blkno_beyond (s : fs_state) (i : Nat) {n : Nat} (hn : 65798 < n)
    (alloc : Nat) : get_file_blkno s i n alloc = (0, s) := by
  unfold get_file_blkno
  have c1 : ¬ n < N_DIRECT := by simp only [N_DIRECT]; omega
  have c2 : ¬ n - N_DIRECT < PTRS_PER_BLK := by simp only [N_DIRECT, PTRS_PER_BLK]; omega
  have c3 : n - N_DIRECT - PTRS_PER_BLK > PTRS_PER_BLK * PTRS_PER_BLK := by
    simp only [N_DIRECT, PTRS_PER_BLK]; omega
  simp only [c1, c2, c3, if_false, if_true]

/-- The listed device states are those that `get_file_blkno_indir2` passes through: when a
second-level block is created, the function goes on from the last of them. -/
theorem get_file_blkno_indir2_of_writes (s : fs_state) (inum m k alloc : Nat)
    (h : get_file_blkno_indir2_writes s inum m alloc ≠ []) :
    get_file_blkno_indir2 s inum m k alloc =
      get_file_blkno_indir2_leaf ((get_file_blkno_indir2_writes s inum m alloc).getLastD s)
        (set32 (s.disk.read (int_of_u32 (s.inodes inum).indir_2) s.stack).2 m
          ((get_free_blk s).1 % 4294967296)) m k alloc := by
  unfold get_file_blkno_indir2_writes at h ⊢
  unfold get_file_blkno_indir2
  simp only at h ⊢
  split_ifs at h ⊢ with c1 c2 c3
  · exact absurd rfl h
  · exact absurd rfl h
  · rfl
  · exact absurd rfl h



/-! ## A full directory block -/

/-- A block pointer that is set is returned as it is, whatever `alloc`. -/
theorem get_file_blkno_zero_present {s : fs_state} {i : Nat} (h : (s.inodes i).direct 0 ≠ 0)
    (alloc : Nat) : get_file_blkno s i 0 alloc = (int_of_u32 ((s.inodes i).direct 0), s) := by
  unfold get_file_blkno
  have c : (0 : Nat) < N_DIRECT := by decide
  simp only [c, if_true, h, if_false]

theorem direct0_of_has_block0 {s : fs_state} {dir : Nat} (h0 : has_block0 s dir) :
    (s.inodes dir).direct 0 ≠ 0 := by
  intro e
  have := h0.1
  simp only [dir_blkno, e, int_of_u32_zero] at this
  omega

theorem get_free_entry_in_block_full {blk : Block}
    (h : ∀ e, e < DIRENTS_PER_BLK → de_valid blk e = 1) :
    get_free_entry_in_block blk = -ENOSPC := by
  unfold get_free_entry_in_block
  rcases get_free_entry_in_block_from_spec blk DIRENTS_PER_BLK 0 with
    ⟨h1, _⟩ | ⟨e, _, _, h3, h4, _⟩
  · exact h1
  · have := h e (by omega)
    omega

/-- No slot is found in a present block 0 that is full; nothing changes. -/
theorem free_lookup_full {s : fs_state} {dir : Nat} (h0 : has_block0 s dir)
    (hfull : ∀ e, e < DIRENTS_PER_BLK → de_valid (dir_block s dir) e = 1) (blk : Block)
    (blkno : Int) :
    (get_dir_free_entry_block s dir blk blkno).entno = -ENOSPC ∧
    (get_dir_free_entry_block s dir blk blkno).state = s := by
  have hr : get_file_blkno s dir 0 1 = (dir_blkno s dir, s) :=
    get_file_blkno_zero_present (direct0_of_has_block0 h0) 1
  unfold get_dir_free_entry_block
  have hpos : ¬ (dir_blkno s dir ≤ 0) := not_le.mpr h0.1
  simp only [get_file_blk_block0 h0 blk 1 hr, hpos, if_false, get_free_entry_in_block_full hfull]
  exact ⟨trivial, trivial⟩

/-! ## The number of valid entries -/

theorem valid_count_pos {s : fs_state} {d e : Nat} (h0 : has_block0 s d)
    (he : e < DIRENTS_PER_BLK) (hv : de_valid (dir_block s d) e = 1) : 0 < valid_count s d := by
  unfold valid_count count_valid
  rw [if_pos h0]
  apply List.countP_pos_iff.mpr
  exact ⟨e, List.mem_range.mpr he, by simp [hv]⟩

/-- The directory that an entry found names itself is not empty when the size invariant
holds. -/
theorem not_empty_of_valid {s : fs_state} {p : Nat} (hsz : size_ok s)
    (hmap : s.inode_map p = true) (hd : S_ISDIR (s.inodes p).mode = true)
    (hc : 0 < valid_count s p) : is_dir_empty s p ≠ 1 := by
  have h := hsz p hmap hd
  unfold is_dir_empty get_dir_entry_count
  simp only [hd, not_true_eq_false, if_false]
  have h1 : ¬ ((((s.inodes p).size / 32 : Nat) : Int) < 0) := by omega
  have h2 : ¬ ((((s.inodes p).size / 32 : Nat) : Int) = 0) := by omega
  simp only [h1, h2, if_false]
  decide

/-! ## `do_rmdir`: the exits that change nothing -/

/-- The call returns a negative error and leaves the state as it is unless the entry found
names a directory of size below 32. -/
theorem do_rmdir_negative {s : fs_state} {dir : Nat} {leaf : List Nat} (now : Nat)
    (h : ∀ e, dir_entry s dir leaf e →
      S_ISDIR (s.inodes (de_inode (dir_block s dir) e)).mode = true →
      32 ≤ (s.inodes (de_inode (dir_block s dir) e)).size) :
    ∃ err : Int, err < 0 ∧ do_rmdir s dir leaf now = (err, s) := by
  by_cases hdir : S_ISDIR (s.inodes dir).mode = true
  · rcases lookup_cases s dir leaf with ⟨e, he⟩ | hno
    · by_cases hd : S_ISDIR (s.inodes (de_inode (dir_block s dir) e)).mode = true
      · refine ⟨-ENOTEMPTY, by decide, ?_⟩
        rw [do_rmdir_found he hd, if_pos (h e he hd)]
      · refine ⟨-ENOTDIR, by decide, ?_⟩
        unfold do_rmdir
        have hge : ¬ (((e : Nat) : Int) < 0) := by omega
        simp only [hdir, not_true_eq_false, if_false, lookup_found he, hge, Int.toNat_ofNat, hd,
          not_false_eq_true, if_true, Bool.false_eq_true]
    · refine ⟨-ENOENT, by decide, ?_⟩
      obtain ⟨a, _, _, d⟩ := lookup_none hno s.stack
      unfold do_rmdir
      simp only [hdir, not_true_eq_false, if_false, a, if_true, d]
  · refine ⟨-ENOTDIR, by decide, ?_⟩
    unfold do_rmdir
    rw [if_pos hdir]

theorem size_ge_of_valid {s : fs_state} {p : Nat} (hsz : size_ok s)
    (hmap : s.inode_map p = true) (hd : S_ISDIR (s.inodes p).mode = true)
    (hc : 0 < valid_count s p) : 32 ≤ (s.inodes p).size := by
  have h := hsz p hmap hd
  omega

theorem tree_vol_size_ok : size_ok tree_vol := by
  intro d hmap hd
  by_cases h1 : d = 1
  · rw [h1]; decide
  · by_cases h3 : d = 3
    · rw [h3]; decide
    · rw [tree_vol_inodes d h1 h3] at hd
      exact absurd hd (by decide)

theorem dotdot_vol_size_ok : size_ok dotdot_vol := by
  intro d hmap hd
  by_cases h1 : d = 1
  · rw [h1]; decide
  · by_cases h2 : d = 2
    · rw [h2]; decide
    · have : dotdot_vol.inodes d = fresh_inode := by
        simp [dotdot_vol, h1, h2]
      rw [this] at hd
      exact absurd hd (by decide)

/-! ## What an allocation leaves alone -/

theorem disk_write_blocks_ne (s : fs_state) (x : Int) (blk : Block) {c : Nat}
    (h : (c : Int) ≠ x) : (s.disk_write x blk).disk.blocks c = s.disk.blocks c := by
  unfold fs_state.disk_write blkdev.write
  split_ifs with hx
  · have : c ≠ x.toNat := by
      intro e; apply h; rw [e]; exact Int.toNat_of_nonneg hx.1
    simp only [this, if_false]
  · rfl

theorem disk_write_blocks_nat (s : fs_state) (x : Nat) (blk : Block) {c : Nat}
    (h : c ≠ x) : (s.disk_write (x : Int) blk).disk.blocks c = s.disk.blocks c :=
  disk_write_blocks_ne s x blk (by exact_mod_cast h)

theorem step_local_direct (s : fs_state) (i n b : Nat) :
    step_local s
      ((mark_inode ((alloc_state s b).set_inode i
        (fun ino => { ino with direct := fun j => if j = n then b else ino.direct j })) i).disk_write
          (b : Int) zeros) i b := by
  refine ⟨?_, ?_, ?_⟩
  · intro j hj
    simp only [fs_state.disk_write, mark_inode, fs_state.set_inode, alloc_state, hj, if_false]
  · simp only [fs_state.disk_write, mark_inode, fs_state.set_inode, alloc_state, if_true]
  · intro c hc _
    rw [disk_write_blocks_nat _ _ _ hc]
    rfl

theorem step_local_ind1 (s : fs_state) (i b : Nat) :
    step_local s
      ((mark_inode ((alloc_state s b).set_inode i
        (fun ino => { ino with indir_1 := b })) i).disk_write (b : Int) zeros) i b := by
  refine ⟨?_, ?_, ?_⟩
  · intro j hj
    simp only [fs_state.disk_write, mark_inode, fs_state.set_inode, alloc_state, hj, if_false]
  · simp only [fs_state.disk_write, mark_inode, fs_state.set_inode, alloc_state, if_true]
  · intro c hc _
    rw [disk_write_blocks_nat _ _ _ hc]
    rfl

theorem step_local_ind2 (s : fs_state) (i b : Nat) :
    step_local s
      ((mark_inode ((alloc_state s b).set_inode i
        (fun ino => { ino with indir_2 := b })) i).disk_write (b : Int) zeros) i b := by
  refine ⟨?_, ?_, ?_⟩
  · intro j hj
    simp only [fs_state.disk_write, mark_inode, fs_state.set_inode, alloc_state, hj, if_false]
  · simp only [fs_state.disk_write, mark_inode, fs_state.set_inode, alloc_state, if_true]
  · intro c hc _
    rw [disk_write_blocks_nat _ _ _ hc]
    rfl

theorem step_local_leaf1 (s : fs_state) (i n b : Nat) :
    step_local s
      ((alloc_state s b).disk_write ((s.inodes i).indir_1 : Nat)
        (set32 (s.disk.blocks (s.inodes i).indir_1) n b)) i b := by
  refine ⟨fun j _ => rfl, rfl, ?_⟩
  intro c _ hnl
  have h1 : c ≠ (s.inodes i).indir_1 := fun e => hnl .ind1 trivial (fun h => h) e.symm
  rw [disk_write_blocks_nat _ _ _ h1]
  rfl

theorem step_local_mid (s : fs_state) (i m b : Nat) :
    step_local s
      (((alloc_state s b).disk_write ((s.inodes i).indir_2 : Nat)
        (set32 (s.disk.blocks (s.inodes i).indir_2) m b)).disk_write (b : Int) zeros) i b := by
  refine ⟨fun j _ => rfl, rfl, ?_⟩
  intro c hc hnl
  have h1 : c ≠ (s.inodes i).indir_2 := fun e => hnl .ind2 trivial (fun h => h) e.symm
  rw [disk_write_blocks_nat _ _ _ hc, disk_write_blocks_nat _ _ _ h1]
  rfl

theorem step_local_leaf2 (s : fs_state) (i : Nat) {m : Nat} (k b : Nat)
    (hm : m < PTRS_PER_BLK) (h2 : (s.inodes i).indir_2 ≠ 0) :
    step_local s
      (((alloc_state s b).disk_write ((get32 (s.disk.blocks (s.inodes i).indir_2) m : Nat) : Int)
        (set32 (s.disk.blocks (get32 (s.disk.blocks (s.inodes i).indir_2) m)) k b)).disk_write
          (b : Int) zeros) i b := by
  refine ⟨fun j _ => rfl, rfl, ?_⟩
  intro c hc hnl
  have h1 : c ≠ get32 (s.disk.blocks (s.inodes i).indir_2) m := by
    intro e
    have := hnl (.mid m) hm (fun h => h)
    simp only [ptr, h2, if_false] at this
    exact this e.symm
  rw [disk_write_blocks_nat _ _ _ hc, disk_write_blocks_nat _ _ _ h1]
  rfl

theorem alloc_local_refl (s : fs_state) (i : Nat) (σ : Slot) : alloc_local s s i σ :=
  ⟨fun _ _ => rfl, rfl, fun _ _ _ _ => rfl, fun _ _ _ => rfl⟩

theorem alloc_local_of_step {s t : fs_state} {i b : Nat} {ρ σ : Slot} (hb : is_free s b)
    (st : alloc_step s t i ρ b) (sl : step_local s t i b) (hρ : ρ = σ ∨ ¬ ρ.is_leaf) :
    alloc_local s t i σ := by
  refine ⟨sl.others, sl.mode_eq, ?_, ?_⟩
  · intro τ hτ hl hne
    rw [st.ptr_eq τ hτ]
    have : τ ≠ ρ := by
      rcases hρ with e | e
      · rw [e]; exact hne
      · intro e'; rw [e'] at hl; exact e hl
    simp only [this, if_false]
  · intro c hc hnl
    apply sl.disk_eq c _ hnl
    intro e
    rw [e, hb.2.2] at hc
    exact Bool.noConfusion hc

theorem alloc_local_after_step {s t u : fs_state} {i b : Nat} {ρ σ : Slot} (hb : is_free s b)
    (st : alloc_step s t i ρ b) (sl : step_local s t i b) (hρ : ¬ ρ.is_leaf)
    (hu : alloc_local t u i σ) : alloc_local s u i σ := by
  have hcb : ∀ c, s.block_map c = true → c ≠ b := by
    intro c hc e
    rw [e, hb.2.2] at hc
    exact Bool.noConfusion hc
  refine ⟨fun j hj => (hu.others j hj).trans (sl.others j hj), hu.mode_eq.trans sl.mode_eq,
    ?_, ?_⟩
  · intro τ hτ hl hne
    rw [hu.leaf_eq τ hτ hl hne, st.ptr_eq τ hτ]
    have : τ ≠ ρ := by intro e'; rw [e'] at hl; exact hρ hl
    simp only [this, if_false]
  · intro c hc hnl
    have hne := hcb c hc
    rw [← sl.disk_eq c hne hnl]
    apply hu.disk_eq c
    · rw [st.map_eq]; simp only [hne, if_false]; exact hc
    · intro τ hτ hτl
      rw [st.ptr_eq τ hτ]
      split_ifs
      · exact fun e => hne e.symm
      · exact hnl τ hτ hτl

/-- Lines 133-149 on a well-formed inode whose entry `m` of the double-indirect block is set. -/
theorem indir2_leaf_local {s : fs_state} {i m k : Nat} (buf : Block) (h : wf s i)
    (hm : m < PTRS_PER_BLK) (h2 : (s.inodes i).indir_2 ≠ 0)
    (hbuf : get32 buf m = get32 (s.disk.blocks (s.inodes i).indir_2) m)
    (h3 : get32 (s.disk.blocks (s.inodes i).indir_2) m ≠ 0) :
    alloc_local s (get_file_blkno_indir2_leaf s buf m k 1).2 i (.leaf2 m k) := by
  have hpm : ptr s i (.mid m) ≠ 0 := by simpa [ptr, h2] using h3
  have hlt := h.ptr_lt (σ := .mid m) hm hpm
  have hrd := h.read (σ := .mid m) hm hpm buf
  simp only [ptr, h2, if_false] at hlt hrd
  unfold get_file_blkno_indir2_leaf
  simp only [hbuf, hrd]
  by_cases h4 : get32 (s.disk.blocks (get32 (s.disk.blocks (s.inodes i).indir_2) m)) k = 0
  · simp only [h4, if_true, one_ne_zero, if_false]
    rcases get_free_blk_cases s with ⟨hf, hno⟩ | ⟨b, hb, hf⟩
    · simp only [hf, if_true]
      exact alloc_local_refl s i _
    · have hb0 : b ≠ 0 := by have := hb.1; omega
      have hbl := is_free.lt h hb
      simp only [hf, hb0, if_false, hbl.2.2.1, get32_set32_same, hbl.2.2.2,
        int_of_u32_lt hlt.2]
      exact alloc_local_of_step hb (step_leaf2 h hm h2 h3 hb) (step_local_leaf2 s i k b hm h2)
        (Or.inl rfl)
  · simp only [h4, if_false]
    exact alloc_local_refl s i _

/-- Lines 81-94 on a well-formed inode whose single-indirect block exists. -/
theorem indir1_local {s : fs_state} {i n : Nat} (h : wf s i)
    (h1 : (s.inodes i).indir_1 ≠ 0) :
    alloc_local s (get_file_blkno_indir1 s i n 1).2 i (.leaf1 n) := by
  have hlt := h.ptr_lt (σ := .ind1) trivial h1
  have hrd := h.read (σ := .ind1) trivial h1 s.stack
  simp only [ptr] at hlt hrd
  unfold get_file_blkno_indir1
  simp only [hrd]
  by_cases h4 : get32 (s.disk.blocks (s.inodes i).indir_1) n = 0
  · simp only [h4, if_true, one_ne_zero, if_false]
    rcases get_free_blk_cases s with ⟨hf, hno⟩ | ⟨b, hb, hf⟩
    · simp only [hf, if_true]
      exact alloc_local_refl s i _
    · have hb0 : b ≠ 0 := by have := hb.1; omega
      have hbl := is_free.lt h hb
      simp only [hf, hb0, if_false, hbl.2.2.1, get32_set32_same, hbl.2.2.2,
        int_of_u32_lt hlt.2, alloc_state_inodes]
      exact alloc_local_of_step hb (step_leaf1 h h1 hb) (step_local_leaf1 s i n b) (Or.inl rfl)
  · simp only [h4, if_false]
    exact alloc_local_refl s i _

/-- Lines 117-149 on a well-formed inode whose double-indirect block exists. -/
theorem indir2_local {s : fs_state} {i m k : Nat} (h : wf s i) (hm : m < PTRS_PER_BLK)
    (h2 : (s.inodes i).indir_2 ≠ 0) :
    alloc_local s (get_file_blkno_indir2 s i m k 1).2 i (.leaf2 m k) := by
  have hlt := h.ptr_lt (σ := .ind2) trivial h2
  have hrd := h.read (σ := .ind2) trivial h2 s.stack
  simp only [ptr] at hlt hrd
  unfold get_file_blkno_indir2
  simp only [hrd]
  by_cases h4 : get32 (s.disk.blocks (s.inodes i).indir_2) m = 0
  · simp only [h4, if_true, one_ne_zero, if_false]
    rcases get_free_blk_cases s with ⟨hf, hno⟩ | ⟨b, hb, hf⟩
    · simp only [hf, if_true]
      exact alloc_local_refl s i _
    · have hb0 : b ≠ 0 := by have := hb.1; omega
      have hbl := is_free.lt h hb
      simp only [hf, hb0, if_false, hbl.2.2.1, get32_set32_same, hbl.2.2.2,
        int_of_u32_lt hlt.2, alloc_state_inodes]
      have st := step_mid h h2 h4 hb
      have sl := step_local_mid s i m b
      have hwf := wf_of_alloc_step h hb st
      have hpt := st.ptr_eq (.mid m) hm
      have hi2 := st.ptr_eq .ind2 trivial
      simp only [if_true] at hpt
      simp only [reduceCtorEq, if_false] at hi2
      generalize ((alloc_state s b).disk_write ((s.inodes i).indir_2 : Nat)
        (set32 (s.disk.blocks (s.inodes i).indir_2) m b)).disk_write (b : Int) zeros = t at *
      have ht2 : (t.inodes i).indir_2 ≠ 0 := by
        simp only [ptr] at hi2; rw [hi2]; exact h2
      simp only [ptr, ht2, if_false] at hpt
      have := indir2_leaf_local (s := t) (i := i) (m := m) (k := k)
        (set32 (s.disk.blocks (s.inodes i).indir_2) m b) hwf hm ht2
        (by rw [get32_set32_same, hbl.2.2.1, hpt]) (by rw [hpt]; exact hb0)
      exact alloc_local_after_step hb st sl (fun hl => hl) this
  · simp only [h4, if_false]
    exact indir2_leaf_local _ h hm h2 rfl h4

/-- The function `get_file_blkno` with `alloc = 1` on a well-formed inode, for an
addressable block index: what it leaves alone. -/
theorem get_file_blkno_local {s : fs_state} {i n : Nat} (h : wf s i) (hn : n < MAX_BLOCKS) :
    alloc_local s (get_file_blkno s i n 1).2 i (lslot n) := by
  unfold get_file_blkno lslot
  by_cases c1 : n < N_DIRECT
  · simp only [c1, if_true]
    by_cases c2 : (s.inodes i).direct n = 0
    · simp only [c2, if_true, one_ne_zero, if_false]
      rcases get_free_blk_cases s with ⟨hf, hno⟩ | ⟨b, hb, hf⟩
      · simp only [hf, if_true]
        exact alloc_local_refl s i _
      · have hb0 : b ≠ 0 := by have := hb.1; omega
        have hbl := is_free.lt h hb
        simp only [hf, hb0, if_false, hbl.2.2.1]
        have e1 : ∀ t : fs_state, ((mark_inode (t.set_inode i (fun ino =>
            { ino with direct := fun j => if j = n then b else ino.direct j })) i).inodes i).direct n
            = b := by
          intro t; simp [mark_inode, fs_state.set_inode]
        rw [e1, hbl.2.2.2]
        exact alloc_local_of_step hb (step_direct h hb) (step_local_direct s i n b) (Or.inl rfl)
    · simp only [c2, if_false]
      exact alloc_local_refl s i _
  · simp only [c1, if_false]
    by_cases c2 : n - N_DIRECT < PTRS_PER_BLK
    · simp only [c2, if_true]
      by_cases c3 : (s.inodes i).indir_1 = 0
      · simp only [c3, if_true, one_ne_zero, if_false]
        rcases get_free_blk_cases s with ⟨hf, hno⟩ | ⟨b, hb, hf⟩
        · simp only [hf, if_true]
          exact alloc_local_refl s i _
        · have hb0 : b ≠ 0 := by have := hb.1; omega
          have hbl := is_free.lt h hb
          simp only [hf, hb0, if_false, hbl.2.2.1]
          have e1 : ∀ t : fs_state, ((mark_inode (t.set_inode i (fun ino =>
              { ino with indir_1 := b })) i).inodes i).indir_1 = b := by
            intro t; simp [mark_inode, fs_state.set_inode]
          rw [e1, hbl.2.2.2]
          have st := step_ind1 h c3 hb
          have hwf := wf_of_alloc_step h hb st
          have hpt := st.ptr_eq .ind1 trivial
          simp only [if_true, ptr] at hpt
          have := indir1_local (n := n - N_DIRECT) hwf (by rw [hpt]; exact hb0)
          exact alloc_local_after_step hb st (step_local_ind1 s i b) (fun hl => hl) this
      · simp only [c3, if_false]
        exact indir1_local h c3
    · simp only [c2, if_false]
      have c4 : ¬ (n - N_DIRECT - PTRS_PER_BLK > PTRS_PER_BLK * PTRS_PER_BLK) := by
        simp only [MAX_BLOCKS] at hn; omega
      have hm : (n - N_DIRECT - PTRS_PER_BLK) / PTRS_PER_BLK < PTRS_PER_BLK := by
        rw [Nat.div_lt_iff_lt_mul (by decide)]; simp only [MAX_BLOCKS] at hn; omega
      simp only [c4, if_false, sub_div_mul_eq_mod]
      generalize (n - N_DIRECT - PTRS_PER_BLK) / PTRS_PER_BLK = m at hm ⊢
      generalize (n - N_DIRECT - PTRS_PER_BLK) % PTRS_PER_BLK = k
      by_cases c3 : (s.inodes i).indir_2 = 0
      · simp only [c3, if_true, one_ne_zero, if_false]
        rcases get_free_blk_cases s with ⟨hf, hno⟩ | ⟨b, hb, hf⟩
        · simp only [hf, if_true]
          exact alloc_local_refl s i _
        · have hb0 : b ≠ 0 := by have := hb.1; omega
          have hbl := is_free.lt h hb
          simp only [hf, hb0, if_false, hbl.2.2.1]
          have e1 : ∀ t : fs_state, ((mark_inode (t.set_inode i (fun ino =>
              { ino with indir_2 := b })) i).inodes i).indir_2 = b := by
            intro t; simp [mark_inode, fs_state.set_inode]
          rw [e1, hbl.2.2.2]
          have st := step_ind2 h c3 hb
          have hwf := wf_of_alloc_step h hb st
          have hpt := st.ptr_eq .ind2 trivial
          simp only [if_true, ptr] at hpt
          have := indir2_local (k := k) hwf hm (by rw [hpt]; exact hb0)
          exact alloc_local_after_step hb st (step_local_ind2 s i b) (fun hl => hl) this
      · simp only [c3, if_false]
        exact indir2_local h hm c3

/-! ## The allocation invariant of the volume -/

theorem vol_ok.ne {s : fs_state} (h : vol_ok s) {i j : Nat} {σ τ : Slot} (hσ : σ.ok)
    (hτ : τ.ok) (hp : ptr s i σ ≠ 0) (hne : i ≠ j ∨ σ ≠ τ) : ptr s i σ ≠ ptr s j τ := by
  by_cases hij : i = j
  · subst hij
    rcases hne with e | e
    · exact absurd rfl e
    · exact (h.wf i).ne_of_slot_ne hσ hτ hp e
  · exact h.apart i j hij σ τ hσ hτ hp

/-- Pointers kept or cleared, and every block that is still named still allocated. -/
theorem vol_ok_of_sub {s t : fs_state} (h : vol_ok s) (hnb : t.num_blocks = s.num_blocks)
    (hnk : t.disk.nblks = s.disk.nblks) (hdb : t.data_base = s.data_base)
    (hres : ∀ b, b < s.data_base → t.block_map b = true) (hp : ptr_sub s t)
    (hm : ∀ (i : Nat) (σ : Slot), σ.ok → ptr t i σ ≠ 0 → t.block_map (ptr t i σ) = true) :
    vol_ok t := by
  have W := h.wf 0
  refine ⟨fun i => ⟨by rw [hnb, hnk]; exact W.nblks_le, by rw [hnk]; exact W.nblks_lt,
    fun b hb => hres b (by rw [hdb] at hb; exact hb), ?_, ?_⟩, ?_⟩
  · intro σ hσ hne
    have e := hp i σ hσ hne
    have hs : ptr s i σ ≠ 0 := by rw [← e]; exact hne
    have := (h.wf i).ptr_ok σ hσ hs
    refine ⟨?_, ?_, hm i σ hσ hne⟩
    · rw [hdb, e]; exact this.1
    · rw [hnb, e]; exact this.2.1
  · intro σ τ hσ hτ hne heq
    have e1 := hp i σ hσ hne
    have e2 := hp i τ hτ (by rw [← heq]; exact hne)
    exact (h.wf i).inj σ τ hσ hτ (by rw [← e1]; exact hne) (by rw [← e1, ← e2]; exact heq)
  · intro i j hij σ τ hσ hτ hne heq
    have e1 := hp i σ hσ hne
    have e2 := hp j τ hτ (by rw [← heq]; exact hne)
    exact h.apart i j hij σ τ hσ hτ (by rw [← e1]; exact hne) (by rw [← e1, ← e2]; exact heq)

/-- The same pointers and the same bitmap. -/
theorem vol_ok_same {s t : fs_state} (h : vol_ok s) (hnb : t.num_blocks = s.num_blocks)
    (hnk : t.disk.nblks = s.disk.nblks) (hdb : t.data_base = s.data_base)
    (hm : t.block_map = s.block_map)
    (hp : ∀ (j : Nat) (τ : Slot), τ.ok → ptr t j τ = ptr s j τ) : vol_ok t := by
  apply vol_ok_of_sub h hnb hnk hdb
  · intro b hb; rw [hm]; exact (h.wf 0).reserved b hb
  · intro j τ hτ _; exact hp j τ hτ
  · intro i σ hσ hne
    rw [hm, hp i σ hσ]
    exact ((h.wf i).ptr_ok σ hσ (by rw [← hp i σ hσ]; exact hne)).2.2

theorem ptr_of_disk_eq {s t : fs_state} (hi : t.inodes = s.inodes)
    (hd : ∀ (j : Nat) (τ : Slot), τ.ok → ¬ τ.is_leaf → ptr s j τ ≠ 0 →
      t.disk.blocks (ptr s j τ) = s.disk.blocks (ptr s j τ)) :
    ∀ (j : Nat) (τ : Slot), τ.ok → ptr t j τ = ptr s j τ := by
  intro j
  apply ptr_congr
  · rw [hi]
  · rw [hi]
  · rw [hi]
  · exact hd j

theorem ptr_set_inode (s : fs_state) (i : Nat) {f : fs_inode → fs_inode}
    (hf : ∀ ino, (f ino).direct = ino.direct ∧ (f ino).indir_1 = ino.indir_1 ∧
      (f ino).indir_2 = ino.indir_2) :
    ∀ (j : Nat) (τ : Slot), τ.ok → ptr (s.set_inode i f) j τ = ptr s j τ := by
  intro j
  by_cases hj : j = i
  · apply ptr_congr
    · simp only [fs_state.set_inode, hj, if_true, (hf _).1]
    · simp only [fs_state.set_inode, hj, if_true, (hf _).2.1]
    · simp only [fs_state.set_inode, hj, if_true, (hf _).2.2]
    · intro τ _ _ _; rfl
  · apply ptr_congr
    · simp only [fs_state.set_inode, hj, if_false]
    · simp only [fs_state.set_inode, hj, if_false]
    · simp only [fs_state.set_inode, hj, if_false]
    · intro τ _ _ _; rfl

theorem vol_ok_set_inode {s : fs_state} (h : vol_ok s) (i : Nat) {f : fs_inode → fs_inode}
    (hf : ∀ ino, (f ino).direct = ino.direct ∧ (f ino).indir_1 = ino.indir_1 ∧
      (f ino).indir_2 = ino.indir_2) : vol_ok (s.set_inode i f) :=
  vol_ok_same h rfl rfl rfl rfl (ptr_set_inode s i hf)

theorem vol_ok_mark {s : fs_state} (h : vol_ok s) (i : Nat) : vol_ok (mark_inode s i) :=
  vol_ok_same h rfl rfl rfl rfl (ptr_of_disk_eq rfl (fun _ _ _ _ _ => rfl))

theorem ptr_flush {s : fs_state} (h : vol_ok s) (i : Nat) :
    ∀ (j : Nat) (τ : Slot), τ.ok → ptr (flush_metadata (mark_inode s i)) j τ = ptr s j τ :=
  ptr_of_disk_eq rfl (fun j τ hτ _ hp => flush_mark_blocks s i ((h.wf j).ptr_ok τ hτ hp).1)

theorem vol_ok_flush {s : fs_state} (h : vol_ok s) (i : Nat) :
    vol_ok (flush_metadata (mark_inode s i)) :=
  vol_ok_same h rfl rfl rfl rfl (ptr_flush h i)

theorem vol_ok_return_inode {s : fs_state} (h : vol_ok s) (i : Nat) :
    vol_ok (return_inode s i) :=
  vol_ok_same h rfl rfl rfl rfl (ptr_of_disk_eq rfl (fun _ _ _ _ _ => rfl))

theorem disk_write_nblks (s : fs_state) (x : Int) (blk : Block) :
    (s.disk_write x blk).disk.nblks = s.disk.nblks :=
  blkdev_write_nblks _ _ _

theorem ptr_disk_write {s : fs_state} (x : Int) (blk : Block)
    (hx : ∀ (j : Nat) (τ : Slot), τ.ok → ¬ τ.is_leaf → ptr s j τ ≠ 0 →
      ((ptr s j τ : Nat) : Int) ≠ x) :
    ∀ (j : Nat) (τ : Slot), τ.ok → ptr (s.disk_write x blk) j τ = ptr s j τ :=
  ptr_of_disk_eq rfl (fun j τ hτ hl hp => disk_write_blocks_ne s x blk (hx j τ hτ hl hp))

theorem vol_ok_disk_write {s : fs_state} (h : vol_ok s) (x : Int) (blk : Block)
    (hx : ∀ (j : Nat) (τ : Slot), τ.ok → ¬ τ.is_leaf → ptr s j τ ≠ 0 →
      ((ptr s j τ : Nat) : Int) ≠ x) : vol_ok (s.disk_write x blk) :=
  vol_ok_same h rfl (disk_write_nblks s x blk) rfl rfl (ptr_disk_write x blk hx)

/-- A block number that is `0` or the pointer of a data slot is no index block. -/
theorem leaf_ptr_apart {s : fs_state} (h : vol_ok s) (i : Nat) {σ : Slot} (hσ : σ.ok)
    (hl : σ.is_leaf) :
    ∀ (j : Nat) (τ : Slot), τ.ok → ¬ τ.is_leaf → ptr s j τ ≠ 0 →
      ((ptr s j τ : Nat) : Int) ≠ int_of_u32 (ptr s i σ) := by
  intro j τ hτ hnl hp
  by_cases h0 : ptr s i σ = 0
  · rw [h0, int_of_u32_zero]
    exact_mod_cast hp
  · rw [int_of_u32_lt ((h.wf i).ptr_lt hσ h0).2]
    have : ptr s j τ ≠ ptr s i σ :=
      h.ne hτ hσ hp (Or.inr (fun e => hnl (e ▸ hl)))
    exact_mod_cast this

theorem dir_blkno_apart {s : fs_state} (h : vol_ok s) (dir : Nat) :
    ∀ (j : Nat) (τ : Slot), τ.ok → ¬ τ.is_leaf → ptr s j τ ≠ 0 →
      ((ptr s j τ : Nat) : Int) ≠ dir_blkno s dir :=
  leaf_ptr_apart h dir (σ := .direct 0) (show (0 : Nat) < N_DIRECT by decide) trivial

theorem vol_ok_dir_write {s : fs_state} (h : vol_ok s) (dir : Nat) (blk : Block) :
    vol_ok (s.disk_write (dir_blkno s dir) blk) :=
  vol_ok_disk_write h _ blk (dir_blkno_apart h dir)

theorem release_all_num_blocks (l : List Nat) :
    ∀ s : fs_state, (release_all s l).num_blocks = s.num_blocks := by
  induction l with
  | nil => intro s; rfl
  | cons b l ih => intro s; exact (ih (return_blk s b)).trans rfl

theorem truncated_ptr_ne (s : fs_state) {i j : Nat} (hj : j ≠ i) (now : Nat) (l : List Nat) :
    ∀ (τ : Slot), τ.ok →
      ptr ((release_all s l).set_inode i (truncated_inode now)) j τ = ptr s j τ := by
  apply ptr_congr
  · simp only [fs_state.set_inode, hj, if_false, release_all_inodes]
  · simp only [fs_state.set_inode, hj, if_false, release_all_inodes]
  · simp only [fs_state.set_inode, hj, if_false, release_all_inodes]
  · intro τ _ _ _
    show (release_all s l).disk.blocks _ = _
    rw [release_all_disk]

/-- The pointers after `do_truncate(i, 0)`: none for `i`, the same for every other inode. -/
theorem do_truncate_ptr {s : fs_state} (h : vol_ok s) (i now : Nat) :
    ∀ (j : Nat) (τ : Slot), τ.ok →
      ptr (do_truncate s i 0 now).2 j τ = if j = i then 0 else ptr s j τ := by
  intro j τ hτ
  rw [do_truncate_eq (h.wf i)]
  by_cases hj : j = i
  · rw [hj, if_pos rfl]; exact truncated_ptr _ i now τ hτ
  · rw [if_neg hj]; exact truncated_ptr_ne s hj now _ τ hτ

theorem vol_ok_truncate {s : fs_state} (h : vol_ok s) (i now : Nat) :
    vol_ok (do_truncate s i 0 now).2 := by
  have hp := do_truncate_ptr h i now
  have hbm : ∀ c, (do_truncate s i 0 now).2.block_map c =
      if c ∈ owned_blocks s i then false else s.block_map c := by
    intro c
    rw [do_truncate_eq (h.wf i)]
    exact release_all_block_map _ s c
  have hnb : (do_truncate s i 0 now).2.num_blocks = s.num_blocks := by
    rw [do_truncate_eq (h.wf i)]; exact release_all_num_blocks _ s
  have hnk : (do_truncate s i 0 now).2.disk.nblks = s.disk.nblks := by
    rw [do_truncate_eq (h.wf i)]
    show (release_all s _).disk.nblks = _
    rw [release_all_disk]
  have hdb : (do_truncate s i 0 now).2.data_base = s.data_base := by
    rw [do_truncate_eq (h.wf i)]; exact release_all_data_base _ s
  apply vol_ok_of_sub h hnb hnk hdb
  · intro b hb
    rw [hbm]
    have : b ∉ owned_blocks s i := by
      rw [mem_owned_blocks]
      rintro ⟨h0, σ, hσ, e⟩
      have := ((h.wf i).ptr_ok σ hσ (by rw [e]; exact h0)).1
      omega
    simp only [this, if_false]
    exact (h.wf 0).reserved b hb
  · intro j τ hτ hne
    rw [hp j τ hτ] at hne ⊢
    by_cases hj : j = i
    · simp only [hj, if_true] at hne; exact absurd rfl hne
    · simp only [hj, if_false]
  · intro j σ hσ hne
    rw [hp j σ hσ] at hne ⊢
    by_cases hj : j = i
    · simp only [hj, if_true] at hne; exact absurd rfl hne
    · simp only [hj, if_false] at hne ⊢
      rw [hbm]
      have : ptr s j σ ∉ owned_blocks s i := by
        rw [mem_owned_blocks]
        rintro ⟨_, τ, hτ, e⟩
        exact h.apart j i hj σ τ hσ hτ hne e.symm
      simp only [this, if_false]
      exact ((h.wf j).ptr_ok σ hσ hne).2.2

theorem zero_inode_ptr {s : fs_state} {i : Nat} (h : s.inodes i = zero_inode) (τ : Slot) :
    ptr s i τ = 0 := by
  cases τ <;> simp [ptr, h, zero_inode]

theorem get_free_inode_sub (s : fs_state) : ptr_sub s (get_free_inode s).2 := by
  intro j τ hτ hne
  unfold get_free_inode at hne ⊢
  by_cases h0 : first_clear s.inode_map (s.n_inodes - 1) 1 = 0
  · simp only [h0, if_true]
  · simp only [h0, if_false] at hne ⊢
    by_cases hj : j = first_clear s.inode_map (s.n_inodes - 1) 1
    · exfalso
      apply hne
      apply zero_inode_ptr
      simp only [hj, if_true]
    · refine ptr_congr ?_ ?_ ?_ ?_ τ hτ
      · simp only [hj, if_false]
      · simp only [hj, if_false]
      · simp only [hj, if_false]
      · intro τ _ _ _; rfl

theorem vol_ok_get_free_inode {s : fs_state} (h : vol_ok s) : vol_ok (get_free_inode s).2 := by
  have hs := get_free_inode_sub s
  have hf : (get_free_inode s).2.num_blocks = s.num_blocks ∧
      (get_free_inode s).2.disk = s.disk ∧ (get_free_inode s).2.data_base = s.data_base ∧
      (get_free_inode s).2.block_map = s.block_map := by
    unfold get_free_inode
    simp only
    split_ifs <;> exact ⟨rfl, rfl, rfl, rfl⟩
  apply vol_ok_of_sub h hf.1 (by rw [hf.2.1]) hf.2.2.1
  · intro b hb; rw [hf.2.2.2]; exact (h.wf 0).reserved b hb
  · exact hs
  · intro i σ hσ hne
    rw [hf.2.2.2, hs i σ hσ hne]
    exact ((h.wf i).ptr_ok σ hσ (by rw [← hs i σ hσ hne]; exact hne)).2.2

theorem vol_ok_init_new_inode {s : fs_state} (h : vol_ok s) (mode ftype now uid gid : Nat) :
    vol_ok (init_new_inode s mode ftype now uid gid).2 := by
  unfold init_new_inode
  have h1 := vol_ok_get_free_inode h
  by_cases h0 : (get_free_inode s).1 = 0
  · simp only [h0, if_true]; exact h1
  · simp only [h0, if_false]
    apply vol_ok_mark
    apply vol_ok_set_inode h1
    intro ino
    exact ⟨rfl, rfl, rfl⟩

theorem vol_ok_set_dir_entry {s : fs_state} (h : vol_ok s) (blk : Block) (e inum : Nat)
    (name : List Nat) : vol_ok (set_dir_entry s blk e inum name).2 := by
  rw [set_dir_entry_state]
  apply vol_ok_mark
  apply vol_ok_set_inode h
  intro ino
  exact ⟨rfl, rfl, rfl⟩

/-- The allocation invariant after `get_file_blkno` with `alloc = 1`. -/
theorem vol_ok_alloc {s : fs_state} (h : vol_ok s) (i : Nat) {n : Nat} (hn : n < MAX_BLOCKS) :
    vol_ok (get_file_blkno s i n 1).2 ∧
    ∀ (j : Nat), j ≠ i → ∀ (τ : Slot), τ.ok →
      ptr (get_file_blkno s i n 1).2 j τ = ptr s j τ := by
  have A := get_file_blkno_alloc (h.wf i) hn
  have L := get_file_blkno_local (h.wf i) hn
  generalize get_file_blkno s i n 1 = r at A L
  have hdb := A.grow.frame.data_base
  obtain ⟨_, _, _, hnb, _, _, hnk, _, _⟩ := A.grow.frame
  have hoth : ∀ (j : Nat), j ≠ i → ∀ (τ : Slot), τ.ok → ptr r.2 j τ = ptr s j τ := by
    intro j hj
    apply ptr_congr
    · rw [L.others j hj]
    · rw [L.others j hj]
    · rw [L.others j hj]
    · intro τ hτ _ hp
      apply L.disk_eq _ ((h.wf j).ptr_ok τ hτ hp).2.2
      intro ρ hρ _ e
      by_cases h0 : ptr s i ρ = 0
      · rw [h0] at e; exact hp e.symm
      · exact h.apart i j (fun e' => hj e'.symm) ρ τ hρ hτ h0 e
  refine ⟨⟨?_, ?_⟩, hoth⟩
  · intro j
    by_cases hj : j = i
    · rw [hj]; exact A.wf
    · have W := h.wf j
      refine ⟨by rw [hnb, hnk]; exact W.nblks_le, by rw [hnk]; exact W.nblks_lt, ?_, ?_, ?_⟩
      · intro b hb
        rw [hdb] at hb
        exact A.grow.map_keep b (W.reserved b hb)
      · intro τ hτ hne
        rw [hoth j hj τ hτ] at hne ⊢
        have := W.ptr_ok τ hτ hne
        rw [hdb, hnb]
        exact ⟨this.1, this.2.1, A.grow.map_keep _ this.2.2⟩
      · intro σ τ hσ hτ hne heq
        rw [hoth j hj σ hσ] at hne heq
        rw [hoth j hj τ hτ] at heq
        exact W.inj σ τ hσ hτ hne heq
  · have key : ∀ (j : Nat), j ≠ i → ∀ (σ τ : Slot), σ.ok → τ.ok → ptr r.2 i σ ≠ 0 →
        ptr r.2 i σ ≠ ptr s j τ := by
      intro j hj σ τ hσ hτ hne heq
      by_cases h0 : ptr s i σ = 0
      · have hfree := A.grow.ptr_new σ hσ h0 hne
        have hs : ptr s j τ ≠ 0 := by rw [← heq]; exact hne
        have := ((h.wf j).ptr_ok τ hτ hs).2.2
        rw [heq, this] at hfree
        exact Bool.noConfusion hfree
      · rw [A.grow.ptr_keep σ hσ h0] at heq
        exact h.apart i j (fun e' => hj e'.symm) σ τ hσ hτ h0 heq
    intro j1 j2 hj σ τ hσ hτ hne heq
    by_cases h1 : j1 = i
    · have h2 : j2 ≠ i := fun e => hj (h1.trans e.symm)
      rw [h1] at hne heq
      rw [hoth j2 h2 τ hτ] at heq
      exact key j2 h2 σ τ hσ hτ hne heq
    · rw [hoth j1 h1 σ hσ] at hne heq
      by_cases h2 : j2 = i
      · rw [h2] at heq
        have hne2 : ptr r.2 i τ ≠ 0 := by rw [← heq]; exact hne
        exact key j1 h1 τ σ hτ hσ hne2 heq.symm
      · rw [hoth j2 h2 τ hτ] at heq
        exact h.apart j1 j2 hj σ τ hσ hτ hne heq

/-! ## `do_mkentry`: every way through the function -/

theorem de_valid_lt (blk : Block) (e : Nat) : de_valid blk e < 2 :=
  Nat.mod_lt _ (by decide)

theorem first_free_cases (blk : Block) :
    (∃ e, first_free blk e) ∨ ∀ e, e < DIRENTS_PER_BLK → de_valid blk e = 1 := by
  by_cases h : ∃ e, e < DIRENTS_PER_BLK ∧ de_valid blk e = 0
  · left
    refine ⟨Nat.find h, (Nat.find_spec h).1, (Nat.find_spec h).2, ?_⟩
    intro e' he'
    have hmin := Nat.find_min h he'
    have hv := de_valid_lt blk e'
    have hlt : e' < DIRENTS_PER_BLK := lt_trans he' (Nat.find_spec h).1
    by_contra hc
    exact hmin ⟨hlt, by omega⟩
  · right
    intro e he
    by_contra hc
    exact h ⟨e, he, by have := de_valid_lt blk e; omega⟩

theorem direct0_of_no_block0 {s : fs_state} {dir : Nat} (hwf : wf s dir)
    (h0 : ¬ has_block0 s dir) : (s.inodes dir).direct 0 = 0 := by
  by_contra hne
  apply h0
  have := hwf.ptr_lt (σ := .direct 0) (show (0 : Nat) < N_DIRECT by decide) hne
  simp only [ptr] at this
  unfold has_block0 dir_blkno
  rw [int_of_u32_lt this.2]
  exact ⟨by exact_mod_cast Nat.pos_of_ne_zero hne, by exact_mod_cast this.1⟩

/-- The first block of a file that has none: the call of `get_file_blkno`. -/
theorem get_file_blkno_zero_new {s : fs_state} {i b : Nat} (h : wf s i)
    (h0 : (s.inodes i).direct 0 = 0) (hb : is_free s b)
    (hf : get_free_blk s = (b, alloc_state s b)) :
    get_file_blkno s i 0 1 =
      ((b : Int), (mark_inode ((alloc_state s b).set_inode i
        (fun ino => { ino with direct := fun j => if j = 0 then b else ino.direct j })) i).disk_write
          (b : Int) zeros) := by
  have hb0 : b ≠ 0 := by have := hb.1; omega
  have hbl := is_free.lt h hb
  unfold get_file_blkno
  have c : (0 : Nat) < N_DIRECT := by decide
  simp only [c, if_true, h0, one_ne_zero, if_false, hf, hb0, hbl.2.2.1]
  have e1 : ∀ t : fs_state, ((mark_inode (t.set_inode i (fun ino =>
      { ino with direct := fun j => if j = 0 then b else ino.direct j })) i).inodes i).direct 0
      = b := by
    intro t; simp [mark_inode, fs_state.set_inode]
  have e2 : ∀ (t : fs_state) (c : Int) (z : Block), (((mark_inode (t.set_inode i (fun ino =>
      { ino with direct := fun j => if j = 0 then b else ino.direct j })) i).disk_write c z).inodes
        i).direct 0 = b := by
    intro t c z; simp [mark_inode, fs_state.set_inode, fs_state.disk_write]
  rw [e1, e2, hbl.2.2.2]

/-- The state in which block 0 of directory `dir` has just been allocated. -/
theorem block0_new {s : fs_state} (dir : Nat) {b : Nat} (h : wf s dir) (hb : is_free s b) :
    let t := (mark_inode ((alloc_state s b).set_inode dir
        (fun ino => { ino with direct := fun j => if j = 0 then b else ino.direct j })) dir).disk_write
          (b : Int) zeros
    (t.inodes dir).mode = (s.inodes dir).mode ∧ dir_blkno t dir = (b : Int) ∧
    has_block0 t dir ∧ dir_block t dir = zeros ∧ t.stack = s.stack := by
  intro t
  have hbl := is_free.lt h hb
  have hb0 : 0 < b := hb.1
  have e1 : (t.inodes dir).direct 0 = b := by
    simp [t, mark_inode, fs_state.set_inode, fs_state.disk_write]
  have e2 : dir_blkno t dir = (b : Int) := by
    unfold dir_blkno; rw [e1, hbl.2.2.2]
  have e3 : t.disk.nblks = s.disk.nblks := by
    simp only [t, fs_state.disk_write, blkdev_write_nblks, mark_inode, fs_state.set_inode,
      alloc_state]
  refine ⟨?_, e2, ?_, ?_, ?_⟩
  · simp [t, mark_inode, fs_state.set_inode, fs_state.disk_write, alloc_state]
  · unfold has_block0
    rw [e2, e3]
    exact ⟨by exact_mod_cast hb0, by exact_mod_cast hbl.1⟩
  · unfold dir_block
    rw [e2, Int.toNat_ofNat]
    have hw : b < ((mark_inode ((alloc_state s b).set_inode dir
        (fun ino => { ino with direct := fun j => if j = 0 then b else ino.direct j }))
          dir).disk).nblks := hbl.1
    simp only [t, fs_state.disk_write, blkdev_write_blocks _ hw, if_true]
  · rfl

theorem no_entry_zeros (name : List Nat) : no_entry zeros name := by
  intro e _ h
  have := h.1
  simp [de_valid, de_word, get32, zeros] at this

theorem first_free_zeros : first_free zeros 0 :=
  ⟨by decide, by simp [de_valid, de_word, get32, zeros], fun e' h => absurd h (Nat.not_lt_zero _)⟩

/-- A directory whose block 0 is full: `-ENOSPC` and no change. -/
theorem do_mkentry_no_slot {s : fs_state} {dir : Nat} {leaf : List Nat}
    (mode ftype now uid gid : Nat)
    (hdir : S_ISDIR (s.inodes dir).mode = true) (h0 : has_block0 s dir)
    (hfull : ∀ e, e < DIRENTS_PER_BLK → de_valid (dir_block s dir) e = 1)
    (hno : no_entry (dir_block s dir) leaf) :
    do_mkentry s dir leaf mode ftype now uid gid = (-ENOSPC, s) := by
  obtain ⟨f1, f2⟩ := free_lookup_full h0 hfull zeros 0
  unfold do_mkentry
  have hlt : ¬ (-ENOENT ≥ (0 : Int)) := by decide
  have hneg : (-ENOSPC : Int) < 0 := by decide
  simp only [hdir, not_true_eq_false, if_false, lookup_absent hdir h0 hno, hlt, f1, hneg,
    if_true, f2]

/-- The function `do_mkentry` depends on the state through the directory test, the lookup
and the slot found. -/
theorem do_mkentry_congr {s t : fs_state} {dir : Nat} {leaf : List Nat}
    (mode ftype now uid gid : Nat)
    (hs : S_ISDIR (s.inodes dir).mode = true) (ht : S_ISDIR (t.inodes dir).mode = true)
    (hnos : ∀ e, ¬ dir_entry s dir leaf e) (hnot : ∀ e, ¬ dir_entry t dir leaf e)
    (h : get_dir_free_entry_block s dir zeros 0 = get_dir_free_entry_block t dir zeros 0) :
    do_mkentry s dir leaf mode ftype now uid gid = do_mkentry t dir leaf mode ftype now uid gid := by
  obtain ⟨a1, a2, a3, a4⟩ := lookup_none hnos s.stack
  obtain ⟨b1, b2, b3, b4⟩ := lookup_none hnot t.stack
  have a1' : ¬ ((get_dir_entry_block s dir s.stack leaf).entno ≥ 0) := by omega
  have b1' : ¬ ((get_dir_entry_block t dir t.stack leaf).entno ≥ 0) := by omega
  unfold do_mkentry
  simp only [hs, ht, not_true_eq_false, if_false, a1', b1', a2, a3, a4, b2, b3, b4, h]

/-- With no block 0 in the directory, `do_mkentry` first allocates one: it fails with
`-ENOSPC` when no block is free, and goes on as in the state with the new block. -/
theorem do_mkentry_block0 {s : fs_state} {dir : Nat} (leaf : List Nat)
    (mode ftype now uid gid : Nat) (hwf : wf s dir)
    (hdir : S_ISDIR (s.inodes dir).mode = true) (h0 : ¬ has_block0 s dir) :
    (get_file_blkno s dir 0 1 = (0, s) ∧
      do_mkentry s dir leaf mode ftype now uid gid = (-ENOSPC, s)) ∨
    (S_ISDIR ((get_file_blkno s dir 0 1).2.inodes dir).mode = true ∧
      has_block0 (get_file_blkno s dir 0 1).2 dir ∧
      dir_block (get_file_blkno s dir 0 1).2 dir = zeros ∧
      do_mkentry s dir leaf mode ftype now uid gid =
        do_mkentry (get_file_blkno s dir 0 1).2 dir leaf mode ftype now uid gid) := by
  have hd0 := direct0_of_no_block0 hwf h0
  have hnos : ∀ e, ¬ dir_entry s dir leaf e := fun e he => h0 he.2.1
  obtain ⟨a1, a2, a3, a4⟩ := lookup_none hnos s.stack
  have a1' : ¬ ((get_dir_entry_block s dir s.stack leaf).entno ≥ 0) := by omega
  rcases get_free_blk_cases s with ⟨hf, _⟩ | ⟨b, hb, hf⟩
  · left
    have hg : get_file_blkno s dir 0 1 = (0, s) := by
      unfold get_file_blkno
      have c : (0 : Nat) < N_DIRECT := by decide
      simp only [c, if_true, hd0, one_ne_zero, if_false, hf]
    refine ⟨hg, ?_⟩
    unfold do_mkentry
    have hneg : (-ENOSPC : Int) < 0 := by decide
    simp only [hdir, not_true_eq_false, if_false, a1', a2, a3, a4, get_dir_free_entry_block,
      get_file_blk, hg, gt_iff_lt, lt_self_iff_false, le_refl, if_true, hneg]
  · right
    have hg := get_file_blkno_zero_new hwf hd0 hb hf
    have hwt : wf (get_file_blkno s dir 0 1).2 dir :=
      (get_file_blkno_alloc hwf (by decide : 0 < MAX_BLOCKS)).wf
    have T := block0_new dir hwf hb
    rw [hg] at hwt ⊢
    simp only at T hwt ⊢
    generalize (mark_inode ((alloc_state s b).set_inode dir
        (fun ino => { ino with direct := fun j => if j = 0 then b else ino.direct j })) dir).disk_write
          (b : Int) zeros = t at T hwt hg ⊢
    obtain ⟨t1, t2, t3, t4, t5⟩ := T
    have ht : S_ISDIR (t.inodes dir).mode = true := by rw [t1]; exact hdir
    refine ⟨ht, t3, t4, ?_⟩
    have hnot : ∀ e, ¬ dir_entry t dir leaf e := by
      intro e he
      have := he.2.2.2.1
      rw [t4] at this
      exact no_entry_zeros leaf e he.2.2.1 this
    apply do_mkentry_congr mode ftype now uid gid hdir ht hnos hnot
    have hft : first_free (dir_block t dir) 0 := by rw [t4]; exact first_free_zeros
    rw [free_lookup_found hwt t3 hft zeros 0, t2, t4]
    have hpos : ¬ ((b : Int) ≤ 0) := by have := hb.1; omega
    have hgt : (b : Int) > 0 := by have := hb.1; omega
    have hrd : t.disk.read (b : Int) zeros = (0, zeros) := by
      have hlt : b < t.disk.nblks := by
        have := t3.2; rw [t2] at this; exact_mod_cast this
      rw [blkdev_read_valid _ hlt]
      have : t.disk.blocks b = zeros := by
        have := t4; unfold dir_block at this; rw [t2, Int.toNat_ofNat] at this; exact this
      rw [this]
    unfold get_dir_free_entry_block get_file_blk
    simp only [hg, hgt, if_true, hrd, lt_self_iff_false, if_false, hpos,
      get_free_entry_in_block_found first_free_zeros, Nat.cast_zero]

/-- Every way through `do_mkentry` on a well-formed directory inode: an error that changes
nothing; or, in the state `t` in which block 0 of the directory is present (allocated by
the call if need be), an error that leaves `t`, a failure of `init_new_inode`, or the new
entry in the first free slot. -/
theorem do_mkentry_cases {s : fs_state} {dir : Nat} (leaf : List Nat)
    (mode ftype now uid gid : Nat) (hwf : wf s dir) :
    (∃ err : Int, err < 0 ∧ do_mkentry s dir leaf mode ftype now uid gid = (err, s)) ∨
    (S_ISDIR (s.inodes dir).mode = true ∧
      S_ISDIR ((get_file_blkno s dir 0 1).2.inodes dir).mode = true ∧
      has_block0 (get_file_blkno s dir 0 1).2 dir ∧
      (has_block0 s dir → (get_file_blkno s dir 0 1).2 = s) ∧
      (¬ has_block0 s dir → dir_block (get_file_blkno s dir 0 1).2 dir = zeros) ∧
      no_entry (dir_block (get_file_blkno s dir 0 1).2 dir) leaf ∧
      ((∃ err : Int, err < 0 ∧ do_mkentry s dir leaf mode ftype now uid gid =
          (err, (get_file_blkno s dir 0 1).2)) ∨
        ((init_new_inode (get_file_blkno s dir 0 1).2 mode ftype now uid gid).1 < 0 ∧
          do_mkentry s dir leaf mode ftype now uid gid =
            init_new_inode (get_file_blkno s dir 0 1).2 mode ftype now uid gid) ∨
        ∃ e, first_free (dir_block (get_file_blkno s dir 0 1).2 dir) e ∧
          ¬ (init_new_inode (get_file_blkno s dir 0 1).2 mode ftype now uid gid).1 < 0 ∧
          do_mkentry s dir leaf mode ftype now uid gid =
            ((init_new_inode (get_file_blkno s dir 0 1).2 mode ftype now uid gid).1,
              add_entry (get_file_blkno s dir 0 1).2 dir e leaf mode ftype now uid gid))) := by
  have main : ∀ t : fs_state, wf t dir → S_ISDIR (t.inodes dir).mode = true →
      has_block0 t dir → no_entry (dir_block t dir) leaf →
      ((∃ err : Int, err < 0 ∧ do_mkentry t dir leaf mode ftype now uid gid = (err, t)) ∨
        ((init_new_inode t mode ftype now uid gid).1 < 0 ∧
          do_mkentry t dir leaf mode ftype now uid gid =
            init_new_inode t mode ftype now uid gid) ∨
        ∃ e, first_free (dir_block t dir) e ∧
          ¬ (init_new_inode t mode ftype now uid gid).1 < 0 ∧
          do_mkentry t dir leaf mode ftype now uid gid =
            ((init_new_inode t mode ftype now uid gid).1,
              add_entry t dir e leaf mode ftype now uid gid)) := by
    intro t hwt ht h0 hno
    rcases first_free_cases (dir_block t dir) with ⟨e, he⟩ | hfull
    · by_cases hi : (init_new_inode t mode ftype now uid gid).1 < 0
      · right; left
        refine ⟨hi, ?_⟩
        unfold do_mkentry
        have hlt : ¬ (-ENOENT ≥ (0 : Int)) := by decide
        have hge : ¬ (((e : Nat) : Int) < 0) := by omega
        simp only [ht, not_true_eq_false, if_false, lookup_absent ht h0 hno, hlt,
          free_lookup_found hwt h0 he, hge, hi, if_true]
      · right; right
        exact ⟨e, he, hi, do_mkentry_found ht hwt h0 hno he mode ftype now uid gid hi⟩
    · left
      exact ⟨-ENOSPC, by decide, do_mkentry_no_slot mode ftype now uid gid ht h0 hfull hno⟩
  by_cases hdir : S_ISDIR (s.inodes dir).mode = true
  · by_cases h0 : has_block0 s dir
    · have hg : get_file_blkno s dir 0 1 = (dir_blkno s dir, s) :=
        get_file_blkno_zero_present (direct0_of_has_block0 h0) 1
      rcases lookup_cases s dir leaf with ⟨e, he⟩ | hno
      · left
        exact ⟨-EEXIST, by decide, do_mkentry_exists he mode ftype now uid gid⟩
      · right
        have hno' : no_entry (dir_block s dir) leaf := by
          intro e he hn
          by_cases hex : ∃ e', e' < DIRENTS_PER_BLK ∧ entry_named (dir_block s dir) e' leaf
          · have hf := Nat.find_spec hex
            exact hno (Nat.find hex) ⟨hdir, h0, hf.1, hf.2, fun e' he' hn' =>
              Nat.find_min hex he' ⟨lt_trans he' hf.1, hn'⟩⟩
          · exact hex ⟨e, he, hn⟩
        rw [hg]
        exact ⟨hdir, hdir, h0, fun _ => rfl, fun hc => absurd h0 hc, hno',
          main s hwf hdir h0 hno'⟩
    · rcases do_mkentry_block0 leaf mode ftype now uid gid hwf hdir h0 with
        ⟨_, h2⟩ | ⟨t1, t2, t3, t4⟩
      · left
        exact ⟨-ENOSPC, by decide, h2⟩
      · right
        have hwt : wf (get_file_blkno s dir 0 1).2 dir :=
          (get_file_blkno_alloc hwf (by decide : 0 < MAX_BLOCKS)).wf
        have hno' : no_entry (dir_block (get_file_blkno s dir 0 1).2 dir) leaf := by
          rw [t3]; exact no_entry_zeros leaf
        refine ⟨hdir, t1, t2, fun hc => absurd hc h0, fun _ => t3, hno', ?_⟩
        rw [t4]
        exact main _ hwt t1 t2 hno'
  · left
    refine ⟨-ENOTDIR, by decide, ?_⟩
    unfold do_mkentry
    rw [if_pos hdir]

/-! ## The allocation invariant through the operations -/

theorem get_file_blk_state (s : fs_state) (i n : Nat) (blk : Block) (a : Nat) :
    (get_file_blk s i n blk a).2.2 = (get_file_blkno s i n a).2 := by
  unfold get_file_blk
  simp only
  split_ifs <;> rfl

theorem vol_ok_write_loop (i now : Nat) : ∀ (cnt : Nat) (s : fs_state) (B o : Nat)
    (buf : List Nat) (len : Nat), vol_ok s → B + cnt ≤ MAX_BLOCKS →
    vol_ok (do_write_loop i now cnt B o buf len s).2.2 := by
  intro cnt
  induction cnt with
  | zero =>
    intro s B o buf len h _
    simp only [do_write_loop]
    exact h
  | succ cnt ih =>
    intro s B o buf len h hB
    have hBlt : B < MAX_BLOCKS := by omega
    obtain ⟨hg, _⟩ := get_file_blk_alloc (h.wf i) hBlt s.stack
    have hv : vol_ok (get_file_blk s i B s.stack 1).2.2 := by
      rw [get_file_blk_state]; exact (vol_ok_alloc h i hBlt).1
    unfold do_write_loop
    generalize get_file_blk s i B s.stack 1 = g at hg hv
    obtain ⟨gres, gblk, t⟩ := g
    simp only at hg hv ⊢
    by_cases hle : gres ≤ 0
    · simp only [hle, if_true]
      exact vol_ok_flush hv i
    · simp only [hle, if_false]
      have hp : ptr t i (lslot B) ≠ 0 ∧ gres = ((ptr t i (lslot B) : Nat) : Int) := by
        rcases hg.result with h0 | h1
        · simp only at h0; omega
        · exact h1
      obtain ⟨hp, he⟩ := hp
      apply ih _ _ _ _ _ _ (by omega)
      refine vol_ok_set_inode ?_ i (by intro ino; exact ⟨rfl, rfl, rfl⟩)
      apply vol_ok_disk_write hv
      intro j τ hτ hnl hpj
      rw [he]
      have : ptr t j τ ≠ ptr t i (lslot B) :=
        hv.ne hτ (lslot_ok hBlt) hpj (Or.inr (fun e => hnl (e ▸ lslot_is_leaf B)))
      exact_mod_cast this

/-- The allocation invariant after `do_write` whose range is addressable. -/
theorem vol_ok_write {s : fs_state} (h : vol_ok s) (i : Nat) (buf : List Nat) {len off : Nat}
    (now : Nat) (hmax : (off + len) / FS_BLOCK_SIZE < MAX_BLOCKS) :
    vol_ok (do_write s i buf len off now).2 := by
  have hle : off / FS_BLOCK_SIZE ≤ (off + len) / FS_BLOCK_SIZE :=
    Nat.div_le_div_right (Nat.le_add_right _ _)
  have L := vol_ok_write_loop i now ((off + len) / FS_BLOCK_SIZE + 1 - off / FS_BLOCK_SIZE) s
    (off / FS_BLOCK_SIZE) (off - off / FS_BLOCK_SIZE * FS_BLOCK_SIZE) buf len h (by omega)
  unfold do_write
  by_cases c1 : off > (s.inodes i).size
  · simp only [c1, if_true]
    exact h
  · simp only [c1, if_false]
    generalize do_write_loop i now ((off + len) / FS_BLOCK_SIZE + 1 - off / FS_BLOCK_SIZE)
      (off / FS_BLOCK_SIZE) (off - off / FS_BLOCK_SIZE * FS_BLOCK_SIZE) buf len s = r at L
    obtain ⟨r1, rem, t⟩ := r
    cases r1 with
    | some e => exact L
    | none => exact vol_ok_flush L i

theorem vol_ok_remove_entry {s : fs_state} (h : vol_ok s) (dir e now : Nat) :
    vol_ok (remove_entry s dir e now) := by
  unfold remove_entry
  apply vol_ok_flush
  refine vol_ok_set_inode ?_ dir (by intro ino; exact ⟨rfl, rfl, rfl⟩)
  apply vol_ok_return_inode
  apply vol_ok_mark
  apply vol_ok_truncate
  exact vol_ok_dir_write h dir _

theorem vol_ok_rename_entry {s : fs_state} (h : vol_ok s) (dir e : Nat) (name : List Nat)
    (now : Nat) : vol_ok (rename_entry s dir e name now) := by
  unfold rename_entry
  apply vol_ok_flush
  refine vol_ok_set_inode ?_ dir (by intro ino; exact ⟨rfl, rfl, rfl⟩)
  exact vol_ok_dir_write h dir _

theorem ptr_mark (s : fs_state) (i j : Nat) (τ : Slot) :
    ptr (mark_inode s i) j τ = ptr s j τ := by
  cases τ <;> rfl

theorem ptr_sub_of_eq {s t : fs_state}
    (h : ∀ (j : Nat) (τ : Slot), τ.ok → ptr t j τ = ptr s j τ) : ptr_sub s t :=
  fun j τ hτ _ => h j τ hτ

theorem ptr_sub_trans {s t u : fs_state} (h1 : ptr_sub s t) (h2 : ptr_sub t u) :
    ptr_sub s u := by
  intro j τ hτ hne
  have e := h2 j τ hτ hne
  rw [e]
  exact h1 j τ hτ (by rw [← e]; exact hne)

theorem init_new_inode_sub (s : fs_state) (mode ftype now uid gid : Nat) :
    ptr_sub s (init_new_inode s mode ftype now uid gid).2 := by
  unfold init_new_inode
  have h1 := get_free_inode_sub s
  by_cases h0 : (get_free_inode s).1 = 0
  · simp only [h0, if_true]; exact h1
  · simp only [h0, if_false]
    apply ptr_sub_trans h1
    apply ptr_sub_of_eq
    intro j τ hτ
    rw [ptr_mark]
    exact ptr_set_inode _ _ (by intro ino; exact ⟨rfl, rfl, rfl⟩) j τ hτ

theorem ptr_set_dir_entry (s : fs_state) (blk : Block) (e inum : Nat) (name : List Nat) :
    ∀ (j : Nat) (τ : Slot), τ.ok → ptr (set_dir_entry s blk e inum name).2 j τ = ptr s j τ := by
  intro j τ hτ
  rw [set_dir_entry_state, ptr_mark]
  exact ptr_set_inode _ _ (by intro ino; exact ⟨rfl, rfl, rfl⟩) j τ hτ

theorem vol_ok_add_entry {s : fs_state} (h : vol_ok s) (dir e : Nat) (leaf : List Nat)
    (mode ftype now uid gid : Nat) :
    vol_ok (add_entry s dir e leaf mode ftype now uid gid) := by
  unfold add_entry
  apply vol_ok_flush
  refine vol_ok_set_inode ?_ dir (by intro ino; exact ⟨rfl, rfl, rfl⟩)
  apply vol_ok_disk_write
  · exact vol_ok_set_dir_entry (vol_ok_init_new_inode h mode ftype now uid gid) _ _ _ _
  · intro j τ hτ hnl hp
    rw [ptr_set_dir_entry _ _ _ _ _ j τ hτ] at hp ⊢
    have e1 := init_new_inode_sub s mode ftype now uid gid j τ hτ hp
    rw [e1] at hp ⊢
    exact dir_blkno_apart h dir j τ hτ hnl hp

/-- Every way through `do_unlink`: no change, or the entry found is removed. -/
theorem do_unlink_cases (s : fs_state) (dir : Nat) (leaf : List Nat) (now : Nat) :
    (∃ err : Int, err < 0 ∧ do_unlink s dir leaf now = (err, s)) ∨
    ∃ e, dir_entry s dir leaf e ∧
      ¬ S_ISDIR (s.inodes (de_inode (dir_block s dir) e)).mode = true ∧
      do_unlink s dir leaf now = (0, remove_entry s dir e now) := by
  by_cases hdir : S_ISDIR (s.inodes dir).mode = true
  · rcases lookup_cases s dir leaf with ⟨e, he⟩ | hno
    · by_cases hd : S_ISDIR (s.inodes (de_inode (dir_block s dir) e)).mode = true
      · left
        refine ⟨-EISDIR, by decide, ?_⟩
        unfold do_unlink
        have hge : ¬ (((e : Nat) : Int) < 0) := by omega
        simp only [hdir, not_true_eq_false, if_false, lookup_found he, hge, Int.toNat_ofNat, hd,
          if_true]
      · right
        exact ⟨e, he, hd, do_unlink_found he hd now⟩
    · left
      refine ⟨-ENOENT, by decide, ?_⟩
      obtain ⟨a, _, _, d⟩ := lookup_none hno s.stack
      unfold do_unlink
      simp only [hdir, not_true_eq_false, if_false, a, if_true, d]
  · left
    refine ⟨-ENOTDIR, by decide, ?_⟩
    unfold do_unlink
    rw [if_pos hdir]

/-- Every way through `do_rmdir`: no change, or the entry found is removed. -/
theorem do_rmdir_cases (s : fs_state) (dir : Nat) (leaf : List Nat) (now : Nat) :
    (∃ err : Int, err < 0 ∧ do_rmdir s dir leaf now = (err, s)) ∨
    ∃ e, dir_entry s dir leaf e ∧
      S_ISDIR (s.inodes (de_inode (dir_block s dir) e)).mode = true ∧
      (s.inodes (de_inode (dir_block s dir) e)).size < 32 ∧
      do_rmdir s dir leaf now = (0, remove_entry s dir e now) := by
  by_cases hex : ∃ e, dir_entry s dir leaf e ∧
      S_ISDIR (s.inodes (de_inode (dir_block s dir) e)).mode = true ∧
      (s.inodes (de_inode (dir_block s dir) e)).size < 32
  · right
    obtain ⟨e, he, hd, hs⟩ := hex
    refine ⟨e, he, hd, hs, ?_⟩
    rw [do_rmdir_found he hd, if_neg (by omega)]
  · left
    apply do_rmdir_negative
    intro e he hd
    by_contra hc
    exact hex ⟨e, he, hd, by omega⟩

/-- Every way through `do_rename` with directory numbers that are not negative: no change,
or the entry found gets the new name. -/
theorem do_rename_cases (s : fs_state) (d1 : Nat) (a : List Nat) (d2 : Nat) (b : List Nat)
    (now : Nat) :
    (∃ err : Int, err < 0 ∧ do_rename s (d1 : Int) a (d2 : Int) b now = some (err, s)) ∨
    ∃ e, d2 = d1 ∧ dir_entry s d1 a e ∧ (∀ e', ¬ dir_entry s d1 b e') ∧
      do_rename s (d1 : Int) a (d2 : Int) b now = some (0, rename_entry s d1 e b now) := by
  by_cases c : (d1 : Int) = 0 ∨ (d1 : Int) ≠ (d2 : Int)
  · left
    refine ⟨-EINVAL, by decide, ?_⟩
    unfold do_rename
    rw [if_pos c]
  · have hd : 0 < d1 := by
      by_contra hc
      exact c (Or.inl (by omega))
    have h12 : d2 = d1 := by
      by_contra hc
      exact c (Or.inr (by omega))
    rw [h12]
    rcases lookup_cases s d1 a with ⟨e, he⟩ | hno
    · rcases lookup_cases s d1 b with ⟨e2, he2⟩ | hno2
      · left
        exact ⟨-EEXIST, by decide, (do_rename_errors_aux s d1 a b now).2 hd e e2 he he2⟩
      · right
        exact ⟨e, rfl, he, hno2, do_rename_found hd he hno2 now⟩
    · left
      exact ⟨-ENOENT, by decide, (do_rename_errors_aux s d1 a b now).1 hd hno⟩

theorem vol_ok_unlink {s : fs_state} (h : vol_ok s) (dir : Nat) (leaf : List Nat) (now : Nat) :
    vol_ok (do_unlink s dir leaf now).2 := by
  rcases do_unlink_cases s dir leaf now with ⟨err, _, e⟩ | ⟨e, _, _, e3⟩
  · rw [e]; exact h
  · rw [e3]; exact vol_ok_remove_entry h dir e now

theorem vol_ok_rmdir {s : fs_state} (h : vol_ok s) (dir : Nat) (leaf : List Nat) (now : Nat) :
    vol_ok (do_rmdir s dir leaf now).2 := by
  rcases do_rmdir_cases s dir leaf now with ⟨err, _, e⟩ | ⟨e, _, _, _, e3⟩
  · rw [e]; exact h
  · rw [e3]; exact vol_ok_remove_entry h dir e now

theorem vol_ok_rename {s : fs_state} (h : vol_ok s) (d1 : Nat) (a : List Nat) (d2 : Nat)
    (b : List Nat) (now : Nat) {r : Int × fs_state}
    (hr : do_rename s (d1 : Int) a (d2 : Int) b now = some r) : vol_ok r.2 := by
  rcases do_rename_cases s d1 a d2 b now with ⟨err, _, e⟩ | ⟨e, _, _, _, e3⟩
  · rw [e] at hr
    rw [← Option.some.inj hr]; exact h
  · rw [e3] at hr
    rw [← Option.some.inj hr]; exact vol_ok_rename_entry h d1 e b now

theorem vol_ok_mkentry {s : fs_state} (h : vol_ok s) (dir : Nat) (leaf : List Nat)
    (mode ftype now uid gid : Nat) :
    vol_ok (do_mkentry s dir leaf mode ftype now uid gid).2 := by
  have ht := (vol_ok_alloc h dir (by decide : 0 < MAX_BLOCKS)).1
  rcases do_mkentry_cases leaf mode ftype now uid gid (h.wf dir) with
    ⟨err, _, e⟩ | ⟨_, _, _, _, _, _, ⟨err, _, e⟩ | ⟨_, e⟩ | ⟨e, _, _, e3⟩⟩
  · rw [e]; exact h
  · rw [e]; exact ht
  · rw [e]; exact vol_ok_init_new_inode ht mode ftype now uid gid
  · rw [e3]; exact vol_ok_add_entry ht dir e leaf mode ftype now uid gid


/-! ## A successful `do_mkentry` -/

theorem file_type_new_mode (mode ftype : Nat) :
    file_type (mode % 4294967296 - file_type mode * 4096 + file_type ftype * 4096) =
      file_type ftype ∧
    (mode % 4294967296 - file_type mode * 4096 + file_type ftype * 4096) % 4096 = mode % 4096 ∧
    (mode % 4294967296 - file_type mode * 4096 + file_type ftype * 4096) / 65536 =
      mode % 4294967296 / 65536 := by
  unfold file_type
  omega

/-- A successful `do_mkentry` on a well-formed, allocated directory: the state `t` with
block 0 of the directory, the slot and the new inode. -/
theorem do_mkentry_success {s : fs_state} {dir : Nat} (leaf : List Nat)
    (mode ftype now uid gid : Nat) (hwf : wf s dir) (hmap : s.inode_map dir = true)
    (hn : s.n_inodes ≤ 1073741824)
    (hok : 0 ≤ (do_mkentry s dir leaf mode ftype now uid gid).1) :
    ∃ e, wf (get_file_blkno s dir 0 1).2 dir ∧ has_block0 (get_file_blkno s dir 0 1).2 dir ∧
      first_free (dir_block (get_file_blkno s dir 0 1).2 dir) e ∧
      no_entry (dir_block (get_file_blkno s dir 0 1).2 dir) leaf ∧
      free_inode (get_file_blkno s dir 0 1).2 ≠ 0 ∧
      (get_file_blkno s dir 0 1).2.n_inodes ≤ 1073741824 ∧
      (get_file_blkno s dir 0 1).2.inode_map = s.inode_map ∧
      dir ≠ free_inode (get_file_blkno s dir 0 1).2 ∧
      do_mkentry s dir leaf mode ftype now uid gid =
        ((free_inode (get_file_blkno s dir 0 1).2 : Int),
          add_entry (get_file_blkno s dir 0 1).2 dir e leaf mode ftype now uid gid) := by
  have A := get_file_blkno_alloc hwf (by decide : 0 < MAX_BLOCKS)
  obtain ⟨_, f2, _, _, _, f6, _, _, _⟩ := A.grow.frame
  rcases do_mkentry_cases leaf mode ftype now uid gid hwf with
    ⟨err, h1, e⟩ | ⟨_, _, h0, _, _, hno, ⟨err, h1, e⟩ | ⟨h1, e⟩ | ⟨e, he, hi, e3⟩⟩
  · rw [e] at hok; exact absurd hok (by simp only; omega)
  · rw [e] at hok; exact absurd hok (by simp only; omega)
  · rw [e] at hok; exact absurd hok (by omega)
  · have hn' : (get_file_blkno s dir 0 1).2.n_inodes ≤ 1073741824 := by
      unfold fs_state.n_inodes at hn ⊢; rw [f2]; exact hn
    have hfree : free_inode (get_file_blkno s dir 0 1).2 ≠ 0 := by
      intro h0'
      apply hi
      unfold init_new_inode get_free_inode
      simp only [show first_clear (get_file_blkno s dir 0 1).2.inode_map
        ((get_file_blkno s dir 0 1).2.n_inodes - 1) 1 = free_inode (get_file_blkno s dir 0 1).2
        from rfl, h0', if_true]
      decide
    have hne : dir ≠ free_inode (get_file_blkno s dir 0 1).2 := by
      intro e'
      have := (free_inode_spec hfree).2.2
      rw [← e', f6, hmap] at this
      exact Bool.noConfusion this
    refine ⟨e, A.wf, h0, he, hno, hfree, hn', f6, hne, ?_⟩
    rw [e3, init_new_inode_found hfree hn']


/-! ## Counting valid entries -/

theorem countP_update (p q : Nat → Bool) (e : Nat) (h : ∀ x, x ≠ e → q x = p x) :
    ∀ l : List Nat, l.Nodup →
      l.countP q + (if e ∈ l ∧ p e = true then 1 else 0) =
        l.countP p + (if e ∈ l ∧ q e = true then 1 else 0) := by
  intro l
  induction l with
  | nil => intro _; simp
  | cons a l ih =>
    intro hnd
    have hal : a ∉ l := (List.nodup_cons.mp hnd).1
    have IH := ih (List.nodup_cons.mp hnd).2
    rw [List.countP_cons, List.countP_cons]
    by_cases hae : a = e
    · subst hae
      have hp : (if a ∈ l ∧ p a = true then 1 else 0) = 0 := by simp [hal]
      have hq : (if a ∈ l ∧ q a = true then 1 else 0) = 0 := by simp [hal]
      rw [hp, hq] at IH
      simp only [List.mem_cons, true_or, true_and]
      omega
    · have hqa : q a = p a := h a hae
      have hm : ∀ r : Nat → Bool, (e ∈ a :: l ∧ r e = true) ↔ (e ∈ l ∧ r e = true) := by
        intro r
        simp only [List.mem_cons]
        constructor
        · rintro ⟨h1 | h1, h2⟩
          · exact absurd h1.symm hae
          · exact ⟨h1, h2⟩
        · rintro ⟨h1, h2⟩; exact ⟨Or.inr h1, h2⟩
      simp only [hm, hqa]
      omega

theorem count_valid_le (blk : Block) : count_valid blk ≤ DIRENTS_PER_BLK := by
  unfold count_valid
  have := List.countP_le_length (fun e => decide (de_valid blk e = 1))
    (l := List.range DIRENTS_PER_BLK)
  simpa using this

theorem count_valid_zeros : count_valid zeros = 0 := by decide

theorem count_valid_congr {blk1 blk2 : Block}
    (h : ∀ e, e < DIRENTS_PER_BLK → de_valid blk2 e = de_valid blk1 e) :
    count_valid blk2 = count_valid blk1 := by
  unfold count_valid
  apply List.countP_congr
  intro e he
  rw [h e (List.mem_range.mp he)]

/-- One entry goes from valid to invalid. -/
theorem count_valid_clear {blk1 blk2 : Block} {e : Nat} (he : e < DIRENTS_PER_BLK)
    (h1 : de_valid blk1 e = 1) (h2 : de_valid blk2 e = 0)
    (h : ∀ e', e' ≠ e → de_valid blk2 e' = de_valid blk1 e') :
    count_valid blk2 + 1 = count_valid blk1 := by
  have := countP_update (fun x => decide (de_valid blk1 x = 1))
    (fun x => decide (de_valid blk2 x = 1)) e (fun x hx => by simp only [h x hx])
    (List.range DIRENTS_PER_BLK) (List.nodup_range _)
  simp only [List.mem_range, he, true_and, h1, h2, decide_True, if_true, zero_ne_one,
    decide_False, Bool.false_eq_true, if_false] at this
  unfold count_valid
  omega

/-- One entry goes from invalid to valid. -/
theorem count_valid_set {blk1 blk2 : Block} {e : Nat} (he : e < DIRENTS_PER_BLK)
    (h1 : de_valid blk1 e = 0) (h2 : de_valid blk2 e = 1)
    (h : ∀ e', e' ≠ e → de_valid blk2 e' = de_valid blk1 e') :
    count_valid blk2 = count_valid blk1 + 1 :=
  (count_valid_clear he h2 h1 (fun e' he' => (h e' he').symm)).symm

theorem count_valid_lt_of_free {blk : Block} {e : Nat} (he : e < DIRENTS_PER_BLK)
    (h1 : de_valid blk e = 0) : count_valid blk < DIRENTS_PER_BLK := by
  have h2 := @count_valid_set blk (set_de_valid blk e 1) e he h1
    (by rw [de_valid_set_de_valid])
    (fun e' he' => by simp only [de_valid, set_de_valid, de_word_set32_ne _ he'])
  have := count_valid_le (set_de_valid blk e 1)
  omega

theorem de_valid_entry_block_ne (blk : Block) {e e' : Nat} (h : e' ≠ e) (d inum : Nat)
    (name : List Nat) : de_valid (entry_block blk e d inum name) e' = de_valid blk e' := by
  simp only [de_valid, entry_block, set_de_inode, set_de_isDir, set_de_valid,
    de_word_set32_ne _ h, de_word_strncpy_name]

theorem de_valid_strncpy_name (blk : Block) (e e' : Nat) (name : List Nat) :
    de_valid (strncpy_name blk e name) e' = de_valid blk e' := by
  simp only [de_valid, de_word_strncpy_name]

/-! ## The number of valid entries of a directory -/

theorem has_block0_congr {s t : fs_state} {d : Nat}
    (h1 : (t.inodes d).direct 0 = (s.inodes d).direct 0) (h2 : t.disk.nblks = s.disk.nblks) :
    has_block0 t d ↔ has_block0 s d := by
  unfold has_block0 dir_blkno
  rw [h1, h2]

theorem valid_count_congr {s t : fs_state} {d : Nat}
    (h1 : (t.inodes d).direct 0 = (s.inodes d).direct 0) (h2 : t.disk.nblks = s.disk.nblks)
    (h3 : has_block0 s d → dir_block t d = dir_block s d) :
    valid_count t d = valid_count s d := by
  unfold valid_count
  by_cases h0 : has_block0 s d
  · rw [if_pos h0, if_pos ((has_block0_congr h1 h2).mpr h0), h3 h0]
  · rw [if_neg h0, if_neg (fun h => h0 ((has_block0_congr h1 h2).mp h))]

theorem dir_block_congr {s t : fs_state} {d : Nat}
    (h1 : (t.inodes d).direct 0 = (s.inodes d).direct 0)
    (h3 : t.disk.blocks (dir_blkno s d).toNat = s.disk.blocks (dir_blkno s d).toNat) :
    dir_block t d = dir_block s d := by
  unfold dir_block
  have : dir_blkno t d = dir_blkno s d := by unfold dir_blkno; rw [h1]
  rw [this, h3]

theorem valid_count_no_block {s : fs_state} {d : Nat} (h : (s.inodes d).direct 0 = 0) :
    valid_count s d = 0 := by
  unfold valid_count
  rw [if_neg]
  intro h0
  exact direct0_of_has_block0 h0 h

/-- Block 0 of another directory: a block of the data region, not block 0 of `dir`. -/
theorem other_dir_block {s : fs_state} (h : vol_ok s) {d dir : Nat} (hne : d ≠ dir)
    (h0 : has_block0 s d) :
    s.data_base ≤ (dir_blkno s d).toNat ∧ (((dir_blkno s d).toNat : Nat) : Int) ≠ dir_blkno s dir ∧
    s.block_map (dir_blkno s d).toNat = true ∧ (dir_blkno s d).toNat = (s.inodes d).direct 0 := by
  obtain ⟨hb, hdb, _⟩ := dir_blkno_of_wf (h.wf d) h0
  have hd0 := direct0_of_has_block0 h0
  have hk : (Slot.direct 0).ok := show (0 : Nat) < N_DIRECT by decide
  rw [hb, Int.toNat_ofNat]
  refine ⟨hdb, ?_, ((h.wf d).ptr_ok (.direct 0) hk hd0).2.2, rfl⟩
  unfold dir_blkno
  by_cases hz : (s.inodes dir).direct 0 = 0
  · rw [hz, int_of_u32_zero]; exact_mod_cast hd0
  · have hlt := ((h.wf dir).ptr_lt (σ := .direct 0) hk hz).2
    simp only [ptr] at hlt
    rw [int_of_u32_lt hlt]
    have hne' : ptr s d (.direct 0) ≠ ptr s dir (.direct 0) :=
      h.apart d dir hne (.direct 0) (.direct 0) hk hk hd0
    simp only [ptr] at hne'
    exact_mod_cast hne'

/-! ## What the directory operations leave alone -/

theorem dir_and_file_of_vol_ok {s : fs_state} (h : vol_ok s) {dir tgt : Nat} (hne : dir ≠ tgt)
    (h0 : has_block0 s dir) : dir_and_file s dir tgt := by
  refine ⟨h.wf dir, h.wf tgt, ?_⟩
  intro σ hσ e
  have hd0 := direct0_of_has_block0 h0
  have hk : (Slot.direct 0).ok := show (0 : Nat) < N_DIRECT by decide
  exact h.apart dir tgt hne (.direct 0) σ hk hσ hd0 e.symm

theorem remove_entry_frame {s : fs_state} (h : vol_ok s) (dir e now : Nat) :
    (∀ j, j ≠ dir → j ≠ de_inode (dir_block s dir) e →
      (remove_entry s dir e now).inodes j = s.inodes j) ∧
    (∀ c, s.data_base ≤ c → (c : Int) ≠ dir_blkno s dir →
      (remove_entry s dir e now).disk.blocks c = s.disk.blocks c) ∧
    (remove_entry s dir e now).disk.nblks = s.disk.nblks ∧
    (∀ j, (remove_entry s dir e now).inode_map j =
      if j = de_inode (dir_block s dir) e then false else s.inode_map j) := by
  have hw1 := (vol_ok_dir_write h dir (set_de_valid (dir_block s dir) e 0)).wf
    (de_inode (dir_block s dir) e)
  rw [remove_entry_eq rfl hw1 now]
  generalize owned_blocks (s.disk_write (dir_blkno s dir) (set_de_valid (dir_block s dir) e 0))
    (de_inode (dir_block s dir) e) = l
  generalize de_inode (dir_block s dir) e = tgt
  have q1 : (release_all (s.disk_write (dir_blkno s dir)
      (set_de_valid (dir_block s dir) e 0)) l).inodes = s.inodes := by
    rw [release_all_inodes]; rfl
  have q2 : ∀ c : Nat, (c : Int) ≠ dir_blkno s dir → (release_all (s.disk_write (dir_blkno s dir)
      (set_de_valid (dir_block s dir) e 0)) l).disk.blocks c = s.disk.blocks c := by
    intro c hc
    rw [release_all_disk]; exact disk_write_blocks_ne s _ _ hc
  have q3 : (release_all (s.disk_write (dir_blkno s dir)
      (set_de_valid (dir_block s dir) e 0)) l).disk.nblks = s.disk.nblks := by
    rw [release_all_disk]; exact disk_write_nblks s _ _
  have q4 : (release_all (s.disk_write (dir_blkno s dir)
      (set_de_valid (dir_block s dir) e 0)) l).inode_map = s.inode_map := by
    rw [release_all_inode_map]; rfl
  have q5 : (release_all (s.disk_write (dir_blkno s dir)
      (set_de_valid (dir_block s dir) e 0)) l).data_base = s.data_base := by
    rw [release_all_data_base]; rfl
  generalize release_all (s.disk_write (dir_blkno s dir)
      (set_de_valid (dir_block s dir) e 0)) l = R at q1 q2 q3 q4 q5 ⊢
  refine ⟨?_, ?_, ?_, ?_⟩
  · intro j hj1 hj2
    rw [flush_mark_inodes]
    simp only [fs_state.set_inode, return_inode, mark_inode, hj1, hj2, if_false, q1]
  · intro c hc hne
    have hdb : ((return_inode (mark_inode (R.set_inode tgt (truncated_inode now)) tgt)
        tgt).set_inode dir (fun ino => { ino with size := dir_size_less ino.size })).data_base
        ≤ c := by
      have : ((return_inode (mark_inode (R.set_inode tgt (truncated_inode now)) tgt)
        tgt).set_inode dir (fun ino => { ino with size := dir_size_less ino.size })).data_base
        = R.data_base := rfl
      rw [this, q5]; exact hc
    rw [flush_mark_blocks _ _ hdb]
    exact q2 c hne
  · exact q3
  · intro j
    show (if j = tgt then false else R.inode_map j) = _
    rw [q4]

theorem rename_entry_frame (s : fs_state) (dir e : Nat) (name : List Nat) (now : Nat) :
    (∀ j, j ≠ dir → (rename_entry s dir e name now).inodes j = s.inodes j) ∧
    (∀ c, s.data_base ≤ c → (c : Int) ≠ dir_blkno s dir →
      (rename_entry s dir e name now).disk.blocks c = s.disk.blocks c) := by
  unfold rename_entry
  refine ⟨?_, ?_⟩
  · intro j hj
    rw [flush_mark_inodes]
    simp only [fs_state.set_inode, fs_state.disk_write, hj, if_false]
  · intro c hc hne
    rw [flush_mark_blocks _ _ (by exact hc)]
    exact disk_write_blocks_ne s _ _ hne

theorem add_entry_frame {s : fs_state} (h : free_inode s ≠ 0) (hn : s.n_inodes ≤ 1073741824)
    (dir e : Nat) (leaf : List Nat) (mode ftype now uid gid : Nat) :
    (∀ j, j ≠ dir → j ≠ free_inode s →
      (add_entry s dir e leaf mode ftype now uid gid).inodes j = s.inodes j) ∧
    (∀ c, s.data_base ≤ c → (c : Int) ≠ dir_blkno s dir →
      (add_entry s dir e leaf mode ftype now uid gid).disk.blocks c = s.disk.blocks c) := by
  have h3 : (get_free_inode s).2 = { s with
      inode_map := fun j => if j = free_inode s then true else s.inode_map j
      inodes := fun j => if j = free_inode s then zero_inode else s.inodes j
      dirty_inodes := fun j =>
        if j = free_inode s / INODES_PER_BLK then true else s.dirty_inodes j
      dirty_maps := fun j =>
        if j = free_inode s / BITS_PER_BLK then true else s.dirty_maps j } := by
    unfold get_free_inode
    simp only [show first_clear s.inode_map (s.n_inodes - 1) 1 = free_inode s from rfl, h,
      if_false]
  unfold add_entry
  rw [init_new_inode_eq h hn]
  simp only [Int.toNat_ofNat, set_dir_entry_block, set_dir_entry_state]
  generalize hx : mark_inode ((get_free_inode s).2.set_inode (free_inode s) (fun ino =>
        { ino with
          mode := mode % 4294967296 - file_type mode * 4096 + file_type ftype * 4096
          ctime := now % 4294967296
          mtime := now % 4294967296
          size := 0
          nlink := 0
          uid := uid % 65536
          gid := gid % 65536 })) (free_inode s) = x
  have x1 : ∀ j, j ≠ free_inode s → x.inodes j = s.inodes j := by
    intro j hj
    rw [← hx, h3]
    simp only [mark_inode, fs_state.set_inode, hj, if_false]
  have x3 : x.disk = s.disk := by rw [← hx, h3]; rfl
  have x6 : x.data_base = s.data_base := by rw [← hx, h3]; rfl
  clear hx h3
  generalize entry_block (dir_block s dir) e
    (if S_ISDIR (x.inodes (free_inode s)).mode then 1 else 0) (free_inode s) leaf = nb
  generalize hy : ((mark_inode (x.set_inode (free_inode s)
      (fun ino => { ino with nlink := (ino.nlink + 1) % 4294967296 }))
      (free_inode s)).disk_write (dir_blkno s dir) nb).set_inode dir
      (fun ino => { ino with size := (ino.size + 32) % 4294967296 }) = y
  have y1 : ∀ j, j ≠ dir → j ≠ free_inode s → y.inodes j = s.inodes j := by
    intro j hj1 hj2
    rw [← hy]
    simp only [fs_state.set_inode, fs_state.disk_write, mark_inode, hj1, hj2, if_false, x1 j hj2]
  have y4 : ∀ c : Nat, (c : Int) ≠ dir_blkno s dir → y.disk.blocks c = s.disk.blocks c := by
    intro c hc
    rw [← hy, ← x3]
    exact disk_write_blocks_ne (mark_inode (x.set_inode (free_inode s)
      (fun ino => { ino with nlink := (ino.nlink + 1) % 4294967296 })) (free_inode s)) _ nb hc
  have y5 : y.data_base = s.data_base := by rw [← hy, ← x6]; rfl
  clear hy
  refine ⟨?_, ?_⟩
  · intro j hj1 hj2
    rw [flush_mark_inodes]
    exact y1 j hj1 hj2
  · intro c hc hne
    rw [flush_mark_blocks y dir (by rw [y5]; exact hc)]
    exact y4 c hne

/-! ## The directory-size invariant through the operations -/

theorem size_ok_of_same {s t : fs_state} (hsz : size_ok s) (hmap : t.inode_map = s.inode_map)
    (hd : t.disk = s.disk)
    (hi : ∀ j, (t.inodes j).mode = (s.inodes j).mode ∧ (t.inodes j).size = (s.inodes j).size ∧
      (t.inodes j).direct 0 = (s.inodes j).direct 0) : size_ok t := by
  intro d hm hdir
  rw [hmap] at hm
  rw [(hi d).1] at hdir
  rw [(hi d).2.1, hsz d hm hdir,
    valid_count_congr (hi d).2.2 (by rw [hd]) (fun _ => dir_block_congr (hi d).2.2 (by rw [hd]))]

/-- An unchanged directory keeps its count of valid entries. -/
theorem valid_count_other {s t : fs_state} (h : vol_ok s) {d dir : Nat} (hne : d ≠ dir)
    (hi : t.inodes d = s.inodes d) (hn : t.disk.nblks = s.disk.nblks)
    (hb : ∀ c, s.data_base ≤ c → (c : Int) ≠ dir_blkno s dir →
      t.disk.blocks c = s.disk.blocks c) :
    valid_count t d = valid_count s d := by
  apply valid_count_congr (by rw [hi]) hn
  intro h0
  obtain ⟨o1, o2, _, _⟩ := other_dir_block h hne h0
  exact dir_block_congr (by rw [hi]) (hb _ o1 o2)

theorem size_ok_remove_entry {s : fs_state} (hv : vol_ok s) (hsz : size_ok s) {dir e : Nat}
    {leaf : List Nat} (he : dir_entry s dir leaf e) (now : Nat) :
    size_ok (remove_entry s dir e now) := by
  obtain ⟨r1, r2, r3, r4⟩ := remove_entry_frame hv dir e now
  obtain ⟨hdir, h0, he32, ⟨hval, _⟩, _⟩ := he
  intro d hmap hd
  have hdt : d ≠ de_inode (dir_block s dir) e := by
    intro e'
    rw [r4 d, if_pos e'] at hmap
    exact Bool.noConfusion hmap
  have hmap_s : s.inode_map d = true := by
    rw [r4 d, if_neg hdt] at hmap; exact hmap
  by_cases hdd : d = dir
  · rw [hdd] at hdt hmap_s ⊢
    obtain ⟨a1, _, a3, _, _⟩ := remove_entry_spec h0 rfl (dir_and_file_of_vol_ok hv hdt h0)
      hdt now
    have hs := hsz dir hmap_s hdir
    have hb0 : has_block0 (remove_entry s dir e now) dir :=
      (has_block0_congr (by rw [a1]) r3).mpr h0
    have hc := @count_valid_clear (dir_block s dir)
      (set_de_valid (dir_block s dir) e 0) e he32 hval
      (by rw [de_valid_set_de_valid])
      (fun e' he' => by simp only [de_valid, set_de_valid, de_word_set32_ne _ he'])
    have hle := count_valid_le (dir_block s dir)
    unfold valid_count at hs ⊢
    rw [if_pos h0] at hs
    rw [if_pos hb0, a3, a1]
    simp only
    rw [dir_size_less_ge (by omega) (by simp only [DIRENTS_PER_BLK] at hle; omega)]
    omega
  · have hi := r1 d hdd hdt
    rw [hi] at hd ⊢
    rw [valid_count_other hv hdd hi r3 r2]
    exact hsz d hmap_s hd

theorem size_ok_rename_entry {s : fs_state} (hv : vol_ok s) (hsz : size_ok s) {dir : Nat}
    (h0 : has_block0 s dir) (e : Nat) (name : List Nat) (now : Nat) :
    size_ok (rename_entry s dir e name now) := by
  obtain ⟨r1, r2⟩ := rename_entry_frame s dir e name now
  obtain ⟨a1, a2, a3, a4, _⟩ := rename_entry_spec (hv.wf dir) h0 e name now
  intro d hmap hd
  rw [a4] at hmap
  by_cases hdd : d = dir
  · rw [hdd] at hmap hd ⊢
    rw [a1] at hd ⊢
    have hs := hsz dir hmap hd
    have hb0 : has_block0 (rename_entry s dir e name now) dir :=
      (has_block0_congr (by rw [a1]) a2).mpr h0
    unfold valid_count at hs ⊢
    rw [if_pos h0] at hs
    rw [if_pos hb0, a3,
      count_valid_congr (fun e' _ => de_valid_strncpy_name (dir_block s dir) e e' name)]
    exact hs
  · have hi := r1 d hdd
    rw [hi] at hd ⊢
    rw [valid_count_other hv hdd hi a2 r2]
    exact hsz d hmap hd

/-- The state in which `get_file_blkno(i, 0, 1)` leaves the volume: the size invariant. -/
theorem size_ok_alloc0 {s : fs_state} (hv : vol_ok s) (hsz : size_ok s) (i : Nat) :
    size_ok (get_file_blkno s i 0 1).2 := by
  have hn0 : (0 : Nat) < MAX_BLOCKS := by decide
  have A := get_file_blkno_alloc (hv.wf i) hn0
  have L := get_file_blkno_local (hv.wf i) hn0
  obtain ⟨_, _, _, _, _, f6, f7, _, _⟩ := A.grow.frame
  intro d hmap hd
  rw [f6] at hmap
  by_cases hdi : d = i
  · rw [hdi] at hmap hd ⊢
    rw [L.mode_eq] at hd
    rw [A.size_eq, hsz i hmap hd]
    congr 1
    by_cases hz : (s.inodes i).direct 0 = 0
    · rw [valid_count_no_block hz]
      rcases get_free_blk_cases s with ⟨hf, _⟩ | ⟨b, hb, hf⟩
      · have hg : get_file_blkno s i 0 1 = (0, s) := by
          unfold get_file_blkno
          simp only [hn0, show (0 : Nat) < N_DIRECT by decide, if_true, hz, one_ne_zero, if_false,
            hf]
        rw [hg]
        exact (valid_count_no_block hz).symm
      · rw [get_file_blkno_zero_new (hv.wf i) hz hb hf]
        obtain ⟨_, _, t3, t4, _⟩ := block0_new i (hv.wf i) hb
        unfold valid_count
        simp only at t3 t4 ⊢
        rw [if_pos t3, t4]
        exact (count_valid_zeros).symm
    · rw [get_file_blkno_zero_present hz 1]
  · have hi := L.others d hdi
    rw [hi] at hd ⊢
    rw [hsz d hmap hd]
    congr 1
    symm
    apply valid_count_congr (by rw [hi]) f7
    intro h0
    obtain ⟨_, _, o3, o4⟩ := other_dir_block hv hdi h0
    apply dir_block_congr (by rw [hi])
    apply L.disk_eq _ o3
    intro τ hτ _ e
    have hk : (Slot.direct 0).ok := show (0 : Nat) < N_DIRECT by decide
    have hd0 := direct0_of_has_block0 h0
    rw [o4] at e
    exact hv.apart d i hdi (.direct 0) τ hk hτ hd0 e.symm

theorem init_new_inode_frame (s : fs_state) (mode ftype now uid gid : Nat) :
    (init_new_inode s mode ftype now uid gid).2.disk = s.disk ∧
    (∀ j, j ≠ free_inode s →
      (init_new_inode s mode ftype now uid gid).2.inodes j = s.inodes j ∧
      (init_new_inode s mode ftype now uid gid).2.inode_map j = s.inode_map j) ∧
    (free_inode s ≠ 0 →
      ((init_new_inode s mode ftype now uid gid).2.inodes (free_inode s)).size = 0 ∧
      ((init_new_inode s mode ftype now uid gid).2.inodes (free_inode s)).direct 0 = 0) ∧
    (free_inode s = 0 → (init_new_inode s mode ftype now uid gid).2 = s) := by
  unfold init_new_inode get_free_inode
  simp only [show first_clear s.inode_map (s.n_inodes - 1) 1 = free_inode s from rfl]
  by_cases h : free_inode s = 0
  · simp only [h, if_true, and_self, implies_true, ne_eq, not_true_eq_false, false_implies]
  · simp only [h, if_false]
    refine ⟨rfl, ?_, ?_, ?_⟩
    · intro j hj
      simp only [mark_inode, fs_state.set_inode, hj, if_false, and_self]
    · intro _
      simp only [mark_inode, fs_state.set_inode, if_true, zero_inode, and_self]
    · first
        | exact fun hc => absurd hc h
        | exact fun hc => hc.elim

theorem size_ok_init_new_inode {s : fs_state} (hsz : size_ok s) (mode ftype now uid gid : Nat) :
    size_ok (init_new_inode s mode ftype now uid gid).2 := by
  obtain ⟨i1, i2, i3, i4⟩ := init_new_inode_frame s mode ftype now uid gid
  by_cases h : free_inode s = 0
  · rw [i4 h]; exact hsz
  · intro d hmap hd
    by_cases hdf : d = free_inode s
    · rw [hdf]
      rw [valid_count_no_block (i3 h).2, (i3 h).1]
    · obtain ⟨j1, j2⟩ := i2 d hdf
      rw [j2] at hmap
      rw [j1] at hd ⊢
      rw [hsz d hmap hd]
      congr 1
      exact (valid_count_congr (by rw [j1]) (by rw [i1]) (fun _ => dir_block_congr (by rw [j1])
        (by rw [i1]))).symm

theorem size_ok_add_entry {s : fs_state} (hv : vol_ok s) (hsz : size_ok s) {dir e : Nat}
    (h0 : has_block0 s dir) (hfree : first_free (dir_block s dir) e)
    (hmap : s.inode_map dir = true) (hfi : free_inode s ≠ 0) (hn : s.n_inodes ≤ 1073741824)
    (leaf : List Nat) (mode ftype now uid gid : Nat) :
    size_ok (add_entry s dir e leaf mode ftype now uid gid) := by
  have hne : dir ≠ free_inode s := by
    intro e'
    have := (free_inode_spec hfi).2.2
    rw [← e', hmap] at this
    exact Bool.noConfusion this
  obtain ⟨a1, a2, a3, a4, a5, _⟩ :=
    add_entry_spec (hv.wf dir) h0 hfi hn hne e leaf mode ftype now uid gid
  obtain ⟨r1, r2⟩ := add_entry_frame hfi hn dir e leaf mode ftype now uid gid
  intro d hm hd
  by_cases hdf : d = free_inode s
  · rw [hdf, a2]
    have hz : ((add_entry s dir e leaf mode ftype now uid gid).inodes (free_inode s)).direct 0
        = 0 := by rw [a2]; rfl
    rw [valid_count_no_block hz]
    rfl
  · rw [a5 d, if_neg hdf] at hm
    by_cases hdd : d = dir
    · rw [hdd] at hm hd ⊢
      rw [a1] at hd ⊢
      have hs := hsz dir hm hd
      have hb0 : has_block0 (add_entry s dir e leaf mode ftype now uid gid) dir :=
        (has_block0_congr (by rw [a1]) a3).mpr h0
      have hc := @count_valid_set (dir_block s dir)
        (entry_block (dir_block s dir) e
          (if S_ISDIR (new_inode mode ftype now uid gid).mode then 1 else 0) (free_inode s) leaf)
        e hfree.1 hfree.2.1 (entry_block_valid _ _ _ _ _)
        (fun e' he' => de_valid_entry_block_ne _ he' _ _ _)
      have hlt := count_valid_lt_of_free hfree.1 hfree.2.1
      unfold valid_count at hs ⊢
      rw [if_pos h0] at hs
      rw [if_pos hb0, a4, hc]
      simp only [DIRENTS_PER_BLK] at hlt ⊢
      omega
    · have hi := r1 d hdd hdf
      rw [hi] at hd ⊢
      rw [valid_count_other hv hdd hi a3 r2]
      exact hsz d hm hd

theorem size_ok_unlink {s : fs_state} (hv : vol_ok s) (hsz : size_ok s) (dir : Nat)
    (leaf : List Nat) (now : Nat) : size_ok (do_unlink s dir leaf now).2 := by
  rcases do_unlink_cases s dir leaf now with ⟨err, _, e⟩ | ⟨e, he, _, e3⟩
  · rw [e]; exact hsz
  · rw [e3]; exact size_ok_remove_entry hv hsz he now

theorem size_ok_rmdir {s : fs_state} (hv : vol_ok s) (hsz : size_ok s) (dir : Nat)
    (leaf : List Nat) (now : Nat) : size_ok (do_rmdir s dir leaf now).2 := by
  rcases do_rmdir_cases s dir leaf now with ⟨err, _, e⟩ | ⟨e, he, _, _, e3⟩
  · rw [e]; exact hsz
  · rw [e3]; exact size_ok_remove_entry hv hsz he now

theorem size_ok_rename {s : fs_state} (hv : vol_ok s) (hsz : size_ok s) (d1 : Nat)
    (a : List Nat) (d2 : Nat) (b : List Nat) (now : Nat) {r : Int × fs_state}
    (hr : do_rename s (d1 : Int) a (d2 : Int) b now = some r) : size_ok r.2 := by
  rcases do_rename_cases s d1 a d2 b now with ⟨err, _, e⟩ | ⟨e, _, he, _, e3⟩
  · rw [e] at hr
    rw [← Option.some.inj hr]; exact hsz
  · rw [e3] at hr
    rw [← Option.some.inj hr]; exact size_ok_rename_entry hv hsz he.2.1 e b now

theorem size_ok_mkentry {s : fs_state} (hv : vol_ok s) (hsz : size_ok s) {dir : Nat}
    (hmap : s.inode_map dir = true) (hn : s.n_inodes ≤ 1073741824) (leaf : List Nat)
    (mode ftype now uid gid : Nat) :
    size_ok (do_mkentry s dir leaf mode ftype now uid gid).2 := by
  have hvt := (vol_ok_alloc hv dir (by decide : 0 < MAX_BLOCKS)).1
  have hst := size_ok_alloc0 hv hsz dir
  have A := get_file_blkno_alloc (hv.wf dir) (by decide : 0 < MAX_BLOCKS)
  obtain ⟨_, f2, _, _, _, f6, _, _, _⟩ := A.grow.frame
  rcases do_mkentry_cases leaf mode ftype now uid gid (hv.wf dir) with
    ⟨err, _, e⟩ | ⟨_, _, h0, _, _, _, ⟨err, _, e⟩ | ⟨_, e⟩ | ⟨e, he, hi, e3⟩⟩
  · rw [e]; exact hsz
  · rw [e]; exact hst
  · rw [e]; exact size_ok_init_new_inode hst mode ftype now uid gid
  · rw [e3]
    have hn' : (get_file_blkno s dir 0 1).2.n_inodes ≤ 1073741824 := by
      unfold fs_state.n_inodes at hn ⊢; rw [f2]; exact hn
    have hfree : free_inode (get_file_blkno s dir 0 1).2 ≠ 0 := by
      intro h0'
      apply hi
      unfold init_new_inode get_free_inode
      simp only [show first_clear (get_file_blkno s dir 0 1).2.inode_map
        ((get_file_blkno s dir 0 1).2.n_inodes - 1) 1 = free_inode (get_file_blkno s dir 0 1).2
        from rfl, h0', if_true]
      decide
    exact size_ok_add_entry hvt hst h0 he (by rw [f6]; exact hmap) hfree hn' leaf mode ftype
      now uid gid

theorem free_lookup_state (s : fs_state) (dir : Nat) (blk : Block) (blkno : Int) :
    (get_dir_free_entry_block s dir blk blkno).state = (get_file_blkno s dir 0 1).2 := by
  unfold get_dir_free_entry_block
  simp only
  split_ifs <;> exact get_file_blk_state s dir 0 blk 1

theorem size_ok_increment {s : fs_state} (hsz : size_ok s) (src : Nat) :
    size_ok (increment_link_count s src) := by
  unfold increment_link_count
  by_cases hd : S_ISDIR (s.inodes src).mode = true
  · simp only [hd, if_true]; exact hsz
  · simp only [hd, Bool.false_eq_true, if_false]
    refine size_ok_of_same hsz ?_ ?_ ?_
    · rfl
    · rfl
    intro j
    by_cases hj : j = src
    · simp only [fs_state.set_inode, hj, if_true, and_self]
    · simp only [fs_state.set_inode, hj, if_false, and_self]

theorem size_ok_set_dir_entry {s : fs_state} (hsz : size_ok s) (blk : Block) (e inum : Nat)
    (name : List Nat) : size_ok (set_dir_entry s blk e inum name).2 := by
  rw [set_dir_entry_state]
  refine size_ok_of_same hsz ?_ ?_ ?_
  · rfl
  · rfl
  intro j
  by_cases hj : j = inum
  · simp only [mark_inode, fs_state.set_inode, hj, if_true, and_self]
  · simp only [mark_inode, fs_state.set_inode, hj, if_false, and_self]

theorem size_ok_link {s : fs_state} (hv : vol_ok s) (hsz : size_ok s) (v src : Nat)
    (dir leaf : List Nat) : size_ok (do_link v s src dir leaf).2 := by
  unfold do_link
  generalize get_inode_of_path_dir v s (dir ++ leaf) leaf = p
  by_cases h1 : p.1 < 0
  · simp only [h1, if_true]; exact hsz
  · simp only [h1, if_false]
    by_cases h2 : (get_dir_entry_block s p.1.toNat s.stack p.2).entno ≥ 0
    · simp only [h2, if_true, get_dir_entry_block_state]; exact hsz
    · simp only [h2, if_false, get_dir_entry_block_state]
      have hst := size_ok_alloc0 hv hsz p.1.toNat
      rw [← free_lookup_state s p.1.toNat (get_dir_entry_block s p.1.toNat s.stack p.2).block
        (get_dir_entry_block s p.1.toNat s.stack p.2).blkno] at hst
      generalize get_dir_free_entry_block s p.1.toNat
        (get_dir_entry_block s p.1.toNat s.stack p.2).block
        (get_dir_entry_block s p.1.toNat s.stack p.2).blkno = r2 at hst
      by_cases h3 : r2.entno < 0
      · simp only [h3, if_true]; exact hst
      · simp only [h3, if_false]
        exact size_ok_set_dir_entry (size_ok_increment hst src) _ _ _ _

theorem size_ok_fs_link {s : fs_state} (hv : vol_ok s) (hsz : size_ok s) (v : Nat)
    (src_path dst_path leaf : List Nat) : size_ok (fs_link v s src_path dst_path leaf).2 := by
  unfold fs_link
  generalize get_inode_of_path v s src_path = a
  generalize get_inode_of_path_dir v s dst_path leaf = d
  generalize get_inode_of_path v s dst_path = b
  by_cases h1 : a < 0
  · simp only [h1, if_true]; exact hsz
  · simp only [h1, if_false]
    by_cases h2 : S_ISDIR (s.inodes a.toNat).mode = true
    · simp only [h2, if_true]; exact hsz
    · simp only [h2, Bool.false_eq_true, if_false]
      by_cases h3 : d.1 < 0
      · simp only [h3, if_true]; exact hsz
      · simp only [h3, if_false]
        by_cases h4 : S_ISDIR (s.inodes d.1.toNat).mode = true
        · simp only [h4, not_true_eq_false, if_false]
          by_cases h5 : d.2.length = 0
          · simp only [h5, if_true]; exact hsz
          · simp only [h5, if_false]
            by_cases h6 : b > 0
            · simp only [h6, if_true]; exact hsz
            · simp only [h6, if_false]
              exact size_ok_link hv hsz v _ _ _
        · simp only [h4, Bool.false_eq_true, not_false_eq_true, if_true]; exact hsz

/-! ## Names that stay distinct -/

theorem no_entry_of_none {s : fs_state} {dir : Nat} {name : List Nat}
    (hdir : S_ISDIR (s.inodes dir).mode = true) (h0 : has_block0 s dir)
    (hno : ∀ e, ¬ dir_entry s dir name e) : no_entry (dir_block s dir) name := by
  intro e he hn
  by_cases hex : ∃ e', e' < DIRENTS_PER_BLK ∧ entry_named (dir_block s dir) e' name
  · have hf := Nat.find_spec hex
    exact hno (Nat.find hex) ⟨hdir, h0, hf.1, hf.2, fun e' he' hn' =>
      Nat.find_min hex he' ⟨lt_trans he' hf.1, hn'⟩⟩
  · exact hex ⟨e, he, hn⟩

theorem terminated_zeros : terminated zeros := fun _ _ => rfl

theorem names_unique_zeros : names_unique zeros := by
  intro name _ _ e1 h1 _ _ hn _
  exact absurd hn (no_entry_zeros name e1 h1)

theorem names_clear {blk : Block} (e : Nat) (ht : terminated blk) (hu : names_unique blk) :
    terminated (set_de_valid blk e 0) ∧ names_unique (set_de_valid blk e 0) := by
  refine ⟨?_, ?_⟩
  · intro e' he'
    rw [de_name_set_de_valid blk e 0 e' _ (by decide)]
    exact ht e' he'
  · intro name hc hlen e1 h1 e2 h2 n1 n2
    have hne : ∀ e', entry_named (set_de_valid blk e 0) e' name → e' ≠ e := by
      intro e' hn hee
      rw [hee] at hn
      have := hn.1
      rw [de_valid_set_de_valid] at this
      exact absurd this (by decide)
    rw [entry_named_set_de_valid_ne blk (hne e1 n1) 0 hlen] at n1
    rw [entry_named_set_de_valid_ne blk (hne e2 n2) 0 hlen] at n2
    exact hu name hc hlen e1 h1 e2 h2 n1 n2

theorem name_fits_of_terminated {blk : Block} {e : Nat} {name : List Nat}
    (ht : terminated blk) (he : e < DIRENTS_PER_BLK) (hlen : name.length < FS_FILENAME_SIZE) :
    name_fits blk e name := by
  unfold name_fits
  by_cases h : name.length < FS_FILENAME_SIZE - 1
  · exact Or.inl h
  · right
    exact ⟨by simp only [FS_FILENAME_SIZE] at *; omega, ht e he⟩

/-- One entry gets a name that no valid entry carries: the names stay distinct. -/
theorem names_unique_of_new {blk1 blk2 : Block} {e : Nat} {b : List Nat}
    (hu : names_unique blk1) (hcb : is_cstr b) (hno : no_entry blk1 b)
    (hnb : name_is blk2 e b)
    (hother : ∀ e', e' ≠ e → ∀ n : List Nat, n.length < FS_FILENAME_SIZE →
      (entry_named blk2 e' n ↔ entry_named blk1 e' n)) :
    names_unique blk2 := by
  intro name hc hlen e1 h1 e2 h2 n1 n2
  have key : ∀ e', e' < DIRENTS_PER_BLK → e' ≠ e → entry_named blk2 e' name →
      entry_named blk2 e name → False := by
    intro e' he' hne hn' hn
    have hnb' : name = b := name_is_inj hc hcb hn.2 hnb
    rw [hnb'] at hn' hlen
    exact hno e' he' ((hother e' hne b hlen).mp hn')
  by_cases c1 : e1 = e
  · by_cases c2 : e2 = e
    · rw [c1, c2]
    · rw [c1] at n1
      exact (key e2 h2 c2 n2 n1).elim
  · by_cases c2 : e2 = e
    · rw [c2] at n2
      exact (key e1 h1 c1 n1 n2).elim
    · exact hu name hc hlen e1 h1 e2 h2 ((hother e1 c1 name hlen).mp n1)
        ((hother e2 c2 name hlen).mp n2)

theorem names_rename {blk : Block} {e : Nat} {b : List Nat} (he : e < DIRENTS_PER_BLK)
    (ht : terminated blk) (hu : names_unique blk) (hcb : is_cstr b)
    (hlen : b.length < FS_FILENAME_SIZE) (hno : no_entry blk b) :
    terminated (strncpy_name blk e b) ∧ names_unique (strncpy_name blk e b) := by
  refine ⟨?_, ?_⟩
  · intro e' he'
    by_cases hee : e' = e
    · rw [hee, de_name_strncpy_name_last]; exact ht e he
    · rw [de_name_strncpy_name_ne blk hee b _ (by decide)]; exact ht e' he'
  · exact names_unique_of_new hu hcb hno
      (name_is_strncpy_name (name_fits_of_terminated ht he hlen))
      (fun e' hne n hn => entry_named_strncpy_name_ne blk hne b hn)

theorem names_add {blk : Block} {e : Nat} {b : List Nat} (d inum : Nat)
    (he : e < DIRENTS_PER_BLK)
    (ht : terminated blk) (hu : names_unique blk) (hcb : is_cstr b)
    (hlen : b.length < FS_FILENAME_SIZE) (hno : no_entry blk b) :
    terminated (entry_block blk e d inum b) ∧ names_unique (entry_block blk e d inum b) := by
  refine ⟨?_, ?_⟩
  · intro e' he'
    by_cases hee : e' = e
    · rw [hee, entry_block_last]; exact ht e he
    · have := entry_block_outside blk e d inum b (32 * e' + 4 + (FS_FILENAME_SIZE - 1))
        (by simp only [FS_FILENAME_SIZE]; omega)
      simp only [de_name]
      rw [this]
      exact ht e' he'
  · exact names_unique_of_new hu hcb hno
      (entry_block_name d inum hlen (name_fits_of_terminated ht he hlen))
      (fun e' hne n hn => entry_named_of_same_outside (entry_block_outside blk e d inum b) hne hn)

/-! ## Name uniqueness through the operations -/

theorem names_ok_of_same {s t : fs_state} {dir : Nat} (h : names_ok s dir)
    (h1 : (t.inodes dir).direct 0 = (s.inodes dir).direct 0) (h2 : t.disk.nblks = s.disk.nblks)
    (h3 : has_block0 s dir → dir_block t dir = dir_block s dir) : names_ok t dir := by
  intro h0
  have h0s := (has_block0_congr h1 h2).mp h0
  rw [h3 h0s]
  exact h h0s

theorem names_ok_no_block {s : fs_state} {dir : Nat} (h : (s.inodes dir).direct 0 = 0) :
    names_ok s dir :=
  fun h0 => absurd h (direct0_of_has_block0 h0)

theorem names_ok_remove_entry {s : fs_state} (hv : vol_ok s) {dir e : Nat} {leaf : List Nat}
    (hn : names_ok s dir) (he : dir_entry s dir leaf e) (now : Nat) :
    names_ok (remove_entry s dir e now) dir := by
  have h0 := he.2.1
  by_cases hdt : dir = de_inode (dir_block s dir) e
  · apply names_ok_no_block
    have hw1 := (vol_ok_dir_write hv dir (set_de_valid (dir_block s dir) e 0)).wf
      (de_inode (dir_block s dir) e)
    rw [remove_entry_eq rfl hw1 now, flush_mark_inodes, ← hdt]
    simp [fs_state.set_inode, return_inode, mark_inode, truncated_inode]
  · obtain ⟨_, _, a3, _, _⟩ := remove_entry_spec h0 rfl (dir_and_file_of_vol_ok hv hdt h0)
      hdt now
    intro _
    rw [a3]
    exact names_clear e (hn h0).1 (hn h0).2

theorem names_ok_rename_entry {s : fs_state} (hv : vol_ok s) {dir e : Nat} {a b : List Nat}
    (hn : names_ok s dir) (he : dir_entry s dir a e) (hno : ∀ e', ¬ dir_entry s dir b e')
    (hcb : is_cstr b) (hlen : b.length < FS_FILENAME_SIZE) (now : Nat) :
    names_ok (rename_entry s dir e b now) dir := by
  have h0 := he.2.1
  obtain ⟨_, _, a3, _, _⟩ := rename_entry_spec (hv.wf dir) h0 e b now
  intro _
  rw [a3]
  exact names_rename he.2.2.1 (hn h0).1 (hn h0).2 hcb hlen (no_entry_of_none he.1 h0 hno)

theorem names_ok_alloc0 {s : fs_state} (hv : vol_ok s) {dir : Nat} (hn : names_ok s dir) :
    names_ok (get_file_blkno s dir 0 1).2 dir := by
  by_cases hz : (s.inodes dir).direct 0 = 0
  · rcases get_free_blk_cases s with ⟨hf, _⟩ | ⟨b, hb, hf⟩
    · have hg : get_file_blkno s dir 0 1 = (0, s) := by
        unfold get_file_blkno
        simp only [show (0 : Nat) < N_DIRECT by decide, if_true, hz, one_ne_zero, if_false, hf]
      rw [hg]; exact hn
    · rw [get_file_blkno_zero_new (hv.wf dir) hz hb hf]
      obtain ⟨_, _, _, t4, _⟩ := block0_new dir (hv.wf dir) hb
      intro _
      rw [t4]
      exact ⟨terminated_zeros, names_unique_zeros⟩
  · rw [get_file_blkno_zero_present hz 1]; exact hn

theorem names_ok_init_new_inode {s : fs_state} {dir : Nat} (hn : names_ok s dir)
    (mode ftype now uid gid : Nat) :
    names_ok (init_new_inode s mode ftype now uid gid).2 dir := by
  obtain ⟨i1, i2, i3, i4⟩ := init_new_inode_frame s mode ftype now uid gid
  by_cases h : free_inode s = 0
  · rw [i4 h]; exact hn
  · by_cases hdf : dir = free_inode s
    · apply names_ok_no_block
      rw [hdf]; exact (i3 h).2
    · have j1 := (i2 dir hdf).1
      exact names_ok_of_same hn (by rw [j1]) (by rw [i1])
        (fun _ => dir_block_congr (by rw [j1]) (by rw [i1]))

theorem names_ok_add_entry {s : fs_state} (hv : vol_ok s) {dir e : Nat} {leaf : List Nat}
    (hn : names_ok s dir) (h0 : has_block0 s dir) (hfree : first_free (dir_block s dir) e)
    (hno : no_entry (dir_block s dir) leaf)
    (hmap : s.inode_map dir = true) (hfi : free_inode s ≠ 0) (hni : s.n_inodes ≤ 1073741824)
    (hcl : is_cstr leaf) (hlen : leaf.length < FS_FILENAME_SIZE)
    (mode ftype now uid gid : Nat) :
    names_ok (add_entry s dir e leaf mode ftype now uid gid) dir := by
  have hne : dir ≠ free_inode s := by
    intro e'
    have := (free_inode_spec hfi).2.2
    rw [← e', hmap] at this
    exact Bool.noConfusion this
  obtain ⟨_, _, _, a4, _, _⟩ :=
    add_entry_spec (hv.wf dir) h0 hfi hni hne e leaf mode ftype now uid gid
  intro _
  rw [a4]
  exact names_add _ _ hfree.1 (hn h0).1 (hn h0).2 hcl hlen hno

theorem names_ok_unlink {s : fs_state} (hv : vol_ok s) {dir : Nat} (hn : names_ok s dir)
    (leaf : List Nat) (now : Nat) : names_ok (do_unlink s dir leaf now).2 dir := by
  rcases do_unlink_cases s dir leaf now with ⟨err, _, e⟩ | ⟨e, he, _, e3⟩
  · rw [e]; exact hn
  · rw [e3]; exact names_ok_remove_entry hv hn he now

theorem names_ok_rmdir {s : fs_state} (hv : vol_ok s) {dir : Nat} (hn : names_ok s dir)
    (leaf : List Nat) (now : Nat) : names_ok (do_rmdir s dir leaf now).2 dir := by
  rcases do_rmdir_cases s dir leaf now with ⟨err, _, e⟩ | ⟨e, he, _, _, e3⟩
  · rw [e]; exact hn
  · rw [e3]; exact names_ok_remove_entry hv hn he now

theorem names_ok_rename {s : fs_state} (hv : vol_ok s) {dir : Nat} (hn : names_ok s dir)
    (a b : List Nat) (hcb : is_cstr b) (hlen : b.length < FS_FILENAME_SIZE) (now : Nat)
    {r : Int × fs_state} (hr : do_rename s (dir : Int) a (dir : Int) b now = some r) :
    names_ok r.2 dir := by
  rcases do_rename_cases s dir a dir b now with ⟨err, _, e⟩ | ⟨e, _, he, hno, e3⟩
  · rw [e] at hr
    rw [← Option.some.inj hr]; exact hn
  · rw [e3] at hr
    rw [← Option.some.inj hr]
    exact names_ok_rename_entry hv hn he hno hcb hlen now

theorem names_ok_mkentry {s : fs_state} (hv : vol_ok s) {dir : Nat} (hn : names_ok s dir)
    (hmap : s.inode_map dir = true) (hni : s.n_inodes ≤ 1073741824) (leaf : List Nat)
    (hcl : is_cstr leaf) (hlen : leaf.length < FS_FILENAME_SIZE)
    (mode ftype now uid gid : Nat) :
    names_ok (do_mkentry s dir leaf mode ftype now uid gid).2 dir := by
  have hvt := (vol_ok_alloc hv dir (by decide : 0 < MAX_BLOCKS)).1
  have hnt := names_ok_alloc0 hv hn
  have A := get_file_blkno_alloc (hv.wf dir) (by decide : 0 < MAX_BLOCKS)
  obtain ⟨_, f2, _, _, _, f6, _, _, _⟩ := A.grow.frame
  rcases do_mkentry_cases leaf mode ftype now uid gid (hv.wf dir) with
    ⟨err, _, e⟩ | ⟨_, _, h0, _, _, hno, ⟨err, _, e⟩ | ⟨_, e⟩ | ⟨e, he, hi, e3⟩⟩
  · rw [e]; exact hn
  · rw [e]; exact hnt
  · rw [e]; exact names_ok_init_new_inode hnt mode ftype now uid gid
  · rw [e3]
    have hn' : (get_file_blkno s dir 0 1).2.n_inodes ≤ 1073741824 := by
      unfold fs_state.n_inodes at hni ⊢; rw [f2]; exact hni
    have hfree : free_inode (get_file_blkno s dir 0 1).2 ≠ 0 := by
      intro h0'
      apply hi
      unfold init_new_inode get_free_inode
      simp only [show first_clear (get_file_blkno s dir 0 1).2.inode_map
        ((get_file_blkno s dir 0 1).2.n_inodes - 1) 1 = free_inode (get_file_blkno s dir 0 1).2
        from rfl, h0', if_true]
      decide
    exact names_ok_add_entry hvt hnt h0 he hno (by rw [f6]; exact hmap) hfree hn' hcl hlen
      mode ftype now uid gid

/-! ## A result `0` of `get_file_blkno` comes from a failed allocation -/

theorem zero_is_full_present {s : fs_state} {i : Nat} {σ : Slot} (h : wf s i) (hσ : σ.ok)
    (hp : ptr s i σ ≠ 0) : zero_is_full (int_of_u32 (ptr s i σ), s) := by
  intro h0
  simp only [int_of_u32_lt (h.ptr_lt hσ hp).2] at h0
  exact absurd (by exact_mod_cast h0) hp

theorem zero_is_full_fail {s : fs_state} (hno : ∀ j, ¬ is_free s j) :
    zero_is_full ((0 : Int), s) :=
  fun _ => hno

theorem zero_is_full_step {b : Nat} (hb0 : b ≠ 0) (t : fs_state) :
    zero_is_full ((b : Int), t) :=
  fun h0 => absurd (by have h1 : (b : Int) = 0 := h0; exact_mod_cast h1) hb0

/-- Lines 133-149 on a well-formed inode whose entry `m` of the double-indirect block is set. -/
theorem indir2_leaf_zero {s : fs_state} {i m k : Nat} (buf : Block) (h : wf s i)
    (hm : m < PTRS_PER_BLK) (hk : k < PTRS_PER_BLK) (h2 : (s.inodes i).indir_2 ≠ 0)
    (hbuf : get32 buf m = get32 (s.disk.blocks (s.inodes i).indir_2) m)
    (h3 : get32 (s.disk.blocks (s.inodes i).indir_2) m ≠ 0) :
    zero_is_full (get_file_blkno_indir2_leaf s buf m k 1) := by
  have hpm : ptr s i (.mid m) ≠ 0 := by simpa [ptr, h2] using h3
  have hlt := h.ptr_lt (σ := .mid m) hm hpm
  have hrd := h.read (σ := .mid m) hm hpm buf
  simp only [ptr, h2, if_false] at hlt hrd
  unfold get_file_blkno_indir2_leaf
  simp only [hbuf, hrd]
  by_cases h4 : get32 (s.disk.blocks (get32 (s.disk.blocks (s.inodes i).indir_2) m)) k = 0
  · simp only [h4, if_true, one_ne_zero, if_false]
    rcases get_free_blk_cases s with ⟨hf, hno⟩ | ⟨b, hb, hf⟩
    · simp only [hf, if_true]
      exact zero_is_full_fail hno
    · have hb0 : b ≠ 0 := by have := hb.1; omega
      have hbl := is_free.lt h hb
      simp only [hf, hb0, if_false, hbl.2.2.1, get32_set32_same, hbl.2.2.2,
        int_of_u32_lt hlt.2]
      exact zero_is_full_step hb0 _
  · simp only [h4, if_false]
    have hp : ptr s i (.leaf2 m k) ≠ 0 := by simpa [ptr, h2, h3] using h4
    have := zero_is_full_present h (σ := .leaf2 m k) ⟨hm, hk⟩ hp
    simpa [ptr, h2, h3] using this

/-- Lines 81-94 on a well-formed inode whose single-indirect block exists. -/
theorem indir1_zero {s : fs_state} {i n : Nat} (h : wf s i) (hn : n < PTRS_PER_BLK)
    (h1 : (s.inodes i).indir_1 ≠ 0) :
    zero_is_full (get_file_blkno_indir1 s i n 1) := by
  have hlt := h.ptr_lt (σ := .ind1) trivial h1
  have hrd := h.read (σ := .ind1) trivial h1 s.stack
  simp only [ptr] at hlt hrd
  unfold get_file_blkno_indir1
  simp only [hrd]
  by_cases h4 : get32 (s.disk.blocks (s.inodes i).indir_1) n = 0
  · simp only [h4, if_true, one_ne_zero, if_false]
    rcases get_free_blk_cases s with ⟨hf, hno⟩ | ⟨b, hb, hf⟩
    · simp only [hf, if_true]
      exact zero_is_full_fail hno
    · have hb0 : b ≠ 0 := by have := hb.1; omega
      have hbl := is_free.lt h hb
      simp only [hf, hb0, if_false, hbl.2.2.1, get32_set32_same, hbl.2.2.2,
        int_of_u32_lt hlt.2, alloc_state_inodes]
      exact zero_is_full_step hb0 _
  · simp only [h4, if_false]
    have hp : ptr s i (.leaf1 n) ≠ 0 := by simpa [ptr, h1] using h4
    have := zero_is_full_present h (σ := .leaf1 n) hn hp
    simpa [ptr, h1] using this

/-- Lines 117-149 on a well-formed inode whose double-indirect block exists. -/
theorem indir2_zero {s : fs_state} {i m k : Nat} (h : wf s i) (hm : m < PTRS_PER_BLK)
    (hk : k < PTRS_PER_BLK) (h2 : (s.inodes i).indir_2 ≠ 0) :
    zero_is_full (get_file_blkno_indir2 s i m k 1) := by
  have hlt := h.ptr_lt (σ := .ind2) trivial h2
  have hrd := h.read (σ := .ind2) trivial h2 s.stack
  simp only [ptr] at hlt hrd
  unfold get_file_blkno_indir2
  simp only [hrd]
  by_cases h4 : get32 (s.disk.blocks (s.inodes i).indir_2) m = 0
  · simp only [h4, if_true, one_ne_zero, if_false]
    rcases get_free_blk_cases s with ⟨hf, hno⟩ | ⟨b, hb, hf⟩
    · simp only [hf, if_true]
      exact zero_is_full_fail hno
    · have hb0 : b ≠ 0 := by have := hb.1; omega
      have hbl := is_free.lt h hb
      simp only [hf, hb0, if_false, hbl.2.2.1, get32_set32_same, hbl.2.2.2,
        int_of_u32_lt hlt.2, alloc_state_inodes]
      have st := step_mid h h2 h4 hb
      have hwf := wf_of_alloc_step h hb st
      have hpt := st.ptr_eq (.mid m) hm
      have hi2 := st.ptr_eq .ind2 trivial
      simp only [if_true] at hpt
      simp only [reduceCtorEq, if_false] at hi2
      generalize ((alloc_state s b).disk_write ((s.inodes i).indir_2 : Nat)
        (set32 (s.disk.blocks (s.inodes i).indir_2) m b)).disk_write (b : Int) zeros = t at *
      have ht2 : (t.inodes i).indir_2 ≠ 0 := by
        simp only [ptr] at hi2; rw [hi2]; exact h2
      simp only [ptr, ht2, if_false] at hpt
      exact indir2_leaf_zero (s := t) (i := i) (m := m) (k := k)
        (set32 (s.disk.blocks (s.inodes i).indir_2) m b) hwf hm hk ht2
        (by rw [get32_set32_same, hbl.2.2.1, hpt]) (by rw [hpt]; exact hb0)
  · simp only [h4, if_false]
    exact indir2_leaf_zero _ h hm hk h2 rfl h4

/-- The function `get_file_blkno` with `alloc = 1` on a well-formed inode, for an
addressable block index: the result `0` is returned only out of a call of `get_free_blk`
that found no free block, in the state of that call. -/
theorem get_file_blkno_zero {s : fs_state} {i n : Nat} (h : wf s i) (hn : n < MAX_BLOCKS) :
    zero_is_full (get_file_blkno s i n 1) := by
  unfold get_file_blkno
  by_cases c1 : n < N_DIRECT
  · simp only [c1, if_true]
    by_cases c2 : (s.inodes i).direct n = 0
    · simp only [c2, if_true, one_ne_zero, if_false]
      rcases get_free_blk_cases s with ⟨hf, hno⟩ | ⟨b, hb, hf⟩
      · simp only [hf, if_true]
        exact zero_is_full_fail hno
      · have hb0 : b ≠ 0 := by have := hb.1; omega
        have hbl := is_free.lt h hb
        simp only [hf, hb0, if_false, hbl.2.2.1]
        have e1 : ∀ t : fs_state, ((mark_inode (t.set_inode i (fun ino =>
            { ino with direct := fun j => if j = n then b else ino.direct j })) i).inodes i).direct n
            = b := by
          intro t; simp [mark_inode, fs_state.set_inode]
        have e2 : ∀ (t : fs_state) (c : Int) (z : Block), (((mark_inode (t.set_inode i (fun ino =>
            { ino with direct := fun j => if j = n then b else ino.direct j })) i).disk_write c z).inodes
              i).direct n = b := by
          intro t c z; simp [mark_inode, fs_state.set_inode, fs_state.disk_write]
        rw [e1, e2, hbl.2.2.2]
        exact zero_is_full_step hb0 _
    · simp only [c2, if_false]
      exact zero_is_full_present h (σ := .direct n) c1 c2
  · simp only [c1, if_false]
    by_cases c2 : n - N_DIRECT < PTRS_PER_BLK
    · simp only [c2, if_true]
      by_cases c3 : (s.inodes i).indir_1 = 0
      · simp only [c3, if_true, one_ne_zero, if_false]
        rcases get_free_blk_cases s with ⟨hf, hno⟩ | ⟨b, hb, hf⟩
        · simp only [hf, if_true]
          exact zero_is_full_fail hno
        · have hb0 : b ≠ 0 := by have := hb.1; omega
          have hbl := is_free.lt h hb
          simp only [hf, hb0, if_false, hbl.2.2.1]
          have e1 : ∀ t : fs_state, ((mark_inode (t.set_inode i (fun ino =>
              { ino with indir_1 := b })) i).inodes i).indir_1 = b := by
            intro t; simp [mark_inode, fs_state.set_inode]
          rw [e1, hbl.2.2.2]
          have st := step_ind1 h c3 hb
          have hwf := wf_of_alloc_step h hb st
          have hpt := st.ptr_eq .ind1 trivial
          simp only [if_true, ptr] at hpt
          exact indir1_zero hwf c2 (by rw [hpt]; exact hb0)
      · simp only [c3, if_false]
        exact indir1_zero h c2 c3
    · simp only [c2, if_false]
      have c4 : ¬ (n - N_DIRECT - PTRS_PER_BLK > PTRS_PER_BLK * PTRS_PER_BLK) := by
        simp only [MAX_BLOCKS] at hn; omega
      have hm : (n - N_DIRECT - PTRS_PER_BLK) / PTRS_PER_BLK < PTRS_PER_BLK := by
        rw [Nat.div_lt_iff_lt_mul (by decide)]; simp only [MAX_BLOCKS] at hn; omega
      have hk : (n - N_DIRECT - PTRS_PER_BLK) % PTRS_PER_BLK < PTRS_PER_BLK :=
        Nat.mod_lt _ (by decide)
      simp only [c4, if_false, sub_div_mul_eq_mod]
      generalize (n - N_DIRECT - PTRS_PER_BLK) / PTRS_PER_BLK = m at hm ⊢
      generalize (n - N_DIRECT - PTRS_PER_BLK) % PTRS_PER_BLK = k at hk ⊢
      by_cases c3 : (s.inodes i).indir_2 = 0
      · simp only [c3, if_true, one_ne_zero, if_false]
        rcases get_free_blk_cases s with ⟨hf, hno⟩ | ⟨b, hb, hf⟩
        · simp only [hf, if_true]
          exact zero_is_full_fail hno
        · have hb0 : b ≠ 0 := by have := hb.1; omega
          have hbl := is_free.lt h hb
          simp only [hf, hb0, if_false, hbl.2.2.1]
          have e1 : ∀ t : fs_state, ((mark_inode (t.set_inode i (fun ino =>
              { ino with indir_2 := b })) i).inodes i).indir_2 = b := by
            intro t; simp [mark_inode, fs_state.set_inode]
          rw [e1, hbl.2.2.2]
          have st := step_ind2 h c3 hb
          have hwf := wf_of_alloc_step h hb st
          have hpt := st.ptr_eq .ind2 trivial
          simp only [if_true, ptr] at hpt
          exact indir2_zero (k := k) hwf hm hk (by rw [hpt]; exact hb0)
      · simp only [c3, if_false]
        exact indir2_zero h hm hk c3

theorem get_free_blk_of_full {s : fs_state} (hno : ∀ j, ¬ is_free s j) :
    (get_free_blk s).1 = 0 := by
  rcases get_free_blk_cases s with ⟨hf, _⟩ | ⟨b, hb, _⟩
  · rw [hf]
  · exact absurd hb (hno b)

/-- The function `get_file_blk` with `alloc = 1` on a well-formed inode, for an addressable
block index: the result `0` is returned only out of a call of `get_free_blk` that found no
free block, in the state of that call. -/
theorem get_file_blk_zero {s : fs_state} {i n : Nat} (h : wf s i) (hn : n < MAX_BLOCKS)
    (blk : Block) (h0 : (get_file_blk s i n blk 1).1 = 0) :
    ∀ j, ¬ is_free (get_file_blk s i n blk 1).2.2 j := by
  have hz := get_file_blkno_zero h hn
  unfold get_file_blk at h0 ⊢
  generalize get_file_blkno s i n 1 = r at hz h0
  simp only at h0 ⊢
  split_ifs at h0 ⊢ with a b
  · simp only at h0; exact absurd h0 (by decide)
  · simp only at h0; omega
  · exact hz h0

/-- The loop of `do_write` on a well-formed inode, for addressable block indices: it runs
to its end unless a block allocation fails. -/
theorem do_write_loop_no_fail (i now : Nat) : ∀ (cnt : Nat) (s : fs_state) (B o : Nat)
    (buf : List Nat) (len : Nat), wf s i → B + cnt ≤ MAX_BLOCKS →
    alloc_fails_loop i now cnt B o buf len s = false →
    (do_write_loop i now cnt B o buf len s).1 = none := by
  intro cnt
  induction cnt with
  | zero =>
    intro s B o buf len _ _ _
    simp only [do_write_loop]
  | succ cnt ih =>
    intro s B o buf len h hB hnf
    have hBlt : B < MAX_BLOCKS := by omega
    obtain ⟨hg, -⟩ := get_file_blk_alloc h hBlt s.stack
    have hz := get_file_blk_zero h hBlt s.stack
    unfold alloc_fails_loop at hnf
    unfold do_write_loop
    generalize get_file_blk s i B s.stack 1 = g at hg hnf hz
    obtain ⟨gres, gblk, t⟩ := g
    simp only at hg hnf hz ⊢
    by_cases hle : gres ≤ 0
    · exfalso
      simp only [hle, if_true, decide_eq_false_iff_not] at hnf
      have hg0 : gres = 0 := by
        rcases hg.result with h0 | ⟨hp, he⟩
        · exact h0
        · simp only at he
          have : 0 < ptr t i (lslot B) := Nat.pos_of_ne_zero hp
          omega
      exact hnf ⟨hg0, get_free_blk_of_full (hz hg0)⟩
    · simp only [hle, if_false] at hnf ⊢
      have hp : ptr t i (lslot B) ≠ 0 ∧ gres = ((ptr t i (lslot B) : Nat) : Int) := by
        rcases hg.result with h0 | h1
        · simp only at h0; omega
        · exact h1
      obtain ⟨hp, he⟩ := hp
      subst he
      set l := min (FS_BLOCK_SIZE - o) len with hl
      set blk := memcpy_to_blk gblk o buf l with hblkdef
      obtain ⟨uf, um, up, -, -⟩ := data_write_spec hg.wf (lslot_ok hBlt) (lslot_is_leaf B) hp blk
        (((t.inodes i).size + l) % 4294967296) (now % 4294967296)
      have hueq : (t.disk_write ((ptr t i (lslot B) : Nat) : Int) blk).set_inode i
          (fun ino => { ino with size := (ino.size + l) % 4294967296,
                                 mtime := now % 4294967296 })
          = (t.disk_write ((ptr t i (lslot B) : Nat) : Int) blk).set_inode i
          (fun ino => { ino with size := ((t.inodes i).size + l) % 4294967296,
                                 mtime := now % 4294967296 }) := by
        simp only [fs_state.set_inode, fs_state.disk_write]
        congr 1
        funext j
        by_cases hj : j = i
        · simp only [hj, if_true]
        · simp only [hj, if_false]
      rw [hueq] at hnf ⊢
      exact ih _ (B + 1) 0 (buf.drop l) (len - l) (wf_of_same_map hg.wf uf um up) (by omega) hnf

/-- No pointer of an inode of `last_blk_vol` is set. -/
theorem last_blk_vol_ptr (i : Nat) (σ : Slot) : ptr last_blk_vol i σ = 0 := by
  cases σ <;> simp [ptr, last_blk_vol, fresh_vol, fresh_inode]

theorem last_blk_vol_wf (i : Nat) : wf last_blk_vol i := by
  refine ⟨le_refl _, by decide, ?_, ?_, ?_⟩
  · intro b hb
    simp only [fs_state.data_base, fs_state.inode_base, last_blk_vol, fresh_vol] at hb
    simp only [last_blk_vol, fresh_vol, decide_eq_true_eq]
    omega
  · intro σ _ hp
    exact absurd (last_blk_vol_ptr i σ) hp
  · intro σ τ _ _ hp
    exact absurd (last_blk_vol_ptr i σ) hp

/-- Whatever the inode, for `off ≤ size` and `len` below `2^31`, a call of `do_write` that
does not return an error returns exactly `len`. -/
theorem do_write_len_of_nonneg (s : fs_state) (inum : Nat) (buf : List Nat) (len off now : Nat)
    (hoff : off ≤ (s.inodes inum).size) (hlen : len < 2147483648)
    (hok : 0 ≤ (do_write s inum buf len off now).1) :
    (do_write s inum buf len off now).1 = (len : Int) := by
  have hle : off / FS_BLOCK_SIZE ≤ (off + len) / FS_BLOCK_SIZE :=
    Nat.div_le_div_right (Nat.le_add_right _ _)
  have L := do_write_loop_rem inum now ((off + len) / FS_BLOCK_SIZE + 1 - off / FS_BLOCK_SIZE) s
    (off / FS_BLOCK_SIZE) (off - off / FS_BLOCK_SIZE * FS_BLOCK_SIZE) buf len
    (by simp only [FS_BLOCK_SIZE]; omega) (by simp only [FS_BLOCK_SIZE] at *; omega)
  unfold do_write at hok ⊢
  have c1 : ¬ (off > (s.inodes inum).size) := by omega
  simp only [c1, if_false] at hok ⊢
  generalize do_write_loop inum now ((off + len) / FS_BLOCK_SIZE + 1 - off / FS_BLOCK_SIZE)
    (off / FS_BLOCK_SIZE) (off - off / FS_BLOCK_SIZE * FS_BLOCK_SIZE) buf len s = r at L hok
  obtain ⟨r1, rem, t⟩ := r
  cases r1 with
  | some e =>
    have := L.2 e rfl
    simp only at hok
    omega
  | none =>
    have hrem : rem = 0 := L.1 rfl
    simp only [hrem, Nat.sub_zero, int_of_u32_lt hlen]

/-! ## Claims about `do_write` and `do_read` -/

/-- C1. Write-then-read round trip: on a well-formed inode with enough free blocks
(three per block of the range), for `off ≤ size`, a buffer of `len` bytes and `off + len`
inside the addressable range (and no 32-bit wrap of the size field), `do_write` returns
`len` and a following `do_read` of `len` bytes at `off` returns `len` and exactly the bytes
of `buf`. -/
theorem write_then_read_round_trip (s : fs_state) (inum : Nat) (buf : List Nat)
    (len off now : Nat) (hwf : wf s inum) (hoff : off ≤ (s.inodes inum).size)
    (hbuf : buf.length = len) (hmax : (off + len) / FS_BLOCK_SIZE < MAX_BLOCKS)
    (hsz : (s.inodes inum).size + len < 4294967296)
    (hfree : 3 * ((off + len) / FS_BLOCK_SIZE + 1 - off / FS_BLOCK_SIZE) ≤ free_count s) :
    (do_write s inum buf len off now).1 = (len : Int) ∧
    (do_read (do_write s inum buf len off now).2 inum len off).1 = (len : Int) ∧
    (do_read (do_write s inum buf len off now).2 inum len off).2.1 = buf := by
  have W := do_write_spec buf now hwf hoff hmax
  have hret := W.succeeds hfree
  have hsize := W.size_eq hret
  rw [Nat.mod_eq_of_lt hsz] at hsize
  have hlen31 : len < 2147483648 := by
    rw [MAX_BLOCKS_eq] at hmax; simp only [FS_BLOCK_SIZE] at hmax; omega
  refine ⟨hret, ?_⟩
  by_cases hl0 : len = 0
  · subst hl0
    have hb : buf = [] := List.length_eq_zero.mp hbuf
    by_cases he : off = (s.inodes inum).size
    · have : off ≥ ((do_write s inum buf 0 off now).2.inodes inum).size := by
        rw [hsize]; omega
      unfold do_read
      rw [if_pos this]
      exact ⟨rfl, hb.symm⟩
    · rw [do_read_spec W.wf (by rw [hsize]; omega) (by rw [hsize]; omega) hmax
        (W.mapped hret)]
      simp [hb, int_of_u32_zero]
  · rw [do_read_spec W.wf (by rw [hsize]; omega) (by rw [hsize]; omega) hmax (W.mapped hret)]
    refine ⟨int_of_u32_lt hlen31, ?_⟩
    apply List.ext_getElem
    · simp [hbuf]
    · intro j h1 h2
      simp only [List.getElem_map, List.getElem_range]
      have hj : j < len := by simpa using h1
      rw [W.written hret j hj, List.getD_eq_getElem _ _ h2]

/-- Witness for C1: writing "hello" at offset 0 of a fresh file of the example volume. -/
theorem write_then_read_round_trip_witness :
    wf fresh_vol 2 ∧ 3 * ((0 + 5) / FS_BLOCK_SIZE + 1 - 0 / FS_BLOCK_SIZE) ≤ free_count fresh_vol ∧
    (do_write fresh_vol 2 hello 5 0 0).1 = 5 ∧
    (do_read (do_write fresh_vol 2 hello 5 0 0).2 2 5 0).1 = 5 ∧
    (do_read (do_write fresh_vol 2 hello 5 0 0).2 2 5 0).2.1 = hello :=
  ⟨fresh_vol_wf 2, fresh_vol_free,
    write_then_read_round_trip fresh_vol 2 hello 5 0 0 (fresh_vol_wf 2) (Nat.zero_le _) rfl
      (by decide) (by decide) fresh_vol_free⟩

/-- C5 (counterexample): no block allocation fails, and yet `do_write` does not return
`len`.  In `long_file_vol` the write of one byte at offset `65799 * 1024`, the size of the
file, asks `get_file_blkno` for logical block 65799, which is past the addressable range:
the result is `-ENOSPC` although `get_free_blk` was not called and block 8 is still free
after the call.  In `bad_ptr_vol` the first direct pointer of the file names no block of
the device: the write of five bytes at offset 0 returns `-EIO`. -/
theorem do_write_error_without_alloc_failure :
    (67378176 ≤ (long_file_vol.inodes 2).size ∧
      alloc_fails long_file_vol 2 [120] 1 67378176 0 = false ∧
      (do_write long_file_vol 2 [120] 1 67378176 0).1 = -ENOSPC ∧
      (get_free_blk (do_write long_file_vol 2 [120] 1 67378176 0).2).1 = 8) ∧
    (0 ≤ (bad_ptr_vol.inodes 2).size ∧
      alloc_fails bad_ptr_vol 2 hello 5 0 0 = false ∧
      (do_write bad_ptr_vol 2 hello 5 0 0).1 = - EIO) := by
  decide

/-- C5 (amended): for every well-formed inode, every `off ≤ size` and every `len` whose
range ends inside the addressable blocks (`(off + len) / 1024 < 6 + 256 + 256 * 256`), if
block allocation does not fail during the call then `do_write(i, buf, len, off)` returns
exactly `len`. -/
theorem do_write_returns_len (s : fs_state) (inum : Nat) (buf : List Nat) (len off now : Nat)
    (hwf : wf s inum) (hoff : off ≤ (s.inodes inum).size)
    (hmax : (off + len) / FS_BLOCK_SIZE < MAX_BLOCKS)
    (hnf : alloc_fails s inum buf len off now = false) :
    (do_write s inum buf len off now).1 = (len : Int) := by
  have hlen : len < 2147483648 := by
    rw [MAX_BLOCKS_eq] at hmax; simp only [FS_BLOCK_SIZE] at hmax; omega
  have hle : off / FS_BLOCK_SIZE ≤ (off + len) / FS_BLOCK_SIZE :=
    Nat.div_le_div_right (Nat.le_add_right _ _)
  have L := do_write_loop_rem inum now ((off + len) / FS_BLOCK_SIZE + 1 - off / FS_BLOCK_SIZE) s
    (off / FS_BLOCK_SIZE) (off - off / FS_BLOCK_SIZE * FS_BLOCK_SIZE) buf len
    (by simp only [FS_BLOCK_SIZE]; omega) (by simp only [FS_BLOCK_SIZE] at *; omega)
  have hnone := do_write_loop_no_fail inum now
    ((off + len) / FS_BLOCK_SIZE + 1 - off / FS_BLOCK_SIZE) s (off / FS_BLOCK_SIZE)
    (off - off / FS_BLOCK_SIZE * FS_BLOCK_SIZE) buf len hwf (by omega) hnf
  unfold do_write
  have c1 : ¬ (off > (s.inodes inum).size) := by omega
  simp only [c1, if_false]
  generalize do_write_loop inum now ((off + len) / FS_BLOCK_SIZE + 1 - off / FS_BLOCK_SIZE)
    (off / FS_BLOCK_SIZE) (off - off / FS_BLOCK_SIZE * FS_BLOCK_SIZE) buf len s = r at L hnone
  obtain ⟨r1, rem, t⟩ := r
  simp only at hnone
  subst hnone
  have hrem : rem = 0 := L.1 rfl
  simp only [hrem, Nat.sub_zero, int_of_u32_lt hlen]

/-- C5 (amended) on two volumes: "hello" at offset 0 of a fresh file of `fresh_vol`, and
the same write on `last_blk_vol`, where it takes the last free block: no allocation fails,
the result is 5, and no block is free afterwards. -/
theorem do_write_returns_len_witness :
    (alloc_fails fresh_vol 2 hello 5 0 0 = false ∧ (do_write fresh_vol 2 hello 5 0 0).1 = 5) ∧
    (alloc_fails last_blk_vol 2 hello 5 0 0 = false ∧
      (get_free_blk (do_write last_blk_vol 2 hello 5 0 0).2).1 = 0 ∧
      (do_write last_blk_vol 2 hello 5 0 0).1 = 5) :=
  ⟨⟨by decide, do_write_returns_len fresh_vol 2 hello 5 0 0 (fresh_vol_wf 2) (Nat.zero_le _)
      (by decide) (by decide)⟩,
    ⟨by decide, by decide, do_write_returns_len last_blk_vol 2 hello 5 0 0 (last_blk_vol_wf 2)
      (Nat.zero_le _) (by decide) (by decide)⟩⟩

/-- C6. For `off > size`, `do_write` returns `-EINVAL` and leaves the whole state (inode
table, bitmaps, dirty sets and every block of the device) as it was. -/
theorem do_write_past_eof (s : fs_state) (inum : Nat) (buf : List Nat) (len off now : Nat)
    (hoff : off > (s.inodes inum).size) :
    do_write s inum buf len off now = (-EINVAL, s) := by
  unfold do_write
  simp only [hoff, if_true]

/-- Witness for C6: a write at offset 1 of an empty file. -/
theorem do_write_past_eof_witness :
    1 > (fresh_vol.inodes 2).size ∧ do_write fresh_vol 2 hello 5 1 0 = (-EINVAL, fresh_vol) :=
  ⟨by decide, do_write_past_eof fresh_vol 2 hello 5 1 0 (by decide)⟩

/-- C4. A successful `do_write` on a well-formed inode (range addressable, no 32-bit wrap
of the size field) changes only the bytes `[off, off + len)` of the file: a one-byte
`do_read` at a position `p < old size` outside the range that succeeded before the write
succeeds after it and returns the same byte. -/
theorem do_write_frame (s : fs_state) (inum : Nat) (buf : List Nat) (len off now p : Nat)
    (hwf : wf s inum) (hoff : off ≤ (s.inodes inum).size)
    (hmax : (off + len) / FS_BLOCK_SIZE < MAX_BLOCKS)
    (hsz : (s.inodes inum).size + len < 4294967296)
    (hok : 0 ≤ (do_write s inum buf len off now).1)
    (hp : p < (s.inodes inum).size) (hout : p < off ∨ off + len ≤ p)
    (hpmax : (p + 1) / FS_BLOCK_SIZE < MAX_BLOCKS)
    (hrd : (do_read s inum 1 p).1 = 1) :
    (do_read (do_write s inum buf len off now).2 inum 1 p).1 = 1 ∧
    (do_read (do_write s inum buf len off now).2 inum 1 p).2.1 = (do_read s inum 1 p).2.1 := by
  have W := do_write_spec buf now hwf hoff hmax
  have hret : (do_write s inum buf len off now).1 = (len : Int) := by
    rcases W.result with h1 | h1
    · rw [h1] at hok; simp only [ENOSPC] at hok; omega
    · exact h1
  have hsize := W.size_eq hret
  rw [Nat.mod_eq_of_lt hsz] at hsize
  obtain ⟨hmapped, hbefore⟩ := do_read_one hwf hp hpmax hrd
  have hle : p / FS_BLOCK_SIZE ≤ (p + 1) / FS_BLOCK_SIZE :=
    Nat.div_le_div_right (Nat.le_add_right _ _)
  have hmapped' : ∀ n, p / FS_BLOCK_SIZE ≤ n → n ≤ (p + 1) / FS_BLOCK_SIZE →
      ptr (do_write s inum buf len off now).2 inum (lslot n) ≠ 0 := by
    intro n h1 h2
    have hn : n < MAX_BLOCKS := by omega
    rw [W.grow.ptr_keep _ (lslot_ok hn) (hmapped n h1 h2)]
    exact hmapped n h1 h2
  rw [do_read_spec W.wf (by rw [hsize]; omega) (by rw [hsize]; omega) hpmax hmapped', hbefore]
  refine ⟨int_of_u32_lt (v := 1) (by decide), ?_⟩
  have hfb := W.frame p (by omega) (hmapped _ (le_refl _) hle) hout
  simp [List.range_succ, hfb]

/-- Witness for C4: after "hello" has been written to a fresh file, appending one byte at
offset 5 leaves the byte at position 0 as it was. -/
theorem do_write_frame_witness :
    wf (do_write fresh_vol 2 hello 5 0 0).2 2 ∧
    0 ≤ (do_write (do_write fresh_vol 2 hello 5 0 0).2 2 [33] 1 5 0).1 ∧
    (do_read (do_write fresh_vol 2 hello 5 0 0).2 2 1 0).1 = 1 ∧
    (do_read (do_write (do_write fresh_vol 2 hello 5 0 0).2 2 [33] 1 5 0).2 2 1 0).1 = 1 ∧
    (do_read (do_write (do_write fresh_vol 2 hello 5 0 0).2 2 [33] 1 5 0).2 2 1 0).2.1
      = (do_read (do_write fresh_vol 2 hello 5 0 0).2 2 1 0).2.1 :=
  ⟨(do_write_spec hello 0 (fresh_vol_wf 2) (Nat.zero_le _) (by decide)).wf, by decide, by decide,
    do_write_frame (do_write fresh_vol 2 hello 5 0 0).2 2 [33] 1 5 0 0
      (do_write_spec hello 0 (fresh_vol_wf 2) (Nat.zero_le _) (by decide)).wf
      (by decide) (by decide) (by decide) (by decide) (by decide) (by decide) (by decide)
      (by decide)⟩

/-! ## Where the code departs from its documentation -/

theorem aligned_vol_ptr (σ : Slot) :
    ptr aligned_vol 2 σ = if σ = .direct 0 then 8 else 0 := by
  cases σ with
  | direct n =>
    by_cases h : n = 0
    · simp [ptr, aligned_vol, fresh_inode, h]
    · simp [ptr, aligned_vol, fresh_inode, h]
  | ind1 => simp [ptr, aligned_vol, fresh_inode]
  | ind2 => simp [ptr, aligned_vol, fresh_inode]
  | leaf1 n => simp [ptr, aligned_vol, fresh_inode]
  | mid m => simp [ptr, aligned_vol, fresh_inode]
  | leaf2 m k => simp [ptr, aligned_vol, fresh_inode]

theorem aligned_vol_wf : wf aligned_vol 2 := by
  refine ⟨le_refl _, by decide, ?_, ?_, ?_⟩
  · intro b hb
    simp only [fs_state.data_base, fs_state.inode_base, aligned_vol, fresh_vol] at hb
    simp only [aligned_vol, decide_eq_true_eq]
    omega
  · intro σ _ hp
    rw [aligned_vol_ptr] at hp ⊢
    by_cases h : σ = .direct 0
    · simp only [h, if_true]
      decide
    · simp [h] at hp
  · intro σ τ _ _ hp he
    rw [aligned_vol_ptr] at hp he
    rw [aligned_vol_ptr] at he
    by_cases h : σ = .direct 0
    · by_cases h' : τ = .direct 0
      · rw [h, h']
      · simp [h, h'] at he
    · simp [h] at hp

/-- C2 (the code at the failing input). In `aligned_vol` inode 2 is well-formed, has size
1024 and its only logical block `0 = ceil(size / 1024) - 1` is mapped to the readable block
8; all the same `do_read(2, buf, 1024, 0)` returns `-EIO`, not `min(len, size - off) = 1024`,
because the loop also asks for logical block `(off + len) / 1024 = 1`. -/
theorem do_read_aligned_eof_is_eio :
    wf aligned_vol 2 ∧ (aligned_vol.inodes 2).size = 1024 ∧
    get_file_blk aligned_vol 2 0 zeros 0 = (8, aligned_vol.disk.blocks 8, aligned_vol) ∧
    (do_read aligned_vol 2 1024 0).1 = - EIO := by
  refine ⟨aligned_vol_wf, rfl, ?_, by decide⟩
  rw [get_file_blk_noalloc aligned_vol_wf (by decide), aligned_vol_ptr]
  simp [lslot]

/-- C3 (the code at the failing input). Writing "hello" at offset 0 of a fresh file and then
writing the same five bytes at offset 0 again succeeds both times, and the size is 5 after
the first write but 10 after the second, not `max(5, 0 + 5) = 5`. -/
theorem do_write_overwrite_grows_size :
    (do_write fresh_vol 2 hello 5 0 0).1 = 5 ∧
    ((do_write fresh_vol 2 hello 5 0 0).2.inodes 2).size = 5 ∧
    (do_write (do_write fresh_vol 2 hello 5 0 0).2 2 hello 5 0 1).1 = 5 ∧
    ((do_write (do_write fresh_vol 2 hello 5 0 0).2 2 hello 5 0 1).2.inodes 2).size = 10 := by
  decide

set_option maxRecDepth 100000 in
/-- C7 (the code at the failing input). In `full_vol` (no free block, file of 5 bytes in one
block) `do_write(2, buf, 2000, 0)` copies 1024 bytes into block 0, fails to allocate block
1 and returns `-ENOSPC`; the first and the last byte of block 0 are bytes of `buf`, and the
size is then `5 + 1024 = 1029`, not `max(5, 0 + 1024) = 1024`. -/
theorem do_write_enospc_size :
    (do_write full_vol 2 (List.replicate 2000 75) 2000 0 0).1 = -ENOSPC ∧
    ((do_write full_vol 2 (List.replicate 2000 75) 2000 0 0).2.inodes 2).size = 1029 ∧
    file_byte (do_write full_vol 2 (List.replicate 2000 75) 2000 0 0).2 2 0 = 75 ∧
    file_byte (do_write full_vol 2 (List.replicate 2000 75) 2000 0 0).2 2 1023 = 75 := by
  decide

/-! ## Claims about `get_file_blkno` -/

theorem indir1_lookup_state (s : fs_state) (i n : Nat) :
    (get_file_blkno_indir1 s i n 0).2 = s := by
  unfold get_file_blkno_indir1
  by_cases c : get32 (s.disk.read (int_of_u32 (s.inodes i).indir_1) s.stack).2 n = 0
  · simp [c]
  · simp [c]

theorem indir2_leaf_lookup_state (s : fs_state) (buf : Block) (m k : Nat) :
    (get_file_blkno_indir2_leaf s buf m k 0).2 = s := by
  unfold get_file_blkno_indir2_leaf
  by_cases c : get32 (s.disk.read (int_of_u32 (get32 buf m)) buf).2 k = 0
  · simp [c]
  · simp [c]

theorem indir2_lookup_state (s : fs_state) (i m k : Nat) :
    (get_file_blkno_indir2 s i m k 0).2 = s := by
  unfold get_file_blkno_indir2
  by_cases c : get32 (s.disk.read (int_of_u32 (s.inodes i).indir_2) s.stack).2 m = 0
  · simp [c]
  · simp only [c, if_false]
    exact indir2_leaf_lookup_state _ _ _ _

theorem get_file_blkno_lookup_state (s : fs_state) (i n : Nat) :
    (get_file_blkno s i n 0).2 = s := by
  unfold get_file_blkno
  by_cases c1 : n < N_DIRECT
  · by_cases c2 : (s.inodes i).direct n = 0
    · simp [c1, c2]
    · simp [c1, c2]
  · by_cases c2 : n - N_DIRECT < PTRS_PER_BLK
    · by_cases c3 : (s.inodes i).indir_1 = 0
      · simp [c1, c2, c3]
      · simp only [c1, c2, c3, if_true, if_false]
        exact indir1_lookup_state _ _ _
    · by_cases c4 : n - N_DIRECT - PTRS_PER_BLK > PTRS_PER_BLK * PTRS_PER_BLK
      · simp only [c1, c2, c4, if_true, if_false]
      · by_cases c3 : (s.inodes i).indir_2 = 0
        · simp only [c1, c2, c3, c4, if_true, if_false]
        · simp only [c1, c2, c3, c4, if_true, if_false]
          exact indir2_lookup_state _ _ _ _

theorem indir1_lookup_value {s : fs_state} {i : Nat} (n : Nat)
    (hr : readable s (s.inodes i).indir_1) :
    (get_file_blkno_indir1 s i n 0).1 =
      int_of_u32 (get32 (s.disk.blocks (s.inodes i).indir_1) n) := by
  unfold get_file_blkno_indir1
  simp only [read_readable hr]
  by_cases c : get32 (s.disk.blocks (s.inodes i).indir_1) n = 0
  · simp [c, int_of_u32_zero]
  · simp [c]

theorem indir2_leaf_lookup_value (s : fs_state) (buf : Block) (m k : Nat)
    (hr : readable s (get32 buf m)) :
    (get_file_blkno_indir2_leaf s buf m k 0).1 =
      int_of_u32 (get32 (s.disk.blocks (get32 buf m)) k) := by
  unfold get_file_blkno_indir2_leaf
  simp only [read_readable hr]
  by_cases c : get32 (s.disk.blocks (get32 buf m)) k = 0
  · simp [c, int_of_u32_zero]
  · simp [c]

/-- C8. For every state, inode and addressable index `n`, `get_file_blkno(inum, n, 0)`
leaves the state (inode table, bitmaps, device) unchanged and returns, as a C `int`:
`direct[n]` when `n < 6`; for `n - 6 < 256`, `0` when `indir_1` is `0` and otherwise entry
`n - 6` of the (readable) indir_1 block; otherwise, with `m = (n - 262) / 256` and
`k = (n - 262) mod 256`, `0` when `indir_2` is `0` or entry `m` of the indir_2 block is
`0`, and otherwise entry `k` of the block named by that entry. -/
theorem get_file_blkno_lookup (s : fs_state) (inum n : Nat) (hn : n < MAX_BLOCKS) :
    (get_file_blkno s inum n 0).2 = s ∧
    (n < N_DIRECT → (get_file_blkno s inum n 0).1 = int_of_u32 ((s.inodes inum).direct n)) ∧
    (N_DIRECT ≤ n → n - N_DIRECT < PTRS_PER_BLK →
      ((s.inodes inum).indir_1 = 0 → (get_file_blkno s inum n 0).1 = 0) ∧
      ((s.inodes inum).indir_1 ≠ 0 → readable s (s.inodes inum).indir_1 →
        (get_file_blkno s inum n 0).1 =
          int_of_u32 (get32 (s.disk.blocks (s.inodes inum).indir_1) (n - N_DIRECT)))) ∧
    (N_DIRECT + PTRS_PER_BLK ≤ n →
      ((s.inodes inum).indir_2 = 0 → (get_file_blkno s inum n 0).1 = 0) ∧
      ((s.inodes inum).indir_2 ≠ 0 → readable s (s.inodes inum).indir_2 →
        (get32 (s.disk.blocks (s.inodes inum).indir_2)
            ((n - (N_DIRECT + PTRS_PER_BLK)) / PTRS_PER_BLK) = 0 →
          (get_file_blkno s inum n 0).1 = 0) ∧
        (get32 (s.disk.blocks (s.inodes inum).indir_2)
            ((n - (N_DIRECT + PTRS_PER_BLK)) / PTRS_PER_BLK) ≠ 0 →
          readable s (get32 (s.disk.blocks (s.inodes inum).indir_2)
            ((n - (N_DIRECT + PTRS_PER_BLK)) / PTRS_PER_BLK)) →
          (get_file_blkno s inum n 0).1 =
            int_of_u32 (get32 (s.disk.blocks (get32 (s.disk.blocks (s.inodes inum).indir_2)
              ((n - (N_DIRECT + PTRS_PER_BLK)) / PTRS_PER_BLK)))
              ((n - (N_DIRECT + PTRS_PER_BLK)) % PTRS_PER_BLK))))) := by
  refine ⟨get_file_blkno_lookup_state s inum n, ?_, ?_, ?_⟩
  · intro c1
    unfold get_file_blkno
    simp only [c1, if_true]
    by_cases c2 : (s.inodes inum).direct n = 0
    · simp [c2, int_of_u32_zero]
    · simp [c2]
  · intro c1 c2
    have c1' : ¬ (n < N_DIRECT) := by omega
    unfold get_file_blkno
    simp only [c1', c2, if_true, if_false]
    refine ⟨fun c3 => by simp [c3], fun c3 hr => ?_⟩
    simp only [c3, if_false]
    exact indir1_lookup_value _ hr
  · intro c1
    have c1' : ¬ (n < N_DIRECT) := by simp only [N_DIRECT, PTRS_PER_BLK] at *; omega
    have c2 : ¬ (n - N_DIRECT < PTRS_PER_BLK) := by
      simp only [N_DIRECT, PTRS_PER_BLK] at *; omega
    have c4 : ¬ (n - N_DIRECT - PTRS_PER_BLK > PTRS_PER_BLK * PTRS_PER_BLK) := by
      rw [MAX_BLOCKS_eq] at hn; simp only [N_DIRECT, PTRS_PER_BLK] at *; omega
    have e1 : n - N_DIRECT - PTRS_PER_BLK = n - (N_DIRECT + PTRS_PER_BLK) := by omega
    have c4' : ¬ (n - (N_DIRECT + PTRS_PER_BLK) > PTRS_PER_BLK * PTRS_PER_BLK) := by
      rw [← e1]; exact c4
    unfold get_file_blkno
    simp only [c1', c2, c4, c4', if_false, sub_div_mul_eq_mod, e1]
    generalize (n - (N_DIRECT + PTRS_PER_BLK)) / PTRS_PER_BLK = m
    generalize (n - (N_DIRECT + PTRS_PER_BLK)) % PTRS_PER_BLK = k
    refine ⟨fun c3 => by simp [c3], fun c3 hr => ?_⟩
    simp only [c3, if_false]
    unfold get_file_blkno_indir2
    simp only [read_readable hr]
    refine ⟨fun c5 => by simp [c5], fun c5 hr2 => ?_⟩
    simp only [c5, if_false]
    exact indir2_leaf_lookup_value s (s.disk.blocks (s.inodes inum).indir_2) m k hr2

/-- Witness for C8: the lookup of logical block 0 of inode 2 of `aligned_vol`. -/
theorem get_file_blkno_lookup_witness :
    0 < MAX_BLOCKS ∧ (get_file_blkno aligned_vol 2 0 0).2 = aligned_vol ∧
    (get_file_blkno aligned_vol 2 0 0).1 = int_of_u32 ((aligned_vol.inodes 2).direct 0) :=
  ⟨by decide, (get_file_blkno_lookup aligned_vol 2 0 (by decide)).1,
    (get_file_blkno_lookup aligned_vol 2 0 (by decide)).2.1 (by decide)⟩

/-! ## Claims about `do_truncate` -/

/-- C9. On a well-formed inode `do_truncate(inum, 0)` returns 0, leaves the six direct
pointers, `indir_1`, `indir_2` and the size at 0, and calls `return_blk` exactly on the
blocks of `owned_blocks` (in that order): a list without repetition whose members are
exactly the non-zero pointers of the inode (data blocks, second-level index blocks, the
indir_1 and indir_2 blocks).  Their block-bitmap bits are cleared, no other bit changes,
and the inode bitmap is unchanged. -/
theorem do_truncate_releases (s : fs_state) (inum now : Nat) (hwf : wf s inum) :
    (do_truncate s inum 0 now).1 = 0 ∧
    (∀ n, n < N_DIRECT → ((do_truncate s inum 0 now).2.inodes inum).direct n = 0) ∧
    ((do_truncate s inum 0 now).2.inodes inum).indir_1 = 0 ∧
    ((do_truncate s inum 0 now).2.inodes inum).indir_2 = 0 ∧
    ((do_truncate s inum 0 now).2.inodes inum).size = 0 ∧
    (do_truncate s inum 0 now).2.returned = (owned_blocks s inum).reverse ++ s.returned ∧
    (owned_blocks s inum).Nodup ∧
    (∀ b, b ∈ owned_blocks s inum ↔ b ≠ 0 ∧ ∃ σ : Slot, σ.ok ∧ ptr s inum σ = b) ∧
    (∀ c, (do_truncate s inum 0 now).2.block_map c =
      if c ∈ owned_blocks s inum then false else s.block_map c) ∧
    (do_truncate s inum 0 now).2.inode_map = s.inode_map := by
  rw [do_truncate_eq hwf now]
  refine ⟨rfl, ?_, ?_, ?_, ?_, ?_, owned_blocks_nodup hwf, mem_owned_blocks s inum, ?_, ?_⟩
  · intro n hn
    simp [fs_state.set_inode, truncated_inode, hn]
  · simp [fs_state.set_inode, truncated_inode]
  · simp [fs_state.set_inode, truncated_inode]
  · simp [fs_state.set_inode, truncated_inode]
  · exact release_all_returned _ s
  · intro c
    exact release_all_block_map _ s c
  · exact release_all_inode_map _ s

/-- Witness for C9: truncating the file that holds "hello". -/
theorem do_truncate_releases_witness :
    wf (do_write fresh_vol 2 hello 5 0 0).2 2 ∧
    (do_truncate (do_write fresh_vol 2 hello 5 0 0).2 2 0 1).1 = 0 ∧
    ((do_truncate (do_write fresh_vol 2 hello 5 0 0).2 2 0 1).2.inodes 2).size = 0 ∧
    (do_truncate (do_write fresh_vol 2 hello 5 0 0).2 2 0 1).2.returned =
      (owned_blocks (do_write fresh_vol 2 hello 5 0 0).2 2).reverse ++
        (do_write fresh_vol 2 hello 5 0 0).2.returned :=
  ⟨(do_write_spec hello 0 (fresh_vol_wf 2) (Nat.zero_le _) (by decide)).wf,
    (do_truncate_releases (do_write fresh_vol 2 hello 5 0 0).2 2 1
      (do_write_spec hello 0 (fresh_vol_wf 2) (Nat.zero_le _) (by decide)).wf).1,
    (do_truncate_releases (do_write fresh_vol 2 hello 5 0 0).2 2 1
      (do_write_spec hello 0 (fresh_vol_wf 2) (Nat.zero_le _) (by decide)).wf).2.2.2.2.1,
    (do_truncate_releases (do_write fresh_vol 2 hello 5 0 0).2 2 1
      (do_write_spec hello 0 (fresh_vol_wf 2) (Nat.zero_le _) (by decide)).wf).2.2.2.2.2.1⟩

/-! ## C10: blocks left allocated after writes and a truncate -/

/-- C10 (code defect): the claim that any sequence of `do_write` calls on a fresh inode
followed by `do_truncate(inum, 0)` returns the block bitmap to its initial contents fails.
On `fresh_vol`, 65863 calls `do_write(2, buf, 1023, 0)` all return 1023; the call
`do_write(2, "x", 1, 67377152)` that follows returns 1 (it reaches logical block 65798,
which the guard of `get_file_blkno` lets pass); `do_truncate(2, 0)` then returns 0 and
leaves a block allocated that was free initially. -/
theorem truncate_after_writes_leaks :
    (∀ k, k < 65863 →
      (do_write (write_repeat 2 filler 1023 0 0 k fresh_vol) 2 filler 1023 0 0).1 = 1023) ∧
    (do_write (write_repeat 2 filler 1023 0 0 65863 fresh_vol) 2 [120] 1 67377152 0).1 = 1 ∧
    (do_truncate (do_write (write_repeat 2 filler 1023 0 0 65863 fresh_vol) 2 [120] 1
      67377152 0).2 2 0 0).1 = 0 ∧
    ∃ b, fresh_vol.block_map b = false ∧
      (do_truncate (do_write (write_repeat 2 filler 1023 0 0 65863 fresh_vol) 2 [120] 1
        67377152 0).2 2 0 0).2.block_map b = true := by
  have key := write_repeat_inv 65862 (by norm_num)
  rw [show 65862 + 1 = 65863 from rfl] at key
  obtain ⟨hwf, hi2, hfree, hsize, _, hkeep, _⟩ := key
  obtain ⟨r1, r2, b, hb, hleak⟩ := far_write_truncate hwf hi2 hfree (by rw [hsize]; norm_num)
    [120] 0 0
  refine ⟨fun k hk => (write_repeat_inv k (by omega)).2.2.2.2.2.2, r1, r2, b, ?_, hleak⟩
  cases hfb : fresh_vol.block_map b with
  | false => rfl
  | true =>
    have := hkeep b hfb
    rw [hb] at this
    exact Bool.noConfusion this

/-! ## C14, C17: the error exits of `do_unlink` and `do_rename` -/

/-- C14: `do_unlink(dir, leaf)` returns `-ENOTDIR` if `dir` is not a directory; otherwise
`-ENOENT` if the lookup finds no valid entry named `leaf` in block 0 of `dir`; otherwise
`-EISDIR` if the inode of the entry found is a directory; in each case the state (inode
table, bitmaps, dirty sets and device) is the one before the call. -/
theorem do_unlink_errors (s : fs_state) (dir : Nat) (leaf : List Nat) (now : Nat) :
    (¬ S_ISDIR (s.inodes dir).mode = true → do_unlink s dir leaf now = (-ENOTDIR, s)) ∧
    (S_ISDIR (s.inodes dir).mode = true → (∀ e, ¬ dir_entry s dir leaf e) →
      do_unlink s dir leaf now = (-ENOENT, s)) ∧
    (∀ e, dir_entry s dir leaf e →
      S_ISDIR (s.inodes (de_inode (dir_block s dir) e)).mode = true →
      do_unlink s dir leaf now = (-EISDIR, s)) := by
  refine ⟨fun h => ?_, fun h1 h2 => ?_, fun e h1 h2 => ?_⟩
  · unfold do_unlink
    rw [if_pos h]
  · obtain ⟨a, _, _, d⟩ := lookup_none h2 s.stack
    unfold do_unlink
    simp only [h1, not_true_eq_false, if_false, a, if_true, d]
  · unfold do_unlink
    have hge : ¬ (((e : Nat) : Int) < 0) := by omega
    simp only [h1.1, not_true_eq_false, if_false, lookup_found h1, hge, Int.toNat_ofNat, h2,
      if_true]

/-- C14 on `tree_vol`: inode 2 is not a directory, the root has no entry `z`, and its
entry `d` is a directory. -/
theorem do_unlink_errors_witness :
    do_unlink tree_vol 2 [102] 0 = (-ENOTDIR, tree_vol) ∧
    do_unlink tree_vol 1 [122] 0 = (-ENOENT, tree_vol) ∧
    do_unlink tree_vol 1 [100] 0 = (-EISDIR, tree_vol) := by
  have h := do_unlink_errors tree_vol 2 [102] 0
  have k := do_unlink_errors tree_vol 1 [122] 0
  have l := do_unlink_errors tree_vol 1 [100] 0
  refine ⟨h.1 (by decide), k.2.1 (by decide) ?_, l.2.2 4 (by decide) (by decide)⟩
  intro e he
  have hno : no_entry (dir_block tree_vol 1) [122] := by decide
  exact hno e he.2.2.1 he.2.2.2.1

/-- C17: `do_rename(srcdir, src_leaf, dstdir, dst_leaf)` returns `-EINVAL` if and only if
`srcdir` is 0 or differs from `dstdir`; otherwise, for an inumber `srcdir`, it returns
`-ENOENT` if the lookup finds no valid entry named `src_leaf`, and otherwise `-EEXIST` if it
finds a valid entry named `dst_leaf` (so also when `dst_leaf` is `src_leaf`); in each of
these cases the state is the one before the call. -/
theorem do_rename_errors (s : fs_state) (srcdir dstdir : Int) (src_leaf dst_leaf : List Nat)
    (now : Nat) :
    ((∃ t, do_rename s srcdir src_leaf dstdir dst_leaf now = some (-EINVAL, t)) ↔
      (srcdir = 0 ∨ srcdir ≠ dstdir)) ∧
    ((srcdir = 0 ∨ srcdir ≠ dstdir) →
      do_rename s srcdir src_leaf dstdir dst_leaf now = some (-EINVAL, s)) ∧
    (0 < srcdir → srcdir = dstdir → (∀ e, ¬ dir_entry s srcdir.toNat src_leaf e) →
      do_rename s srcdir src_leaf dstdir dst_leaf now = some (-ENOENT, s)) ∧
    (0 < srcdir → srcdir = dstdir → ∀ e1 e2, dir_entry s srcdir.toNat src_leaf e1 →
      dir_entry s srcdir.toNat dst_leaf e2 →
      do_rename s srcdir src_leaf dstdir dst_leaf now = some (-EEXIST, s)) ∧
    (0 < srcdir → srcdir = dstdir → ∀ e, dir_entry s srcdir.toNat src_leaf e →
      do_rename s srcdir src_leaf dstdir src_leaf now = some (-EEXIST, s)) := by
  have inval : (srcdir = 0 ∨ srcdir ≠ dstdir) →
      do_rename s srcdir src_leaf dstdir dst_leaf now = some (-EINVAL, s) := by
    intro h
    unfold do_rename
    rw [if_pos h]
  have exist : 0 < srcdir → srcdir = dstdir → ∀ (dst : List Nat) (e1 e2 : Nat),
      dir_entry s srcdir.toNat src_leaf e1 → dir_entry s srcdir.toNat dst e2 →
      do_rename s srcdir src_leaf dstdir dst now = some (-EEXIST, s) := by
    intro h0 heq dst e1 e2 h1 h2
    have c1 : ¬ (srcdir = 0 ∨ srcdir ≠ dstdir) := by
      rintro (c | c)
      · omega
      · exact c heq
    have c2 : ¬ (srcdir < 0) := by omega
    have g1 : ¬ (((e1 : Nat) : Int) < 0) := by omega
    have g2 : ((e2 : Nat) : Int) ≥ 0 := by omega
    unfold do_rename
    rw [← heq]
    simp only [c1, c2, if_false, lookup_found h1, g1, lookup_found h2, g2, if_true]
    rw [heq] at c1
    simp only [ne_eq, not_true_eq_false, or_false] at c1
    simp only [heq, c1, ne_eq, not_true_eq_false, or_self, if_false]
  refine ⟨⟨?_, fun h => ⟨s, inval h⟩⟩, inval, ?_, fun h0 heq e1 e2 => exist h0 heq dst_leaf e1 e2,
    fun h0 heq e he => exist h0 heq src_leaf e e he he⟩
  · rintro ⟨t, ht⟩
    by_contra hc
    unfold do_rename at ht
    rw [if_neg hc] at ht
    by_cases c2 : srcdir < 0
    · rw [if_pos c2] at ht
      exact Option.noConfusion ht
    · rw [if_neg c2] at ht
      simp only at ht
      split_ifs at ht <;>
        · have := congrArg (fun o => o.map Prod.fst) ht
          simp only [Option.map_some'] at this
          exact absurd (Option.some.inj this) (by decide)
  · intro h0 heq hno
    have c1 : ¬ (srcdir = 0 ∨ srcdir ≠ dstdir) := by
      rintro (c | c)
      · omega
      · exact c heq
    have c2 : ¬ (srcdir < 0) := by omega
    obtain ⟨a, _, _, d⟩ := lookup_none hno s.stack
    unfold do_rename
    simp only [c1, c2, if_false, a, if_true, d]

/-- C17 on `tree_vol`: different directories; the root has no entry `z`; it has the entries
`f` and `g`. -/
theorem do_rename_errors_witness :
    do_rename tree_vol 1 [102] 2 [103] 0 = some (-EINVAL, tree_vol) ∧
    do_rename tree_vol 1 [122] 1 [121] 0 = some (-ENOENT, tree_vol) ∧
    do_rename tree_vol 1 [102] 1 [103] 0 = some (-EEXIST, tree_vol) ∧
    do_rename tree_vol 1 [102] 1 [102] 0 = some (-EEXIST, tree_vol) := by
  refine ⟨(do_rename_errors tree_vol 1 2 [102] [103] 0).2.1 (Or.inr (by decide)),
    (do_rename_errors tree_vol 1 1 [122] [121] 0).2.2.1 (by decide) rfl ?_,
    (do_rename_errors tree_vol 1 1 [102] [103] 0).2.2.2.1 (by decide) rfl 2 3 (by decide)
      (by decide),
    (do_rename_errors tree_vol 1 1 [102] [103] 0).2.2.2.2 (by decide) rfl 2 (by decide)⟩
  intro e he
  have hno : no_entry (dir_block tree_vol 1) [122] := by decide
  exact hno e he.2.2.1 he.2.2.2.1

/-! ## C13: a successful `do_unlink` -/

/-- C13: let `dir` be a directory in which `leaf` (at most 27 bytes) names the regular file
`tgt`, no other valid entry being named `leaf`; let `dir` and `tgt` be well-formed with
separate blocks and `32 ≤ dir.size < 2^32`.  Then `do_unlink(dir, leaf)` returns 0, the matched
entry has `valid = 0` in the directory block on the device, `get_dir_entry_inode(dir, leaf)`
returns `-ENOENT`, the inode-bitmap bit of `tgt` is clear, the block-bitmap bit of every
block that `tgt` owned is clear, and `dir.size` is 32 less. -/
theorem do_unlink_removes (v : Nat) {s : fs_state} {dir tgt : Nat} {leaf : List Nat} (now : Nat)
    (hdir : S_ISDIR (s.inodes dir).mode = true)
    (hlook : get_dir_entry_inode v s dir leaf = (tgt : Int))
    (hreg : ¬ S_ISDIR (s.inodes tgt).mode = true)
    (hlen : leaf.length < FS_FILENAME_SIZE)
    (hu : unique_name (dir_block s dir) leaf)
    (hwf : dir_and_file s dir tgt)
    (hsize : 32 ≤ (s.inodes dir).size) (hfield : (s.inodes dir).size < 4294967296) :
    (do_unlink s dir leaf now).1 = 0 ∧
    (∃ e, dir_entry s dir leaf e ∧ de_inode (dir_block s dir) e = tgt ∧
      de_valid (dir_block (do_unlink s dir leaf now).2 dir) e = 0) ∧
    get_dir_entry_inode v (do_unlink s dir leaf now).2 dir leaf = -ENOENT ∧
    (do_unlink s dir leaf now).2.inode_map tgt = false ∧
    (∀ b, b ∈ owned_blocks s tgt → (do_unlink s dir leaf now).2.block_map b = false) ∧
    ((do_unlink s dir leaf now).2.inodes dir).size + 32 = (s.inodes dir).size := by
  have hne : dir ≠ tgt := fun e => hreg (e ▸ hdir)
  have hv : ¬ (v = 0 ∧ leaf = [46]) := by
    intro hc
    unfold get_dir_entry_inode at hlook
    rw [if_pos hc] at hlook
    exact hne (by exact_mod_cast hlook)
  rcases lookup_cases s dir leaf with ⟨e, he⟩ | hno
  · have htgt : de_inode (dir_block s dir) e = tgt := by
      have := get_dir_entry_inode_found hv he
      rw [hlook] at this
      exact_mod_cast this.symm
    have hreg' : ¬ S_ISDIR (s.inodes (de_inode (dir_block s dir) e)).mode = true := by
      rw [htgt]; exact hreg
    obtain ⟨r1, r2, r3, r4, r5⟩ := remove_entry_spec he.2.1 htgt hwf hne now
    rw [do_unlink_found he hreg']
    have hbn : dir_blkno (remove_entry s dir e now) dir = dir_blkno s dir := by
      unfold dir_blkno
      rw [r1]
    refine ⟨rfl, ⟨e, he, htgt, ?_⟩, ?_, ?_, ?_, ?_⟩
    · show de_valid (dir_block (remove_entry s dir e now) dir) e = 0
      rw [r3, de_valid_set_de_valid]
    · show get_dir_entry_inode v (remove_entry s dir e now) dir leaf = -ENOENT
      apply get_dir_entry_inode_absent hv
      · rw [r1]; exact hdir
      · unfold has_block0
        rw [hbn, r2]
        exact he.2.1
      · rw [r3]
        exact no_entry_after_clear hlen he.2.2.2.1 he.2.2.1 hu
    · show (remove_entry s dir e now).inode_map tgt = false
      rw [r4, if_pos rfl]
    · intro b hb
      show (remove_entry s dir e now).block_map b = false
      rw [r5, if_pos hb]
    · show ((remove_entry s dir e now).inodes dir).size + 32 = _
      rw [r1]
      simp only [dir_size_less_ge hsize hfield]
      omega
  · have := get_dir_entry_inode_none hv hno
    rw [hlook] at this
    omega

/-- C13 on `tree_vol`: the name `f` of the root directory is unlinked; the file is inode 2
and owns block 9. -/
theorem do_unlink_removes_witness :
    (do_unlink tree_vol 1 [102] 0).1 = 0 ∧
    (∃ e, dir_entry tree_vol 1 [102] e ∧ de_inode (dir_block tree_vol 1) e = 2 ∧
      de_valid (dir_block (do_unlink tree_vol 1 [102] 0).2 1) e = 0) ∧
    get_dir_entry_inode 1 (do_unlink tree_vol 1 [102] 0).2 1 [102] = -ENOENT ∧
    (do_unlink tree_vol 1 [102] 0).2.inode_map 2 = false ∧
    (∀ b, b ∈ owned_blocks tree_vol 2 → (do_unlink tree_vol 1 [102] 0).2.block_map b = false) ∧
    ((do_unlink tree_vol 1 [102] 0).2.inodes 1).size + 32 = (tree_vol.inodes 1).size :=
  do_unlink_removes 1 0 (by decide) (by decide) (by decide) (by decide) (by decide)
    tree_vol_file (by decide) (by decide)

/-! ## C12, C15, C19, C20: the code at the failing inputs -/

/-- C12 (code defect): on `empty_root_vol`, `do_mkentry(1, leaf, ...)` with a `leaf` of 28
bytes returns the new inumber 2 and stores a valid entry; the same call repeated does not
return `-EEXIST`: it returns the new inumber 3, takes a second slot and adds 32 to the size
again.  The entry stores 27 bytes of the name, the lookup compares all 28. -/
theorem do_mkentry_long_name_twice :
    long_name.length = 28 ∧
    (do_mkentry empty_root_vol 1 long_name 420 S_IFREG 0 0 0).1 = 2 ∧
    de_valid (dir_block (do_mkentry empty_root_vol 1 long_name 420 S_IFREG 0 0 0).2 1) 0 = 1 ∧
    (do_mkentry (do_mkentry empty_root_vol 1 long_name 420 S_IFREG 0 0 0).2 1 long_name 420
      S_IFREG 0 0 0).1 = 3 ∧
    (do_mkentry (do_mkentry empty_root_vol 1 long_name 420 S_IFREG 0 0 0).2 1 long_name 420
      S_IFREG 0 0 0).2.inode_map 3 = true ∧
    de_valid (dir_block (do_mkentry (do_mkentry empty_root_vol 1 long_name 420 S_IFREG 0 0 0).2 1
      long_name 420 S_IFREG 0 0 0).2 1) 1 = 1 ∧
    ((do_mkentry (do_mkentry empty_root_vol 1 long_name 420 S_IFREG 0 0 0).2 1 long_name 420
      S_IFREG 0 0 0).2.inodes 1).size = 64 := by
  decide

/-- C15 (code defect): in `tree_vol` inode 2 is a regular file with `nlink = 2`, named `f`
and `g` in the root directory and owning block 9.  `do_unlink(1, "f")` returns 0 and
releases the inode and its block (bitmap bits clear, pointer and size 0) although the name
`g` still leads to inode 2. -/
theorem do_unlink_ignores_nlink :
    (tree_vol.inodes 2).nlink = 2 ∧ S_ISDIR (tree_vol.inodes 2).mode = false ∧
    get_dir_entry_inode 1 tree_vol 1 [102] = 2 ∧ get_dir_entry_inode 1 tree_vol 1 [103] = 2 ∧
    (tree_vol.inodes 2).direct 0 = 9 ∧
    (do_unlink tree_vol 1 [102] 0).1 = 0 ∧
    (do_unlink tree_vol 1 [102] 0).2.inode_map 2 = false ∧
    (do_unlink tree_vol 1 [102] 0).2.block_map 9 = false ∧
    ((do_unlink tree_vol 1 [102] 0).2.inodes 2).direct 0 = 0 ∧
    ((do_unlink tree_vol 1 [102] 0).2.inodes 2).size = 0 ∧
    ((do_unlink tree_vol 1 [102] 0).2.inodes 2).nlink = 2 ∧
    get_dir_entry_inode 1 (do_unlink tree_vol 1 [102] 0).2 1 [103] = 2 := by
  decide

/-- C19 (code defect): in `tree_vol` the root has no entry `n` and `f` is a regular file, so
the parent directories of `/n/x` and of `/f/z/x` cannot be resolved (`-ENOENT`, `-ENOTDIR`).
`fs_rename("/n/x", "/y")` and `fs_rename("/f/z/x", "/y")` return `-EINVAL`, and
`fs_rename("/n/x", "/n/y")` passes the negative number on to `fs.inodes[...]`. -/
theorem fs_rename_unresolved_parent :
    (get_inode_of_path_dir 1 tree_vol [47, 110, 47, 120] []).1 = -ENOENT ∧
    (get_inode_of_path_dir 1 tree_vol [47, 102, 47, 122, 47, 120] []).1 = -ENOTDIR ∧
    fs_rename 1 tree_vol [47, 110, 47, 120] [47, 121] [] [] 0 = some (-EINVAL, tree_vol) ∧
    fs_rename 1 tree_vol [47, 102, 47, 122, 47, 120] [47, 121] [] [] 0 =
      some (-EINVAL, tree_vol) ∧
    fs_rename 1 tree_vol [47, 110, 47, 120] [47, 110, 47, 121] [] [] 0 = none := by
  refine ⟨by decide, by decide, ?_, ?_, ?_⟩
  · unfold fs_rename do_rename
    rw [if_pos (by decide)]
  · unfold fs_rename do_rename
    rw [if_pos (by decide)]
  · unfold fs_rename do_rename
    rw [if_neg (by decide), if_pos (by decide)]

/-- C20 (code defect): in `tree_vol` the regular file `/f` is inode 2 with `nlink = 2`;
`fs_link("/f", "/h")` returns 0 and leaves `nlink = 4`, and so does `do_link(2, "/", "h")`:
the count is incremented by `increment_link_count` and again by `set_dir_entry`. -/
theorem fs_link_counts_twice :
    get_inode_of_path 1 tree_vol [47, 102] = 2 ∧ (tree_vol.inodes 2).nlink = 2 ∧
    (fs_link 1 tree_vol [47, 102] [47, 104] []).1 = 0 ∧
    ((fs_link 1 tree_vol [47, 102] [47, 104] []).2.inodes 2).nlink = 4 ∧
    (do_link 1 tree_vol 2 [47] [104]).1 = 0 ∧
    ((do_link 1 tree_vol 2 [47] [104]).2.inodes 2).nlink = 4 := by
  decide

/-! ## C16: when `do_rmdir` finds a directory empty -/

/-- C16 (counterexample): in `tree_vol` the directory `d` (inode 3) of the root holds the
valid entries `.` and `..` and no other, and `do_rmdir(1, "d")` returns `-ENOTEMPTY` and
changes nothing. -/
theorem do_rmdir_dots_not_empty :
    dir_entry tree_vol 1 [100] 4 ∧ de_inode (dir_block tree_vol 1) 4 = 3 ∧
    S_ISDIR (tree_vol.inodes 3).mode = true ∧
    (∀ e, e < DIRENTS_PER_BLK → de_valid (dir_block tree_vol 3) e = 1 →
      name_is (dir_block tree_vol 3) e [46] ∨ name_is (dir_block tree_vol 3) e [46, 46]) ∧
    do_rmdir tree_vol 1 [100] 0 = (-ENOTEMPTY, tree_vol) := by
  refine ⟨by decide, by decide, by decide, by decide, ?_⟩
  rw [do_rmdir_found (e := 4) (by decide) (by decide), if_pos (by decide)]

/-- C16 (amended): when `leaf` names the directory `tgt` in directory `dir`, `do_rmdir(dir,
leaf)` returns `-ENOTEMPTY` if and only if `tgt.size ≥ 32`, that is when the entry count
`size / 32` is not 0, and then nothing changes; otherwise it returns 0, and for well-formed
`dir` and `tgt` with separate blocks the entry is invalid on the device afterwards, the
inode-bitmap bit of `tgt` is clear and so are the bits of the blocks `tgt` owned. -/
theorem do_rmdir_by_size {s : fs_state} {dir e tgt : Nat} {leaf : List Nat} (now : Nat)
    (he : dir_entry s dir leaf e) (htgt : de_inode (dir_block s dir) e = tgt)
    (hd : S_ISDIR (s.inodes tgt).mode = true) :
    ((do_rmdir s dir leaf now).1 = -ENOTEMPTY ↔ 32 ≤ (s.inodes tgt).size) ∧
    (32 ≤ (s.inodes tgt).size → do_rmdir s dir leaf now = (-ENOTEMPTY, s)) ∧
    ((s.inodes tgt).size < 32 → (do_rmdir s dir leaf now).1 = 0 ∧
      (dir_and_file s dir tgt → dir ≠ tgt →
        de_valid (dir_block (do_rmdir s dir leaf now).2 dir) e = 0 ∧
        (do_rmdir s dir leaf now).2.inode_map tgt = false ∧
        ∀ b, b ∈ owned_blocks s tgt → (do_rmdir s dir leaf now).2.block_map b = false)) := by
  have hd' : S_ISDIR (s.inodes (de_inode (dir_block s dir) e)).mode = true := by
    rw [htgt]; exact hd
  have hr := do_rmdir_found he hd' now
  rw [htgt] at hr
  refine ⟨?_, ?_, ?_⟩
  · by_cases hs : 32 ≤ (s.inodes tgt).size
    · rw [hr, if_pos hs]
      exact ⟨fun _ => hs, fun _ => rfl⟩
    · rw [hr, if_neg hs]
      exact ⟨fun h => absurd (show (0 : Int) = -ENOTEMPTY from h) (by decide), fun h => absurd h hs⟩
  · intro hs
    rw [hr, if_pos hs]
  · intro hs
    rw [hr, if_neg (by omega)]
    refine ⟨rfl, fun hwf hne => ?_⟩
    obtain ⟨_, _, r3, r4, r5⟩ := remove_entry_spec he.2.1 htgt hwf hne now
    refine ⟨?_, ?_, ?_⟩
    · show de_valid (dir_block (remove_entry s dir e now) dir) e = 0
      rw [r3, de_valid_set_de_valid]
    · show (remove_entry s dir e now).inode_map tgt = false
      rw [r4, if_pos rfl]
    · intro b hb
      show (remove_entry s dir e now).block_map b = false
      rw [r5, if_pos hb]

theorem sub_dir_vol_file : dir_and_file sub_dir_vol 1 2 := by
  refine ⟨wf_of_one_block (b := 7) (le_refl _) (by decide) (by decide) (fun _ => rfl) rfl rfl
      (Or.inr (by decide)),
    wf_of_one_block (b := 0) (le_refl _) (by decide) (by decide) (fun n => ?_) rfl rfl
      (Or.inl rfl), ?_⟩
  · show (if n = 0 then 0 else 0) = if n = 0 then 0 else 0
    rfl
  · intro σ _
    rw [ptr_of_one_block (b := 0) (fun n => by
      show (if n = 0 then 0 else 0) = if n = 0 then 0 else 0
      rfl) rfl rfl]
    split_ifs <;> decide

/-- C16 (amended) on `sub_dir_vol`: the directory `d` has size 0 and is removed. -/
theorem do_rmdir_by_size_witness :
    (do_rmdir sub_dir_vol 1 [100] 0).1 = 0 ∧
    de_valid (dir_block (do_rmdir sub_dir_vol 1 [100] 0).2 1) 0 = 0 ∧
    (do_rmdir sub_dir_vol 1 [100] 0).2.inode_map 2 = false := by
  have h := (@do_rmdir_by_size sub_dir_vol 1 0 2 [100] 0 (by decide) rfl (by decide)).2.2
    (by decide)
  have k := h.2 sub_dir_vol_file (by decide)
  exact ⟨h.1, k.1, k.2.1⟩

/-! ## C18: what a successful `do_rename` keeps -/

/-- C18 (counterexample): with `FS_VERSION = 0`, renaming the entry `a` (inode 2) of
`one_file_vol` to `.` returns 0, and the lookup of `.` afterwards answers the directory
itself, inode 1; in `twin_vol`, where two valid entries are named `a`, renaming `a` to `b`
returns 0 and the lookup of `a` afterwards answers inode 3, not `-ENOENT`. -/
theorem do_rename_lookup_differs :
    get_dir_entry_inode 0 one_file_vol 1 [97] = 2 ∧
    (do_rename one_file_vol 1 [97] 1 [46] 0).map
      (fun r => (r.1, get_dir_entry_inode 0 r.2 1 [46])) = some (0, 1) ∧
    (do_rename twin_vol 1 [97] 1 [98] 0).map
      (fun r => (r.1, get_dir_entry_inode 1 r.2 1 [97])) = some (0, 3) := by
  decide

/-- C18 (amended): let `d` be a well-formed directory and `sname`, `tname` C strings of at
most 27 bytes, `sname` carried by one valid entry only, `tname` fitting the name field of
that entry, and neither being `"."` when `FS_VERSION = 0`.  If `do_rename(d, sname, d,
tname)` returns 0 then afterwards `get_dir_entry_inode(d, tname)` is what
`get_dir_entry_inode(d, sname)` was, `get_dir_entry_inode(d, sname)` is `-ENOENT`, `d.size`
is unchanged, the entry is in the slot it was in, and the block is the same outside the
first 27 bytes of that entry's name field. -/
theorem do_rename_keeps_inode (v : Nat) {s t : fs_state} {d : Nat} {sname tname : List Nat}
    {now : Nat} (hres : do_rename s (d : Int) sname (d : Int) tname now = some (0, t))
    (hwf : wf s d) (hs : sname.length < FS_FILENAME_SIZE) (ht : tname.length < FS_FILENAME_SIZE)
    (cs : is_cstr sname) (ct : is_cstr tname) (hu : unique_name (dir_block s d) sname)
    (hfit : ∀ e, dir_entry s d sname e → name_fits (dir_block s d) e tname)
    (hv : v = 0 → sname ≠ [46] ∧ tname ≠ [46]) :
    get_dir_entry_inode v t d tname = get_dir_entry_inode v s d sname ∧
    get_dir_entry_inode v t d sname = -ENOENT ∧
    (t.inodes d).size = (s.inodes d).size ∧
    ∃ e, dir_entry s d sname e ∧ dir_entry t d tname e ∧
      ∀ i, (i < 32 * e + 4 ∨ 32 * e + 31 ≤ i) → dir_block t d i = dir_block s d i := by
  obtain ⟨hd, ⟨e, he⟩, hno⟩ := do_rename_zero hres
  have ht' : t = rename_entry s d e tname now := by
    have := do_rename_found hd he hno now
    rw [hres] at this
    exact (Prod.mk.inj (Option.some.inj this)).2
  obtain ⟨r1, r2, r3, _, _⟩ := rename_entry_spec hwf he.2.1 e tname now
  rw [← ht'] at r1 r2 r3
  have hvs : ¬ (v = 0 ∧ sname = [46]) := fun hc => (hv hc.1).1 hc.2
  have hvt : ¬ (v = 0 ∧ tname = [46]) := fun hc => (hv hc.1).2 hc.2
  have hbn : dir_blkno t d = dir_blkno s d := by
    unfold dir_blkno
    rw [r1]
  have hdir : S_ISDIR (t.inodes d).mode = true := by rw [r1]; exact he.1
  have hb0 : has_block0 t d := by
    unfold has_block0
    rw [hbn, r2]
    exact he.2.1
  have hblk : no_entry (dir_block s d) tname := by
    intro e' he32 hn
    rcases get_dir_entry_in_block_cases (dir_block s d) tname with ⟨_, hx⟩ | ⟨e2, _, hx⟩
    · exact hx e' he32 hn
    · exact hno e2 ⟨he.1, he.2.1, hx⟩
  have hvalid : de_valid (strncpy_name (dir_block s d) e tname) e = 1 := by
    simp only [de_valid, de_word_strncpy_name]
    exact he.2.2.2.1.1
  have hnew : dir_entry t d tname e := by
    refine ⟨hdir, hb0, he.2.2.1, ?_, ?_⟩
    · rw [r3]
      exact ⟨hvalid, name_is_strncpy_name (hfit e he)⟩
    · intro e' hlt hn
      rw [r3, entry_named_strncpy_name_ne _ (by omega) _ ht] at hn
      exact hblk e' (by have := he.2.2.1; omega) hn
  have hne : sname ≠ tname := by
    intro hc
    rw [← hc] at hblk
    exact hblk e he.2.2.1 he.2.2.2.1
  refine ⟨?_, ?_, by rw [r1], e, he, hnew, ?_⟩
  · rw [get_dir_entry_inode_found hvt hnew, get_dir_entry_inode_found hvs he, r3]
    simp only [de_inode, de_word_strncpy_name]
  · apply get_dir_entry_inode_absent hvs hdir hb0
    intro e' he32 hn
    rw [r3] at hn
    by_cases hee : e' = e
    · rw [hee] at hn
      exact hne (name_is_inj cs ct hn.2 (name_is_strncpy_name (hfit e he)))
    · rw [entry_named_strncpy_name_ne _ hee _ hs] at hn
      exact hee (hu e' he32 e he.2.2.1 hn he.2.2.2.1)
  · intro i hi
    rw [r3]
    exact strncpy_name_outside _ _ _ _ hi

/-- C18 (amended) on `tree_vol`: the entry `f` of the root directory becomes `h`. -/
theorem do_rename_keeps_inode_witness :
    get_dir_entry_inode 1 (rename_entry tree_vol 1 2 [104] 0) 1 [104] =
      get_dir_entry_inode 1 tree_vol 1 [102] ∧
    get_dir_entry_inode 1 (rename_entry tree_vol 1 2 [104] 0) 1 [102] = -ENOENT ∧
    ((rename_entry tree_vol 1 2 [104] 0).inodes 1).size = (tree_vol.inodes 1).size ∧
    ∃ e, dir_entry tree_vol 1 [102] e ∧ dir_entry (rename_entry tree_vol 1 2 [104] 0) 1 [104] e ∧
      ∀ i, (i < 32 * e + 4 ∨ 32 * e + 31 ≤ i) →
        dir_block (rename_entry tree_vol 1 2 [104] 0) 1 i = dir_block tree_vol 1 i := by
  have hno : ∀ e', ¬ dir_entry tree_vol 1 [104] e' := by
    intro e he
    have h : no_entry (dir_block tree_vol 1) [104] := by decide
    exact h e he.2.2.1 he.2.2.2.1
  exact do_rename_keeps_inode 1
    (do_rename_found (s := tree_vol) (d := 1) (e := 2) (by decide) (by decide) hno 0)
    tree_vol_wf_root (by decide) (by decide) (by decide) (by decide) (by decide)
    (fun e he => Or.inl (by decide)) (fun h => absurd h (by decide))


/-! ## C11: what a successful `do_mkentry` leaves -/

/-- C11 (counterexample): with `FS_VERSION = 0`, on `empty_root_vol` the name `.` has no
valid entry in the root directory (inode 1), slot 0 is free and inode 2 is free;
`do_mkentry(1, ".", 0644, S_IFREG)` returns the new inumber 2, and
`get_dir_entry_inode(1, ".")` afterwards answers 1, the directory itself. -/
theorem do_mkentry_dot_lookup :
    no_entry (dir_block empty_root_vol 1) [46] ∧
    first_free (dir_block empty_root_vol 1) 0 ∧
    free_inode empty_root_vol = 2 ∧
    (do_mkentry empty_root_vol 1 [46] 420 S_IFREG 0 0 0).1 = 2 ∧
    entry_named (dir_block (do_mkentry empty_root_vol 1 [46] 420 S_IFREG 0 0 0).2 1) 0 [46] ∧
    de_inode (dir_block (do_mkentry empty_root_vol 1 [46] 420 S_IFREG 0 0 0).2 1) 0 = 2 ∧
    get_dir_entry_inode 0 (do_mkentry empty_root_vol 1 [46] 420 S_IFREG 0 0 0).2 1 [46] = 1 := by
  decide

/-- C11 (amended): let `dir` be a well-formed, allocated directory inode whose block 0 is
present, on a volume of at most `2^30` inodes, and `leaf` a name without a valid entry in
that block which fits the name field of the first free slot `e` (at most 26 bytes, or 27
when the last byte of that field is 0) and is not `"."` when `FS_VERSION = 0`.  If an inode
is free, `do_mkentry(dir, leaf, mode, ftype)` returns a new inumber `inum > 0` whose bitmap
bit was clear and is now set; slot `e` holds a valid entry with name `leaf` and inode
`inum`; every byte of the block outside slot `e` is unchanged; `dir.size` has grown by
exactly 32; and `get_dir_entry_inode(dir, leaf)` returns `inum`. -/
theorem do_mkentry_adds (v : Nat) {s : fs_state} {dir e : Nat} {leaf : List Nat}
    (mode ftype now uid gid : Nat)
    (hdir : S_ISDIR (s.inodes dir).mode = true) (hwf : wf s dir) (h0 : has_block0 s dir)
    (hmap : s.inode_map dir = true) (hn : s.n_inodes ≤ 1073741824)
    (hsz : (s.inodes dir).size + 32 < 4294967296)
    (hno : no_entry (dir_block s dir) leaf) (hfree : first_free (dir_block s dir) e)
    (hfit : name_fits (dir_block s dir) e leaf)
    (hino : ∃ j, 0 < j ∧ j < s.n_inodes ∧ s.inode_map j = false)
    (hv : v = 0 → leaf ≠ [46]) :
    ∃ inum : Nat,
      (do_mkentry s dir leaf mode ftype now uid gid).1 = (inum : Int) ∧ 0 < inum ∧
      s.inode_map inum = false ∧
      (do_mkentry s dir leaf mode ftype now uid gid).2.inode_map inum = true ∧
      entry_named (dir_block (do_mkentry s dir leaf mode ftype now uid gid).2 dir) e leaf ∧
      de_inode (dir_block (do_mkentry s dir leaf mode ftype now uid gid).2 dir) e = inum ∧
      same_outside (dir_block s dir)
        (dir_block (do_mkentry s dir leaf mode ftype now uid gid).2 dir) e ∧
      ((do_mkentry s dir leaf mode ftype now uid gid).2.inodes dir).size =
        (s.inodes dir).size + 32 ∧
      get_dir_entry_inode v (do_mkentry s dir leaf mode ftype now uid gid).2 dir leaf =
        (inum : Int) := by
  have hi := free_inode_exists hino
  obtain ⟨i1, i2, i3⟩ := free_inode_spec hi
  have hne : dir ≠ free_inode s := by
    intro hc
    rw [← hc, hmap] at i3
    exact absurd i3 (by decide)
  have hlen : leaf.length < FS_FILENAME_SIZE := by
    unfold name_fits at hfit
    simp only [FS_FILENAME_SIZE] at hfit ⊢
    omega
  have hr := init_new_inode_found hi hn mode ftype now uid gid
  have hnn : ¬ (init_new_inode s mode ftype now uid gid).1 < 0 := by
    rw [hr]
    omega
  rw [do_mkentry_found hdir hwf h0 hno hfree mode ftype now uid gid hnn, hr]
  obtain ⟨a1, _, a3, a4, a5, _⟩ :=
    add_entry_spec hwf h0 hi hn hne e leaf mode ftype now uid gid
  have hnamed : entry_named (dir_block (add_entry s dir e leaf mode ftype now uid gid) dir) e
      leaf := by
    rw [a4]
    exact ⟨entry_block_valid _ _ _ _ _, entry_block_name _ _ hlen hfit⟩
  have hinode : de_inode (dir_block (add_entry s dir e leaf mode ftype now uid gid) dir) e =
      free_inode s := by
    rw [a4, entry_block_inode]
    exact Nat.mod_eq_of_lt (by omega)
  have hout : same_outside (dir_block s dir)
      (dir_block (add_entry s dir e leaf mode ftype now uid gid) dir) e := by
    rw [a4]
    exact entry_block_outside _ _ _ _ _
  have hentry : dir_entry (add_entry s dir e leaf mode ftype now uid gid) dir leaf e := by
    refine ⟨?_, ?_, hfree.1, hnamed, ?_⟩
    · rw [a1]
      exact hdir
    · unfold has_block0 dir_blkno
      rw [a1, a3]
      exact h0
    · intro e' he' hc
      have he32 : e' < DIRENTS_PER_BLK := lt_trans he' hfree.1
      exact hno e' he32 ((entry_named_of_same_outside hout (ne_of_lt he') hlen).mp hc)
  have hvv : ¬ (v = 0 ∧ leaf = [46]) := fun hc => hv hc.1 hc.2
  refine ⟨free_inode s, rfl, i1, i3, ?_, hnamed, hinode, hout, ?_, ?_⟩
  · rw [a5, if_pos rfl]
  · rw [a1]
    exact Nat.mod_eq_of_lt hsz
  · rw [get_dir_entry_inode_found hvv hentry, hinode]

theorem do_mkentry_adds_witness :
    ∃ inum : Nat,
      (do_mkentry empty_root_vol 1 [97] 420 S_IFREG 0 0 0).1 = (inum : Int) ∧ 0 < inum ∧
      empty_root_vol.inode_map inum = false ∧
      (do_mkentry empty_root_vol 1 [97] 420 S_IFREG 0 0 0).2.inode_map inum = true ∧
      entry_named (dir_block (do_mkentry empty_root_vol 1 [97] 420 S_IFREG 0 0 0).2 1) 0 [97] ∧
      de_inode (dir_block (do_mkentry empty_root_vol 1 [97] 420 S_IFREG 0 0 0).2 1) 0 = inum ∧
      same_outside (dir_block empty_root_vol 1)
        (dir_block (do_mkentry empty_root_vol 1 [97] 420 S_IFREG 0 0 0).2 1) 0 ∧
      ((do_mkentry empty_root_vol 1 [97] 420 S_IFREG 0 0 0).2.inodes 1).size =
        (empty_root_vol.inodes 1).size + 32 ∧
      get_dir_entry_inode 0 (do_mkentry empty_root_vol 1 [97] 420 S_IFREG 0 0 0).2 1 [97] =
        (inum : Int) :=
  @do_mkentry_adds 0 empty_root_vol 1 0 [97] 420 S_IFREG 0 0 0 (by decide) empty_root_vol_wf
    (by decide) (by decide) (by decide) (by decide) (by decide) (by decide) (by decide)
    ⟨2, by decide, by decide, by decide⟩ (by decide)


/-! ## C22, C23: the leaf of a path that ends with a slash -/

/-- C22 (counterexample): in `tree_vol` the file `/f` is regular and the directory of `/d/`
resolves (inode 3) with the leaf `"."`; `fs_link("/f", "/d/")` returns `-EEXIST`, not
`-EACCES`, with `FS_VERSION = 0` as with `FS_VERSION = 1`. -/
theorem fs_link_trailing_slash :
    get_inode_of_path 1 tree_vol [47, 102] = 2 ∧ S_ISDIR (tree_vol.inodes 2).mode = false ∧
    get_inode_of_path_dir 1 tree_vol [47, 100, 47] [] = (3, [46]) ∧
    get_inode_of_path_dir 0 tree_vol [47, 100, 47] [] = (3, [46]) ∧
    (fs_link 1 tree_vol [47, 102] [47, 100, 47] []).1 = -EEXIST ∧
    (fs_link 0 tree_vol [47, 102] [47, 100, 47] []).1 = -EEXIST := by
  decide

/-- C22 (amended): `fs_link(src_path, dst_path)` returns `-EISDIR` and changes nothing when
`src_path` resolves to a directory; when `src_path` resolves to a regular file, the
directory of `dst_path` resolves to a directory and the leaf of `dst_path` is empty, it
returns `-EACCES` and changes nothing.  The leaf is empty for the empty path; for a
`dst_path` that ends with `'/'` and whose directory resolves, the leaf is `"."`. -/
theorem fs_link_empty_leaf (v : Nat) (s : fs_state) (src dst leaf : List Nat) :
    (0 ≤ get_inode_of_path v s src →
      S_ISDIR (s.inodes (get_inode_of_path v s src).toNat).mode = true →
      fs_link v s src dst leaf = (-EISDIR, s)) ∧
    (0 ≤ get_inode_of_path v s src →
      ¬ S_ISDIR (s.inodes (get_inode_of_path v s src).toNat).mode = true →
      0 ≤ (get_inode_of_path_dir v s dst leaf).1 →
      S_ISDIR (s.inodes (get_inode_of_path_dir v s dst leaf).1.toNat).mode = true →
      (get_inode_of_path_dir v s dst leaf).2 = [] →
      fs_link v s src dst leaf = (-EACCES, s)) ∧
    (0 < s.root_inode → get_inode_of_path_dir v s [] leaf = ((s.root_inode : Int), [])) ∧
    (dst.getLast? = some 47 → 0 < (get_inode_of_path_dir v s dst leaf).1 →
      (get_inode_of_path_dir v s dst leaf).2 = [46]) := by
  refine ⟨fun h1 h2 => ?_, fun h1 h2 h3 h4 h5 => ?_, fun h => ?_, fun h1 h2 => ?_⟩
  · unfold fs_link
    have c1 : ¬ get_inode_of_path v s src < 0 := by omega
    simp only [c1, if_false, h2, if_true]
  · unfold fs_link
    have c1 : ¬ get_inode_of_path v s src < 0 := by omega
    have c2 : ¬ (get_inode_of_path_dir v s dst leaf).1 < 0 := by omega
    simp only [c1, if_false, h2, c2, h4, not_true_eq_false, h5, List.length_nil, if_true,
      Bool.false_eq_true]
  · have hp : (0 : Int) < (s.root_inode : Int) := by omega
    unfold get_inode_of_path_dir
    simp only [show path_tokens [] = [] from rfl, List.take_nil, walk_path, hp, if_true,
      List.getLastD]
  · rw [get_inode_of_path_dir_snd v s dst leaf h2, path_tokens_slash h1]

/-- C22 (amended) on `tree_vol`: `/d` is a directory, `/f` a regular file, the empty path
has the root as its directory and an empty leaf, `/d/` has the leaf `"."`. -/
theorem fs_link_empty_leaf_witness :
    fs_link 1 tree_vol [47, 100] [47, 120] [] = (-EISDIR, tree_vol) ∧
    fs_link 1 tree_vol [47, 102] [] [] = (-EACCES, tree_vol) ∧
    get_inode_of_path_dir 1 tree_vol [] [] = ((tree_vol.root_inode : Int), []) ∧
    (get_inode_of_path_dir 1 tree_vol [47, 100, 47] []).2 = [46] :=
  ⟨(fs_link_empty_leaf 1 tree_vol [47, 100] [47, 120] []).1 (by decide) (by decide),
    (fs_link_empty_leaf 1 tree_vol [47, 102] [] []).2.1 (by decide) (by decide) (by decide)
      (by decide) (by decide),
    (fs_link_empty_leaf 1 tree_vol [47, 102] [] []).2.2.1 (by decide),
    (fs_link_empty_leaf 1 tree_vol [47, 102] [47, 100, 47] []).2.2.2 (by decide) (by decide)⟩

/-- C23 (counterexample): on `tree_vol`, `get_inode_of_path_dir("/", leaf)` returns the root
inumber 1 and sets `leaf` to `"."`, not to the empty string. -/
theorem root_leaf_is_dot :
    get_inode_of_path_dir 0 tree_vol [47] [] = (1, [46]) ∧
    get_inode_of_path_dir 1 tree_vol [47] [] = (1, [46]) ∧
    ([46] : List Nat) ≠ [] := by
  decide

/-- C23 (amended): `get_inode_of_path_dir("/", leaf)` returns the root inumber and sets
`leaf` to `"."`, the token appended to a path that ends with `'/'`. -/
theorem get_inode_of_path_dir_root (v : Nat) (s : fs_state) (leaf : List Nat)
    (h : 0 < s.root_inode) :
    get_inode_of_path_dir v s [47] leaf = ((s.root_inode : Int), [46]) := by
  have hp : (0 : Int) < (s.root_inode : Int) := by omega
  unfold get_inode_of_path_dir
  simp only [show path_tokens [47] = [[46]] from by decide, List.length_singleton,
    Nat.sub_self, List.take_zero, walk_path, hp, if_true, List.getLastD]
  rfl

/-- C23 (amended) on `empty_root_vol`, whatever the array held before. -/
theorem get_inode_of_path_dir_root_witness :
    get_inode_of_path_dir 0 empty_root_vol [47] [120, 121] =
      ((empty_root_vol.root_inode : Int), [46]) :=
  get_inode_of_path_dir_root 0 empty_root_vol [120, 121] (by decide)

/-! ## C24, C25: the two walks of the path resolver -/

/-- C24 (counterexample): in `zero_entry_vol` slot 0 of the root directory is a valid entry
`z` that names inode 0.  For the path `/z`, `get_inode_of_path_dir` returns the parent 1 and
the leaf `z`, and `get_dir_entry_inode(1, "z")` returns 0; `get_inode_of_path("/z")` returns
1: its walk takes the lookup result 0 for "finished" and answers with the inode it had
reached.  The same holds with `FS_VERSION = 0`. -/
theorem zero_entry_round_trip :
    de_valid (dir_block zero_entry_vol 1) 0 = 1 ∧ de_inode (dir_block zero_entry_vol 1) 0 = 0 ∧
    get_inode_of_path_dir 1 zero_entry_vol [47, 122] [] = (1, [122]) ∧
    get_dir_entry_inode 1 zero_entry_vol 1 [122] = 0 ∧
    get_inode_of_path 1 zero_entry_vol [47, 122] = 1 ∧
    get_inode_of_path_dir 0 zero_entry_vol [47, 122] [] = (1, [122]) ∧
    get_dir_entry_inode 0 zero_entry_vol 1 [122] = 0 ∧
    get_inode_of_path 0 zero_entry_vol [47, 122] = 1 := by
  decide

/-- C24 (amended): for every path `p` other than the empty string and every volume state
that keeps invariant 5 (no valid directory entry names inode 0): if
`get_inode_of_path_dir(p, leaf)` returns `parent > 0` then `get_dir_entry_inode(parent, leaf)`
is the value of `get_inode_of_path(p)`, an inumber or a negative error, and if it returns an
error then `get_inode_of_path(p)` returns that error. -/
theorem path_round_trip (v : Nat) (s : fs_state) (p leaf : List Nat) (hp : p ≠ [])
    (hnz : no_zero_entry s) :
    (0 < (get_inode_of_path_dir v s p leaf).1 →
      get_dir_entry_inode v s (get_inode_of_path_dir v s p leaf).1.toNat
        (get_inode_of_path_dir v s p leaf).2 = get_inode_of_path v s p) ∧
    ((get_inode_of_path_dir v s p leaf).1 < 0 →
      get_inode_of_path v s p = (get_inode_of_path_dir v s p leaf).1) := by
  have hne := path_tokens_ne_nil hp
  have hsplit := take_append_getLastD (path_tokens p) [] hne
  have hw := walk_path_snoc hnz v ((path_tokens p).getLastD [])
    ((path_tokens p).take ((path_tokens p).length - 1)) s.root_inode
  rw [← hsplit] at hw
  refine ⟨fun h => ?_, fun h => ?_⟩
  · rw [get_inode_of_path_dir_snd v s p leaf h]
    rw [get_inode_of_path_dir_fst] at h ⊢
    exact (hw.2 h).symm
  · rw [get_inode_of_path_dir_fst] at h ⊢
    exact hw.1 h

/-- C24 (amended) on `tree_vol`: the path `/f`, whose parent is the root, and the path `/n/x`, whose
parent does not exist. -/
theorem path_round_trip_witness :
    get_dir_entry_inode 1 tree_vol (get_inode_of_path_dir 1 tree_vol [47, 102] []).1.toNat
      (get_inode_of_path_dir 1 tree_vol [47, 102] []).2 =
      get_inode_of_path 1 tree_vol [47, 102] ∧
    get_inode_of_path 1 tree_vol [47, 110, 47, 120] =
      (get_inode_of_path_dir 1 tree_vol [47, 110, 47, 120] []).1 ∧
    get_inode_of_path_dir 1 tree_vol [47, 102] [] = (1, [102]) ∧
    get_inode_of_path 1 tree_vol [47, 102] = 2 ∧
    get_inode_of_path 1 tree_vol [47, 110, 47, 120] = -ENOENT :=
  ⟨(path_round_trip 1 tree_vol [47, 102] [] (by decide) tree_vol_no_zero_entry).1 (by decide),
    (path_round_trip 1 tree_vol [47, 110, 47, 120] [] (by decide) tree_vol_no_zero_entry).2
      (by decide),
    by decide, by decide, by decide⟩

/-- C25: with `FS_VERSION = 0`, the default build, `get_inode_of_path("/a/")` returns 2 in
`one_file_vol`, where the name `a` of the root is the regular file inode 2; the reference
walk over the tokens `a`, `.` yields `-ENOTDIR`, and so does the same call in a build with
`FS_VERSION = 1`. -/
theorem get_inode_of_path_file_slash :
    path_tokens [47, 97, 47] = [[97], [46]] ∧
    S_ISDIR (one_file_vol.inodes 2).mode = false ∧
    get_inode_of_path 0 one_file_vol [47, 97, 47] = 2 ∧
    reference_walk one_file_vol (path_tokens [47, 97, 47]) one_file_vol.root_inode =
      -ENOTDIR ∧
    get_inode_of_path 1 one_file_vol [47, 97, 47] = -ENOTDIR := by
  decide

/-- On a volume that keeps invariants 3 and 5 for its directories, `get_inode_of_path(p)`
equals the reference walk over the tokens of `p` (with `.` appended when `p` ends with
`'/'`), in a build with `FS_VERSION ≥ 1` for every path and in a build with
`FS_VERSION = 0` for every path without a token `.`. -/
theorem get_inode_of_path_reference (v : Nat) (s : fs_state) (p : List Nat)
    (hnz : no_zero_entry s) (hblk : dir_blocks_ok s)
    (hv : v = 0 → ∀ t, t ∈ path_tokens p → t ≠ [46]) :
    get_inode_of_path v s p = reference_walk s (path_tokens p) s.root_inode :=
  walk_path_reference hnz hblk v (path_tokens p) s.root_inode hv

/-- On `tree_vol` with `FS_VERSION = 1`: for `/f/`, where `f` is a regular file, both walks
yield `-ENOTDIR`. -/
theorem get_inode_of_path_reference_witness :
    get_inode_of_path 1 tree_vol [47, 102, 47] =
      reference_walk tree_vol (path_tokens [47, 102, 47]) tree_vol.root_inode ∧
    get_inode_of_path 1 tree_vol [47, 102, 47] = -ENOTDIR :=
  ⟨get_inode_of_path_reference 1 tree_vol [47, 102, 47] tree_vol_no_zero_entry
    tree_vol_dir_blocks_ok (fun h => absurd h (by decide)), by decide⟩

/-! ## C30: the scan of a directory block -/

/-- C30: `get_dir_entry_in_block(de, name)` returns `e` exactly when `e` is the smallest
index below 32 whose entry has `valid = 1` and the name `name`, and `-ENOENT` exactly when
there is no such entry; it returns nothing else.  On the root block of the image builder,
`file.A` resolves to slot 3 with inode 2, not to slot 2, which carries the same name and
inode 1717 with `valid = 0`. -/
theorem get_dir_entry_in_block_first (blk : Block) (name : List Nat) :
    (∀ e : Nat, get_dir_entry_in_block blk name = (e : Int) ↔ first_entry blk name e) ∧
    (get_dir_entry_in_block blk name = -ENOENT ↔ no_entry blk name) ∧
    ((∃ e : Nat, get_dir_entry_in_block blk name = (e : Int)) ∨
      get_dir_entry_in_block blk name = -ENOENT) ∧
    (∀ e : Nat, de_valid blk e = 0 → get_dir_entry_in_block blk name ≠ (e : Int)) ∧
    (∀ v : Nat, v < 2 →
      get_dir_entry_in_block (mktest_root_blk v) [102, 105, 108, 101, 46, 65] = 3 ∧
      de_inode (mktest_root_blk v) 3 = 2 ∧
      de_valid (mktest_root_blk v) 2 = 0 ∧
      name_is (mktest_root_blk v) 2 [102, 105, 108, 101, 46, 65] ∧
      de_inode (mktest_root_blk v) 2 = 1717) := by
  have hneg : ∀ e : Nat, (-ENOENT : Int) ≠ (e : Int) := by
    intro e h
    have : (0 : Int) ≤ (e : Int) := Int.natCast_nonneg e
    rw [← h] at this
    exact absurd this (by decide)
  have hfwd : ∀ e : Nat, get_dir_entry_in_block blk name = (e : Int) → first_entry blk name e := by
    intro e h
    rcases get_dir_entry_in_block_cases blk name with ⟨h1, _⟩ | ⟨e', h1, h2⟩
    · rw [h1] at h
      exact absurd h (hneg e)
    · rw [h1] at h
      have : e' = e := by exact_mod_cast h
      rw [← this]
      exact h2
  refine ⟨fun e => ⟨hfwd e, get_dir_entry_in_block_found⟩,
    ⟨fun h => ?_, get_dir_entry_in_block_none⟩, ?_, fun e hv h => ?_, by decide⟩
  · rcases get_dir_entry_in_block_cases blk name with ⟨_, h2⟩ | ⟨e', h1, _⟩
    · exact h2
    · rw [h1] at h
      exact absurd h.symm (hneg e')
  · rcases get_dir_entry_in_block_cases blk name with ⟨h1, _⟩ | ⟨e', h1, _⟩
    · exact Or.inr h1
    · exact Or.inl ⟨e', h1⟩
  · have := (hfwd e h).2.1.1
    rw [hv] at this
    exact absurd this (by decide)

/-- C30 on the root block of the image builder: the invalid slot 2 is not the answer for
`file.A`, and slot 3 is the first valid entry of that name. -/
theorem get_dir_entry_in_block_first_witness :
    get_dir_entry_in_block (mktest_root_blk 1) [102, 105, 108, 101, 46, 65] ≠ 2 ∧
    first_entry (mktest_root_blk 1) [102, 105, 108, 101, 46, 65] 3 :=
  ⟨(get_dir_entry_in_block_first (mktest_root_blk 1) [102, 105, 108, 101, 46, 65]).2.2.2.1 2
      (by decide),
    ((get_dir_entry_in_block_first (mktest_root_blk 1) [102, 105, 108, 101, 46, 65]).1 3).mp
      (by decide)⟩


/-! ## C21, C26, C27, C28, C29: the code at the failing inputs -/

/-- C21 (code defect): in `tree_vol` the regular file `/f` is inode 2, the root directory
has no entry `h` and its slot 5 is free.  `fs_link("/f", "/h")` returns 0, and afterwards
the directory block on the device still has no valid entry named `h`, slot 5 is still
invalid, the size of the directory is unchanged and `get_inode_of_path("/h")` is `-ENOENT`:
`do_link` sets the entry in its local buffer and never writes the block. -/
theorem fs_link_entry_not_written :
    get_inode_of_path 1 tree_vol [47, 102] = 2 ∧ S_ISDIR (tree_vol.inodes 2).mode = false ∧
    get_inode_of_path_dir 1 tree_vol [47, 104] [] = (1, [104]) ∧
    no_entry (dir_block tree_vol 1) [104] ∧ first_free (dir_block tree_vol 1) 5 ∧
    (fs_link 1 tree_vol [47, 102] [47, 104] []).1 = 0 ∧
    no_entry (dir_block (fs_link 1 tree_vol [47, 102] [47, 104] []).2 1) [104] ∧
    de_valid (dir_block (fs_link 1 tree_vol [47, 102] [47, 104] []).2 1) 5 = 0 ∧
    ((fs_link 1 tree_vol [47, 102] [47, 104] []).2.inodes 1).size = (tree_vol.inodes 1).size ∧
    get_inode_of_path 1 (fs_link 1 tree_vol [47, 102] [47, 104] []).2 [47, 104] = -ENOENT := by
  decide

/-- C26 (code defect): after `do_write(2, "hello", 5, 0)` at time 7 on `tree_vol`, inode 2
(the file `/f`) has `ctime = 0` and `mtime = 7`; `do_stat` and `fs_getattr("/f")` report
`st_atime = st_mtime = 7` and `st_ctime = 0`, the inode's `ctime`, not its `mtime`. -/
theorem do_stat_reports_ctime :
    ((do_write tree_vol 2 hello 5 0 7).2.inodes 2).ctime = 0 ∧
    ((do_write tree_vol 2 hello 5 0 7).2.inodes 2).mtime = 7 ∧
    (do_stat (do_write tree_vol 2 hello 5 0 7).2 2).st_atime = 7 ∧
    (do_stat (do_write tree_vol 2 hello 5 0 7).2 2).st_mtime = 7 ∧
    (do_stat (do_write tree_vol 2 hello 5 0 7).2 2).st_ctime = 0 ∧
    (fs_getattr 1 (do_write tree_vol 2 hello 5 0 7).2 [47, 102] []).1 = 0 ∧
    (fs_getattr 1 (do_write tree_vol 2 hello 5 0 7).2 [47, 102] []).2.map
      (fun t => (t.st_ino, t.st_atime, t.st_mtime, t.st_ctime)) = some (2, 7, 7, 0) := by
  decide

/-- C27 (code defect): 65798 is `6 + 256 + 256 * 256`, the first index past the
double-indirect range.  On `fresh_vol`, where blocks 8, 9 and 10 are free and inode 2 has
no block, `get_file_blkno(2, 65798, 1)` returns 10, not 0: it allocates the three blocks,
makes block 8 the double-indirect block of the inode and stores the number of the
second-level block 9 in entry 256 of that block, one past its 256 entries. -/
theorem get_file_blkno_first_past :
    (65798 : Nat) = 6 + 256 + 256 * 256 ∧
    fresh_vol.block_map 8 = false ∧ fresh_vol.block_map 9 = false ∧
    fresh_vol.block_map 10 = false ∧ (fresh_vol.inodes 2).indir_2 = 0 ∧
    (get_file_blkno fresh_vol 2 65798 1).1 = 10 ∧
    (get_file_blkno fresh_vol 2 65798 1).2.block_map 8 = true ∧
    (get_file_blkno fresh_vol 2 65798 1).2.block_map 9 = true ∧
    (get_file_blkno fresh_vol 2 65798 1).2.block_map 10 = true ∧
    ((get_file_blkno fresh_vol 2 65798 1).2.inodes 2).indir_2 = 8 ∧
    get32 ((get_file_blkno fresh_vol 2 65798 1).2.disk.blocks 8) 256 = 9 ∧
    get32 ((get_file_blkno fresh_vol 2 65798 1).2.disk.blocks 9) 0 = 10 := by
  decide

/-- C28 (code defect): on `stale_vol` every free block holds old bytes `'K'` and inode 2
has no block.  `get_file_blkno(2, 6, 1)`, served by `indir_1`, allocates block 8 as the
single-indirect block and returns the new data block 9, whose bytes on the device are
still `'K'`; the new block of `get_file_blkno(2, 0, 1)` (direct) and of
`get_file_blkno(2, 262, 1)` (`indir_2`) is zero-filled. -/
theorem indir_1_block_not_zeroed :
    (stale_vol.inodes 2).indir_1 = 0 ∧ stale_vol.block_map 9 = false ∧
    stale_vol.disk.blocks 9 0 = 75 ∧
    (get_file_blkno stale_vol 2 6 1).1 = 9 ∧
    ((get_file_blkno stale_vol 2 6 1).2.inodes 2).indir_1 = 8 ∧
    get32 ((get_file_blkno stale_vol 2 6 1).2.disk.blocks 8) 0 = 9 ∧
    (get_file_blkno stale_vol 2 6 1).2.disk.blocks 9 0 = 75 ∧
    (get_file_blkno stale_vol 2 6 1).2.disk.blocks 9 1023 = 75 ∧
    (get_file_blkno stale_vol 2 0 1).1 = 8 ∧
    (get_file_blkno stale_vol 2 0 1).2.disk.blocks 8 0 = 0 ∧
    (get_file_blkno stale_vol 2 262 1).1 = 10 ∧
    (get_file_blkno stale_vol 2 262 1).2.disk.blocks 10 0 = 0 := by
  decide

/-- C29 (code defect): in `indir2_vol` inode 2 has the empty double-indirect block 8 and
the free block 9 holds old bytes `'K'`.  `get_file_blkno(2, 262, 1)` creates the
second-level block 9 with two device writes: after the first, entry 0 of block 8 on the
device is 9 while block 9 still holds `'K'`; only the second zero-fills block 9. -/
theorem second_level_pointer_first :
    (indir2_vol.inodes 2).indir_2 = 8 ∧ get32 (indir2_vol.disk.blocks 8) 0 = 0 ∧
    indir2_vol.disk.blocks 9 0 = 75 ∧
    (get_file_blkno_indir2_writes indir2_vol 2 0 1).map
      (fun t => (get32 (t.disk.blocks 8) 0, t.disk.blocks 9 0, t.disk.blocks 9 1023)) =
      [(9, 75, 75), (9, 0, 0)] ∧
    (get_file_blkno indir2_vol 2 262 1).1 = 10 ∧
    get32 ((get_file_blkno indir2_vol 2 262 1).2.disk.blocks 8) 0 = 9 ∧
    get32 ((get_file_blkno indir2_vol 2 262 1).2.disk.blocks 9) 0 = 10 := by
  decide


/-! ## C31, C34: the code at the failing inputs -/

/-- C31 (code defect): `set_dir_entry` with a name of 27 bytes on a slot whose name field
holds 28 bytes `'K'` leaves the 27 bytes of the name followed by `'K'`: no byte of the
field is NUL.  `do_rename(1, "a", 1, name)` with the same name on `stale_name_vol`, where
the last byte of the name field of `a` is `'K'`, returns 0 and leaves the field without a
NUL as well, and the new name is not found afterwards. -/
theorem set_dir_entry_no_terminator :
    name27.length = 27 ∧
    (∀ j, j < FS_FILENAME_SIZE → de_name stale_slot_blk 0 j = 75) ∧
    (∀ j, j < 27 → de_name (set_dir_entry fresh_vol stale_slot_blk 0 2 name27).1 0 j = 97) ∧
    de_name (set_dir_entry fresh_vol stale_slot_blk 0 2 name27).1 0 27 = 75 ∧
    name_is (dir_block stale_name_vol 1) 0 [97] ∧
    de_name (dir_block stale_name_vol 1) 0 27 = 75 ∧
    (do_rename stale_name_vol 1 [97] 1 name27 0).map
      (fun r => (r.1, decide (∀ j, j < FS_FILENAME_SIZE → de_name (dir_block r.2 1) 0 j ≠ 0),
        get_dir_entry_inode 1 r.2 1 name27)) = some (0, true, -ENOENT) := by
  decide

/-- C34 (code defect): in `short_vol` the root directory has size 5 and holds the valid
entries `a` (a regular file) and `d` (an empty directory).  `do_unlink(1, "a")` returns 0
and `do_rmdir(1, "d")` returns 0, and each leaves the size `5 - 32` wrapped around in the
32-bit field, 4294967269, not 0. -/
theorem dir_size_wraps :
    (short_vol.inodes 1).size = 5 ∧
    dir_entry short_vol 1 [97] 0 ∧ dir_entry short_vol 1 [100] 1 ∧
    (do_unlink short_vol 1 [97] 0).1 = 0 ∧
    ((do_unlink short_vol 1 [97] 0).2.inodes 1).size = 4294967269 ∧
    (do_rmdir short_vol 1 [100] 0).1 = 0 ∧
    ((do_rmdir short_vol 1 [100] 0).2.inodes 1).size = 4294967269 := by
  decide

/-! ## C33: a directory without a free slot -/

/-- C33: for a directory whose block 0 is present with all 32 entries valid, and a `leaf`
that names none of them, `do_mkentry` returns `-ENOSPC` and the state is the one before
the call: inode bitmap, inode table, directory block and `dir.size` are unchanged. -/
theorem do_mkentry_full {s : fs_state} {dir : Nat} {leaf : List Nat}
    (mode ftype now uid gid : Nat)
    (hdir : S_ISDIR (s.inodes dir).mode = true) (h0 : has_block0 s dir)
    (hfull : ∀ e, e < DIRENTS_PER_BLK → de_valid (dir_block s dir) e = 1)
    (hno : no_entry (dir_block s dir) leaf) :
    do_mkentry s dir leaf mode ftype now uid gid = (-ENOSPC, s) :=
  do_mkentry_no_slot mode ftype now uid gid hdir h0 hfull hno

/-- C33 on `full_dir_vol`, whose root holds the 32 names `A`, `B`, ...: no room for `z`. -/
theorem do_mkentry_full_witness :
    do_mkentry full_dir_vol 1 [122] 420 S_IFREG 0 0 0 = (-ENOSPC, full_dir_vol) :=
  do_mkentry_full 420 S_IFREG 0 0 0 (by decide) (by decide) (by decide) (by decide)

/-! ## C35: `do_rmdir` of `.` and `..` -/

/-- C35 (counterexample): in `dotdot_vol` every directory has 32 bytes of size per valid
entry; the root holds the valid entry `..` of the empty directory inode 2.
`do_rmdir(1, "..")` returns 0, invalidates the entry and releases inode 2.  Such an entry is
what `do_mkentry(1, "..", 0755, S_IFDIR)` creates on `empty_root_vol`, and `do_rmdir` removes
it again; the same goes for the name `.`. -/
theorem do_rmdir_removes_dotdot :
    size_ok dotdot_vol ∧ dir_entry dotdot_vol 1 [46, 46] 0 ∧
    (do_rmdir dotdot_vol 1 [46, 46] 0).1 = 0 ∧
    de_valid (dir_block (do_rmdir dotdot_vol 1 [46, 46] 0).2 1) 0 = 0 ∧
    dotdot_vol.inode_map 2 = true ∧
    (do_rmdir dotdot_vol 1 [46, 46] 0).2.inode_map 2 = false ∧
    (do_mkentry empty_root_vol 1 [46, 46] 493 S_IFDIR 0 0 0).1 = 2 ∧
    (do_rmdir (do_mkentry empty_root_vol 1 [46, 46] 493 S_IFDIR 0 0 0).2 1 [46, 46] 0).1 = 0 ∧
    (do_mkentry empty_root_vol 1 [46] 493 S_IFDIR 0 0 0).1 = 2 ∧
    (do_rmdir (do_mkentry empty_root_vol 1 [46] 493 S_IFDIR 0 0 0).2 1 [46] 0).1 = 0 :=
  ⟨dotdot_vol_size_ok, by decide, by decide, by decide, by decide, by decide, by decide,
    by decide, by decide, by decide⟩

/-- C35 (amended): in every volume state in which the size of each allocated directory is
32 times its number of valid entries, and for every allocated directory `dir` whose entry
`.`, if it has one, names `dir` itself and whose entry `..`, if it has one, names an
allocated inode with at least one valid entry (as the parent of `dir` has), `do_rmdir(dir,
".")` and `do_rmdir(dir, "..")` return a negative error and leave the state as it is. -/
theorem do_rmdir_dots_rejected {s : fs_state} {dir : Nat} (now : Nat) (hsz : size_ok s)
    (hmap : s.inode_map dir = true)
    (hdot : ∀ e, dir_entry s dir [46] e → de_inode (dir_block s dir) e = dir)
    (hdd : ∀ e, dir_entry s dir [46, 46] e →
      s.inode_map (de_inode (dir_block s dir) e) = true ∧
      0 < valid_count s (de_inode (dir_block s dir) e)) :
    (∃ err : Int, err < 0 ∧ do_rmdir s dir [46] now = (err, s)) ∧
    (∃ err : Int, err < 0 ∧ do_rmdir s dir [46, 46] now = (err, s)) := by
  constructor
  · apply do_rmdir_negative
    intro e he hd
    rw [hdot e he] at hd ⊢
    exact size_ge_of_valid hsz hmap hd (valid_count_pos he.2.1 he.2.2.1 he.2.2.2.1.1)
  · apply do_rmdir_negative
    intro e he hd
    exact size_ge_of_valid hsz (hdd e he).1 hd (hdd e he).2

/-- C35 (amended) on `tree_vol`: in the directory `d` (inode 3) the entry `.` names `d` and
the entry `..` names the root. -/
theorem do_rmdir_dots_rejected_witness :
    (∃ err : Int, err < 0 ∧ do_rmdir tree_vol 3 [46] 0 = (err, tree_vol)) ∧
    (∃ err : Int, err < 0 ∧ do_rmdir tree_vol 3 [46, 46] 0 = (err, tree_vol)) :=
  @do_rmdir_dots_rejected tree_vol 3 0 tree_vol_size_ok (by decide)
    (fun e he => by
      have : e = 0 := dir_entry_unique he (by decide : dir_entry tree_vol 3 [46] 0)
      rw [this]; decide)
    (fun e he => by
      have : e = 1 := dir_entry_unique he (by decide : dir_entry tree_vol 3 [46, 46] 1)
      rw [this]; decide)

/-! ## C39: the blocks that `do_write` maps -/

/-- C39: on a well-formed inode, for `off ≤ size` and a range inside the addressable
blocks, `do_write(i, buf, len, off)` returns `len` or `-ENOSPC`; when it returns `len`,
every logical block index of the inclusive range `[off / 1024, (off + len) / 1024]` is
mapped afterwards, also the last one when `off + len` is a multiple of 1024 and `len` is 0;
and when no block is free and an index of that range is not mapped, it returns `-ENOSPC`. -/
theorem do_write_maps_range {s : fs_state} {i : Nat} (buf : List Nat) {len off : Nat}
    (now : Nat) (h : wf s i) (hoff : off ≤ (s.inodes i).size)
    (hmax : (off + len) / FS_BLOCK_SIZE < MAX_BLOCKS) :
    ((do_write s i buf len off now).1 = (len : Int) ∨
      (do_write s i buf len off now).1 = -ENOSPC) ∧
    ((do_write s i buf len off now).1 = (len : Int) →
      ∀ n, off / FS_BLOCK_SIZE ≤ n → n ≤ (off + len) / FS_BLOCK_SIZE →
        ptr (do_write s i buf len off now).2 i (lslot n) ≠ 0) ∧
    ((∀ b, ¬ is_free s b) →
      (∃ n, off / FS_BLOCK_SIZE ≤ n ∧ n ≤ (off + len) / FS_BLOCK_SIZE ∧
        ptr s i (lslot n) = 0) →
      (do_write s i buf len off now).1 = -ENOSPC) := by
  have W := do_write_spec buf now h hoff hmax
  refine ⟨W.result.symm, W.mapped, fun hno hn => ?_⟩
  obtain ⟨n, h1, h2, h3⟩ := hn
  rcases W.result with hr | hr
  · exact hr
  · exfalso
    have hn' : n < MAX_BLOCKS := lt_of_le_of_lt h2 hmax
    have hp := W.mapped hr n h1 h2
    have hnew := W.grow.ptr_new (lslot n) (lslot_ok hn') h3 hp
    have hok := W.wf.ptr_ok (lslot n) (lslot_ok hn') hp
    have hnb : (do_write s i buf len off now).2.num_blocks = s.num_blocks := W.grow.frame.2.2.2.1
    exact hno _ ⟨Nat.pos_of_ne_zero hp, by rw [← hnb]; exact hok.2.1, hnew⟩

theorem aligned_full_vol_wf : wf aligned_full_vol 2 :=
  wf_of_one_block (b := 8) (le_refl _) (by decide) (fun _ _ => rfl) (fun _ => rfl) rfl rfl
    (Or.inr ⟨by decide, by decide, rfl⟩)

/-- C39 on the file of exactly one block: the write of 0 bytes at offset 1024 maps logical
block 1 on `aligned_vol`, and returns `-ENOSPC` on `aligned_full_vol`, where no block is
free. -/
theorem do_write_maps_range_witness :
    ptr aligned_vol 2 (lslot 1) = 0 ∧
    (do_write aligned_vol 2 [] 0 1024 0).1 = 0 ∧
    ptr (do_write aligned_vol 2 [] 0 1024 0).2 2 (lslot 1) ≠ 0 ∧
    (do_write aligned_full_vol 2 [] 0 1024 0).1 = -ENOSPC :=
  ⟨by decide, by decide,
    (do_write_maps_range [] 0 aligned_vol_wf (by decide) (by decide)).2.1 (by decide) 1
      (by decide) (by decide),
    (do_write_maps_range [] 0 aligned_full_vol_wf (by decide) (by decide)).2.2
      (fun b hb => absurd hb.2.2 (by simp [aligned_full_vol]))
      ⟨1, by decide, by decide, by decide⟩⟩


/-! ## C38: stability of the block map -/

/-- C38: on a well-formed inode `i` and for an addressable index `n`, let `get_file_blkno(i,
n, 1)` return `b` in state `t`.  If `b > 0`, then `get_file_blkno(i, n, 0)` and
`get_file_blkno(i, n, 1)` in `t` both return `b` and leave `t` as it is (nothing is
allocated).  For every other addressable index `n'` the value of `get_file_blkno(i, n', 0)`
in `t` is the one before the call.  If `b = 0`, every addressable index that was mapped
before the call is still mapped to the same block. -/
theorem get_file_blkno_stable {s : fs_state} {i n : Nat} (h : wf s i) (hn : n < MAX_BLOCKS) :
    (0 < (get_file_blkno s i n 1).1 →
      get_file_blkno (get_file_blkno s i n 1).2 i n 0 =
        ((get_file_blkno s i n 1).1, (get_file_blkno s i n 1).2) ∧
      get_file_blkno (get_file_blkno s i n 1).2 i n 1 =
        ((get_file_blkno s i n 1).1, (get_file_blkno s i n 1).2)) ∧
    (∀ n', n' < MAX_BLOCKS → n' ≠ n →
      (get_file_blkno (get_file_blkno s i n 1).2 i n' 0).1 = (get_file_blkno s i n' 0).1) ∧
    ((get_file_blkno s i n 1).1 = 0 → ∀ n', n' < MAX_BLOCKS →
      (get_file_blkno s i n' 0).1 ≠ 0 →
      (get_file_blkno (get_file_blkno s i n 1).2 i n' 0).1 = (get_file_blkno s i n' 0).1) := by
  have A := get_file_blkno_alloc h hn
  have L := get_file_blkno_local h hn
  generalize get_file_blkno s i n 1 = r at A L
  refine ⟨fun hpos => ?_, fun n' hn' hne => ?_, fun _ n' hn' hm => ?_⟩
  · rcases A.result with h0 | ⟨hp, he⟩
    · rw [h0] at hpos; exact absurd hpos (lt_irrefl _)
    · rw [get_file_blkno_present A.wf hn hp 0, get_file_blkno_present A.wf hn hp 1, he]
      exact ⟨rfl, rfl⟩
  · rw [get_file_blkno_noalloc A.wf hn', get_file_blkno_noalloc h hn']
    simp only
    rw [L.leaf_eq (lslot n') (lslot_ok hn') (lslot_is_leaf n') (fun e => hne (lslot_inj e))]
  · rw [get_file_blkno_noalloc h hn'] at hm ⊢
    rw [get_file_blkno_noalloc A.wf hn']
    simp only at hm ⊢
    have hp : ptr s i (lslot n') ≠ 0 := by exact_mod_cast hm
    rw [A.grow.ptr_keep (lslot n') (lslot_ok hn') hp]

set_option maxRecDepth 100000 in
/-- C38 on `fresh_vol`: logical block 0 of inode 2 is allocated as block 8; asking again,
with or without `alloc`, returns 8 and changes nothing, and logical block 1 stays
unmapped; on `aligned_full_vol`, where no block is free, the call for logical block 1 returns
0 and logical block 0 stays mapped. -/
theorem get_file_blkno_stable_witness :
    (get_file_blkno fresh_vol 2 0 1).1 = 8 ∧
    get_file_blkno (get_file_blkno fresh_vol 2 0 1).2 2 0 0 =
      ((get_file_blkno fresh_vol 2 0 1).1, (get_file_blkno fresh_vol 2 0 1).2) ∧
    get_file_blkno (get_file_blkno fresh_vol 2 0 1).2 2 0 1 =
      ((get_file_blkno fresh_vol 2 0 1).1, (get_file_blkno fresh_vol 2 0 1).2) ∧
    (get_file_blkno (get_file_blkno fresh_vol 2 0 1).2 2 1 0).1 =
      (get_file_blkno fresh_vol 2 1 0).1 ∧
    (get_file_blkno aligned_full_vol 2 1 1).1 = 0 ∧
    (get_file_blkno (get_file_blkno aligned_full_vol 2 1 1).2 2 0 0).1 =
      (get_file_blkno aligned_full_vol 2 0 0).1 :=
  ⟨by decide,
    ((get_file_blkno_stable (fresh_vol_wf 2) (by decide : 0 < MAX_BLOCKS)).1 (by decide)).1,
    ((get_file_blkno_stable (fresh_vol_wf 2) (by decide : 0 < MAX_BLOCKS)).1 (by decide)).2,
    (get_file_blkno_stable (fresh_vol_wf 2) (by decide : 0 < MAX_BLOCKS)).2.1 1 (by decide)
      (by decide),
    by decide,
    (get_file_blkno_stable aligned_full_vol_wf (by decide : 1 < MAX_BLOCKS)).2.2 (by decide) 0
      (by decide) (by decide)⟩


/-! ## C37: the allocation invariant -/

theorem vol_ok_run_call {s : fs_state} (h : vol_ok s) (c : fs_call) (hc : c.addressable) :
    vol_ok (run_call s c) := by
  cases c with
  | write i buf len off now => exact vol_ok_write h i buf now hc
  | truncate i now => exact vol_ok_truncate h i now
  | mkentry d l m f n u g => exact vol_ok_mkentry h d l m f n u g
  | unlink d l n => exact vol_ok_unlink h d l n
  | rmdir d l n => exact vol_ok_rmdir h d l n
  | rename d1 a d2 b n =>
    simp only [run_call]
    cases hr : do_rename s (d1 : Int) a (d2 : Int) b n with
    | none => exact h
    | some r => exact vol_ok_rename h d1 a d2 b n hr

theorem vol_ok_run_calls (cs : List fs_call) : ∀ s : fs_state, vol_ok s →
    (∀ c, c ∈ cs → c.addressable) → vol_ok (run_calls s cs) := by
  induction cs with
  | nil => intro s h _; exact h
  | cons c cs ih =>
    intro s h hc
    exact ih (run_call s c) (vol_ok_run_call h c (hc c (List.mem_cons_self c cs)))
      (fun c' hc' => hc c' (List.mem_cons_of_mem c hc'))

theorem vol_ok_of_owner {s : fs_state} {i0 : Nat} (h0 : wf s i0)
    (hz : ∀ (j : Nat), j ≠ i0 → ∀ (τ : Slot), ptr s j τ = 0) : vol_ok s := by
  refine ⟨fun i => ?_, ?_⟩
  · by_cases hi : i = i0
    · rw [hi]; exact h0
    · exact ⟨h0.nblks_le, h0.nblks_lt, h0.reserved, fun σ _ hp => absurd (hz i hi σ) hp,
        fun σ _ _ _ hp => absurd (hz i hi σ) hp⟩
  · intro i j hij σ τ hσ hτ hp heq
    by_cases hi : i = i0
    · have hj : j ≠ i0 := fun e => hij (hi.trans e.symm)
      rw [hz j hj τ] at heq
      exact hp heq
    · exact hp (hz i hi σ)

theorem empty_root_vol_ok : vol_ok empty_root_vol := by
  apply vol_ok_of_owner empty_root_vol_wf
  intro j hj τ
  have : empty_root_vol.inodes j = fresh_inode := by
    simp [empty_root_vol, hj]
  cases τ <;> simp [ptr, this, fresh_inode]

/-- C32: let `do_mkentry(dir, leaf, mode, ftype)` succeed with result `inum` on a
well-formed, allocated directory inode of a volume whose inode numbers fit the 30-bit field
of a directory entry.  Then inode `inum` was free before; afterwards its bitmap bit is set,
its mode is `(mode & ~S_IFMT) | (ftype & S_IFMT)` (the type bits are those of `ftype`, the
other bits those of `mode`), its size is 0, `nlink` is 1, the six direct pointers, `indir_1`
and `indir_2` are 0; and the new entry (slot `e`, valid, naming `inum`) has `isDir = 1`
exactly when the type bits of `ftype` are those of `S_IFDIR`. -/
theorem do_mkentry_new_inode {s : fs_state} {dir : Nat} {leaf : List Nat}
    (mode ftype now uid gid : Nat) (hwf : wf s dir) (hmap : s.inode_map dir = true)
    (hn : s.n_inodes ≤ 1073741824)
    (hok : 0 ≤ (do_mkentry s dir leaf mode ftype now uid gid).1) :
    ∃ (inum e : Nat) (t : fs_state), do_mkentry s dir leaf mode ftype now uid gid = ((inum : Int), t) ∧
      0 < inum ∧ e < DIRENTS_PER_BLK ∧ s.inode_map inum = false ∧ t.inode_map inum = true ∧
      (t.inodes inum).mode =
        mode % 4294967296 - file_type mode * 4096 + file_type ftype * 4096 ∧
      file_type (t.inodes inum).mode = file_type ftype ∧
      (t.inodes inum).mode % 4096 = mode % 4096 ∧
      (t.inodes inum).mode / 65536 = mode % 4294967296 / 65536 ∧
      (t.inodes inum).size = 0 ∧ (t.inodes inum).nlink = 1 ∧
      (∀ n, (t.inodes inum).direct n = 0) ∧ (t.inodes inum).indir_1 = 0 ∧
      (t.inodes inum).indir_2 = 0 ∧
      de_valid (dir_block t dir) e = 1 ∧ de_inode (dir_block t dir) e = inum ∧
      de_isDir (dir_block t dir) e = (if file_type ftype = 4 then 1 else 0) := by
  obtain ⟨e, hwt, h0, he, _, hfree, hn', hmap', hne, heq⟩ :=
    do_mkentry_success leaf mode ftype now uid gid hwf hmap hn hok
  obtain ⟨_, a2, _, a4, a5, _⟩ :=
    add_entry_spec hwt h0 hfree hn' hne e leaf mode ftype now uid gid
  have hs := free_inode_spec hfree
  have hft := file_type_new_mode mode ftype
  refine ⟨free_inode (get_file_blkno s dir 0 1).2, e, _, heq, hs.1, he.1, ?_, ?_, ?_, ?_, ?_, ?_,
    ?_, ?_, ?_, ?_, ?_, ?_, ?_, ?_⟩
  · rw [← hmap']; exact hs.2.2
  · rw [a5]; simp only [if_true]
  · rw [a2]; rfl
  · rw [a2]; exact hft.1
  · rw [a2]; exact hft.2.1
  · rw [a2]; exact hft.2.2
  · rw [a2]; rfl
  · rw [a2]; rfl
  · intro n; rw [a2]; rfl
  · rw [a2]; rfl
  · rw [a2]; rfl
  · rw [a4]; exact entry_block_valid _ _ _ _ _
  · rw [a4, entry_block_inode]
    exact Nat.mod_eq_of_lt (by have := hs.2.1; omega)
  · rw [a4, entry_block_isDir]
    have : S_ISDIR (new_inode mode ftype now uid gid).mode = decide (file_type ftype = 4) := by
      show decide (file_type _ = 4) = _
      rw [show (new_inode mode ftype now uid gid).mode =
        mode % 4294967296 - file_type mode * 4096 + file_type ftype * 4096 from rfl, hft.1]
    rw [this]
    by_cases h4 : file_type ftype = 4
    · simp [h4]
    · simp [h4]

/-- C32 on `empty_root_vol`: `do_mkentry(1, "a", 0644, S_IFREG)` returns 2. -/
theorem do_mkentry_new_inode_witness :
    ∃ (inum e : Nat) (t : fs_state), do_mkentry empty_root_vol 1 [97] 420 S_IFREG 0 0 0 = ((inum : Int), t) ∧
      0 < inum ∧ e < DIRENTS_PER_BLK ∧ empty_root_vol.inode_map inum = false ∧
      t.inode_map inum = true ∧
      (t.inodes inum).mode =
        420 % 4294967296 - file_type 420 * 4096 + file_type S_IFREG * 4096 ∧
      file_type (t.inodes inum).mode = file_type S_IFREG ∧
      (t.inodes inum).mode % 4096 = 420 % 4096 ∧
      (t.inodes inum).mode / 65536 = 420 % 4294967296 / 65536 ∧
      (t.inodes inum).size = 0 ∧ (t.inodes inum).nlink = 1 ∧
      (∀ n, (t.inodes inum).direct n = 0) ∧ (t.inodes inum).indir_1 = 0 ∧
      (t.inodes inum).indir_2 = 0 ∧
      de_valid (dir_block t 1) e = 1 ∧ de_inode (dir_block t 1) e = inum ∧
      de_isDir (dir_block t 1) e = (if file_type S_IFREG = 4 then 1 else 0) :=
  do_mkentry_new_inode 420 S_IFREG 0 0 0 empty_root_vol_wf (by decide) (by decide) (by decide)


/-! ## C36: the directory-size invariant -/

theorem one_file_vol_ok : vol_ok one_file_vol := by
  refine @vol_ok_of_owner one_file_vol 1 ?_ ?_
  · exact wf_of_one_block (b := 7) (le_refl _) (by decide) (by decide) (fun _ => rfl) rfl rfl
      (Or.inr (by decide))
  · intro j hj τ
    have : one_file_vol.inodes j = fresh_inode := by
      simp [one_file_vol, hj]
    cases τ <;> simp [ptr, this, fresh_inode]

theorem one_file_vol_size_ok : size_ok one_file_vol := by
  intro d _ hd
  by_cases h1 : d = 1
  · rw [h1]; decide
  · have : one_file_vol.inodes d = fresh_inode := by
      simp [one_file_vol, h1]
    rw [this] at hd
    exact absurd hd (by decide)

/-- C36: in a volume that satisfies the allocation invariant (every inode record
well-formed, no block named by two inodes), let the size of every allocated directory be 32
times the number of valid entries in its block of entries.  Then the same holds in the
state after `do_mkentry` (on an allocated directory inode, the inode numbers fitting the
30-bit field of an entry), `do_unlink`, `do_rmdir`, `do_rename`, `do_link` and `fs_link`,
whatever the call returns. -/
theorem dir_size_invariant_kept {s : fs_state} (hv : vol_ok s) (hsz : size_ok s) :
    (∀ (dir : Nat) (leaf : List Nat) (mode ftype now uid gid : Nat),
      s.inode_map dir = true → s.n_inodes ≤ 1073741824 →
      size_ok (do_mkentry s dir leaf mode ftype now uid gid).2) ∧
    (∀ (dir : Nat) (leaf : List Nat) (now : Nat), size_ok (do_unlink s dir leaf now).2) ∧
    (∀ (dir : Nat) (leaf : List Nat) (now : Nat), size_ok (do_rmdir s dir leaf now).2) ∧
    (∀ (d1 : Nat) (a : List Nat) (d2 : Nat) (b : List Nat) (now : Nat) (r : Int × fs_state),
      do_rename s (d1 : Int) a (d2 : Int) b now = some r → size_ok r.2) ∧
    (∀ (v src : Nat) (dir leaf : List Nat), size_ok (do_link v s src dir leaf).2) ∧
    (∀ (v : Nat) (src_path dst_path leaf : List Nat),
      size_ok (fs_link v s src_path dst_path leaf).2) :=
  ⟨fun _ leaf mode ftype now uid gid hmap hn =>
      size_ok_mkentry hv hsz hmap hn leaf mode ftype now uid gid,
    fun dir leaf now => size_ok_unlink hv hsz dir leaf now,
    fun dir leaf now => size_ok_rmdir hv hsz dir leaf now,
    fun d1 a d2 b now _ hr => size_ok_rename hv hsz d1 a d2 b now hr,
    fun v src dir leaf => size_ok_link hv hsz v src dir leaf,
    fun v src_path dst_path leaf => size_ok_fs_link hv hsz v src_path dst_path leaf⟩

/-- C36 on `one_file_vol`, whose root directory holds the file `a`: create `b`, unlink `a`,
try to remove `a` as a directory, rename `a` to `b`, link `/a` as `/c`. -/
theorem dir_size_invariant_kept_witness :
    size_ok (do_mkentry one_file_vol 1 [98] 420 S_IFREG 0 0 0).2 ∧
    size_ok (do_unlink one_file_vol 1 [97] 0).2 ∧
    size_ok (do_rmdir one_file_vol 1 [97] 0).2 ∧
    size_ok (rename_entry one_file_vol 1 0 [98] 0) ∧
    size_ok (fs_link 0 one_file_vol [47, 97] [47, 99] []).2 :=
  ⟨(dir_size_invariant_kept one_file_vol_ok one_file_vol_size_ok).1 1 [98] 420 S_IFREG 0 0 0
      (by decide) (by decide),
    (dir_size_invariant_kept one_file_vol_ok one_file_vol_size_ok).2.1 1 [97] 0,
    (dir_size_invariant_kept one_file_vol_ok one_file_vol_size_ok).2.2.1 1 [97] 0,
    (dir_size_invariant_kept one_file_vol_ok one_file_vol_size_ok).2.2.2.1 1 [97] 1 [98] 0
      (0, rename_entry one_file_vol 1 0 [98] 0)
      (do_rename_found (by decide) (by decide)
        (fun e' h => (by decide : ∀ e, e < DIRENTS_PER_BLK →
          ¬ entry_named (dir_block one_file_vol 1) e [98]) e' h.2.2.1 h.2.2.2.1) 0),
    (dir_size_invariant_kept one_file_vol_ok one_file_vol_size_ok).2.2.2.2.2 0 [47, 97] [47, 99]
      []⟩


/-! ## C40: name uniqueness -/

theorem names_unique_of_single {blk : Block}
    (h : ∀ e1, e1 < DIRENTS_PER_BLK → ∀ e2, e2 < DIRENTS_PER_BLK →
      de_valid blk e1 = 1 → de_valid blk e2 = 1 → e1 = e2) : names_unique blk :=
  fun _ _ _ e1 h1 e2 h2 n1 n2 => h e1 h1 e2 h2 n1.1 n2.1

theorem one_file_vol_names_ok : names_ok one_file_vol 1 :=
  fun _ => ⟨by decide, names_unique_of_single (by decide)⟩

end FSX600
